import Mathlib

/-!
# fqzcomp-qual (io_lib): a shallow embedding of `fqzcomp_qual.c`

The quality codec of `src/io_lib/fqzcomp_qual.c`, translated function by
function.  C `unsigned int` values are natural numbers reduced `% 2^32` where
the code can overflow, `unsigned char` values are reduced `% 256`, and a buffer
is the list of its bytes.  Code that can leave its buffers returns `Except Fault`.

The integer codecs and the decimal formatting of `src/io_lib/cram_io.h`
(`itf8_*`, `ltf8_*`, `uint7_*`, `sint7_*`, `append_uint32`, `append_uint64`)
are translated the same way.  A signed value is kept as its two's complement
pattern where the code shifts it to the left.
-/

deriving instance DecidableEq for Except

namespace Fqz

/-! ## Constants -/

def CTX_BITS : Nat := 16
def CTX_SIZE : Nat := 1 <<< CTX_BITS

def GFLAG_MULTI_PARAM : Nat := 1
def GFLAG_HAVE_STAB : Nat := 2
def GFLAG_DO_REV : Nat := 4

def PFLAG_DO_DEDUP : Nat := 2
def PFLAG_DO_LEN : Nat := 4
def PFLAG_DO_SEL : Nat := 8
def PFLAG_HAVE_QMAP : Nat := 16
def PFLAG_HAVE_PTAB : Nat := 32
def PFLAG_HAVE_DTAB : Nat := 64
def PFLAG_HAVE_QTAB : Nat := 128

def INT_MAX : Nat := 2147483647

/-- Width of C `unsigned int`. -/
def U32 : Nat := 4294967296

/-- Width of C `size_t`. -/
def U64 : Nat := 18446744073709551616

/-- The value of a 32-bit pattern read as a C `int`. -/
def toInt32 (n : Nat) : Int :=
  if n % U32 < 2147483648 then (n % U32 : Nat) else (n % U32 : Nat) - (U32 : Int)

/-- Conversion of a C `int` to `unsigned int`. -/
def ofInt32 (z : Int) : Nat := (z % (U32 : Int)).toNat

/-- Conversion of a C `int` to `size_t`. -/
def toSizeT (z : Int) : Nat := (z % (U64 : Int)).toNat

/-- Ways in which a run of the C code leaves its buffers (undefined behaviour in
C), or the recursion bound of the embedding. -/
inductive Fault where
  /-- a read past the end of the compressed input -/
  | input
  /-- a parameter block `gp.p[x]` dereferenced with `x` outside `[0, nparam)`, or
  `gp.stab` read outside its 256 entries -/
  | param
  /-- a read or write outside the output buffer `uncomp` -/
  | outbuf
  /-- an access to `rev_a` / `len_a` outside their capacity, or to an entry
  never written -/
  | recstore
  /-- a read outside the slice records or the input quality buffer -/
  | slice
  /-- a C `int` counter would pass `INT_MAX` -/
  | overflow
  /-- the recursion bound of the embedding was reached -/
  | fuel
  deriving DecidableEq, Repr

/-! ## Data model -/

/-- A single parameter block (`fqz_param`). -/
structure fqz_param where
  context : Nat
  pflags : Nat
  do_sel : Nat
  do_dedup : Nat
  store_qmap : Nat
  fixed_len : Nat
  use_qtab : Nat
  use_dtab : Nat
  use_ptab : Nat
  first_len : Nat
  qbits : Nat
  qloc : Nat
  pbits : Nat
  ploc : Nat
  dbits : Nat
  dloc : Nat
  sbits : Nat
  sloc : Nat
  max_sym : Nat
  nsym : Nat
  max_sel : Nat
  qmap : List Nat
  qtab : List Nat
  ptab : List Nat
  dtab : List Nat
  qshift : Nat
  pshift : Int
  dshift : Nat
  sshift : Nat
  qmask : Nat
  do_r2 : Int
  do_qa : Int
  deriving DecidableEq, Repr

/-- Global parameters and the parameter blocks (`fqz_gparams`); `p` is the
allocated array of blocks, empty for a null pointer. -/
structure fqz_gparams where
  vers : Nat
  gflags : Nat
  nparam : Nat
  max_sel : Nat
  stab : List Nat
  max_sym : Nat
  p : List fqz_param
  deriving DecidableEq, Repr

/-- Per-record running state (`fqz_state`). -/
structure fqz_state where
  qctx : Nat
  p : Nat
  add_d : Nat
  delta : Nat
  prevq : Nat
  s : Nat
  qtot : Nat
  qlen : Nat
  deriving DecidableEq, Repr

/-- A parameter block with every field zero (`calloc`, `memset`). -/
def fqz_param.zero : fqz_param :=
  { context := 0, pflags := 0, do_sel := 0, do_dedup := 0, store_qmap := 0,
    fixed_len := 0, use_qtab := 0, use_dtab := 0, use_ptab := 0, first_len := 0,
    qbits := 0, qloc := 0, pbits := 0, ploc := 0, dbits := 0, dloc := 0,
    sbits := 0, sloc := 0, max_sym := 0, nsym := 0, max_sel := 0,
    qmap := List.replicate 256 0, qtab := List.replicate 256 0,
    ptab := List.replicate 1024 0, dtab := List.replicate 256 0,
    qshift := 0, pshift := 0, dshift := 0, sshift := 0, qmask := 0,
    do_r2 := 0, do_qa := 0 }

/-- The result of `memset(&gp, 0, sizeof(gp))`. -/
def fqz_gparams.zero : fqz_gparams :=
  { vers := 0, gflags := 0, nparam := 0, max_sel := 0,
    stab := List.replicate 256 0, max_sym := 0, p := [] }

/-! ## Array codec: `store_array`, `read_array` -/

/-- One byte write `out[i] = v` into a buffer kept as the list of its bytes. -/
def poke (out : List Nat) (i v : Nat) : List Nat :=
  if i < out.length then out.set i (v % 256)
  else out ++ List.replicate (i - out.length) 0 ++ [v % 256]

/-- The inner `do { r = MIN(255, run_len); out[k++] = r; run_len -= r; }
while (r == 255)` of the first pass of `store_array`: the bytes it appends. -/
def store_run : Nat → Nat → List Nat
  | 0, _ => []
  | fuel + 1, run_len =>
    let r := min 255 run_len
    r :: (if r = 255 then store_run fuel (run_len - r) else [])

/-- `while (i < size && array[i] == j) i++` on the part of the table not yet
consumed: the run length and what is left of the table. -/
def count_run (j : Nat) : List Nat → Nat × List Nat
  | [] => (0, [])
  | a :: rest =>
    if a = j % U32 then
      let r := count_run j rest
      (r.1 + 1, r.2)
    else (0, a :: rest)

/-- First pass of `store_array`, `for (i = j = k = 0; i < size; j++)`: the bytes
written to `out[0..k)`.  `j` is a C `int`: the bound of the recursion is the
number of values it can take, and running out of it is the overflow of `j`. -/
def store_flat : Nat → Nat → List Nat → Except Fault (List Nat)
  | 0, _, _ => .error .overflow
  | _ + 1, _, [] => .ok []
  | fuel + 1, j, a :: rest =>
    let r := count_run j (a :: rest)
    match store_flat fuel (j + 1) r.2 with
    | .error e => .error e
    | .ok tl => .ok (store_run (r.1 + 1) r.1 ++ tl)

/-- `while (j < k && out[j] == last) j++` of the second pass of `store_array`. -/
def skip_same (out : List Nat) (k : Nat) (last : Int) : Nat → Nat → Nat
  | 0, j => j
  | fuel + 1, j =>
    if j < k ∧ (out.getD j 0 : Int) = last then skip_same out k last fuel (j + 1) else j

/-- Second pass of `store_array`, run in place on `out`:
`for (i = j = 0; j < k; i++) { out[i] = out[j++]; if (out[i] == last) { ...
out[++i] = j-n; } else last = out[i]; }`.  Returns the buffer and the final `i`. -/
def store_rle (k : Nat) : Nat → List Nat → Nat → Nat → Int → List Nat × Nat
  | 0, out, i, _, _ => (out, i)
  | fuel + 1, out, i, j, last =>
    if j < k then
      let out1 := poke out i (out.getD j 0)
      let j1 := j + 1
      if (out1.getD i 0 : Int) = last then
        let n := j1
        let j2 := skip_same out1 k last (k - j1) j1
        let out2 := poke out1 (i + 1) (j2 - n)
        store_rle k fuel out2 (i + 2) j2 last
      else
        store_rle k fuel out1 (i + 1) j1 (out1.getD i 0)
    else (out, i)

/-- `store_array(out, array, size)`: the bytes left in `out[0..k)`, where `k` is
the value the C function returns (the length of the list).  The trailing
`while (i < size)` of the first pass never runs, its `for` ending at `i >= size`. -/
def store_array (array : List Nat) (size : Nat) : Except Fault (List Nat) :=
  match store_flat 2147483648 0 (array.take size) with
  | .error e => .error e
  | .ok flat =>
    let r := store_rle flat.length flat.length flat 0 0 (-1)
    .ok (r.1.take r.2)

/-- The byte `in[k]` of an input buffer of known extent. -/
def rd (inp : List Nat) (k : Nat) : Except Fault Nat :=
  match inp.get? k with
  | none => .error .input
  | some b => .ok (b % 256)

/-- The inner `do { r = in[k++]; if (++loop == 3) run_len += r*255, r=255; else
run_len += r; } while (r == 255)` of `read_array`: the run length and the new
`k`. -/
def read_run (inp : List Nat) : Nat → Nat → Nat → Nat → Except Fault (Nat × Nat)
  | 0, _, _, _ => .error .fuel
  | fuel + 1, k, loop, run_len =>
    match rd inp k with
    | .error e => .error e
    | .ok r =>
      if loop + 1 = 3 then read_run inp fuel (k + 1) (loop + 1) (run_len + r * 255)
      else if r = 255 then read_run inp fuel (k + 1) (loop + 1) (run_len + r)
      else .ok (run_len + r, k + 1)

/-- The loop of `read_array`, `for (i = j = k = 0; j < size; i++)`; `array` holds
the `j` entries written so far, and the `while (run_len && j < size)` that
writes `i` into them is the `List.replicate`. -/
def read_loop (inp : List Nat) (size : Nat) :
    Nat → Nat → Nat → Int → Nat → List Nat → Except Fault (List Nat × Nat)
  | 0, _, _, _, _, _ => .error .fuel
  | fuel + 1, i, k, last, r2, array =>
    if array.length < size then
      let run :=
        if r2 ≠ 0 then .ok (last.toNat, k)
        else read_run inp (inp.length + 1 - k) k 0 0
      match run with
      | .error e => .error e
      | .ok (run_len, k1) =>
        let filled := array ++ List.replicate (min run_len (size - array.length)) i
        if r2 = 0 ∧ (run_len : Int) = last then
          match rd inp k1 with
          | .error e => .error e
          | .ok c => read_loop inp size fuel (i + 1) (k1 + 1) last c filled
        else
          read_loop inp size fuel (i + 1) k1 run_len (if r2 ≠ 0 then r2 - 1 else r2) filled
    else .ok (array, k)

/-- `read_array(in, array, size)`: the table written and the value returned, the
number of bytes read.  `inp` is the input from `in` to the end of its buffer. -/
def read_array (inp : List Nat) (size : Nat) : Except Fault (List Nat × Nat) :=
  read_loop inp size (256 * (inp.length + 1) + 1) 0 0 (-1) 0 []

/-! ## Parameter serialisation -/

/-- The `qmap` loop of `fqz_store_parameters1`: the `i` in `[0,256)`, in
increasing order, with `qmap[i] != INT_MAX`. -/
def store_qmap_bytes (qmap : List Nat) : List Nat :=
  (List.range 256).filter (fun i => qmap.getD i 0 ≠ INT_MAX)

/-- `fqz_store_parameters1(pm, comp)`: the bytes written, the C function
returning their number. -/
def fqz_store_parameters1 (pm : fqz_param) : Except Fault (List Nat) := do
  let hdr : List Nat :=
    [pm.context % 256, (pm.context >>> 8) % 256, pm.pflags % 256, pm.max_sym % 256,
     ((pm.qbits <<< 4) ||| pm.qshift) % 256,
     ((pm.qloc <<< 4) ||| pm.sloc) % 256,
     ((pm.ploc <<< 4) ||| pm.dloc) % 256]
  let qm := if pm.store_qmap ≠ 0 then store_qmap_bytes pm.qmap else []
  let qt ← if pm.qbits ≠ 0 ∧ pm.use_qtab ≠ 0 then store_array pm.qtab 256 else .ok []
  let pt ← if pm.pbits ≠ 0 ∧ pm.use_ptab ≠ 0 then store_array pm.ptab 1024 else .ok []
  let dt ← if pm.dbits ≠ 0 ∧ pm.use_dtab ≠ 0 then store_array pm.dtab 256 else .ok []
  pure (hdr ++ qm ++ qt ++ pt ++ dt)

/-- The loop `for (i = 0; i < gp->nparam; i++) comp_idx +=
fqz_store_parameters1(&gp->p[i], comp+comp_idx)`. -/
def store_blocks : List fqz_param → Except Fault (List Nat)
  | [] => .ok []
  | pm :: rest => do
    let b ← fqz_store_parameters1 pm
    let bs ← store_blocks rest
    pure (b ++ bs)

/-- `fqz_store_parameters(gp, comp)`: the bytes written, the C function
returning their number. -/
def fqz_store_parameters (gp : fqz_gparams) : Except Fault (List Nat) := do
  let np := if gp.gflags &&& GFLAG_MULTI_PARAM ≠ 0 then [gp.nparam % 256] else []
  let st ←
    if gp.gflags &&& GFLAG_HAVE_STAB ≠ 0 then
      (store_array gp.stab 256).map (fun b => (gp.max_sel % 256) :: b)
    else .ok []
  let bs ← if gp.nparam ≤ gp.p.length then store_blocks (gp.p.take gp.nparam) else .error .param
  pure ([gp.vers % 256, gp.gflags % 256] ++ np ++ st ++ bs)

/-- A table of a parameter block read by `read_array(in+in_idx, tab, size)` when
`use` is set, with `in_idx += ` the value returned; `dflt` is what the code
leaves in the table otherwise.  Returns the table and the new `in_idx`. -/
def read_tab (inp : List Nat) (use : Nat) (size : Nat) (dflt : List Nat) (in_idx : Nat) :
    Except Fault (List Nat × Nat) :=
  if use ≠ 0 then
    match read_array (inp.drop in_idx) size with
    | .error e => .error e
    | .ok r => .ok (r.1, in_idx + r.2)
  else .ok (dflt, in_idx)

/-- The `qmap` part of `fqz_read_parameters1`: with `store_qmap`, every entry is
set to `INT_MAX` and then `qmap[i] = in[in_idx++]` for `i < max_sym`; otherwise
`qmap[i] = i`. -/
def read_qmap (inp : List Nat) (store_qmap max_sym in_idx : Nat) :
    Except Fault (List Nat × Nat) :=
  if store_qmap ≠ 0 then
    if in_idx + max_sym ≤ inp.length then
      .ok (((inp.drop in_idx).take max_sym).map (fun b => b % 256)
             ++ List.replicate (256 - max_sym) INT_MAX, in_idx + max_sym)
    else .error .input
  else .ok (List.range 256, in_idx)

/-- The `qtab` part of `fqz_read_parameters1`: `if (pm->qbits) { if
(pm->use_qtab) in_idx += read_array(in+in_idx, pm->qtab, 256); else qtab[i] =
i; }`; with `qbits` 0 the table keeps the contents `old` it had. -/
def read_qtab (inp : List Nat) (qbits use_qtab : Nat) (old : List Nat) (in_idx : Nat) :
    Except Fault (List Nat × Nat) :=
  if qbits ≠ 0 then read_tab inp use_qtab 256 (List.range 256) in_idx
  else .ok (old, in_idx)

/-- `fqz_read_parameters1(pm, in)`: the block as left in `*pm` and the value
returned, the number of bytes read.  `pm` is the block as it was before the
call (freshly allocated memory in `fqz_read_parameters`); members the function
does not assign keep that value, among them `qtab` when `qbits` is 0. -/
def fqz_read_parameters1 (pm : fqz_param) (inp : List Nat) :
    Except Fault (fqz_param × Nat) := do
  let c0 ← rd inp 0
  let c1 ← rd inp 1
  let pflags ← rd inp 2
  let max_sym ← rd inp 3
  let b4 ← rd inp 4
  let b5 ← rd inp 5
  let b6 ← rd inp 6
  let qbits := b4 >>> 4
  let qm ← read_qmap inp (pflags &&& PFLAG_HAVE_QMAP) max_sym 7
  let qt ← read_qtab inp qbits (pflags &&& PFLAG_HAVE_QTAB) pm.qtab qm.2
  let pt ← read_tab inp (pflags &&& PFLAG_HAVE_PTAB) 1024 (List.replicate 1024 0) qt.2
  let dt ← read_tab inp (pflags &&& PFLAG_HAVE_DTAB) 256 (List.replicate 256 0) pt.2
  pure ({ pm with
    context := (c0 + (c1 <<< 8)) % 65536
    pflags := pflags
    use_qtab := pflags &&& PFLAG_HAVE_QTAB
    use_dtab := pflags &&& PFLAG_HAVE_DTAB
    use_ptab := pflags &&& PFLAG_HAVE_PTAB
    do_sel := pflags &&& PFLAG_DO_SEL
    fixed_len := pflags &&& PFLAG_DO_LEN
    do_dedup := pflags &&& PFLAG_DO_DEDUP
    store_qmap := pflags &&& PFLAG_HAVE_QMAP
    max_sym := max_sym
    qbits := qbits
    qmask := (1 <<< qbits) - 1
    qshift := b4 &&& 15
    qloc := b5 >>> 4
    sloc := b5 &&& 15
    ploc := b6 >>> 4
    dloc := b6 &&& 15
    qmap := qm.1
    qtab := qt.1
    ptab := pt.1
    dtab := dt.1
    first_len := 1 }, dt.2)

/-- The loop of `fqz_read_parameters` over the parameter blocks:
`for (i = 0; i < gp->nparam; i++) { e = fqz_read_parameters1(&gp->p[i], in +
in_idx); in_idx += e; if (gp->max_sym < gp->p[i].max_sym) gp->max_sym = ...; }`.
Returns the blocks, `max_sym` and `in_idx`. -/
def read_blocks (junk : fqz_param) (inp : List Nat) :
    Nat → Nat → Nat → Except Fault (List fqz_param × Nat × Nat)
  | 0, max_sym, in_idx => .ok ([], max_sym, in_idx)
  | n + 1, max_sym, in_idx =>
    match fqz_read_parameters1 junk (inp.drop in_idx) with
    | .error e => .error e
    | .ok r =>
      match read_blocks junk inp n (if max_sym < r.1.max_sym then r.1.max_sym else max_sym)
          (in_idx + r.2) with
      | .error e => .error e
      | .ok rest => .ok (r.1 :: rest.1, rest.2)

/-- The number of parameter blocks: `gp->nparam = (gp->gflags &
GFLAG_MULTI_PARAM) ? in[in_idx++] : 1`, with the new `in_idx`. -/
def read_nparam (inp : List Nat) (gflags in_idx : Nat) : Except Fault (Nat × Nat) :=
  if gflags &&& GFLAG_MULTI_PARAM ≠ 0 then
    match rd inp in_idx with
    | .error e => .error e
    | .ok n => .ok (n, in_idx + 1)
  else .ok (1, in_idx)

/-- The selector table: with `GFLAG_HAVE_STAB`, `gp->max_sel = in[in_idx++]`
and `stab` is read by `read_array`; otherwise `max_sel` stays `nparam > 1 ?
nparam : 0`, `stab[i] = i` for `i < nparam` and `stab[i] = nparam-1` after.
Returns `max_sel`, `stab` and the new `in_idx`. -/
def read_stab (inp : List Nat) (gflags nparam in_idx : Nat) :
    Except Fault (Nat × List Nat × Nat) :=
  if gflags &&& GFLAG_HAVE_STAB ≠ 0 then
    match rd inp in_idx with
    | .error e => .error e
    | .ok m =>
      match read_array (inp.drop (in_idx + 1)) 256 with
      | .error e => .error e
      | .ok r => .ok (m, r.1, in_idx + 1 + r.2)
  else
    .ok (if nparam > 1 then nparam else 0,
         List.range nparam ++ List.replicate (256 - nparam) (ofInt32 ((nparam : Int) - 1)),
         in_idx)

/-- `fqz_read_parameters(gp, in)`: `*gp` as the call leaves it and the `int`
returned (`-1` on failure, else the number of bytes read).  `gp` is the value
before the call, `junk` the contents of the memory `malloc` returns for the
blocks (allocation succeeds), `inp` the input buffer. -/
def fqz_read_parameters (junk : fqz_param) (gp : fqz_gparams) (inp : List Nat) :
    Except Fault (fqz_gparams × Int) := do
  let vers ← rd inp 0
  if vers ≠ 5 then
    pure ({ gp with vers := vers }, -1)
  else
    let gflags ← rd inp 1
    let np ← read_nparam inp gflags 2
    let st ← read_stab inp gflags np.1 np.2
    let r ← read_blocks junk inp np.1 0 st.2.2
    pure ({ gp with
      vers := vers
      gflags := gflags
      nparam := np.1
      max_sel := st.1
      stab := st.2.1
      max_sym := r.2.1
      p := r.1 }, (r.2.2 : Int))

/-! ## Context engine -/

/-- The index `MIN(1024, state->p)` at which `fqz_update_ctx` reads `ptab`. -/
def ptab_index (st : fqz_state) : Nat := min 1024 st.p

/-- The index `MIN(255, state->delta)` at which `fqz_update_ctx` reads `dtab`. -/
def dtab_index (st : fqz_state) : Nat := min 255 st.delta

/-- The word `pm->ptab[i]`.  `ptab` has 1024 entries and `fqz_update_ctx` can
ask for index 1024: in `fqz_param` the member after `ptab[1024]` is
`dtab[256]`, so the word read there is `dtab[0]`. -/
def ptab_at (pm : fqz_param) (i : Nat) : Nat :=
  if i < 1024 then pm.ptab.getD i 0 else pm.dtab.getD (i - 1024) 0

/-- `fqz_update_ctx(pm, state, q)`: the value returned and the state left. -/
def fqz_update_ctx (pm : fqz_param) (st : fqz_state) (q : Nat) : Nat × fqz_state :=
  let qctx := ((st.qctx <<< pm.qshift) + pm.qtab.getD q 0) % U32
  let last := 0
  let last := (last + ((qctx &&& pm.qmask) <<< pm.qloc)) % U32
  let last := (last + ptab_at pm (ptab_index st)) % U32
  let last := (last + pm.dtab.getD (dtab_index st) 0) % U32
  let last := (last + (st.s <<< pm.sloc)) % U32
  (last &&& (CTX_SIZE - 1),
   { st with
     qctx := qctx
     delta := (st.delta + (if st.prevq ≠ q then 1 else 0)) % U32
     prevq := q
     p := (st.p + U32 - 1) % U32 })

/-- The table pre-shift both `compress_block_fqz2f` and `uncompress_block_fqz2f`
apply to every block before their main loop: `ptab[i] <<= ploc`,
`dtab[i] <<= dloc`. -/
def preshift (pm : fqz_param) : fqz_param :=
  { pm with
    ptab := pm.ptab.map (fun v => (v <<< pm.ploc) % U32)
    dtab := pm.dtab.map (fun v => (v <<< pm.dloc) % U32) }

/-! ## Block decoder -/

/-- The block `gp.p[x]` behind the pointer `pm = &gp.p[x]`. -/
def deref (gp : fqz_gparams) (x : Int) : Except Fault fqz_param :=
  if x < 0 then .error .param
  else match gp.p.get? x.toNat with
    | none => .error .param
    | some pm => .ok pm

/-- The assignment `pm->first_len = 0` through `pm = &gp.p[x]`. -/
def clear_first_len (gp : fqz_gparams) (x : Int) : fqz_gparams :=
  { gp with p := gp.p.modify (fun pm => { pm with first_len := 0 }) x.toNat }

/-- A write `a[rec] = v` into one of the per-record arrays, kept as the list of
its entries with `none` for an entry never written. -/
def put_rec {α : Type} (a : List (Option α)) (idx : Nat) (v : α) : List (Option α) :=
  if idx < a.length then a.set idx (some v)
  else a ++ List.replicate (idx - a.length) none ++ [some v]

/-- The variables of `uncompress_block_fqz2f` during and after its main loop.
`rec_` is the C variable `rec`, `pm` the index `x` of the current block (`pm = &gp.p[x]`), `uncomp` the
bytes `uncomp[0..i)` (the loop moves `i` only past bytes it has written),
`nsym` the number of symbols taken from the range decoder, and `trace` the
pairs `(last, Q)` of the quality symbols decoded, most recent first. -/
structure DecSt where
  gp : fqz_gparams
  pm : Int
  i : Nat
  rec_ : Nat
  nrec : Nat
  rev_a : List (Option Nat)
  len_a : List (Option Int)
  state : fqz_state
  rev : Nat
  last_len : Int
  last : Nat
  uncomp : List Nat
  nsym : Nat
  trace : List (Nat × Nat)
  deriving DecidableEq, Repr

/-- The top of an iteration of the decoder's main loop:
`if (rec >= nrec) { nrec *= 2; realloc ... }`, `nrec` being a C `int`. -/
def dec_grow (d : DecSt) : Except Fault DecSt :=
  if d.rec_ ≥ d.nrec then
    if d.nrec * 2 > INT_MAX then .error .overflow else .ok { d with nrec := d.nrec * 2 }
  else .ok d

/-- The record length a header decodes from the four length models:
`len = sym; len |= sym<<8; len |= sym<<16; len |= sym<<24`, a C `int`. -/
def dec_len (rc : Nat → Nat) (n : Nat) : Int :=
  toInt32 ((rc n % 256) ||| ((rc (n + 1) % 256) <<< 8)
           ||| ((rc (n + 2) % 256) <<< 16) ||| ((rc (n + 3) % 256) <<< 24))

/-- The dedup branch of a record header, taken when the dup model decodes 1:
`memcpy(uncomp+i, uncomp+i-len, len); i += len-1; state.p = 0; rec++;
continue;` followed by the `i++` of the `for`. -/
def dec_dup (out_size : Nat) (len : Int) (d : DecSt) : Except Fault DecSt :=
  if len < 0 ∨ len > (d.i : Int) ∨ (d.i : Int) + len > (out_size : Int) then .error .outbuf
  else .ok { d with
    uncomp := d.uncomp ++ (d.uncomp.drop (d.i - len.toNat)).take len.toNat
    i := d.i + len.toNat
    state := { d.state with p := 0 }
    rec_ := d.rec_ + 1 }

/-- The end of an iteration of the decoder's main loop: `Q =
decodeSymbol(&model.qual[last])`, `q = pm->qmap[Q]`, `uncomp[i] = q`,
`last = fqz_update_ctx(pm, &state, Q)`, then the `i++` of the `for`. -/
def dec_quality (rc : Nat → Nat) (d : DecSt) : Except Fault DecSt :=
  match deref d.gp d.pm with
  | .error e => .error e
  | .ok pm =>
    let Q := rc d.nsym % 256
    let q := pm.qmap.getD Q 0 % 256
    let r := fqz_update_ctx pm d.state Q
    .ok { d with
      uncomp := d.uncomp ++ [q]
      i := d.i + 1
      state := r.2
      last := r.1
      nsym := d.nsym + 1
      trace := (d.last, Q) :: d.trace }

/-- The record header of the decoder's main loop, from the block `pm` chosen by
the selector on: the length, the revcomp flag and the dedup flag.  The result
is the state after the header and whether the iteration ends there
(`continue` after a dup). -/
def dec_record (rc : Nat → Nat) (out_size : Nat) (x : Int) (pm : fqz_param) (d : DecSt) :
    Except Fault (DecSt × Bool) :=
  let read_len : Bool := decide (pm.fixed_len = 0 ∨ pm.first_len ≠ 0)
  let len : Int := if read_len then dec_len rc d.nsym else d.last_len
  let n2 := if read_len then d.nsym + 4 else d.nsym
  let gp := if read_len then clear_first_len d.gp x else d.gp
  let last_len := if read_len then len else d.last_len
  let do_rev : Bool := decide (d.gp.gflags &&& GFLAG_DO_REV ≠ 0)
  if do_rev ∧ d.rec_ ≥ d.nrec then .error .recstore
  else
    let rev := if do_rev then rc n2 % 2 else d.rev
    let n3 := if do_rev then n2 + 1 else n2
    let d1 : DecSt := { d with
      gp := gp
      pm := x
      rev_a := if do_rev then put_rec d.rev_a d.rec_ rev else d.rev_a
      len_a := if do_rev then put_rec d.len_a d.rec_ len else d.len_a
      rev := rev
      last_len := last_len }
    if pm.do_dedup ≠ 0 ∧ rc n3 % 2 ≠ 0 then
      match dec_dup out_size len { d1 with nsym := n3 + 1 } with
      | .error e => .error e
      | .ok d2 => .ok (d2, true)
    else
      .ok ({ d1 with
        nsym := if pm.do_dedup ≠ 0 then n3 + 1 else n3
        rec_ := d.rec_ + 1
        state := { d.state with p := ofInt32 len, add_d := 0, delta := 0, prevq := 0, qctx := 0 }
        last := pm.context }, false)

/-- The start of a record header in the decoder: the selector is decoded when
the block in force says so, `x = (gp.gflags & GFLAG_HAVE_STAB) ?
gp.stab[MIN(255, state.s)] : state.s`, and `if (x >= gp.nparam) return NULL`
(`none`). -/
def dec_header (rc : Nat → Nat) (out_size : Nat) (d : DecSt) :
    Except Fault (Option (DecSt × Bool)) :=
  match deref d.gp d.pm with
  | .error e => .error e
  | .ok pm0 =>
    let s := if pm0.do_sel ≠ 0 then rc d.nsym % 256 else 0
    let n1 := if pm0.do_sel ≠ 0 then d.nsym + 1 else d.nsym
    let x : Int :=
      if d.gp.gflags &&& GFLAG_HAVE_STAB ≠ 0 then toInt32 (d.gp.stab.getD (min 255 s) 0)
      else (s : Int)
    if x ≥ (d.gp.nparam : Int) then .ok none
    else
      match deref d.gp x with
      | .error e => .error e
      | .ok pm =>
        match dec_record rc out_size x pm { d with state := { d.state with s := s }, nsym := n1 } with
        | .error e => .error e
        | .ok r => .ok (some r)

/-- One iteration of the main loop of `uncompress_block_fqz2f`, from the
`if (rec >= nrec)` at its top to the `i++` of the `for`: `none` is
`return NULL`.  `rc n` is the `n`-th symbol the entropy decoder delivers. -/
def dec_iter (rc : Nat → Nat) (out_size : Nat) (d : DecSt) : Except Fault (Option DecSt) :=
  match dec_grow d with
  | .error e => .error e
  | .ok d =>
    if d.state.p = 0 then
      match dec_header rc out_size d with
      | .error e => .error e
      | .ok none => .ok none
      | .ok (some (d1, true)) => .ok (some d1)
      | .ok (some (d1, false)) =>
        match dec_quality rc d1 with
        | .error e => .error e
        | .ok d2 => .ok (some d2)
    else
      match dec_quality rc d with
      | .error e => .error e
      | .ok d2 => .ok (some d2)

/-- The main loop `for (rec = i = 0; i < len; i++)` of `uncompress_block_fqz2f`;
`none` is `return NULL`. -/
def dec_loop (rc : Nat → Nat) (out_size : Nat) : Nat → DecSt → Except Fault (Option DecSt)
  | 0, _ => .error .fuel
  | fuel + 1, d =>
    if d.i < out_size then
      match dec_iter rc out_size d with
      | .error e => .error e
      | .ok none => .ok none
      | .ok (some d1) => dec_loop rc out_size fuel d1
    else .ok (some d)

/-- The swap loop `for (I = 0, J = n-1; I < J; I++, J--)` on `cp = uncomp+i`. -/
def reverse_at (buf : List Nat) (i : Nat) (n : Int) : Except Fault (List Nat) :=
  if n < 2 then .ok buf
  else if i + n.toNat > buf.length then .error .outbuf
  else .ok (buf.take i ++ ((buf.drop i).take n.toNat).reverse ++ buf.drop (i + n.toNat))

/-- The final pass of `uncompress_block_fqz2f`,
`for (i = rec = 0; i < len; i += len_a[rec++]) { if (!rev_a[rec]) continue; ... }`. -/
def dec_unreverse (rev_a : List (Option Nat)) (len_a : List (Option Int)) (nrec out_size : Nat) :
    Nat → Nat → Nat → List Nat → Except Fault (List Nat)
  | 0, _, _, _ => .error .fuel
  | fuel + 1, i, rec, buf =>
    if i < out_size then
      if rec ≥ nrec then .error .recstore
      else match rev_a.getD rec none, len_a.getD rec none with
        | some rev, some n =>
          match (if rev ≠ 0 then reverse_at buf i n else .ok buf) with
          | .error e => .error e
          | .ok buf1 =>
            dec_unreverse rev_a len_a nrec out_size fuel (((i : Int) + n) % (U64 : Int)).toNat
              (rec + 1) buf1
        | _, _ => .error .recstore
    else .ok buf

/-- Modelled from the spec: the range coder and the adaptive frequency models
(`RC_SetInput`, `RC_StartDecode`, `SIMPLE_MODEL(n,_decodeSymbol)`) are not among
the sources.  They are taken as a symbol channel: started at byte `off` of the
input, the decoder delivers the symbols `rc off 0`, `rc off 1`, ... in order,
each read in the alphabet of the model that decodes it (256 symbols for the
selector, length and quality models, 2 for the revcomp and dup models). -/
abbrev SymChannel := Nat → Nat → Nat

/-- `uncompress_block_fqz2f` up to the end of its main loop and the two writes
`rev_a[rec] = rev; len_a[rec] = len` that follow it; `none` is `return NULL`.
`junk` is the memory `malloc` hands out for the parameter blocks, and every
allocation succeeds.  The members `add_d`, `qtot` and `qlen` of `state`, which the
C code leaves unset and does not read, start at 0. -/
def uncompress_main (junk : fqz_param) (rc : SymChannel) (inp : List Nat) (out_size : Nat) :
    Except Fault (Option DecSt) := do
  let r ← fqz_read_parameters junk fqz_gparams.zero inp
  -- size_t in_idx; if ((in_idx = fqz_read_parameters(&gp, in)) < 0) return NULL;
  let in_idx : Nat := toSizeT r.2
  if in_idx < 0 then
    return none
  let gp := { r.1 with p := (r.1.p.take r.1.nparam).map preshift ++ r.1.p.drop r.1.nparam }
  let d0 : DecSt :=
    { gp := gp, pm := 0, i := 0, rec_ := 0, nrec := 1000, rev_a := [], len_a := [],
      state := { qctx := 0, p := 0, add_d := 0, delta := 0, prevq := 0, s := 0,
                 qtot := 0, qlen := 0 },
      rev := 0, last_len := 0, last := 0, uncomp := [], nsym := 0, trace := [] }
  match ← dec_loop (rc in_idx) out_size (out_size + 2147483648 + 1) d0 with
  | none => return none
  | some d =>
    if d.rec_ ≥ d.nrec then
      throw Fault.recstore
    return some { d with
      rev_a := put_rec d.rev_a d.rec_ d.rev
      len_a := put_rec d.len_a d.rec_ (toInt32 out_size) }

/-- `uncompress_block_fqz2f(s, in, in_size, out_size)` with `*out_size =
out_size` on entry: `none` is the null pointer, `some b` the buffer returned. -/
def uncompress_block_fqz2f (junk : fqz_param) (rc : SymChannel) (inp : List Nat)
    (out_size : Nat) : Except Fault (Option (List Nat)) := do
  match ← uncompress_main junk rc inp out_size with
  | none => return none
  | some d =>
    if d.gp.gflags &&& GFLAG_DO_REV ≠ 0 then
      let buf ← dec_unreverse d.rev_a d.len_a d.nrec out_size (d.rev_a.length + 1) 0 0 d.uncomp
      return some buf
    else
      return some d.uncomp

/-! ## Block encoder: the symbol stream of `compress_block_fqz2f` -/

/-- A record of the slice, with the members the codec reads
(`cram_crec` of the standalone build). -/
structure cram_crec where
  len : Int
  qual : Int
  flags : Int
  deriving DecidableEq, Repr

/-- The slice view: `hdr->num_records` and the records `crecs[0..]`. -/
structure cram_slice where
  num_records : Nat
  crecs : List cram_crec
  deriving DecidableEq, Repr

/-- The record `s->crecs[rec]`. -/
def crec_at (s : cram_slice) (idx : Int) : Except Fault cram_crec :=
  if idx < 0 then .error .slice
  else match s.crecs.get? idx.toNat with
    | none => .error .slice
    | some r => .ok r

/-- The per-record quality lengths `fqz_pick_parameters` computes first:
`q_len[i] = (i < num_records-1) ? crecs[i+1].qual - crecs[i].qual
: in_size - crecs[i].qual`, stored as `unsigned int`. -/
def compute_q_len (s : cram_slice) (in_size : Nat) : Nat → Nat → Except Fault (List Nat)
  | 0, _ => .ok []
  | n + 1, i =>
    match crec_at s i with
    | .error e => .error e
    | .ok r =>
      let v : Except Fault Int :=
        if (i : Int) < (s.num_records : Int) - 1 then
          match crec_at s (i + 1) with
          | .error e => .error e
          | .ok r1 => .ok (r1.qual - r.qual)
        else .ok ((in_size : Int) - r.qual)
      match v, compute_q_len s in_size n (i + 1) with
      | .error e, _ => .error e
      | _, .error e => .error e
      | .ok z, .ok rest => .ok (ofInt32 z :: rest)

/-- A symbol handed to the entropy coder, with the model that codes it:
`model.sel`, `model.len[k]`, `model.revcomp`, `model.dup` or `model.qual[ctx]`. -/
inductive EncSym where
  | sel (v : Nat)
  | len (k : Nat) (v : Nat)
  | revcomp (v : Nat)
  | dup (v : Nat)
  | qual (ctx : Nat) (v : Nat)
  deriving DecidableEq, Repr

/-- The symbol value of an encoder event. -/
def EncSym.value : EncSym → Nat
  | .sel v => v
  | .len _ v => v
  | .revcomp v => v
  | .dup v => v
  | .qual _ v => v

/-- The variables of `compress_block_fqz2f` during its main loop; `rec_` is the C
variable `rec`, `pm` the index `x` of the block in force, `out` the symbols
encoded so far, most recent first. -/
structure EncSt where
  gp : fqz_gparams
  pm : Int
  i : Nat
  rec_ : Int
  state : fqz_state
  last : Nat
  last_len : Int
  out : List EncSym
  deriving DecidableEq, Repr

/-- The end of an iteration of the encoder's main loop: `q = in[i]`,
`qm = pm->qmap[q]`, the symbol `qm` is coded with `model.qual[last]`,
`last = fqz_update_ctx(pm, &state, qm)`, then the `i++` of the `for`. -/
def enc_quality (inp : List Nat) (e : EncSt) : Except Fault EncSt :=
  match deref e.gp e.pm, inp.get? e.i with
  | .error f, _ => .error f
  | _, none => .error .slice
  | .ok pm, some b =>
    let q := b % 256
    let qm := pm.qmap.getD q 0 % 256
    let r := fqz_update_ctx pm e.state qm
    .ok { e with
      i := e.i + 1
      state := r.2
      last := r.1
      out := EncSym.qual e.last qm :: e.out }

/-- The four length symbols `(len>>0)&0xff, (len>>8)&0xff, (len>>16)&0xff,
(len>>24)&0xff`, most recent first. -/
def enc_len (len : Int) : List EncSym :=
  [EncSym.len 3 ((ofInt32 len >>> 24) &&& 255), EncSym.len 2 ((ofInt32 len >>> 16) &&& 255),
   EncSym.len 1 ((ofInt32 len >>> 8) &&& 255), EncSym.len 0 (ofInt32 len &&& 255)]

/-- The dedup test of the encoder, `i && len == last_len &&
!memcmp(in+i-last_len, in+i, len)`. -/
def enc_is_dup (inp : List Nat) (i : Nat) (len last_len : Int) : Except Fault Bool :=
  if i = 0 ∨ len ≠ last_len then .ok false
  else if len < 0 ∨ len > (i : Int) ∨ (i : Int) + len > (inp.length : Int) then .error .slice
  else .ok (decide (((inp.drop (i - len.toNat)).take len.toNat) = (inp.drop i).take len.toNat))

/-- The record header of the encoder's main loop from the block `pm = &gp.p[x]`
on: the length, the revcomp flag, the state reset and the dedup test.  The
result is the state after the header and whether the iteration ends there
(`continue` after a dup).  `frev` is the flag bit `BAM_FREVERSE`. -/
def enc_record (frev : Nat) (s : cram_slice) (q_len inp : List Nat) (x : Int)
    (pm : fqz_param) (e : EncSt) : Except Fault (EncSt × Bool) :=
  let lenE : Except Fault Int :=
    if e.rec_ < (s.num_records : Int) then
      (if e.rec_ < 0 then .error .slice
       else match q_len.get? e.rec_.toNat with
         | none => .error .slice
         | some v => .ok (toInt32 v))
    else match crec_at s ((s.num_records : Int) - 1) with
      | .error f => .error f
      | .ok r => .ok (toInt32 (toSizeT ((inp.length : Int) - r.qual)))
  match lenE with
  | .error f => .error f
  | .ok len =>
    let put_len : Bool := decide (pm.fixed_len = 0 ∨ pm.first_len ≠ 0)
    let out1 := if put_len then enc_len len ++ e.out else e.out
    let gp := if put_len then clear_first_len e.gp x else e.gp
    let do_rev : Bool := decide (e.gp.gflags &&& GFLAG_DO_REV ≠ 0)
    let out2E : Except Fault (List EncSym) :=
      if do_rev then
        match crec_at s e.rec_ with
        | .error f => .error f
        | .ok r => .ok (EncSym.revcomp (if ofInt32 r.flags &&& frev ≠ 0 then 1 else 0) :: out1)
      else .ok out1
    match out2E with
    | .error f => .error f
    | .ok out2 =>
      let e1 : EncSt := { e with
        gp := gp
        pm := x
        rec_ := e.rec_ + 1
        state := { e.state with qtot := 0, qlen := 0, p := ofInt32 len, add_d := 0, delta := 0,
                                qctx := 0, prevq := 0 }
        last := pm.context
        out := out2 }
      if pm.do_dedup ≠ 0 then
        match enc_is_dup inp e.i len e.last_len with
        | .error f => .error f
        | .ok true =>
          .ok ({ e1 with
            out := EncSym.dup 1 :: out2
            i := ((((e.i : Int) + len) % (U64 : Int)).toNat)
            state := { e1.state with p := 0 } }, true)
        | .ok false => .ok ({ e1 with out := EncSym.dup 0 :: out2, last_len := len }, false)
      else .ok (e1, false)

/-- The start of a record header in the encoder: `state.s = s->crecs[rec].flags
>> 16` is coded with `model.sel` when the block in force has `do_sel`, and `x =
(gp.gflags & GFLAG_HAVE_STAB) ? gp.stab[state.s] : state.s; pm = &gp.p[x]`. -/
def enc_header (frev : Nat) (s : cram_slice) (q_len inp : List Nat) (e : EncSt) :
    Except Fault (EncSt × Bool) :=
  match deref e.gp e.pm with
  | .error f => .error f
  | .ok pm0 =>
    let selE : Except Fault Nat :=
      if pm0.do_sel ≠ 0 then
        match crec_at s e.rec_ with
        | .error f => .error f
        | .ok r => .ok (ofInt32 (r.flags >>> 16))
      else .ok 0
    match selE with
    | .error f => .error f
    | .ok sv =>
      let out1 := if pm0.do_sel ≠ 0 then EncSym.sel sv :: e.out else e.out
      let xE : Except Fault Int :=
        if e.gp.gflags &&& GFLAG_HAVE_STAB ≠ 0 then
          match e.gp.stab.get? sv with
          | none => .error .param
          | some v => .ok (toInt32 v)
        else .ok (toInt32 sv)
      match xE with
      | .error f => .error f
      | .ok x =>
        match deref e.gp x with
        | .error f => .error f
        | .ok pm =>
          enc_record frev s q_len inp x pm { e with state := { e.state with s := sv }, out := out1 }

/-- One iteration of the main loop `for (i = 0; i < in_size; i++)` of
`compress_block_fqz2f`. -/
def enc_iter (frev : Nat) (s : cram_slice) (q_len inp : List Nat) (e : EncSt) :
    Except Fault EncSt :=
  if e.state.p = 0 then
    match enc_header frev s q_len inp e with
    | .error f => .error f
    | .ok (e1, true) => .ok e1
    | .ok (e1, false) => enc_quality inp e1
  else enc_quality inp e

/-- The main loop of `compress_block_fqz2f` on the buffer `in[0..in_size)`. -/
def enc_loop (frev : Nat) (s : cram_slice) (q_len inp : List Nat) :
    Nat → EncSt → Except Fault EncSt
  | 0, _ => .error .fuel
  | fuel + 1, e =>
    if e.i < inp.length then
      match enc_iter frev s q_len inp e with
      | .error f => .error f
      | .ok e1 => enc_loop frev s q_len inp fuel e1
    else .ok e

/-- A reversal pass of `compress_block_fqz2f` over the input buffer: `while (i <
in_size) { len = rec < num_records-1 ? lens[rec] : in_size - i; if
(crecs[rec].flags & BAM_FREVERSE) reverse in[i..i+len); i += len; rec++; }`.
The pass before the main loop takes `lens` from `q_len`, the pass after it from
`crecs[rec].len`. -/
def reverse_pass (frev : Nat) (s : cram_slice) (lens : List Int) :
    Nat → Nat → Nat → List Nat → Except Fault (List Nat)
  | 0, _, _, _ => .error .fuel
  | fuel + 1, i, rec, buf =>
    if i < buf.length then
      let len : Int :=
        if (rec : Int) < (s.num_records : Int) - 1 then lens.getD rec 0
        else toInt32 (buf.length - i)
      match crec_at s rec with
      | .error f => .error f
      | .ok r =>
        let bufE : Except Fault (List Nat) :=
          if ofInt32 r.flags &&& frev ≠ 0 then
            (match reverse_at buf i len with
             | .error _ => .error .slice
             | .ok b => .ok b)
          else .ok buf
        match bufE with
        | .error f => .error f
        | .ok buf1 =>
          reverse_pass frev s lens fuel ((((i : Int) + len) % (U64 : Int)).toNat) (rec + 1) buf1
    else .ok buf

/-- The variables of `compress_block_fqz2f` at the entry of its main loop: the
tables of every block pre-shifted, `pm = gp.p`, `state` all zero. -/
def enc_start (gp : fqz_gparams) : EncSt :=
  { gp := { gp with p := (gp.p.take gp.nparam).map preshift ++ gp.p.drop gp.nparam }
    pm := 0
    i := 0
    rec_ := 0
    state := { qctx := 0, p := 0, add_d := 0, delta := 0, prevq := 0, s := 0, qtot := 0, qlen := 0 }
    last := 0
    last_len := 0
    out := [] }

/-- The part of `compress_block_fqz2f` from the table pre-shift to the end of
the main loop: the pre-shift, the reversal pass when `GFLAG_DO_REV` is set, and
the main loop.  `gp` and `q_len` are what `fqz_pick_parameters` left; the
result is the input buffer as the main loop saw it and the sequence of symbols
handed to the entropy coder, in order. -/
def compress_main (frev : Nat) (gp : fqz_gparams) (s : cram_slice) (q_len inp : List Nat) :
    Except Fault (List Nat × List EncSym) :=
  let inE : Except Fault (List Nat) :=
    if gp.gflags &&& GFLAG_DO_REV ≠ 0 then
      reverse_pass frev s (q_len.map toInt32) (s.num_records + 2) 0 0 inp
    else .ok inp
  match inE with
  | .error f => .error f
  | .ok in1 =>
    match enc_loop frev s q_len in1 (in1.length + 9223372036854775808 + 1) (enc_start gp) with
    | .error f => .error f
    | .ok e => .ok (in1, e.out.reverse)

/-- The symbols `compress_main` hands to the entropy coder. -/
def compress_symbols (frev : Nat) (gp : fqz_gparams) (s : cram_slice) (q_len inp : List Nat) :
    Except Fault (List EncSym) :=
  match compress_main frev gp s q_len inp with
  | .error f => .error f
  | .ok r => .ok r.2

/-- The `(last, qm)` pairs of the quality symbols in an encoder symbol
stream. -/
def enc_trace : List EncSym → List (Nat × Nat)
  | [] => []
  | .qual ctx v :: rest => (ctx, v) :: enc_trace rest
  | _ :: rest => enc_trace rest

/-! ## Parameter selection: `qual_stats`, `fqz_pick_parameters` -/

/-- The flag bit `BAM_FREAD2`. -/
def BAM_FREAD2 : Nat := 128

/-- The preset strategies `strat_opts`: `qbits qshift pbits pshift dbits dshift
qloc sloc ploc dloc do_r2 do_qa`. -/
def strat_opts : List (List Int) :=
  [[10, 5, 4, -1, 2, 1, 0, 14, 10, 14, 0, -1],
   [8, 5, 7, 0, 0, 0, 0, 14, 8, 14, 1, -1],
   [12, 6, 2, 0, 2, 3, 0, 9, 12, 14, 0, 0],
   [12, 6, 0, 0, 0, 0, 0, 12, 0, 0, 0, 0],
   [0, 0, 0, 0, 0, 0, 0, 0, 0, 0, 0, 0]]

/-- The number of rows of `strat_opts`. -/
def nstrats : Nat := 5

/-- The table `dsqr` of `fqz_pick_parameters`. -/
def dsqr : List Nat :=
  [0, 1, 1, 1, 2, 2, 2, 2, 2, 3, 3, 3, 3, 3, 3, 3,
   4, 4, 4, 4, 4, 4, 4, 4, 4, 5, 5, 5, 5, 5, 5, 5,
   5, 5, 5, 5, 6, 6, 6, 6, 6, 6, 6, 6, 6, 6, 6, 6,
   6, 7, 7, 7, 7, 7, 7, 7, 7, 7, 7, 7, 7, 7, 7, 7]

/-- The outcomes of the floating-point computations of the tuner, which the
embedding does not evaluate: the three entropy comparisons of `qual_stats` and
the value of `MAX(0, log((double)s->crecs[0].len/(1<<pm->pbits))/log(2)+.5)`
converted to `int` in `fqz_pick_parameters`. -/
structure TuneFloats where
  /-- `e4 + num_records/4 < e2*qm + num_records/8 && e4 + num_records/4 < e1*qm` -/
  e4_best : Bool
  /-- `e2 + num_records/8 < e1*qm` -/
  e2_best : Bool
  /-- `e2 + (8+num_records/8) < e1*qm` of the READ1/READ2 test -/
  r2_split : Bool
  /-- the `pshift` computed from the length of the first record -/
  pshift : Nat
  deriving DecidableEq, Repr

/-- The records `crecs[0..num_records)` of a slice. -/
def slice_recs (s : cram_slice) : Except Fault (List cram_crec) :=
  if s.crecs.length < s.num_records then .error .slice else .ok (s.crecs.take s.num_records)

/-- The first loop of `qual_stats`: the largest selector `flags >> 16` found in
the records (at least 0) and whether a record has `BAM_FREAD2`. -/
def scan_flags : List cram_crec → Int → Bool → Int × Bool
  | [], max_sel, has_r2 => (max_sel, has_r2)
  | r :: rest, max_sel, has_r2 =>
    scan_flags rest (if max_sel < r.flags >>> 16 then r.flags >>> 16 else max_sel)
      (has_r2 || decide (ofInt32 r.flags &&& BAM_FREAD2 ≠ 0))

/-- What the statistics loop of `qual_stats` accumulates: the record counter
`rec`, the count `do_dedup` of records equal to their predecessor, `qhist`,
`avg_qual[0..rec)` and the histogram `avg` of the averages. -/
structure QStats where
  rec_ : Nat
  dups : Nat
  qhist : List Nat
  avg_qual : List Nat
  avg : List Nat
  deriving DecidableEq, Repr

/-- The inner loop `for (; i < in_size && j > 0; i++, j--)` of the statistics
pass on the bytes of one record: `tot += in[i]; qhist[in[i]]++`. -/
def stats_bytes : List Nat → Nat → List Nat → Nat × List Nat
  | [], tot, qhist => (tot, qhist)
  | b :: rest, tot, qhist =>
    stats_bytes rest ((tot + b % 256) % U32)
      (qhist.modify (fun c => (c + 1) % U32) (b % 256))

/-- The statistics loop of `qual_stats`, `while (i < in_size)`: one record per
iteration, `last_len` the previous record length.  The average
`(tot*10.0)/last_len+.5` truncated to `uint32_t` is `(20 tot + last_len) /
(2 last_len)` in integers. -/
def stats_loop (s : cram_slice) (q_len inp : List Nat) :
    Nat → Nat → Int → QStats → Except Fault QStats
  | 0, _, _, _ => .error .fuel
  | fuel + 1, i, last_len, st =>
    if i < inp.length then
      let jE : Except Fault (Nat × Nat) :=
        if st.rec_ < s.num_records then
          match q_len.get? st.rec_ with
          | none => .error .slice
          | some j =>
            if i > 0 ∧ (j : Int) = last_len % (U64 : Int) then
              (if i < last_len.toNat ∨ i + j > inp.length then .error .slice
               else .ok (j, if (inp.drop (i - j)).take j = (inp.drop i).take j then 1 else 0))
            else .ok (j, 0)
        else .ok (inp.length - i, 0)
      match jE with
      | .error e => .error e
      | .ok (j, dup) =>
        let last_len1 : Int := toInt32 j
        let r := stats_bytes ((inp.drop i).take j) 0 st.qhist
        let tot : Nat :=
          if last_len1 ≠ 0 then ((20 * r.1 + last_len1.toNat) / (2 * last_len1.toNat)) % U32 else 0
        stats_loop s q_len inp fuel (i + min j (inp.length - i)) last_len1
          { rec_ := st.rec_ + 1
            dups := st.dups + dup
            qhist := r.2
            avg_qual := st.avg_qual ++ [tot]
            avg := st.avg.modify (fun c => (c + 1) % U32) (min 2559 tot) }
    else .ok st

/-- The symbol statistics of `qual_stats`: `for (i = max_sym = nsym = 0; i <
256; i++) if (qhist[i]) max_sym = i, nsym++`, returned as `(max_sym, nsym)`. -/
def count_syms (qhist : List Nat) : Nat × Nat :=
  (List.range 256).foldl
    (fun acc i => if qhist.getD i 0 ≠ 0 then (i, acc.2 + 1) else acc) (0, 0)

/-- One of the first three threshold loops of `qual_stats` over the histogram
`avg`: `while (i < 2560) { total += avg[i]; if (total > qf * num_records)
break; [if (i > 375) break;] avg[i++] = bin; }`, with `qf = num/den`.
Returns the `i` and `total` it stops with. -/
def avg_scan (avg : List Nat) (n num den : Nat) (cap : Bool) : Nat → Nat → Nat → Nat × Nat
  | 0, i, total => (i, total)
  | fuel + 1, i, total =>
    if i < 2560 then
      let total1 := total + avg.getD i 0
      if den * total1 > num * n then (i, total1)
      else if cap ∧ i > 375 then (i, total1)
      else avg_scan avg n num den cap fuel (i + 1) total1
    else (i, total)

/-- The four threshold loops of `qual_stats` that turn `avg` into the map from
an average quality to a bin: 0 below the first stop, 3 up to the second, 2 up
to the third, 1 from there on.  The fractions are 0.25, 0.50, 0.75 when
`nsym > 4` and 0.05, 0.15, 0.60 otherwise. -/
def avg_bins (avg : List Nat) (n nsym : Nat) : Nat → Nat :=
  let f0 : Nat × Nat := if nsym > 4 then (1, 4) else (1, 20)
  let f1 : Nat × Nat := if nsym > 4 then (1, 2) else (3, 20)
  let f2 : Nat × Nat := if nsym > 4 then (3, 4) else (3, 5)
  let a := avg_scan avg n f0.1 f0.2 false 2560 0 0
  let b := avg_scan avg n f1.1 f1.2 false 2560 a.1 a.2
  let c := avg_scan avg n f2.1 f2.2 true 2560 b.1 b.2
  fun v => if v < a.1 then 0 else if v < b.1 then 3 else if v < c.1 then 2 else 1

/-- The selector a record gets from the average-quality test: `flags |= bin
<< 16` for every record, `bin` being `avg[MIN(2559, avg_qual[i])]` shifted
right by `shr`. -/
def mark_avg (bins : Nat → Nat) (shr : Nat) : List cram_crec → List Nat →
    Except Fault (List cram_crec)
  | [], _ => .ok []
  | _ :: _, [] => .error .slice
  | r :: rest, a :: avs =>
    match mark_avg bins shr rest avs with
    | .error e => .error e
    | .ok out =>
      .ok ({ r with flags := toInt32 (ofInt32 r.flags ||| ((bins (min 2559 a) >>> shr) <<< 16)) }
            :: out)

/-- The READ1/READ2 split of `qual_stats`: `sel = flags >> 16; flags = (flags &
0xffff) | ((flags & BAM_FREAD2) ? ((sel*2)+1) << 16 : ((sel*2)+0) << 16)`, and
the largest selector that results. -/
def mark_r2 : List cram_crec → Int → List cram_crec × Int
  | [], max_sel => ([], max_sel)
  | r :: rest, max_sel =>
    let sel : Int := r.flags >>> 16
    let bit : Int := if ofInt32 r.flags &&& BAM_FREAD2 ≠ 0 then 1 else 0
    let flags : Int :=
      toInt32 ((ofInt32 r.flags &&& 65535) ||| ofInt32 (toInt32 (ofInt32 (sel * 2 + bit) <<< 16)))
    let out := mark_r2 rest (if max_sel < flags >>> 16 then flags >>> 16 else max_sel)
    ({ r with flags := flags } :: out.1, out.2)

/-- The bit budget change of `qual_stats` when `do_qa == -1`: room for the
selector is taken from `pbits` and `dbits`, from `dbits` alone, or from
`qbits`. -/
def steal_bits (pm : fqz_param) : fqz_param :=
  let pm1 :=
    if pm.pbits > 0 ∧ pm.dbits > 0 then
      { pm with
        sloc := (pm.dloc + U32 - 1) % U32
        pbits := pm.pbits - 1
        dbits := pm.dbits - 1
        dloc := (pm.dloc + 1) % U32 }
    else if pm.dbits ≥ 2 then
      { pm with
        sloc := pm.dloc
        dbits := pm.dbits - 2
        dloc := (pm.dloc + 2) % U32 }
    else if pm.qbits ≥ 2 then
      let qbits := pm.qbits - 2
      { pm with
        qbits := if qbits = 6 ∧ pm.qshift = 5 then qbits - 1 else qbits
        ploc := (pm.ploc + U32 - 2) % U32
        sloc := ofInt32 (16 - 2 - pm.do_r2) }
    else pm
  { pm1 with do_qa := 4 }

/-- The statistics loop of `qual_stats` from its initial state: `i = rec = 0`,
`last_len = 0`, `do_dedup = 0`, and `qhist`, `avg` all zero. -/
def qual_scan (s : cram_slice) (q_len inp : List Nat) : Except Fault QStats :=
  stats_loop s q_len inp (s.num_records + 2) 0 0
    { rec_ := 0, dups := 0, qhist := List.replicate 256 0, avg_qual := [],
      avg := List.replicate 2560 0 }

/-- The part of `qual_stats` after the statistics loop: `do_dedup`, `max_sym`,
`nsym`, then the two "Auto tune" steps.  `recs` are the records of the slice,
`sc` what the first loop found in their flags, `st` what the statistics loop
accumulated. -/
def qual_tune (fl : TuneFloats) (s : cram_slice) (recs : List cram_crec) (pm : fqz_param)
    (sc : Int × Bool) (st : QStats) : Except Fault (fqz_param × cram_slice × List Nat) :=
  let sy := count_syms st.qhist
  let pm1 : fqz_param :=
    { pm with
      do_dedup := if ((st.rec_ + 1) % U64) / (st.dups + 1) < 500 then 1 else 0
      max_sym := sy.1
      nsym := sy.2 }
  -- Auto tune: does average quality helps us?
  let bins := avg_bins st.avg s.num_records sy.2
  let use4 : Bool := decide (pm.do_qa ≠ 0) && decide (pm.do_qa = -1 ∨ pm.do_qa ≥ 4) && fl.e4_best
  let use2 : Bool :=
    decide (pm.do_qa ≠ 0) && !use4 && decide (pm.do_qa = -1 ∨ pm.do_qa ≥ 2) && fl.e2_best
  let recsE : Except Fault (List cram_crec) :=
    if use4 then mark_avg bins 0 recs st.avg_qual
    else if use2 then mark_avg bins 1 recs st.avg_qual
    else .ok recs
  match recsE with
  | .error e => .error e
  | .ok recs1 =>
    let pm2 : fqz_param := if use4 ∨ use2 then { pm1 with do_sel := 1 } else pm1
    let max_sel1 : Int := if use4 then 3 else if use2 then 1 else sc.1
    let pm3 : fqz_param := if pm.do_qa = -1 then steal_bits pm2 else pm2
    -- Auto tune: does splitting up READ1 and READ2 help us?
    let split : Bool := (sc.2 || decide (pm3.do_r2 ≠ 0)) && fl.r2_split
    let r2 := if split then mark_r2 recs1 max_sel1 else (recs1, max_sel1)
    let pm4 : fqz_param := if r2.2 > 0 then { pm3 with do_sel := 1 } else pm3
    .ok (pm4, { s with crecs := r2.1 ++ s.crecs.drop s.num_records }, st.qhist)

/-- `qual_stats(s, in, in_size, q_len, pm, qhist)`: the block `*pm`, the slice
(its flags carry the selectors chosen) and `qhist` as the call leaves them.
`fl` holds the outcomes of the entropy comparisons. -/
def qual_stats (fl : TuneFloats) (s : cram_slice) (inp q_len : List Nat) (pm : fqz_param) :
    Except Fault (fqz_param × cram_slice × List Nat) :=
  match slice_recs s with
  | .error e => .error e
  | .ok recs =>
    match qual_scan s q_len inp with
    | .error e => .error e
    | .ok st => qual_tune fl s recs pm (scan_flags recs 0 false) st

/-- The `qmap` of `fqz_pick_parameters` when `store_qmap` is set: `qmap[i] =
j++` for the values present, `INT_MAX` for the others. -/
def build_qmap (qhist : List Nat) : Nat → Nat → Nat → List Nat
  | 0, _, _ => []
  | n + 1, i, j =>
    if qhist.getD i 0 ≠ 0 then j :: build_qmap qhist n (i + 1) (j + 1)
    else INT_MAX :: build_qmap qhist n (i + 1) j

/-- The largest selector `max(flags >> 16)` over the records, at least 0. -/
def max_flag_sel : List cram_crec → Int → Int
  | [], m => m
  | r :: rest, m => max_flag_sel rest (if m < r.flags >>> 16 then r.flags >>> 16 else m)

/-- The block `fqz_pick_parameters` hands to `qual_stats`: all zero but for the
row `strat` of `strat_opts`. -/
def pick_preset (strat : Nat) : fqz_param :=
  let o := strat_opts.getD strat []
  { fqz_param.zero with
    qbits := ofInt32 (o.getD 0 0)
    qshift := ofInt32 (o.getD 1 0)
    pbits := ofInt32 (o.getD 2 0)
    pshift := o.getD 3 0
    dbits := ofInt32 (o.getD 4 0)
    dshift := ofInt32 (o.getD 5 0)
    qloc := ofInt32 (o.getD 6 0)
    sloc := ofInt32 (o.getD 7 0)
    ploc := ofInt32 (o.getD 8 0)
    dloc := ofInt32 (o.getD 9 0)
    do_r2 := o.getD 10 0
    do_qa := o.getD 11 0 }

/-- The adjustments of `fqz_pick_parameters` between `qual_stats` and the label
`manually_set`, skipped when `strat >= nstrats-1`: `pshift` from the length of
the first record, the settings for few symbols, and those for a small block. -/
def pick_adjust (fl : TuneFloats) (strat in_size : Nat) (pm : fqz_param) : fqz_param :=
  if strat ≥ nstrats - 1 then pm
  else
    let a : fqz_param := if pm.pshift < 0 then { pm with pshift := fl.pshift } else pm
    let b : fqz_param :=
      if a.nsym ≤ 4 then
        (if in_size < 5000000 then { a with qshift := 2, pbits := 2, pshift := 5 }
         else { a with qshift := 2 })
      else if a.nsym ≤ 8 then
        { a with
          qbits := if in_size < 5000000 then 6 else min a.qbits 9
          qshift := 3 }
      else a
    if in_size < 300000 then { b with qbits := b.qshift, dbits := 2 } else b

/-- The part of `fqz_pick_parameters` from the label `manually_set` to the
assignment of `pflags`: `dsqr` capped at `(1<<dbits)-1`, `qmap`, the tables
`qtab`, `ptab`, `dtab`, and the flags. -/
def pick_tables (qhist : List Nat) (pm : fqz_param) : fqz_param :=
  let dmax := (1 <<< pm.dbits) - 1
  let dsq := dsqr.map (fun v => if v > dmax then dmax else v)
  let pm4 : fqz_param :=
    if pm.store_qmap ≠ 0 then
      { pm with qmap := build_qmap qhist 256 0 0, max_sym := pm.nsym }
    else { pm with nsym := 255, qmap := List.range 256 }
  let pm5 : fqz_param :=
    { pm4 with
      qtab := if pm4.qbits ≠ 0 then List.range 256 else pm4.qtab
      qmask := (1 <<< pm4.qbits) - 1
      ptab :=
        if pm4.pbits ≠ 0 then
          (List.range 1024).map (fun i => min ((1 <<< pm4.pbits) - 1) (i >>> pm4.pshift.toNat))
        else pm4.ptab
      dtab :=
        if pm4.dbits ≠ 0 then
          (List.range 256).map (fun i => dsq.getD (min 63 (i >>> pm4.dshift)) 0)
        else pm4.dtab
      use_ptab := if pm4.pbits > 0 then 1 else 0
      use_dtab := if pm4.dbits > 0 then 1 else 0 }
  { pm5 with
    pflags :=
      (if pm5.use_qtab ≠ 0 then PFLAG_HAVE_QTAB else 0)
      ||| (if pm5.use_dtab ≠ 0 then PFLAG_HAVE_DTAB else 0)
      ||| (if pm5.use_ptab ≠ 0 then PFLAG_HAVE_PTAB else 0)
      ||| (if pm5.do_sel ≠ 0 then PFLAG_DO_SEL else 0)
      ||| (if pm5.fixed_len ≠ 0 then PFLAG_DO_LEN else 0)
      ||| (if pm5.do_dedup ≠ 0 then PFLAG_DO_DEDUP else 0)
      ||| (if pm5.store_qmap ≠ 0 then PFLAG_HAVE_QMAP else 0) }

/-- The global parameters `fqz_pick_parameters` ends with, `pm` being its one
block and `recs` the records of the slice after `qual_stats`. -/
def pick_global (vers : Nat) (recs : List cram_crec) (pm : fqz_param) : fqz_gparams :=
  { fqz_gparams.zero with
    vers := 5
    gflags :=
      (if vers = 3 then GFLAG_DO_REV else 0) ||| (if pm.do_sel ≠ 0 then GFLAG_HAVE_STAB else 0)
    nparam := 1
    max_sel := if pm.do_sel ≠ 0 then ofInt32 (max_flag_sel recs 0) else 0
    max_sym := if 0 < pm.max_sym then pm.max_sym else 0
    p := [pm] }

/-- The part of `fqz_pick_parameters` after `qual_stats`, which left the block
`pm1`, the slice `s1` and the histogram `qhist`. -/
def pick_finish (fl : TuneFloats) (vers strat in_size : Nat) (q_len : List Nat)
    (pm1 : fqz_param) (s1 : cram_slice) (qhist : List Nat) :
    Except Fault (fqz_gparams × cram_slice × List Nat × List Nat) :=
  let pm2 : fqz_param :=
    { pm1 with
      store_qmap := if pm1.nsym ≤ 8 ∧ pm1.nsym * 2 < pm1.max_sym then 1 else 0
      -- Check for fixed length.
      fixed_len := if q_len.all (fun l => l = q_len.getD 0 0) then 1 else 0
      first_len := 1
      use_qtab := 0 }
  let pm6 := pick_tables qhist (pick_adjust fl strat in_size pm2)
  let gp := pick_global vers (s1.crecs.take s1.num_records) pm6
  match fqz_store_parameters gp with
  | .error e => .error e
  | .ok comp => .ok (gp, s1, q_len, comp)

/-- `fqz_pick_parameters(gp, vers, strat, level, s, in, in_size, comp,
comp_idx_p, q_len)`: the parameters `*gp`, the slice with the selectors in its
flags, the lengths `q_len` and the prelude bytes written to `comp`
(`*comp_idx_p` is their number).  `calloc` succeeds; `fl` holds the outcomes
of the floating-point computations. -/
def fqz_pick_parameters (fl : TuneFloats) (vers strat : Nat) (s : cram_slice) (inp : List Nat) :
    Except Fault (fqz_gparams × cram_slice × List Nat × List Nat) :=
  let strat := if strat ≥ nstrats then nstrats - 1 else strat
  match compute_q_len s inp.length s.num_records 0 with
  | .error e => .error e
  | .ok q_len =>
    match qual_stats fl s inp q_len (pick_preset strat), q_len.get? 0, crec_at s 0 with
    | .error e, _, _ => .error e
    | _, none, _ => .error .slice
    | _, _, .error e => .error e
    | .ok (pm1, s1, qhist), some _, .ok _ => pick_finish fl vers strat inp.length q_len pm1 s1 qhist

/-! ## `compress_block_fqz2f` -/

/-- What `compress_block_fqz2f` leaves: the parameter prelude at the start of
the buffer it returns, the symbols it handed to the entropy coder (whose bytes
follow the prelude), and the caller's quality buffer and slice after the
call. -/
structure Compressed where
  prelude : List Nat
  symbols : List EncSym
  in_after : List Nat
  slice_after : cram_slice
  deriving DecidableEq, Repr

/-- The last loop of `compress_block_fqz2f`: `s->crecs[rec].flags &= 0xffff`
for every record. -/
def clear_sel (s : cram_slice) : cram_slice :=
  { s with
    crecs := (s.crecs.take s.num_records).map
        (fun r => { r with flags := ((ofInt32 r.flags &&& 65535 : Nat) : Int) })
      ++ s.crecs.drop s.num_records }

/-- `compress_block_fqz2f(vers, level, s, in, in_size, out_size)`: the format is
`vers & 0xff`, the strategy `vers >> 8`; `level` is not used.  Allocations
succeed; `fl` holds the outcomes of the tuner's floating-point computations,
`frev` is the flag bit `BAM_FREVERSE`. -/
def compress_block_fqz2f (fl : TuneFloats) (frev : Nat) (vers : Nat) (s : cram_slice)
    (inp : List Nat) : Except Fault Compressed :=
  match fqz_pick_parameters fl (vers &&& 255) (vers >>> 8) s inp with
  | .error e => .error e
  | .ok (gp, s1, q_len, comp) =>
    match compress_main frev gp s1 q_len inp with
    | .error e => .error e
    | .ok (in1, syms) =>
      -- For CRAM3.1, undo our earlier reversal step
      let in2E : Except Fault (List Nat) :=
        if gp.gflags &&& GFLAG_DO_REV ≠ 0 then
          reverse_pass frev s1 (s1.crecs.map (fun r => r.len)) (s1.num_records + 2) 0 0 in1
        else .ok in1
      match in2E with
      | .error e => .error e
      | .ok in2 =>
        .ok { prelude := comp, symbols := syms, in_after := in2, slice_after := clear_sel s1 }

/-! ## Concrete inputs -/

/-- A quality block of one read of 2048 bases, with the values 0..15. -/
def long_read_qual : List Nat := (List.range 2048).map (fun i => i % 16)

/-- The slice view of `long_read_qual`: one record of length 2048. -/
def long_read_slice : cram_slice :=
  { num_records := 1, crecs := [{ len := 2048, qual := 0, flags := 0 }] }

/-- The position table `fqz_pick_parameters` builds for `pbits = 3`,
`pshift = 8`: `ptab[i] = MIN((1<<pbits)-1, i>>pshift)`. -/
def long_read_ptab : List Nat := (List.range 1024).map (fun i => min 7 (i >>> 8))

/-- The parameter block `fqz_pick_parameters` leaves for `long_read_qual` at
format 4, strategy 0: the preset `{10,5,4,-1,2,1,0,14,10,14,0,-1}`; `qual_stats`
finds 16 symbols, highest 15, and takes one bit each from `pbits` and `dbits`
(`pbits = 3`, `dbits = 1`, `sloc = 13`, `dloc = 15`); `pshift` becomes
`log2(2048/8) = 8`; `in_size < 300000` sets `qbits = qshift = 5` and
`dbits = 2`. -/
def long_read_param : fqz_param :=
  { fqz_param.zero with
    pflags := 102, do_dedup := 1, fixed_len := 1, use_dtab := 1, use_ptab := 1, first_len := 1,
    qbits := 5, qloc := 0, pbits := 3, ploc := 10, dbits := 2, dloc := 15, sloc := 13,
    max_sym := 15, nsym := 255,
    qmap := List.range 256, qtab := List.range 256,
    ptab := long_read_ptab,
    dtab := (List.range 256).map (fun i => min 3 (dsqr.getD (min 63 (i >>> 1)) 0)),
    qshift := 5, pshift := 8, dshift := 1, qmask := 31, do_qa := 4 }

/-- The global parameters that go with `long_read_param`. -/
def long_read_gparams : fqz_gparams :=
  { fqz_gparams.zero with
    vers := 5
    gflags := 0
    nparam := 1
    max_sym := 15
    p := [long_read_param] }

/-- The 21 bytes `fqz_store_parameters` writes for `long_read_gparams`. -/
def long_read_prelude : List Nat :=
  [5, 0, 0, 0, 102, 15, 85, 13, 175, 255, 1, 255, 1, 255, 1, 255, 1, 2, 6, 10, 238]

/-- The outcomes of the floating-point computations of the tuner on
`long_read_qual`: with a single record the three entropy sums `e1`, `e2`, `e4`
are the same sum, so neither `e4 < e2*0.95` nor `e2 < e1*0.95` holds and no
selector is introduced; there is no READ2 record; and
`log(2048.0/8)/log(2)+.5` is 8.5, which the conversion to `int` makes 8. -/
def long_read_floats : TuneFloats :=
  { e4_best := false, e2_best := false, r2_split := false, pshift := 8 }

/-- The symbols `compress_block_fqz2f` hands to the entropy coder for
`long_read_qual` at format 4, strategy 0. -/
def long_read_symbols : List Nat :=
  match compress_block_fqz2f long_read_floats 16 4 long_read_slice long_read_qual with
  | .ok c => c.symbols.map EncSym.value
  | .error _ => []

/-- The first 256 values of `long_read_qual`, which is this block eight times. -/
def long_read_chunk : List Nat := (List.range 256).map (fun i => i % 16)

/-- The histogram `qhist` after `k` occurrences of each of the values 0..15. -/
def long_read_qhist (k : Nat) : List Nat := List.replicate 16 k ++ List.replicate 240 0

/-- A table of 256 entries: 255 zeros, then one 3. -/
def gap_table : List Nat := List.replicate 255 0 ++ [3]

/-- A block of one record of four quality values. -/
def short_qual : List Nat := [0, 1, 2, 3]

/-- The slice view of `short_qual`. -/
def short_slice : cram_slice :=
  { num_records := 1, crecs := [{ len := 4, qual := 0, flags := 0 }] }

/-- The composite context as the specification words it:
`((qctx & qmask) << qloc) + ptab[min(p,1023)] + dtab[min(delta,255)] +
(s << sloc)`, reduced to 16 bits, with `qctx = (qctx << qshift) + qtab[q]`. -/
def ctx_formula (pm : fqz_param) (st : fqz_state) (q : Nat) : Nat :=
  let qctx := (st.qctx <<< pm.qshift) + pm.qtab.getD q 0
  (((qctx &&& pm.qmask) <<< pm.qloc) + pm.ptab.getD (min st.p 1023) 0
    + pm.dtab.getD (min st.delta 255) 0 + (st.s <<< pm.sloc)) % 65536

/-- The state at the first quality value of a record of `len` values. -/
def record_start (len : Nat) : fqz_state :=
  { qctx := 0, p := len, add_d := 0, delta := 0, prevq := 0, s := 0, qtot := 0, qlen := 0 }

/-! ## Concrete inputs of the decoder -/

/-- A prelude of one parameter block without tables or flags: version 5,
`gflags` 0, `context` 0, `pflags` 0, `max_sym` 255, `qbits = qshift = 5`. -/
def plain_prelude : List Nat := [5, 0, 0, 0, 0, 255, 85, 0, 0]

/-- The prelude `plain_prelude` with `PFLAG_DO_DEDUP` in `pflags`. -/
def dedup_prelude : List Nat := [5, 0, 0, 0, 2, 255, 85, 0, 0]

/-- The prelude `plain_prelude` with `GFLAG_DO_REV` in `gflags`. -/
def rev_prelude : List Nat := [5, 4, 0, 0, 0, 255, 85, 0, 0]

/-- The symbol channel that delivers the symbols of `l` in order, then zeros,
wherever the decoder is started. -/
def symbols (l : List Nat) : SymChannel := fun _ n => l.getD n 0

/-! ## Concrete tables and blocks -/

/-- A sorted table of 256 entries: 100 zeros, 100 ones, 56 twos. -/
def step_table : List Nat := List.replicate 100 0 ++ List.replicate 100 1 ++ List.replicate 56 2

/-- A sorted table of 256 entries, all 300. -/
def high_table : List Nat := List.replicate 256 300

/-- A block of one record of four quality values, 0 and 40 twice each. -/
def sparse_qual : List Nat := [0, 40, 40, 0]

/-- The slice view of `sparse_qual`: one record of length 4. -/
def sparse_slice : cram_slice :=
  { num_records := 1, crecs := [{ len := 4, qual := 0, flags := 0 }] }

/-- The outcomes of the floating-point computations of the tuner on
`sparse_qual`: with a single record the entropy sums are the same sum, there is
no READ2 record, and `log(4.0/8)/log(2)+.5` is -0.5, which `MAX(0, ...)` and
the conversion to `int` make 0. -/
def sparse_floats : TuneFloats :=
  { e4_best := false, e2_best := false, r2_split := false, pshift := 0 }

/-- The parameter block `fqz_pick_parameters` leaves for `sparse_qual` at
format 4, strategy 0: two symbols, so `store_qmap` is set, `qshift = 2`,
`pbits = 2`, `pshift = 5`, and `qbits = 2`, `dbits = 2` for a small block. -/
def sparse_param : fqz_param :=
  { fqz_param.zero with
    pflags := 118, do_dedup := 1, store_qmap := 1, fixed_len := 1, use_dtab := 1, use_ptab := 1,
    first_len := 1,
    qbits := 2, qloc := 0, pbits := 2, ploc := 10, dbits := 2, dloc := 15, sloc := 13,
    max_sym := 2, nsym := 2,
    qmap := [0] ++ List.replicate 39 INT_MAX ++ [1] ++ List.replicate 215 INT_MAX,
    qtab := List.range 256,
    ptab := (List.range 1024).map (fun i => min 3 (i >>> 5)),
    dtab := (List.range 256).map (fun i => min 3 (dsqr.getD (min 63 (i >>> 1)) 0)),
    qshift := 2, pshift := 5, dshift := 1, qmask := 3, do_qa := 4 }

/-- The global parameters that go with `sparse_param`. -/
def sparse_gparams : fqz_gparams :=
  { fqz_gparams.zero with
    vers := 5
    gflags := 0
    nparam := 1
    max_sym := 2
    p := [sparse_param] }

/-- The 22 bytes `fqz_store_parameters` writes for `sparse_gparams`: the two
global bytes, the seven header bytes, the `qmap` bytes 0 and 40, `ptab`, `dtab`. -/
def sparse_prelude : List Nat :=
  [5, 0, 0, 0, 118, 2, 34, 13, 175, 0, 40, 32, 32, 1, 255, 255, 1, 163, 2, 6, 10, 238]

/-- A block of 498 records of one quality value each, alternately 0 and 1. -/
def alt_records : List (List Nat) := (List.range 498).map (fun i => [i % 2])

/-- A slice of 499 records: 498 of length 1 and a last one of length 0. -/
def alt_slice : cram_slice :=
  { num_records := 499
    crecs := List.replicate 498 { len := 1, qual := 0, flags := 0 }
      ++ [{ len := 0, qual := 0, flags := 0 }] }

/-- A block of three records, the second equal to the first. -/
def twin_records : List (List Nat) := [[7, 7], [7, 7], [3]]

/-- The slice view of `twin_records`. -/
def twin_slice : cram_slice :=
  { num_records := 3
    crecs := [{ len := 2, qual := 0, flags := 0 }, { len := 2, qual := 2, flags := 0 },
      { len := 1, qual := 4, flags := 0 }] }

/-! ## The words of the specification -/

/-- The bytes for one count `k` as the specification words them: `k/255` bytes
of 255, then the byte `k % 255`. -/
def count_bytes (k : Nat) : List Nat := List.replicate (k / 255) 255 ++ [k % 255]

/-- The flatten pass as the specification words it: for each value `j = 0, 1,
2, ...` up to the largest value present, the bytes of the count of entries
equal to `j`. -/
def flatten_spec (t : List Nat) : List Nat :=
  if t = [] then []
  else (List.range (t.foldl max 0 + 1)).flatMap (fun j => count_bytes (t.count j))

/-- The expansion the specification states for the stored bytes: after any two
consecutive equal bytes, the next byte is a count `c` and stands for `c`
additional copies of that byte.  `last` is the byte before the current one,
if it can start a pair. -/
def rle_expand : Option Nat → List Nat → List Nat
  | _, [] => []
  | _, [b] => [b]
  | last, b :: c :: rest =>
    if last = some b then b :: (List.replicate c b ++ rle_expand none rest)
    else b :: rle_expand (some b) (c :: rest)

/-- Whether the quality value `v` occurs in the block `inp`. -/
def present (inp : List Nat) (v : Nat) : Bool := inp.any (fun b => b % 256 == v)

/-- The quality values that occur in the block, in increasing order. -/
def present_values (inp : List Nat) : List Nat := (List.range 256).filter (present inp)

/-- The number of distinct quality values of the block. -/
def distinct_values (inp : List Nat) : Nat := (present_values inp).length

/-- The highest quality value present in the block, 0 for an empty block. -/
def highest_value (inp : List Nat) : Nat := (present_values inp).foldl max 0

/-- The number of present quality values below `v`. -/
def value_rank (inp : List Nat) (v : Nat) : Nat := ((List.range v).filter (present inp)).length

/-- The number of records of the list equal to the record before them, `prev`
being the record before the first one, if any. -/
def dup_after (prev : Option (List Nat)) : List (List Nat) → Nat
  | [] => 0
  | r :: rest => (if prev = some r then 1 else 0) + dup_after (some r) rest

/-- The number of records whose quality bytes equal those of the immediately
preceding record of the same length. -/
def dup_count (rs : List (List Nat)) : Nat := dup_after none rs

/-! ## Concrete inputs of the tuner and of the main loops -/

/-- A block of five quality values in two records. -/
def swap_qual : List Nat := [1, 2, 3, 4, 5]

/-- A slice for `swap_qual`: the first record, reversed, has `len` 2 but three
quality values (the second record's `qual` offset is 3); the second has `len`
2 and the two values left. -/
def swap_slice : cram_slice :=
  { num_records := 2
    crecs := [{ len := 2, qual := 0, flags := 16 }, { len := 2, qual := 3, flags := 0 }] }

/-- The records of scenario S2: 1000 records of 50 quality values, the first
500 all 20, the other 500 all 40. -/
def s2_records : List (List Nat) :=
  List.replicate 500 (List.replicate 50 20) ++ List.replicate 500 (List.replicate 50 40)

/-- The quality block of scenario S2. -/
def s2_qual : List Nat := s2_records.flatten

/-- The slice of scenario S2: record `i` has length 50 and its quality values
at offset `50 i`. -/
def s2_slice : cram_slice :=
  { num_records := 1000
    crecs := (List.range 1000).map (fun i => { len := 50, qual := ((50 * i : Nat) : Int), flags := 0 }) }

/-- The outcomes of the floating-point computations of the tuner on scenario
S2 with strategy 0: every record has the average-quality bin 1, so the three
entropy sums are the same sum and no selector is introduced; there is no READ2
record; and `log(50.0/8)/log(2)+.5` is 3.14, which the conversion to `int`
makes 3. -/
def s2_floats : TuneFloats :=
  { e4_best := false, e2_best := false, r2_split := false, pshift := 3 }

/-- A parameter block without tables: `qmap` and `qtab` the identity,
`qbits = qshift = 5`, and `do_dedup` as given (0 or 1). -/
def twin_param (dd : Nat) : fqz_param :=
  { fqz_param.zero with
    pflags := 2 * dd, do_dedup := dd, max_sym := 255, qbits := 5, qshift := 5, qmask := 31,
    qmap := List.range 256, qtab := List.range 256 }

/-- The global parameters that go with `twin_param`. -/
def twin_gparams (dd : Nat) : fqz_gparams :=
  { fqz_gparams.zero with vers := 5, gflags := 0, nparam := 1, max_sym := 255, p := [twin_param dd] }

/-! ## The symbol stream as a channel, and the main loops in step -/

/-- The symbol channel that delivers the values of the symbols `syms`, in
order, wherever the decoder is started. -/
def sym_channel (syms : List EncSym) : Nat → Nat := fun n => (syms.map EncSym.value).getD n 0

/-- The length of the record at a header of the encoder's main loop: `len =
q_len[rec]` while `rec < num_records`, else `in_size -
crecs[num_records-1].qual`, as a C `int`. -/
def record_len (s : cram_slice) (q_len : List Nat) (in_size : Nat) (rec : Int) :
    Except Fault Int :=
  if rec < (s.num_records : Int) then
    (if rec < 0 then .error .slice
     else match q_len.get? rec.toNat with
       | none => .error .slice
       | some v => .ok (toInt32 v))
  else match crec_at s ((s.num_records : Int) - 1) with
    | .error f => .error f
    | .ok r => .ok (toInt32 (toSizeT ((in_size : Int) - r.qual)))

/-- The variables of `uncompress_block_fqz2f` at the entry of its main loop,
for the parameters `gp` it has read: the tables of every block pre-shifted,
`pm = gp.p`, `nrec = 1000`, `state` all zero, nothing written and no symbol
taken. -/
def dec_start (gp : fqz_gparams) : DecSt :=
  { gp := { gp with p := (gp.p.take gp.nparam).map preshift ++ gp.p.drop gp.nparam }
    pm := 0, i := 0, rec_ := 0, nrec := 1000, rev_a := [], len_a := []
    state := { qctx := 0, p := 0, add_d := 0, delta := 0, prevq := 0, s := 0, qtot := 0, qlen := 0 }
    rev := 0, last_len := 0, last := 0, uncomp := [], nsym := 0, trace := [] }

/-- The offset `crecs[i].qual` of the quality values of record `i`. -/
def qual_offset (s : cram_slice) (i : Nat) : Int :=
  match s.crecs.get? i with
  | some r => r.qual
  | none => 0

/-- The quality length of record `i` as the specification words it: the
difference of consecutive `qual` offsets, and for the last record `in_size`
minus its offset. -/
def qual_length (s : cram_slice) (in_size : Nat) (i : Nat) : Int :=
  if i + 1 < s.num_records then qual_offset s (i + 1) - qual_offset s i
  else (in_size : Int) - qual_offset s i

/-- The sequence `dsqr` as the specification words it: 0, then 1 three times,
2 five times, 3 seven times, 4 eight times, 5 eleven times, 6 thirteen times
and 7 sixteen times. -/
def dsqr_spec : List Nat :=
  [0] ++ List.replicate 3 1 ++ List.replicate 5 2 ++ List.replicate 7 3 ++ List.replicate 8 4
    ++ List.replicate 11 5 ++ List.replicate 13 6 ++ List.replicate 16 7

/-! ## The packed fields, the position table of the tuner and a prelude of fixed-length records -/

/-- The six members of a parameter block that `fqz_store_parameters1` packs two
to a byte: `qbits`, `qshift`, `qloc`, `sloc`, `ploc`, `dloc`. -/
def packed_fields (pm : fqz_param) : List Nat :=
  [pm.qbits, pm.qshift, pm.qloc, pm.sloc, pm.ploc, pm.dloc]

/-- The position table `fqz_pick_parameters` builds from `pbits` and `pshift`:
`ptab[i] = MIN((1<<pbits)-1, i>>pshift)` for `i` in `[0,1024)`. -/
def tuner_ptab (pbits pshift : Nat) : List Nat :=
  (List.range 1024).map (fun i => min ((1 <<< pbits) - 1) (i >>> pshift))

/-- A prelude of one parameter block with `PFLAG_DO_LEN` and no table: version
5, `gflags` 0, `context` 0, `pflags` 4, `max_sym` 255, `qbits = qshift = 5`. -/
def fixed_prelude : List Nat := [5, 0, 0, 0, 4, 255, 85, 0, 0]

/-! ## ITF-8 and LTF-8 integers (`cram_io.h`) -/

/-- `~m` on the 32-bit pattern of an `int`. -/
def not32 (m : Nat) : Nat := U32 - 1 - m % U32

/-- `itf8_put(cp, val)`: the bytes written from `cp` on and the value
returned.  `val >> k` on the `int32_t` is the arithmetic shift. -/
def itf8_put (val : Int) : List Nat × Nat :=
  if ofInt32 val &&& not32 0x7f = 0 then
    ([ofInt32 val % 256], 1)
  else if ofInt32 val &&& not32 0x3fff = 0 then
    ([(ofInt32 (val >>> (8 : Nat)) ||| 0x80) % 256, ofInt32 val &&& 0xff], 2)
  else if ofInt32 val &&& not32 0x1fffff = 0 then
    ([(ofInt32 (val >>> (16 : Nat)) ||| 0xc0) % 256, ofInt32 (val >>> (8 : Nat)) &&& 0xff,
      ofInt32 val &&& 0xff], 3)
  else if ofInt32 val &&& not32 0x0fffffff = 0 then
    ([(ofInt32 (val >>> (24 : Nat)) ||| 0xe0) % 256, ofInt32 (val >>> (16 : Nat)) &&& 0xff,
      ofInt32 (val >>> (8 : Nat)) &&& 0xff, ofInt32 val &&& 0xff], 4)
  else
    ([(0xf0 ||| (ofInt32 (val >>> (28 : Nat)) &&& 0xff)) % 256,
      ofInt32 (val >>> (20 : Nat)) &&& 0xff, ofInt32 (val >>> (12 : Nat)) &&& 0xff,
      ofInt32 (val >>> (4 : Nat)) &&& 0xff, ofInt32 val &&& 0x0f], 5)

/-- `itf8_get(cp, val_p)`: the value stored in `*val_p` and the value
returned; `inp` is the buffer from `cp` to its end.  The shifts of the bytes,
promoted to `int`, are taken modulo 2^32. -/
def itf8_get (inp : List Nat) : Except Fault (Int × Nat) := do
  let up0 ← rd inp 0
  if up0 < 0x80 then
    pure (toInt32 up0, 1)
  else if up0 < 0xc0 then
    let up1 ← rd inp 1
    pure (toInt32 (((up0 <<< 8) ||| up1) &&& 0x3fff), 2)
  else if up0 < 0xe0 then
    let up1 ← rd inp 1
    let up2 ← rd inp 2
    pure (toInt32 (((up0 <<< 16) ||| (up1 <<< 8) ||| up2) &&& 0x1fffff), 3)
  else if up0 < 0xf0 then
    let up1 ← rd inp 1
    let up2 ← rd inp 2
    let up3 ← rd inp 3
    pure (toInt32 (((up0 <<< 24) ||| (up1 <<< 16) ||| (up2 <<< 8) ||| up3) &&& 0x0fffffff), 4)
  else
    let up1 ← rd inp 1
    let up2 ← rd inp 2
    let up3 ← rd inp 3
    let up4 ← rd inp 4
    pure (toInt32 (((up0 &&& 0x0f) <<< 28) ||| (up1 <<< 20) ||| (up2 <<< 12) ||| (up3 <<< 4)
      ||| (up4 &&& 0x0f)), 5)

/-- The macro `itf8_size(v)` on an `int32_t`. -/
def itf8_size (v : Int) : Nat :=
  if ofInt32 v &&& not32 0x7f = 0 then 1
  else if ofInt32 v &&& not32 0x3fff = 0 then 2
  else if ofInt32 v &&& not32 0x1fffff = 0 then 3
  else if ofInt32 v &&& not32 0xfffffff = 0 then 4
  else 5

/-- The value of a 64-bit pattern read as a C `int64_t`. -/
def toInt64 (n : Nat) : Int :=
  if n % U64 < 9223372036854775808 then (n % U64 : Nat) else (n % U64 : Nat) - (U64 : Int)

/-- Conversion of a C `int64_t` to `uint64_t`. -/
def ofInt64 (z : Int) : Nat := (z % (U64 : Int)).toNat

/-- `~m` on a 64-bit pattern. -/
def not64 (m : Nat) : Nat := U64 - 1 - m % U64

/-- `ltf8_put(cp, val)`: the bytes written from `cp` on and the value
returned.  `val >> k` on the `int64_t` is the arithmetic shift, and a byte
store keeps the low eight bits. -/
def ltf8_put (val : Int) : List Nat × Nat :=
  if ofInt64 val &&& not64 ((1 <<< 7) - 1) = 0 then
    ([ofInt64 val % 256], 1)
  else if ofInt64 val &&& not64 ((1 <<< (6 + 8)) - 1) = 0 then
    ([(ofInt64 (val >>> (8 : Nat)) ||| 0x80) % 256, ofInt64 val &&& 0xff], 2)
  else if ofInt64 val &&& not64 ((1 <<< (5 + 2 * 8)) - 1) = 0 then
    ([(ofInt64 (val >>> (16 : Nat)) ||| 0xc0) % 256, ofInt64 (val >>> (8 : Nat)) &&& 0xff,
      ofInt64 val &&& 0xff], 3)
  else if ofInt64 val &&& not64 ((1 <<< (4 + 3 * 8)) - 1) = 0 then
    ([(ofInt64 (val >>> (24 : Nat)) ||| 0xe0) % 256, ofInt64 (val >>> (16 : Nat)) &&& 0xff,
      ofInt64 (val >>> (8 : Nat)) &&& 0xff, ofInt64 val &&& 0xff], 4)
  else if ofInt64 val &&& not64 ((1 <<< (3 + 4 * 8)) - 1) = 0 then
    ([(ofInt64 (val >>> (32 : Nat)) ||| 0xf0) % 256, ofInt64 (val >>> (24 : Nat)) &&& 0xff,
      ofInt64 (val >>> (16 : Nat)) &&& 0xff, ofInt64 (val >>> (8 : Nat)) &&& 0xff,
      ofInt64 val &&& 0xff], 5)
  else if ofInt64 val &&& not64 ((1 <<< (2 + 5 * 8)) - 1) = 0 then
    ([(ofInt64 (val >>> (40 : Nat)) ||| 0xf8) % 256, ofInt64 (val >>> (32 : Nat)) &&& 0xff,
      ofInt64 (val >>> (24 : Nat)) &&& 0xff, ofInt64 (val >>> (16 : Nat)) &&& 0xff,
      ofInt64 (val >>> (8 : Nat)) &&& 0xff, ofInt64 val &&& 0xff], 6)
  else if ofInt64 val &&& not64 ((1 <<< (1 + 6 * 8)) - 1) = 0 then
    ([(ofInt64 (val >>> (48 : Nat)) ||| 0xfc) % 256, ofInt64 (val >>> (40 : Nat)) &&& 0xff,
      ofInt64 (val >>> (32 : Nat)) &&& 0xff, ofInt64 (val >>> (24 : Nat)) &&& 0xff,
      ofInt64 (val >>> (16 : Nat)) &&& 0xff, ofInt64 (val >>> (8 : Nat)) &&& 0xff,
      ofInt64 val &&& 0xff], 7)
  else if ofInt64 val &&& not64 ((1 <<< (7 * 8)) - 1) = 0 then
    ([(ofInt64 (val >>> (56 : Nat)) ||| 0xfe) % 256, ofInt64 (val >>> (48 : Nat)) &&& 0xff,
      ofInt64 (val >>> (40 : Nat)) &&& 0xff, ofInt64 (val >>> (32 : Nat)) &&& 0xff,
      ofInt64 (val >>> (24 : Nat)) &&& 0xff, ofInt64 (val >>> (16 : Nat)) &&& 0xff,
      ofInt64 (val >>> (8 : Nat)) &&& 0xff, ofInt64 val &&& 0xff], 8)
  else
    ([0xff, ofInt64 (val >>> (56 : Nat)) &&& 0xff, ofInt64 (val >>> (48 : Nat)) &&& 0xff,
      ofInt64 (val >>> (40 : Nat)) &&& 0xff, ofInt64 (val >>> (32 : Nat)) &&& 0xff,
      ofInt64 (val >>> (24 : Nat)) &&& 0xff, ofInt64 (val >>> (16 : Nat)) &&& 0xff,
      ofInt64 (val >>> (8 : Nat)) &&& 0xff, ofInt64 val &&& 0xff], 9)

/-- `ltf8_get(cp, val_p)`: the value stored in `*val_p` and the value
returned; `inp` is the buffer from `cp` to its end.  The bytes are widened
to `uint64_t` before they are shifted (by 56 bits at most, so no bit is
lost), and the result is converted to `int64_t`. -/
def ltf8_get (inp : List Nat) : Except Fault (Int × Nat) := do
  let up0 ← rd inp 0
  if up0 < 0x80 then
    pure (toInt64 up0, 1)
  else if up0 < 0xc0 then
    let up1 ← rd inp 1
    pure (toInt64 (((up0 <<< 8) ||| up1) &&& ((1 <<< (6 + 8)) - 1)), 2)
  else if up0 < 0xe0 then
    let up1 ← rd inp 1
    let up2 ← rd inp 2
    pure (toInt64 (((up0 <<< 16) ||| (up1 <<< 8) ||| up2) &&& ((1 <<< (5 + 2 * 8)) - 1)), 3)
  else if up0 < 0xf0 then
    let up1 ← rd inp 1
    let up2 ← rd inp 2
    let up3 ← rd inp 3
    pure (toInt64 (((up0 <<< 24) ||| (up1 <<< 16) |||
      (up2 <<< 8) ||| up3) &&& ((1 <<< (4 + 3 * 8)) - 1)), 4)
  else if up0 < 0xf8 then
    let up1 ← rd inp 1
    let up2 ← rd inp 2
    let up3 ← rd inp 3
    let up4 ← rd inp 4
    pure (toInt64 (((up0 <<< 32) ||| (up1 <<< 24) |||
      (up2 <<< 16) ||| (up3 <<< 8) ||| up4) &&& ((1 <<< (3 + 4 * 8)) - 1)), 5)
  else if up0 < 0xfc then
    let up1 ← rd inp 1
    let up2 ← rd inp 2
    let up3 ← rd inp 3
    let up4 ← rd inp 4
    let up5 ← rd inp 5
    pure (toInt64 (((up0 <<< 40) ||| (up1 <<< 32) ||| (up2 <<< 24) |||
      (up3 <<< 16) ||| (up4 <<< 8) ||| up5) &&& ((1 <<< (2 + 5 * 8)) - 1)), 6)
  else if up0 < 0xfe then
    let up1 ← rd inp 1
    let up2 ← rd inp 2
    let up3 ← rd inp 3
    let up4 ← rd inp 4
    let up5 ← rd inp 5
    let up6 ← rd inp 6
    pure (toInt64 (((up0 <<< 48) ||| (up1 <<< 40) ||| (up2 <<< 32) |||
      (up3 <<< 24) ||| (up4 <<< 16) ||| (up5 <<< 8) ||| up6) &&& ((1 <<< (1 + 6 * 8)) - 1)), 7)
  else if up0 < 0xff then
    let up1 ← rd inp 1
    let up2 ← rd inp 2
    let up3 ← rd inp 3
    let up4 ← rd inp 4
    let up5 ← rd inp 5
    let up6 ← rd inp 6
    let up7 ← rd inp 7
    pure (toInt64 (((up1 <<< 48) ||| (up2 <<< 40) ||| (up3 <<< 32) |||
      (up4 <<< 24) ||| (up5 <<< 16) ||| (up6 <<< 8) ||| up7) &&& ((1 <<< (7 * 8)) - 1)), 8)
  else
    let up1 ← rd inp 1
    let up2 ← rd inp 2
    let up3 ← rd inp 3
    let up4 ← rd inp 4
    let up5 ← rd inp 5
    let up6 ← rd inp 6
    let up7 ← rd inp 7
    let up8 ← rd inp 8
    pure (toInt64 ((up1 <<< 56) ||| (up2 <<< 48) ||| (up3 <<< 40) ||| (up4 <<< 32) |||
      (up5 <<< 24) ||| (up6 <<< 16) ||| (up7 <<< 8) ||| up8), 9)

/-! ## Seven-bit variable-length integers (`cram_io.h`) -/

/-- The loop `do { i++; v >>= 7; } while (v);` of `uint7_size`. -/
def uint7_size_loop : Nat → Nat → Nat → Except Fault Nat
  | 0, _, _ => .error .fuel
  | fuel + 1, i, v =>
    let i := i + 1
    let v := v >>> 7
    if v ≠ 0 then uint7_size_loop fuel i v else .ok i

/-- `uint7_size(v)`: a `uint64_t` has at most ten groups of seven bits. -/
def uint7_size (v : Nat) : Except Fault Nat := uint7_size_loop 10 0 v

/-- The loop `do { s += 7; o >>= 7; } while (o);` of `uint7_put`. -/
def uint7_put_count : Nat → Nat → Nat → Except Fault Nat
  | 0, _, _ => .error .fuel
  | fuel + 1, s, o =>
    let s := s + 7
    let o := o >>> 7
    if o ≠ 0 then uint7_put_count fuel s o else .ok s

/-- The loop `do { s -= 7; *cp++ = ((v>>s)&0x7f) + (s?128:0); } while (s);`
of `uint7_put`: the bytes written.  On entry `s` is a positive multiple of
seven. -/
def uint7_put_bytes : Nat → Nat → Nat → Except Fault (List Nat)
  | 0, _, _ => .error .fuel
  | fuel + 1, s, v =>
    let s := s - 7
    let b := (((v >>> s) &&& 0x7f) + (if s ≠ 0 then 128 else 0)) % 256
    if s ≠ 0 then
      match uint7_put_bytes fuel s v with
      | .ok bs => .ok (b :: bs)
      | .error e => .error e
    else .ok [b]

/-- `uint7_put(cp, endp, v)`: the bytes written from `cp` on and the value
returned.  `room` is `endp - cp` when `endp` is not null. -/
def uint7_put (room : Option Int) (v : Nat) : Except Fault (List Nat × Nat) := do
  let s ← uint7_put_count 10 0 v
  if (match room with
      | some r => decide (r * 7 < (s : Int))
      | none => false) then
    pure ([], 0)
  else
    let bs ← uint7_put_bytes s s v
    pure (bs, bs.length)

/-- `sint7_put(cp, endp, v)`: `uint7_put` of the zig-zag pattern
`(v >> 63) ^ (v << 1)`, the left shift keeping the low 64 bits. -/
def sint7_put (room : Option Int) (v : Int) : Except Fault (List Nat × Nat) :=
  uint7_put room (ofInt64 (v >>> (63 : Nat)) ^^^ ((ofInt64 v <<< 1) % U64))

/-- The test `cp < endp` of `uint7_get` after `k` bytes were read; without an
end pointer the loop does not make it. -/
def uint7_more (room : Option Int) (k : Nat) : Bool :=
  match room with
  | some r => decide ((k : Int) < r)
  | none => true

/-- The loops `do { c = *cp++; v = (v<<7) | (c & 0x7f); } while (...)` of
`uint7_get`: `inp` is the buffer from `cp` on, `k` the number of bytes read so
far, and with an end pointer the loop also stops when `cp` reaches it.  The
accumulator is an `int64_t`, kept as its 64-bit pattern. -/
def uint7_get_loop : List Nat → Nat → Nat → Option Int → Except Fault (Nat × Nat)
  | [], _, _, _ => .error .input
  | c :: rest, v, k, room =>
    let c := c % 256
    let k := k + 1
    let v := ((v <<< 7) % U64) ||| (c &&& 0x7f)
    if c &&& 0x80 ≠ 0 ∧ uint7_more room k = true then
      uint7_get_loop rest v k room
    else .ok (v, k)

/-- `uint7_get(cp, endp, val_p)`: the value stored in `*val_p` and the value
returned. -/
def uint7_get (inp : List Nat) (room : Option Int) : Except Fault (Nat × Nat) :=
  match room with
  | some r => if 0 ≥ r then .ok (0, 0) else uint7_get_loop inp 0 0 room
  | none => uint7_get_loop inp 0 0 room

/-- `sint7_get(cp, endp, v)`: the value stored in `*v` and the value
returned; `-(u & 1)` is the negation of a `uint64_t`. -/
def sint7_get (inp : List Nat) (room : Option Int) : Except Fault (Int × Nat) := do
  let (u, d) ← uint7_get inp room
  pure (toInt64 ((u >>> 1) ^^^ ((U64 - (u &&& 1)) % U64)), d)

/-! ## Decimal formatting (`cram_io.h`) -/

/-- Label `x0` of `append_uint32`: the last digit (`'0'` is 48). -/
def append_uint32_x0 (i : Nat) : List Nat := [(i + 48) % 256]

/-- Label `x1` of `append_uint32`. -/
def append_uint32_x1 (i : Nat) : List Nat := (i / 10 + 48) % 256 :: append_uint32_x0 (i % 10)

/-- Label `x2` of `append_uint32`. -/
def append_uint32_x2 (i : Nat) : List Nat := (i / 100 + 48) % 256 :: append_uint32_x1 (i % 100)

/-- Label `x3` of `append_uint32`. -/
def append_uint32_x3 (i : Nat) : List Nat :=
  (i / 1000 + 48) % 256 :: append_uint32_x2 (i % 1000)

/-- Label `x4` of `append_uint32`. -/
def append_uint32_x4 (i : Nat) : List Nat :=
  (i / 10000 + 48) % 256 :: append_uint32_x3 (i % 10000)

/-- Label `x5` of `append_uint32`. -/
def append_uint32_x5 (i : Nat) : List Nat :=
  (i / 100000 + 48) % 256 :: append_uint32_x4 (i % 100000)

/-- Label `x6` of `append_uint32`. -/
def append_uint32_x6 (i : Nat) : List Nat :=
  (i / 1000000 + 48) % 256 :: append_uint32_x5 (i % 1000000)

/-- Label `x7` of `append_uint32`. -/
def append_uint32_x7 (i : Nat) : List Nat :=
  (i / 10000000 + 48) % 256 :: append_uint32_x6 (i % 10000000)

/-- Label `x8` of `append_uint32`. -/
def append_uint32_x8 (i : Nat) : List Nat :=
  (i / 100000000 + 48) % 256 :: append_uint32_x7 (i % 100000000)

/-- Label `b1` of `append_uint32` and the lines after it; `j` is `i / 10`,
so `i -= j*10` does not wrap. -/
def append_uint32_b1 (i : Nat) : List Nat :=
  if i / 10 ≠ 0 then (i / 10 + 48) % 256 :: append_uint32_x0 (i - i / 10 * 10)
  else if i ≠ 0 then [(i + 48) % 256]
  else []

/-- Label `b3` of `append_uint32` and the line after it, falling through to
`b1`. -/
def append_uint32_b3 (i : Nat) : List Nat :=
  if i / 1000 ≠ 0 then (i / 1000 + 48) % 256 :: append_uint32_x2 (i - i / 1000 * 1000)
  else if i / 100 ≠ 0 then (i / 100 + 48) % 256 :: append_uint32_x1 (i - i / 100 * 100)
  else append_uint32_b1 i

/-- Label `b5` of `append_uint32` and the line after it, falling through to
`b3`. -/
def append_uint32_b5 (i : Nat) : List Nat :=
  if i / 100000 ≠ 0 then (i / 100000 + 48) % 256 :: append_uint32_x4 (i - i / 100000 * 100000)
  else if i / 10000 ≠ 0 then (i / 10000 + 48) % 256 :: append_uint32_x3 (i - i / 10000 * 10000)
  else append_uint32_b3 i

/-- Label `b7` of `append_uint32` and the line after it, falling through to
`b5`. -/
def append_uint32_b7 (i : Nat) : List Nat :=
  if i / 10000000 ≠ 0 then
    (i / 10000000 + 48) % 256 :: append_uint32_x6 (i - i / 10000000 * 10000000)
  else if i / 1000000 ≠ 0 then
    (i / 1000000 + 48) % 256 :: append_uint32_x5 (i - i / 1000000 * 1000000)
  else append_uint32_b5 i

/-- `append_uint32(cp, i)`: the bytes written from `cp` on, each by
`*cp++ = ...`; the pointer returned is `cp` advanced past them. -/
def append_uint32 (i : Nat) : List Nat :=
  if i = 0 then [48]
  else if i < 100 then append_uint32_b1 i
  else if i < 10000 then append_uint32_b3 i
  else if i < 1000000 then append_uint32_b5 i
  else if i < 100000000 then append_uint32_b7 i
  else if i / 1000000000 ≠ 0 then
    (i / 1000000000 + 48) % 256 :: append_uint32_x8 (i - i / 1000000000 * 1000000000)
  else if i / 100000000 ≠ 0 then
    (i / 100000000 + 48) % 256 :: append_uint32_x7 (i - i / 100000000 * 100000000)
  else append_uint32_b7 i

/-- `append_sub32(cp, i)`: nine digits, leading zeros included. -/
def append_sub32 (i : Nat) : List Nat :=
  let d8 := (i / 100000000 + 48) % 256
  let i := i % 100000000
  let d7 := (i / 10000000 + 48) % 256
  let i := i % 10000000
  let d6 := (i / 1000000 + 48) % 256
  let i := i % 1000000
  let d5 := (i / 100000 + 48) % 256
  let i := i % 100000
  let d4 := (i / 10000 + 48) % 256
  let i := i % 10000
  let d3 := (i / 1000 + 48) % 256
  let i := i % 1000
  let d2 := (i / 100 + 48) % 256
  let i := i % 100
  let d1 := (i / 10 + 48) % 256
  let i := i % 10
  [d8, d7, d6, d5, d4, d3, d2, d1, (i + 48) % 256]

/-- `append_uint64(cp, i)`: the bytes written from `cp` on; the pointer
returned is `cp` advanced past them.  The arguments passed on are converted
to `uint32_t`. -/
def append_uint64 (i : Nat) : List Nat :=
  if i ≤ 0xffffffff then append_uint32 (i % U32)
  else
    let j := i / 1000000000
    if j > 1000000000 then
      append_uint32 (j / 1000000000 % U32) ++ append_sub32 (j % 1000000000 % U32) ++
        append_sub32 (i % 1000000000 % U32)
    else
      append_uint32 (i / 1000000000 % U32) ++ append_sub32 (i % 1000000000 % U32)

/-! ## The words of the specification on decimal formatting -/

/-- Worded from the specification: the decimal representation of `i` in
ASCII, most significant digit first, without leading zeros, and the single
digit 0 for `i = 0`. -/
def decimal (i : Nat) : List Nat :=
  if i = 0 then [48] else (Nat.digits 10 i).reverse.map (fun d => d + 48)

/-! ## Reading within the input -/

/-- A run of reader code that either succeeds with a value satisfying `P` or
stops on a read past the end of the input. -/
def Reads {α : Type} (P : α → Prop) (r : Except Fault α) : Prop :=
  match r with
  | .ok a => P a
  | .error e => e = Fault.input

/-! ## Lemmas on the parameter reader -/

theorem Reads.bind {α β : Type} {P : α → Prop} {Q : β → Prop} {x : Except Fault α}
    {f : α → Except Fault β} (hx : Reads P x) (hf : ∀ a, P a → Reads Q (f a)) :
    Reads Q (x >>= f) := by
  cases x with
  | error e => simpa [Reads, bind, Except.bind] using hx
  | ok a => simpa [bind, Except.bind] using hf a hx

theorem Reads.pure {α : Type} {Q : α → Prop} {a : α} (h : Q a) :
    Reads Q (pure a : Except Fault α) := by
  simpa [Reads, pure, Except.pure] using h

theorem Reads.mono {α : Type} {P Q : α → Prop} {x : Except Fault α}
    (hx : Reads P x) (h : ∀ a, P a → Q a) : Reads Q x := by
  cases x with
  | error e => simpa [Reads] using hx
  | ok a => exact h a hx

theorem rd_reads (inp : List Nat) (k : Nat) :
    Reads (fun b => k < inp.length ∧ b < 256) (rd inp k) := by
  unfold rd
  by_cases hk : k < inp.length
  · simp only [List.get?_eq_getElem?, List.getElem?_eq_getElem hk, Reads]
    exact ⟨hk, Nat.mod_lt _ (by norm_num)⟩
  · simp only [List.get?_eq_getElem?, List.getElem?_eq_none (Nat.le_of_not_lt hk), Reads]

theorem read_run_reads (inp : List Nat) :
    ∀ (fuel k loop run_len : Nat), k ≤ inp.length → inp.length + 1 ≤ fuel + k →
      Reads (fun r => k < r.2 ∧ r.2 ≤ inp.length) (read_run inp fuel k loop run_len) := by
  intro fuel
  induction fuel with
  | zero =>
    intro k loop run_len hk h
    omega
  | succ n ih =>
    intro k loop run_len hk h
    unfold read_run
    have hr := rd_reads inp k
    cases hrd : rd inp k with
    | error e =>
      rw [hrd] at hr
      simpa [Reads] using hr
    | ok r =>
      rw [hrd] at hr
      simp only [Reads] at hr
      have hrec : ∀ l rl, Reads (fun r => k < r.2 ∧ r.2 ≤ inp.length)
          (read_run inp n (k + 1) l rl) := by
        intro l rl
        exact (ih (k + 1) l rl (by omega) (by omega)).mono (fun a ha => ⟨by omega, ha.2⟩)
      simp only []
      split
      · exact hrec _ _
      · split
        · exact hrec _ _
        · simp only [Reads]
          omega

theorem read_loop_reads (inp : List Nat) (size : Nat) :
    ∀ (fuel i k : Nat) (last : Int) (r2 : Nat) (array : List Nat),
      k ≤ inp.length → r2 ≤ 255 → 256 * (inp.length - k) + r2 + 1 ≤ fuel →
      Reads (fun r => k ≤ r.2 ∧ r.2 ≤ inp.length)
        (read_loop inp size fuel i k last r2 array) := by
  intro fuel
  induction fuel with
  | zero =>
    intro i k last r2 array hk hr2 h
    omega
  | succ n ih =>
    intro i k last r2 array hk hr2 h
    unfold read_loop
    split
    · by_cases h2 : r2 = 0
      · subst h2
        simp only [ne_eq, not_true_eq_false, ↓reduceIte, true_and]
        have hrun := read_run_reads inp (inp.length + 1 - k) k 0 0 hk (by omega)
        cases hr : read_run inp (inp.length + 1 - k) k 0 0 with
        | error e =>
          rw [hr] at hrun
          simpa [Reads] using hrun
        | ok v =>
          obtain ⟨run_len, k1⟩ := v
          rw [hr] at hrun
          simp only [Reads] at hrun
          simp only []
          split
          · have hc := rd_reads inp k1
            cases hrd : rd inp k1 with
            | error e =>
              rw [hrd] at hc
              simpa [Reads] using hc
            | ok c =>
              rw [hrd] at hc
              simp only [Reads] at hc
              simp only []
              exact (ih _ _ _ _ _ (by omega) (by omega) (by omega)).mono
                (fun a ha => ⟨by omega, ha.2⟩)
          · exact (ih _ _ _ _ _ (by omega) (by omega) (by omega)).mono
              (fun a ha => ⟨by omega, ha.2⟩)
      · simp only [ne_eq, h2, not_false_eq_true, ↓reduceIte, false_and]
        exact ih _ _ _ _ _ hk (by omega) (by omega)
    · simp only [Reads]
      omega

theorem read_array_reads (inp : List Nat) (size : Nat) :
    Reads (fun r => r.2 ≤ inp.length) (read_array inp size) := by
  unfold read_array
  exact (read_loop_reads inp size _ 0 0 (-1) 0 [] (by omega) (by omega) (by omega)).mono
    (fun a ha => ha.2)

theorem read_tab_reads (inp : List Nat) (use size : Nat) (dflt : List Nat) (n : Nat)
    (hn : n ≤ inp.length) :
    Reads (fun r : List Nat × Nat => n ≤ r.2 ∧ r.2 ≤ inp.length)
      (read_tab inp use size dflt n) := by
  unfold read_tab
  split
  · have h := read_array_reads (inp.drop n) size
    cases hr : read_array (inp.drop n) size with
    | error e =>
      rw [hr] at h
      simpa [Reads] using h
    | ok r =>
      rw [hr] at h
      simp only [Reads, List.length_drop] at h ⊢
      omega
  · simp only [Reads]
    omega

theorem read_qmap_reads (inp : List Nat) (sq max_sym n : Nat) (hn : n ≤ inp.length) :
    Reads (fun r : List Nat × Nat => n ≤ r.2 ∧ r.2 ≤ inp.length)
      (read_qmap inp sq max_sym n) := by
  unfold read_qmap
  split
  · split
    · simp only [Reads]
      omega
    · simp only [Reads]
  · simp only [Reads]
    omega

theorem read_qtab_reads (inp : List Nat) (qbits use : Nat) (old : List Nat) (n : Nat)
    (hn : n ≤ inp.length) :
    Reads (fun r : List Nat × Nat => n ≤ r.2 ∧ r.2 ≤ inp.length)
      (read_qtab inp qbits use old n) := by
  unfold read_qtab
  split
  · exact read_tab_reads inp use 256 _ n hn
  · simp only [Reads]
    omega

theorem fqz_read_parameters1_reads (pm : fqz_param) (inp : List Nat) :
    Reads (fun r => 7 ≤ r.2 ∧ r.2 ≤ inp.length) (fqz_read_parameters1 pm inp) := by
  unfold fqz_read_parameters1
  refine Reads.bind (rd_reads inp 0) (fun c0 _ => ?_)
  refine Reads.bind (rd_reads inp 1) (fun c1 _ => ?_)
  refine Reads.bind (rd_reads inp 2) (fun pflags _ => ?_)
  refine Reads.bind (rd_reads inp 3) (fun max_sym _ => ?_)
  refine Reads.bind (rd_reads inp 4) (fun b4 _ => ?_)
  refine Reads.bind (rd_reads inp 5) (fun b5 _ => ?_)
  refine Reads.bind (rd_reads inp 6) (fun b6 h6 => ?_)
  have h7 : 7 ≤ inp.length := by omega
  simp only []
  refine Reads.bind (read_qmap_reads inp _ max_sym 7 h7) (fun qm hqm => ?_)
  refine Reads.bind (read_qtab_reads inp _ _ _ qm.2 hqm.2) (fun qt hqt => ?_)
  refine Reads.bind (read_tab_reads inp _ 1024 _ qt.2 hqt.2) (fun pt hpt => ?_)
  refine Reads.bind (read_tab_reads inp _ 256 _ pt.2 hpt.2) (fun dt hdt => ?_)
  refine Reads.pure ?_
  simp only []
  omega

theorem read_blocks_reads (junk : fqz_param) (inp : List Nat) :
    ∀ (n max_sym in_idx : Nat), in_idx ≤ inp.length →
      Reads (fun r => in_idx ≤ r.2.2 ∧ r.2.2 ≤ inp.length ∧ r.1.length = n)
        (read_blocks junk inp n max_sym in_idx) := by
  intro n
  induction n with
  | zero =>
    intro max_sym in_idx h
    simp [read_blocks, Reads, h]
  | succ n ih =>
    intro max_sym in_idx h
    unfold read_blocks
    have h1 := fqz_read_parameters1_reads junk (inp.drop in_idx)
    cases hr : fqz_read_parameters1 junk (inp.drop in_idx) with
    | error e =>
      rw [hr] at h1
      simpa [Reads] using h1
    | ok r =>
      rw [hr] at h1
      simp only [Reads, List.length_drop] at h1
      simp only []
      have h2 := ih (if max_sym < r.1.max_sym then r.1.max_sym else max_sym) (in_idx + r.2)
        (by omega)
      cases hb : read_blocks junk inp n (if max_sym < r.1.max_sym then r.1.max_sym else max_sym)
          (in_idx + r.2) with
      | error e =>
        rw [hb] at h2
        simpa [Reads] using h2
      | ok rest =>
        rw [hb] at h2
        simp only [Reads] at h2 ⊢
        simp only [List.length_cons]
        omega

theorem read_nparam_reads (inp : List Nat) (gflags n : Nat) (hn : n ≤ inp.length) :
    Reads (fun r : Nat × Nat => n ≤ r.2 ∧ r.2 ≤ inp.length) (read_nparam inp gflags n) := by
  unfold read_nparam
  split
  · have h := rd_reads inp n
    cases hr : rd inp n with
    | error e =>
      rw [hr] at h
      simpa [Reads] using h
    | ok v =>
      rw [hr] at h
      simp only [Reads] at h ⊢
      omega
  · simp only [Reads]
    omega

theorem read_stab_reads (inp : List Nat) (gflags nparam n : Nat) (hn : n ≤ inp.length) :
    Reads (fun r : Nat × List Nat × Nat => n ≤ r.2.2 ∧ r.2.2 ≤ inp.length)
      (read_stab inp gflags nparam n) := by
  unfold read_stab
  split
  · have h := rd_reads inp n
    cases hr : rd inp n with
    | error e =>
      rw [hr] at h
      simpa [Reads] using h
    | ok m =>
      rw [hr] at h
      simp only [Reads] at h
      simp only []
      have h2 := read_array_reads (inp.drop (n + 1)) 256
      cases ha : read_array (inp.drop (n + 1)) 256 with
      | error e =>
        rw [ha] at h2
        simpa [Reads] using h2
      | ok r =>
        rw [ha] at h2
        simp only [Reads, List.length_drop] at h2 ⊢
        omega
  · simp only [Reads]
    omega

/-- What `fqz_read_parameters` does once the version byte is 5. -/
theorem fqz_read_parameters_v5 (junk : fqz_param) (gp : fqz_gparams) (b : Nat)
    (rest : List Nat) (hb : b % 256 = 5) :
    Reads (fun r => ∃ n : Nat, r.2 = (n : Int) ∧ 2 ≤ n ∧ n ≤ (b :: rest).length)
      (fqz_read_parameters junk gp (b :: rest)) := by
  unfold fqz_read_parameters
  have h0 : rd (b :: rest) 0 = .ok 5 := by simp [rd, hb]
  rw [h0]
  simp only [bind, Except.bind, ne_eq, not_true_eq_false, ↓reduceIte]
  have key : Reads (fun r => ∃ n : Nat, r.2 = (n : Int) ∧ 2 ≤ n ∧ n ≤ (b :: rest).length)
      (rd (b :: rest) 1 >>= fun gflags =>
        read_nparam (b :: rest) gflags 2 >>= fun np =>
        read_stab (b :: rest) gflags np.1 np.2 >>= fun st =>
        read_blocks junk (b :: rest) np.1 0 st.2.2 >>= fun r =>
        (pure ({ gp with
            vers := 5
            gflags := gflags
            nparam := np.1
            max_sel := st.1
            stab := st.2.1
            max_sym := r.2.1
            p := r.1 }, (r.2.2 : Int)) : Except Fault (fqz_gparams × Int))) := by
    refine Reads.bind (rd_reads (b :: rest) 1) (fun gflags hg => ?_)
    have h2 : 2 ≤ (b :: rest).length := by omega
    refine Reads.bind (read_nparam_reads (b :: rest) gflags 2 h2) (fun np hnp => ?_)
    refine Reads.bind (read_stab_reads (b :: rest) gflags np.1 np.2 hnp.2) (fun st hst => ?_)
    refine Reads.bind (read_blocks_reads junk (b :: rest) np.1 0 st.2.2 hst.2) (fun r hr => ?_)
    refine Reads.pure ⟨r.2.2, rfl, by omega, hr.2.1⟩
  exact key

/-! ## Lemmas on the context engine -/

/-- Reducing to 32 bits before masking with a 32-bit mask changes nothing. -/
theorem mod_u32_and (x m : Nat) (hm : m < U32) : (x % U32) &&& m = x &&& m := by
  apply Nat.eq_of_testBit_eq
  intro i
  have hU : U32 = 2 ^ 32 := by decide
  rw [Nat.testBit_and, Nat.testBit_and, hU, Nat.testBit_mod_two_pow]
  by_cases hi : i < 32
  · simp [hi]
  · have hmi : m.testBit i = false := by
      apply Nat.testBit_lt_two_pow
      calc m < 2 ^ 32 := by rw [← hU]; exact hm
        _ ≤ 2 ^ i := Nat.pow_le_pow_right (by norm_num) (by omega)
    simp [hi, hmi]

/-- The mask `CTX_SIZE-1` keeps the low 16 bits. -/
theorem and_ctx_mask (x : Nat) : x &&& (CTX_SIZE - 1) = x % 65536 := by
  have h : CTX_SIZE - 1 = 2 ^ 16 - 1 := by decide
  rw [h, Nat.and_pow_two_sub_one_eq_mod]

/-- Below `p = 1024` the value `fqz_update_ctx` returns is the formula. -/
theorem fqz_update_ctx_formula (pm : fqz_param) (st : fqz_state) (q : Nat)
    (hp : st.p < 1024) (hm : pm.qmask < U32) :
    (fqz_update_ctx pm st q).1 = ctx_formula pm st q := by
  unfold fqz_update_ctx ctx_formula
  simp only [and_ctx_mask, ptab_index, dtab_index, ptab_at, mod_u32_and _ _ hm]
  have h1 : min 1024 st.p = st.p := by omega
  have h2 : min st.p 1023 = st.p := by omega
  have h3 : min st.delta 255 = min 255 st.delta := Nat.min_comm _ _
  rw [h1, h2, h3, if_pos hp]
  simp only [U32]
  omega

/-! ## Lemmas on the decoder -/

/-- One iteration of the decoder's main loop. -/
theorem dec_loop_succ (rc : Nat → Nat) (out_size fuel : Nat) (d : DecSt) :
    dec_loop rc out_size (fuel + 1) d
      = if d.i < out_size then
          (match dec_iter rc out_size d with
           | .error e => .error e
           | .ok none => .ok none
           | .ok (some d1) => dec_loop rc out_size fuel d1)
        else .ok (some d) := rfl

/-- On a first byte other than 5 the reader stores it in `vers` and returns -1. -/
theorem read_bad_version (junk : fqz_param) (gp : fqz_gparams) (b : Nat) (rest : List Nat)
    (hb : b % 256 ≠ 5) :
    fqz_read_parameters junk gp (b :: rest) = .ok ({ gp with vers := b % 256 }, -1) := by
  unfold fqz_read_parameters
  have h0 : rd (b :: rest) 0 = .ok (b % 256) := by simp [rd]
  rw [h0]
  simp [bind, Except.bind, hb, pure, Except.pure]

theorem zero_gflags : fqz_gparams.zero.gflags = 0 := rfl

theorem zero_nparam : fqz_gparams.zero.nparam = 0 := rfl

theorem zero_p : fqz_gparams.zero.p = [] := rfl

theorem toSizeT_neg_one : toSizeT (-1) = 18446744073709551615 := by decide

/-- On a first byte other than 5 the decoder does not stop at the -1 of the
reader: it runs its main loop on the zeroed parameters. -/
theorem uncompress_bad_version (junk : fqz_param) (rc : SymChannel) (b : Nat) (rest : List Nat)
    (out_size : Nat) (hb : b % 256 ≠ 5) :
    uncompress_block_fqz2f junk rc (b :: rest) out_size
      = if out_size = 0 then .ok (some []) else .error .param := by
  unfold uncompress_block_fqz2f uncompress_main
  rw [read_bad_version junk _ b rest hb]
  simp only [bind, Except.bind, toSizeT_neg_one, Nat.not_lt_zero, ↓reduceIte]
  rw [dec_loop_succ]
  by_cases h0 : out_size = 0
  · subst h0
    simp [pure, Except.pure, zero_gflags]
  · have hpos : 0 < out_size := Nat.pos_of_ne_zero h0
    simp [hpos, h0, dec_iter, dec_grow, dec_header, deref, zero_nparam, zero_p, pure,
      Except.pure]

/-! ## Lemmas on the tuner -/

/-- The inner statistics loop on a buffer in two parts. -/
theorem stats_bytes_append (a b : List Nat) (t : Nat) (q : List Nat) :
    stats_bytes (a ++ b) t q = stats_bytes b (stats_bytes a t q).1 (stats_bytes a t q).2 := by
  induction a generalizing t q with
  | nil => rfl
  | cons x xs ih =>
    simp only [List.cons_append, stats_bytes]
    exact ih _ _

/-- The values `i % 16` for `i < 256 (n+1)` end with `long_read_chunk`. -/
theorem chunks_succ (n : Nat) :
    (List.range (256 * (n + 1))).map (fun i => i % 16)
      = (List.range (256 * n)).map (fun i => i % 16) ++ long_read_chunk := by
  have h : 256 * (n + 1) = 256 * n + 256 := by ring
  rw [h, List.range_add, List.map_append, List.map_map]
  congr 1
  unfold long_read_chunk
  apply List.map_congr_left
  intro i _
  simp only [Function.comp]
  omega

/-- The buffer `long_read_qual` is `long_read_chunk` eight times. -/
theorem long_read_qual_chunks :
    long_read_qual
      = [] ++ long_read_chunk ++ long_read_chunk ++ long_read_chunk ++ long_read_chunk
          ++ long_read_chunk ++ long_read_chunk ++ long_read_chunk ++ long_read_chunk := by
  have h := chunks_succ 7
  rw [chunks_succ 6, chunks_succ 5, chunks_succ 4, chunks_succ 3, chunks_succ 2, chunks_succ 1,
    chunks_succ 0] at h
  exact h

set_option maxRecDepth 10000000 in
/-- The inner statistics loop on the `k`-th chunk of `long_read_qual`: the sum
grows by 1920 and each of the 16 counts by 16. -/
theorem stats_chunk (k : Nat) (hk : k < 8) :
    stats_bytes long_read_chunk (1920 * k) (long_read_qhist (16 * k))
      = (1920 * (k + 1), long_read_qhist (16 * (k + 1))) := by
  interval_cases k <;> decide

set_option maxRecDepth 10000000 in
/-- The inner statistics loop on `long_read_qual`: the values sum to 15360 and
each of 0..15 occurs 128 times. -/
theorem long_read_hist :
    stats_bytes long_read_qual 0 (List.replicate 256 0) = (15360, long_read_qhist 128) := by
  have h0 := stats_chunk 0 (by decide)
  have h1 := stats_chunk 1 (by decide)
  have h2 := stats_chunk 2 (by decide)
  have h3 := stats_chunk 3 (by decide)
  have h4 := stats_chunk 4 (by decide)
  have h5 := stats_chunk 5 (by decide)
  have h6 := stats_chunk 6 (by decide)
  have h7 := stats_chunk 7 (by decide)
  norm_num at h0 h1 h2 h3 h4 h5 h6 h7
  have hz : List.replicate 256 0 = long_read_qhist 0 := by decide
  rw [long_read_qual_chunks, hz]
  simp only [List.nil_append, stats_bytes_append, h0, h1, h2, h3, h4, h5, h6, h7]

/-- The buffer `long_read_qual` has 2048 bytes. -/
theorem long_read_length : long_read_qual.length = 2048 := by
  simp [long_read_qual]

/-- The statistics loop of `qual_stats` on a block of one record that fills the
buffer: one pass of the inner loop over the whole buffer. -/
theorem stats_loop_single (s : cram_slice) (inp : List Nat) (st : QStats) (n : Nat)
    (hs : s.num_records = 1) (hn : inp.length = n) (h0 : 0 < n) (h1 : n < 2147483648)
    (hst : st.rec_ = 0) :
    stats_loop s [n] inp 3 0 0 st
      = .ok { rec_ := 1
              dups := st.dups
              qhist := (stats_bytes inp 0 st.qhist).2
              avg_qual :=
                st.avg_qual ++ [((20 * (stats_bytes inp 0 st.qhist).1 + n) / (2 * n)) % U32]
              avg := st.avg.modify (fun c => (c + 1) % U32)
                (min 2559 (((20 * (stats_bytes inp 0 st.qhist).1 + n) / (2 * n)) % U32)) } := by
  have ht : (inp.drop 0).take n = inp := by
    rw [List.drop_zero, List.take_of_length_le (by omega)]
  have hi : toInt32 n = (n : Int) := by
    unfold toInt32
    simp only [U32]
    split <;> omega
  unfold stats_loop
  simp only [hn, h0, hs, hst, if_true, Nat.lt_irrefl, false_and, if_false, List.get?_cons_zero,
    Nat.zero_lt_one, ht, hi]
  unfold stats_loop
  have hne : ¬ ((n : Int) = 0) := by omega
  simp [hn, hne]

set_option maxRecDepth 10000000 in
/-- The statistics `qual_stats` gathers on the long read: one record, no
duplicate, average quality 7.5. -/
theorem long_read_scan :
    qual_scan long_read_slice [2048] long_read_qual
      = .ok { rec_ := 1, dups := 0, qhist := long_read_qhist 128, avg_qual := [75],
              avg := (List.replicate 2560 0).modify (fun c => (c + 1) % U32) 75 } := by
  unfold qual_scan
  rw [show long_read_slice.num_records + 2 = 3 from rfl,
    stats_loop_single long_read_slice long_read_qual _ 2048 rfl long_read_length (by decide)
      (by decide) rfl]
  simp only [long_read_hist]
  rfl

set_option maxRecDepth 10000000 in
/-- For the long read at format 4, strategy 0, `fqz_pick_parameters` leaves the
parameters `long_read_gparams` and writes the prelude `long_read_prelude`. -/
theorem long_read_picked :
    fqz_pick_parameters long_read_floats 4 0 long_read_slice long_read_qual
      = .ok (long_read_gparams, long_read_slice, [2048], long_read_prelude) := by
  have hq : compute_q_len long_read_slice 2048 1 0 = .ok [2048] := by decide
  unfold fqz_pick_parameters qual_stats
  simp only [long_read_length]
  rw [show long_read_slice.num_records = 1 from rfl, hq]
  simp only [long_read_scan]
  rfl

/-! ## Lemmas on the encoder -/

/-- One iteration of the encoder's main loop. -/
theorem enc_loop_succ (frev : Nat) (s : cram_slice) (q_len inp : List Nat) (fuel : Nat)
    (e : EncSt) :
    enc_loop frev s q_len inp (fuel + 1) e
      = if e.i < inp.length then
          (match enc_iter frev s q_len inp e with
           | .error f => .error f
           | .ok e1 => enc_loop frev s q_len inp fuel e1)
        else .ok e := rfl

/-- Inside a record the encoder's main loop runs to the end of the buffer: with
`p` values of the record left, `i + p = in_size`, it returns. -/
theorem enc_loop_in_record (frev : Nat) (s : cram_slice) (q_len inp : List Nat)
    (hlen : inp.length < U32) :
    ∀ (n fuel : Nat) (e : EncSt), e.state.p = n → e.i + n = inp.length → n < fuel →
      (∃ pm, deref e.gp e.pm = .ok pm) →
      ∃ e1, enc_loop frev s q_len inp fuel e = .ok e1 := by
  intro n
  induction n with
  | zero =>
    intro fuel e _ hi hf _
    obtain ⟨f, rfl⟩ : ∃ f, fuel = f + 1 := ⟨fuel - 1, by omega⟩
    rw [enc_loop_succ, if_neg (by omega)]
    exact ⟨e, rfl⟩
  | succ n ih =>
    intro fuel e hp hi hf hpm
    obtain ⟨f, rfl⟩ : ∃ f, fuel = f + 1 := ⟨fuel - 1, by omega⟩
    obtain ⟨pm, hd⟩ := hpm
    have hlt : e.i < inp.length := by omega
    rw [enc_loop_succ, if_pos hlt]
    unfold enc_iter
    rw [if_neg (by omega)]
    unfold enc_quality
    rw [hd]
    simp only [List.get?_eq_getElem?, List.getElem?_eq_getElem hlt]
    apply ih
    · simp only [fqz_update_ctx, hp, U32]
      simp only [U32] at hlen
      omega
    · simp only
      omega
    · omega
    · exact ⟨pm, hd⟩

/-- Without `GFLAG_DO_REV`, `compress_main` is the main loop on the input. -/
theorem compress_main_no_rev (frev : Nat) (gp : fqz_gparams) (s : cram_slice)
    (q_len inp : List Nat) (e : EncSt) (h : gp.gflags &&& GFLAG_DO_REV = 0)
    (he : enc_loop frev s q_len inp (inp.length + 9223372036854775808 + 1) (enc_start gp)
      = .ok e) :
    compress_main frev gp s q_len inp = .ok (inp, e.out.reverse) := by
  unfold compress_main
  simp only [h, ne_eq, not_true_eq_false, if_false, he]

/-- Without `GFLAG_DO_REV`, `compress_block_fqz2f` is the tuner followed by the
main loop. -/
theorem compress_block_no_rev (fl : TuneFloats) (frev vers : Nat) (s s1 : cram_slice)
    (inp q_len comp : List Nat) (gp : fqz_gparams) (syms : List EncSym)
    (hp : fqz_pick_parameters fl (vers &&& 255) (vers >>> 8) s inp = .ok (gp, s1, q_len, comp))
    (h : gp.gflags &&& GFLAG_DO_REV = 0)
    (hm : compress_main frev gp s1 q_len inp = .ok (inp, syms)) :
    compress_block_fqz2f fl frev vers s inp
      = .ok { prelude := comp, symbols := syms, in_after := inp, slice_after := clear_sel s1 } := by
  unfold compress_block_fqz2f
  simp only [hp, hm, h, ne_eq, not_true_eq_false, if_false]

set_option maxRecDepth 10000000 in
/-- The first iteration of the encoder's main loop on the long read: the record
header and the first quality value, 2047 values of the record being left. -/
theorem long_read_first_value :
    ∃ e2 : EncSt,
      enc_iter 16 long_read_slice [2048] long_read_qual (enc_start long_read_gparams) = .ok e2
      ∧ e2.state.p = 2047 ∧ e2.i = 1 ∧ ∃ pm, deref e2.gp e2.pm = .ok pm :=
  ⟨_, rfl, rfl, rfl, _, rfl⟩

/-- For the long read, `compress_block_fqz2f` at format 4, strategy 0 returns:
its output starts with `long_read_prelude`, and the input buffer and the slice
are left as they were. -/
theorem long_read_compressed :
    ∃ syms : List EncSym,
      compress_block_fqz2f long_read_floats 16 4 long_read_slice long_read_qual
        = .ok { prelude := long_read_prelude, symbols := syms, in_after := long_read_qual,
                slice_after := long_read_slice } := by
  obtain ⟨e2, h2, hp, hi, hpm⟩ := long_read_first_value
  obtain ⟨e3, h3⟩ := enc_loop_in_record 16 long_read_slice [2048] long_read_qual
    (by rw [long_read_length]; decide) 2047 (long_read_qual.length + 9223372036854775808) e2 hp
    (by rw [hi, long_read_length]) (by rw [long_read_length]; decide) hpm
  have hl : enc_loop 16 long_read_slice [2048] long_read_qual
      (long_read_qual.length + 9223372036854775808 + 1) (enc_start long_read_gparams)
      = .ok e3 := by
    rw [enc_loop_succ, if_pos (by rw [long_read_length]; decide), h2]
    exact h3
  exact ⟨e3.out.reverse,
    compress_block_no_rev long_read_floats 16 4 long_read_slice long_read_slice long_read_qual
      [2048] long_read_prelude long_read_gparams e3.out.reverse long_read_picked rfl
      (compress_main_no_rev 16 long_read_gparams long_read_slice [2048] long_read_qual e3 rfl hl)⟩

/-! ## The claims -/

set_option maxRecDepth 1000000 in
/-- On `long_read_prelude`, whatever follows it, the reader returns 17. -/
theorem long_read_prelude_read (junk : fqz_param) (payload : List Nat) :
    ∃ g : fqz_gparams,
      fqz_read_parameters junk fqz_gparams.zero (long_read_prelude ++ payload) = .ok (g, 17) :=
  ⟨_, rfl⟩

theorem toSizeT_17 : toSizeT 17 = 17 := by decide

/-- On a prelude that starts 5, 1, 0 the reader returns 3 and no block. -/
theorem zero_blocks_read (junk : fqz_param) (rest : List Nat) :
    ∃ g : fqz_gparams,
      fqz_read_parameters junk fqz_gparams.zero (5 :: 1 :: 0 :: rest) = .ok (g, 3)
      ∧ g.nparam = 0 ∧ g.p = [] :=
  ⟨_, rfl, rfl, rfl⟩

theorem toSizeT_3 : toSizeT 3 = 3 := by decide

set_option maxRecDepth 1000000 in
/-- C1 (the code breaks the round trip).  For one read of 2048 quality values
with the values 0..15, `compress_block_fqz2f` at format 4, strategy 0 returns a
buffer that starts with the 21 bytes `long_read_prelude`, the coded symbols
following from offset 21.  `fqz_read_parameters` returns 17 on it, and the
decoder starts the range decoder there: whatever follows the prelude, the
result of `uncompress_block_fqz2f` depends only on the symbols delivered from
offset 17.  With a channel that delivers the encoder's symbols from offset 21,
where they were written, the decoder does not return the input. -/
theorem roundtrip_long_read_misaligned :
    (∃ syms : List EncSym,
        compress_block_fqz2f long_read_floats 16 4 long_read_slice long_read_qual
          = .ok { prelude := long_read_prelude, symbols := syms, in_after := long_read_qual,
                  slice_after := long_read_slice })
    ∧ long_read_prelude.length = 21
    ∧ (∀ (junk : fqz_param) (rc : SymChannel) (payload : List Nat) (out_size : Nat),
        uncompress_block_fqz2f junk rc (long_read_prelude ++ payload) out_size
          = uncompress_block_fqz2f junk (fun _ => rc 17) (long_read_prelude ++ payload) out_size)
    ∧ ∃ rc : SymChannel, (∀ n, rc 21 n = long_read_symbols.getD n 0)
        ∧ ∀ payload : List Nat,
          uncompress_block_fqz2f fqz_param.zero rc (long_read_prelude ++ payload) 2048
            ≠ .ok (some long_read_qual) := by
  refine ⟨long_read_compressed, by decide, ?_, ?_⟩
  · intro junk rc payload out_size
    obtain ⟨g, hg⟩ := long_read_prelude_read junk payload
    unfold uncompress_block_fqz2f uncompress_main
    rw [hg]
    simp only [bind, Except.bind, toSizeT_17]
  · refine ⟨fun off n => if off = 21 then long_read_symbols.getD n 0 else 255,
      fun n => by simp, ?_⟩
    intro payload
    have h : uncompress_block_fqz2f fqz_param.zero
        (fun off n => if off = 21 then long_read_symbols.getD n 0 else 255)
        (long_read_prelude ++ payload) 2048 = .error .outbuf := by rfl
    rw [h]
    simp

set_option maxRecDepth 1000000 in
/-- C2 (the code breaks the array round trip).  The position table of a read of
2048 bases, `ptab[i] = min(7, i >> 8)`, is stored by `store_array` in 8 bytes
and read back by `read_array` from 5 of them; the table of 255 zeros and one 3
is stored in 5 bytes and read back, from 4 of them, as 255 zeros and one 2. -/
theorem array_codec_mismatch :
    (store_array long_read_ptab 1024 = .ok [255, 1, 255, 1, 255, 1, 255, 1]
      ∧ ∀ tail : List Nat,
          read_array ([255, 1, 255, 1, 255, 1, 255, 1] ++ tail) 1024 = .ok (long_read_ptab, 5))
    ∧ (store_array gap_table 256 = .ok [255, 0, 0, 1, 1]
      ∧ ∀ tail : List Nat,
          read_array ([255, 0, 0, 1, 1] ++ tail) 256 = .ok (List.replicate 255 0 ++ [2], 4)) := by
  refine ⟨⟨by decide, fun tail => by rfl⟩, ⟨by decide, fun tail => by rfl⟩⟩

set_option maxRecDepth 1000000 in
/-- C3 (the code breaks the parameter round trip).  `long_read_gparams` is the
parameter set `fqz_pick_parameters` builds for a read of 2048 quality values at
format 4, strategy 0, and `fqz_store_parameters` writes it in 21 bytes;
`fqz_read_parameters` returns 17 and a `dtab` that is 0 followed by 255 ones,
where the stored `dtab` starts 0, 0, 1, 1. -/
theorem params_long_read_misparsed :
    fqz_pick_parameters long_read_floats 4 0 long_read_slice long_read_qual
      = .ok (long_read_gparams, long_read_slice, [2048], long_read_prelude)
    ∧ fqz_store_parameters long_read_gparams = .ok long_read_prelude
    ∧ long_read_prelude.length = 21
    ∧ long_read_param.dtab.take 4 = [0, 0, 1, 1]
    ∧ ∀ (junk : fqz_param) (payload : List Nat),
        (fqz_read_parameters junk fqz_gparams.zero (long_read_prelude ++ payload)).map
            (fun r => (r.2, r.1.p.map (fun pm => (pm.ptab, pm.dtab))))
          = .ok (17, [(long_read_ptab, 0 :: List.replicate 255 1)]) := by
  refine ⟨long_read_picked, by decide, by decide, by decide, fun junk payload => by rfl⟩

set_option maxRecDepth 1000000 in
/-- C4 (the code breaks the lock-step).  With the parameter set
`long_read_gparams`, serialised as `long_read_prelude`, and a record of the
four values 0, 1, 2, 3, the encoder codes its fourth symbol in context 2; the
decoder, given the serialised parameters and the encoder's symbols in order,
decodes it in context 32770. -/
theorem lockstep_broken_by_misparse :
    fqz_store_parameters long_read_gparams = .ok long_read_prelude
    ∧ (compress_symbols 16 long_read_gparams short_slice [4] short_qual).map enc_trace
      = .ok [(0, 0), (0, 1), (1, 2), (2, 3)]
    ∧ ∀ payload : List Nat,
      (uncompress_main fqz_param.zero
        (fun _ n => match compress_symbols 16 long_read_gparams short_slice [4] short_qual with
                    | .ok l => (l.map EncSym.value).getD n 0
                    | .error _ => 0)
        (long_read_prelude ++ payload) 4).map (fun r => r.map (fun d => d.trace.reverse))
      = .ok (some [(0, 0), (0, 1), (1, 2), (32770, 3)]) := by
  refine ⟨by decide, by decide, fun payload => by rfl⟩

set_option maxRecDepth 1000000 in
/-- C5 (the code departs from the formula).  While `p < 1024` the value
`fqz_update_ctx` returns is the formula.  At the first value of a record of
1024 values, with the pre-shifted tables of `long_read_param`, it reads
`ptab[MIN(1024, p)]`, the word after the 1024 entries of `ptab`, and returns 0;
the formula takes `ptab[1023] = 3 << 10` and gives 3072. -/
theorem update_ctx_past_ptab :
    (∀ (pm : fqz_param) (st : fqz_state) (q : Nat), st.p < 1024 → pm.qmask < U32 →
        (fqz_update_ctx pm st q).1 = ctx_formula pm st q)
    ∧ (fqz_update_ctx (preshift long_read_param) (record_start 1024) 0).1 = 0
    ∧ ctx_formula (preshift long_read_param) (record_start 1024) 0 = 3072 := by
  refine ⟨fun pm st q hp hm => fqz_update_ctx_formula pm st q hp hm, by decide, by decide⟩

set_option maxRecDepth 1000000 in
/-- C6 (a table access leaves its table).  The index at which `fqz_update_ctx`
reads `dtab` is below 256 and the one at which it reads `ptab` is at most 1024.
With `p = 1024`, the first value of a record of 1024 values, the index
`MIN(1024, state->p)` is 1024, which is not below the 1024 entries of the
table. -/
theorem ptab_index_past_end :
    (∀ st : fqz_state, dtab_index st < 256 ∧ ptab_index st ≤ 1024)
    ∧ ptab_index (record_start 1024) = 1024
    ∧ long_read_param.ptab.length = 1024
    ∧ ¬ (ptab_index (record_start 1024) < long_read_param.ptab.length) := by
  refine ⟨fun st => ⟨?_, ?_⟩, by decide, by decide, by decide⟩
  · unfold dtab_index
    omega
  · unfold ptab_index
    omega

/-- C8 (an unsupported version is not surfaced).  On an input whose first byte
is not 5, `fqz_read_parameters` returns -1; held in the `size_t in_idx` this is
2^64 - 1, which is not below 0, so `uncompress_block_fqz2f` goes on: for an
expected size of 0 it returns an (empty) buffer, and for any other expected
size it dereferences the null block array `gp.p`.  It never returns null;
so with the first byte 6 and the expected sizes 0 and 1. -/
theorem uncompress_bad_version_not_null :
    toSizeT (-1) = 18446744073709551615
    ∧ (∀ (junk : fqz_param) (rc : SymChannel) (b : Nat) (rest : List Nat) (out_size : Nat),
        b % 256 ≠ 5 →
          (fqz_read_parameters junk fqz_gparams.zero (b :: rest)).map (fun r => r.2) = .ok (-1)
          ∧ uncompress_block_fqz2f junk rc (b :: rest) out_size
              = (if out_size = 0 then .ok (some []) else .error .param)
          ∧ uncompress_block_fqz2f junk rc (b :: rest) out_size ≠ .ok none)
    ∧ ∀ (junk : fqz_param) (rc : SymChannel) (rest : List Nat),
        uncompress_block_fqz2f junk rc (6 :: rest) 0 = .ok (some [])
        ∧ uncompress_block_fqz2f junk rc (6 :: rest) 1 = .error .param := by
  refine ⟨by decide, fun junk rc b rest out_size hb => ⟨?_, ?_, ?_⟩,
    fun junk rc rest => ⟨by rfl, by rfl⟩⟩
  · rw [read_bad_version junk _ b rest hb]
    rfl
  · exact uncompress_bad_version junk rc b rest out_size hb
  · rw [uncompress_bad_version junk rc b rest out_size hb]
    split <;> simp

/-- C9 (zero parameter blocks are accepted).  On an input whose first byte is
5, `fqz_read_parameters` never returns -1.  On a prelude that starts 5, 1, 0
(version 5, `GFLAG_MULTI_PARAM`, `nparam = 0`) it returns 3, with `nparam = 0`
and no block. -/
theorem read_parameters_zero_blocks :
    (∀ (junk : fqz_param) (gp g : fqz_gparams) (b : Nat) (rest : List Nat), b % 256 = 5 →
        fqz_read_parameters junk gp (b :: rest) ≠ .ok (g, -1))
    ∧ ∀ (junk : fqz_param) (gp : fqz_gparams) (rest : List Nat),
      (fqz_read_parameters junk gp (5 :: 1 :: 0 :: rest)).map (fun r => (r.1.nparam, r.1.p, r.2))
        = .ok (0, [], 3) := by
  refine ⟨fun junk gp g b rest hb h => ?_, fun junk gp rest => by rfl⟩
  have hv := fqz_read_parameters_v5 junk gp b rest hb
  rw [h] at hv
  obtain ⟨n, hn, _, _⟩ := hv
  simp only at hn
  omega

set_option maxRecDepth 1000000 in
/-- C10 (a block outside `[0, nparam)` is dereferenced).  On a prelude that
starts 5, 1, 0 the decoder has `nparam = 0` and an empty block array; with an
expected size above 0 its first record header reads `pm->do_sel` through
`pm = &gp.p[0]` before `x >= gp.nparam` is tested.  With one block whose
`do_sel` is set and a selector symbol 1, the test does return null. -/
theorem uncompress_zero_blocks_deref :
    (∀ (junk : fqz_param) (rc : SymChannel) (rest : List Nat),
      (fqz_read_parameters junk fqz_gparams.zero (5 :: 1 :: 0 :: rest)).map
          (fun r => (r.1.nparam, r.1.p.length)) = .ok (0, 0)
      ∧ (∀ out_size : Nat, 0 < out_size →
          uncompress_block_fqz2f junk rc (5 :: 1 :: 0 :: rest) out_size = .error .param)
      ∧ uncompress_block_fqz2f junk rc (5 :: 1 :: 0 :: rest) 1 = .error .param)
    ∧ uncompress_block_fqz2f fqz_param.zero (fun _ _ => 1) [5, 1, 1, 0, 0, 8, 0, 0, 0, 0] 1
        = .ok none := by
  refine ⟨fun junk rc rest => ⟨by rfl, fun out_size hpos => ?_, by rfl⟩, by decide⟩
  obtain ⟨g, hg, hn, hp⟩ := zero_blocks_read junk rest
  unfold uncompress_block_fqz2f uncompress_main
  rw [hg]
  simp only [bind, Except.bind, toSizeT_3, Nat.not_lt_zero, ↓reduceIte]
  rw [dec_loop_succ]
  simp [hpos, dec_iter, dec_grow, dec_header, deref, hn, hp, pure, Except.pure]

/-! ## Lemmas on the end of the decoder's main loop -/

/-- A dup record moves `i` or `rec` forward and stays within the output. -/
theorem dec_dup_ok (out_size : Nat) (len : Int) (d d2 : DecSt) (h : dec_dup out_size len d = .ok d2) :
    d.i ≤ d2.i ∧ d2.i ≤ out_size ∧ d2.rec_ = d.rec_ + 1 ∧ d2.nrec = d.nrec := by
  unfold dec_dup at h
  split at h
  · cases h
  · rename_i hc
    simp only [Except.ok.injEq] at h
    subst h
    refine ⟨by simp only; omega, ?_, rfl, rfl⟩
    simp only
    push_neg at hc
    omega

/-- After the top of an iteration `rec < nrec`, and `nrec` is still an `int`. -/
theorem dec_grow_ok (d d1 : DecSt) (h : dec_grow d = .ok d1) (hn : d.nrec ≤ INT_MAX)
    (hr : d.rec_ ≤ d.nrec) (hp : 0 < d.nrec) :
    d1.i = d.i ∧ d1.rec_ = d.rec_ ∧ d1.state = d.state ∧ d1.rec_ < d1.nrec ∧ d1.nrec ≤ INT_MAX := by
  unfold dec_grow at h
  split at h
  · split at h
    · cases h
    · simp only [Except.ok.injEq] at h
      subst h
      refine ⟨rfl, rfl, rfl, ?_, ?_⟩ <;> simp only <;> omega
  · simp only [Except.ok.injEq] at h
    subst h
    refine ⟨rfl, rfl, rfl, ?_, hn⟩
    omega

/-- Decoding a quality value moves `i` forward by one. -/
theorem dec_quality_ok (rc : Nat → Nat) (d d2 : DecSt) (h : dec_quality rc d = .ok d2) :
    d2.i = d.i + 1 ∧ d2.rec_ = d.rec_ ∧ d2.nrec = d.nrec := by
  unfold dec_quality at h
  split at h
  · cases h
  · simp only [Except.ok.injEq] at h
    subst h
    exact ⟨rfl, rfl, rfl⟩

/-- A record header moves `rec` forward by one and `i` not backward. -/
theorem dec_record_ok (rc : Nat → Nat) (out_size : Nat) (x : Int) (pm : fqz_param) (d d1 : DecSt)
    (b : Bool) (h : dec_record rc out_size x pm d = .ok (d1, b)) :
    d1.rec_ = d.rec_ + 1 ∧ d1.nrec = d.nrec ∧ d.i ≤ d1.i
      ∧ (b = true → d1.i ≤ out_size) ∧ (b = false → d1.i = d.i) := by
  unfold dec_record at h
  simp only at h
  repeat' split at h
  all_goals first
    | (cases h; done)
    | (simp only [Except.ok.injEq, Prod.mk.injEq] at h
       obtain ⟨h1, h2⟩ := h
       subst h1 h2
       exact ⟨rfl, rfl, Nat.le_refl _, fun hb => Bool.noConfusion hb, fun _ => rfl⟩)
    | (simp only [Except.ok.injEq, Prod.mk.injEq] at h
       obtain ⟨h1, h2⟩ := h
       subst h1 h2
       rename_i hd
       have hd := dec_dup_ok _ _ _ _ hd
       exact ⟨hd.2.2.1, hd.2.2.2, hd.1, fun _ => hd.2.1, fun hb => Bool.noConfusion hb⟩)

/-- The start of a record header, as `dec_record_ok`. -/
theorem dec_header_ok (rc : Nat → Nat) (out_size : Nat) (d d1 : DecSt) (b : Bool)
    (h : dec_header rc out_size d = .ok (some (d1, b))) :
    d1.rec_ = d.rec_ + 1 ∧ d1.nrec = d.nrec ∧ d.i ≤ d1.i
      ∧ (b = true → d1.i ≤ out_size) ∧ (b = false → d1.i = d.i) := by
  unfold dec_header at h
  simp only at h
  repeat' split at h
  all_goals first
    | (cases h; done)
    | (simp only [Except.ok.injEq, Option.some.injEq] at h
       subst h
       rename_i hd
       have hr := dec_record_ok _ _ _ _ _ _ _ hd
       exact hr)

theorem dec_grow_no_fuel (d : DecSt) : dec_grow d ≠ .error .fuel := by
  unfold dec_grow
  repeat' split
  all_goals simp

theorem deref_no_fuel (gp : fqz_gparams) (x : Int) : deref gp x ≠ .error .fuel := by
  unfold deref
  repeat' split
  all_goals simp

theorem dec_quality_no_fuel (rc : Nat → Nat) (d : DecSt) : dec_quality rc d ≠ .error .fuel := by
  unfold dec_quality
  split
  · rename_i e he
    intro h
    simp only [Except.error.injEq] at h
    subst h
    exact deref_no_fuel _ _ he
  · simp

theorem dec_dup_no_fuel (out_size : Nat) (len : Int) (d : DecSt) :
    dec_dup out_size len d ≠ .error .fuel := by
  unfold dec_dup
  split <;> simp

theorem dec_record_no_fuel (rc : Nat → Nat) (out_size : Nat) (x : Int) (pm : fqz_param)
    (d : DecSt) : dec_record rc out_size x pm d ≠ .error .fuel := by
  intro h
  unfold dec_record at h
  simp only at h
  repeat' split at h
  all_goals first
    | (cases h; done)
    | (simp only [Except.error.injEq] at h
       subst h
       rename_i hd
       exact dec_dup_no_fuel _ _ _ hd)

theorem dec_header_no_fuel (rc : Nat → Nat) (out_size : Nat) (d : DecSt) :
    dec_header rc out_size d ≠ .error .fuel := by
  intro h
  unfold dec_header at h
  simp only at h
  repeat' split at h
  all_goals first
    | (cases h; done)
    | (simp only [Except.error.injEq] at h
       subst h
       rename_i hd
       exact deref_no_fuel _ _ hd)
    | (simp only [Except.error.injEq] at h
       subst h
       rename_i hd
       exact dec_record_no_fuel _ _ _ _ _ hd)

theorem dec_iter_no_fuel (rc : Nat → Nat) (out_size : Nat) (d : DecSt) :
    dec_iter rc out_size d ≠ .error .fuel := by
  intro h
  unfold dec_iter at h
  repeat' split at h
  all_goals first
    | (cases h; done)
    | (simp only [Except.error.injEq] at h
       subst h
       rename_i hd
       first
         | exact dec_grow_no_fuel _ hd
         | exact dec_header_no_fuel _ _ _ hd
         | exact dec_quality_no_fuel _ _ hd)

/-- One iteration of the main loop keeps `rec <= nrec <= INT_MAX` and makes
`(out_size - i) + (2^31 - rec)` smaller, unless it moves `i` past `out_size`. -/
theorem dec_iter_ok (rc : Nat → Nat) (out_size : Nat) (d d1 : DecSt)
    (h : dec_iter rc out_size d = .ok (some d1)) (hi : d.i < out_size) (hr : d.rec_ ≤ d.nrec)
    (hp : 0 < d.nrec) (hn : d.nrec ≤ INT_MAX) :
    d1.i ≤ out_size ∧ d1.rec_ ≤ d1.nrec ∧ 0 < d1.nrec ∧ d1.nrec ≤ INT_MAX
      ∧ (out_size - d1.i) + (2147483648 - d1.rec_) < (out_size - d.i) + (2147483648 - d.rec_) := by
  unfold dec_iter at h
  cases hg : dec_grow d with
  | error e =>
    rw [hg] at h
    cases h
  | ok d0 =>
    obtain ⟨g1, g2, g3, g4, g5⟩ := dec_grow_ok d d0 hg hn hr hp
    simp only [INT_MAX] at g5 ⊢
    rw [hg] at h
    simp only at h
    split at h
    · split at h
      · cases h
      · cases h
      · rename_i dd hh
        simp only [Except.ok.injEq, Option.some.injEq] at h
        subst h
        obtain ⟨a1, a2, a3, a4, a5⟩ := dec_header_ok _ _ _ _ _ hh
        have := a4 rfl
        omega
      · rename_i dd hh
        obtain ⟨a1, a2, a3, a4, a5⟩ := dec_header_ok _ _ _ _ _ hh
        have := a5 rfl
        split at h
        · cases h
        · rename_i d2 hq
          simp only [Except.ok.injEq, Option.some.injEq] at h
          subst h
          obtain ⟨q1, q2, q3⟩ := dec_quality_ok _ _ _ hq
          omega
    · split at h
      · cases h
      · rename_i d2 hq
        simp only [Except.ok.injEq, Option.some.injEq] at h
        subst h
        obtain ⟨q1, q2, q3⟩ := dec_quality_ok _ _ _ hq
        omega

/-- The main loop of the decoder ends within its recursion bound. -/
theorem dec_loop_bounded (rc : Nat → Nat) (out_size : Nat) :
    ∀ (fuel : Nat) (d : DecSt), d.i ≤ out_size → d.rec_ ≤ d.nrec → 0 < d.nrec →
      d.nrec ≤ INT_MAX → (out_size - d.i) + (2147483648 - d.rec_) < fuel →
      dec_loop rc out_size fuel d ≠ .error .fuel := by
  intro fuel
  induction fuel with
  | zero =>
    intro d _ _ _ _ h
    omega
  | succ n ih =>
    intro d hi hr hp hn hf
    rw [dec_loop_succ]
    split
    · rename_i hlt
      cases hit : dec_iter rc out_size d with
      | error e =>
        simp only
        intro he
        simp only [Except.error.injEq] at he
        subst he
        exact dec_iter_no_fuel rc out_size d hit
      | ok r =>
        cases r with
        | none => simp
        | some d1 =>
          simp only
          obtain ⟨b1, b2, b3, b4, b5⟩ := dec_iter_ok rc out_size d d1 hit hlt hr hp hn
          exact ih d1 b1 b2 b3 b4 (by omega)
    · simp

/-- The parameter reader does not run out of steps. -/
theorem fqz_read_parameters_no_fuel (junk : fqz_param) (gp : fqz_gparams) (inp : List Nat) :
    fqz_read_parameters junk gp inp ≠ .error .fuel := by
  cases inp with
  | nil =>
    intro h
    cases h
  | cons b rest =>
    by_cases hb : b % 256 = 5
    · have h := fqz_read_parameters_v5 junk gp b rest hb
      intro he
      rw [he] at h
      cases h
    · rw [read_bad_version junk gp b rest hb]
      intro he
      cases he

/-- The decoder up to the end of its main loop does not run out of steps. -/
theorem uncompress_main_no_fuel (junk : fqz_param) (rc : SymChannel) (inp : List Nat)
    (out_size : Nat) : uncompress_main junk rc inp out_size ≠ .error .fuel := by
  unfold uncompress_main
  cases hr : fqz_read_parameters junk fqz_gparams.zero inp with
  | error e =>
    simp only [bind, Except.bind]
    intro he
    simp only [Except.error.injEq] at he
    subst he
    exact fqz_read_parameters_no_fuel _ _ _ hr
  | ok r =>
    simp only [bind, Except.bind, Nat.not_lt_zero, if_false]
    have hb := dec_loop_bounded (rc (toSizeT r.2)) out_size (out_size + 2147483648 + 1)
      { gp := { r.1 with p := (r.1.p.take r.1.nparam).map preshift ++ r.1.p.drop r.1.nparam },
        pm := 0, i := 0, rec_ := 0, nrec := 1000, rev_a := [], len_a := [],
        state := { qctx := 0, p := 0, add_d := 0, delta := 0, prevq := 0, s := 0,
                   qtot := 0, qlen := 0 },
        rev := 0, last_len := 0, last := 0, uncomp := [], nsym := 0, trace := [] }
      (Nat.zero_le _) (by show 0 ≤ 1000; decide) (by show 0 < 1000; decide)
      (by show 1000 ≤ INT_MAX; decide) (by simp only; omega)
    cases hd : dec_loop (rc (toSizeT r.2)) out_size (out_size + 2147483648 + 1)
      { gp := { r.1 with p := (r.1.p.take r.1.nparam).map preshift ++ r.1.p.drop r.1.nparam },
        pm := 0, i := 0, rec_ := 0, nrec := 1000, rev_a := [], len_a := [],
        state := { qctx := 0, p := 0, add_d := 0, delta := 0, prevq := 0, s := 0,
                   qtot := 0, qlen := 0 },
        rev := 0, last_len := 0, last := 0, uncomp := [], nsym := 0, trace := [] } with
    | error e =>
      intro he
      simp only [pure, Except.pure, Except.error.injEq] at he
      subst he
      exact hb hd
    | ok o =>
      cases o with
      | none =>
        intro he
        cases he
      | some d =>
        by_cases hge : d.rec_ ≥ d.nrec <;>
          simp [hge, throw, throwThe, MonadExceptOf.throw, pure, Except.pure, bind, Except.bind]

/-- The swap loop does not run out of steps. -/
theorem reverse_at_no_fuel (buf : List Nat) (i : Nat) (n : Int) :
    reverse_at buf i n ≠ .error .fuel := by
  unfold reverse_at
  split
  · intro he
    cases he
  · split
    · intro he
      cases he
    · intro he
      cases he

/-- The final pass of the decoder does not run out of steps when it is given
one more step than `rev_a` has entries. -/
theorem dec_unreverse_no_fuel (rev_a : List (Option Nat)) (len_a : List (Option Int))
    (nrec out_size : Nat) :
    ∀ (fuel i rec : Nat) (buf : List Nat), rev_a.length + 1 ≤ fuel + rec → rec ≤ rev_a.length →
      dec_unreverse rev_a len_a nrec out_size fuel i rec buf ≠ .error .fuel := by
  intro fuel
  induction fuel with
  | zero =>
    intro i rec buf h1 h2
    omega
  | succ n ih =>
    intro i rec buf h1 h2
    unfold dec_unreverse
    by_cases hi : i < out_size
    · rw [if_pos hi]
      by_cases hn : rec ≥ nrec
      · rw [if_pos hn]
        intro he
        cases he
      · rw [if_neg hn]
        cases hra : rev_a.getD rec none with
        | none =>
          cases len_a.getD rec none <;>
          · intro he
            cases he
        | some rev =>
          cases hla : len_a.getD rec none with
          | none =>
            intro he
            cases he
          | some m =>
            simp only
            have hrec : rec < rev_a.length := by
              by_contra hc
              rw [List.getD_eq_getElem?_getD, List.getElem?_eq_none (by omega)] at hra
              cases hra
            by_cases hrev : rev ≠ 0
            · rw [if_pos hrev]
              cases hre : reverse_at buf i m with
              | error e =>
                simp only
                intro he
                simp only [Except.error.injEq] at he
                subst he
                exact reverse_at_no_fuel _ _ _ hre
              | ok buf1 =>
                simp only
                exact ih _ _ _ (by omega) (by omega)
            · rw [if_neg hrev]
              simp only
              exact ih _ _ _ (by omega) (by omega)
    · rw [if_neg hi]
      intro he
      cases he

/-- The decoder does not run out of steps. -/
theorem uncompress_block_no_fuel (junk : fqz_param) (rc : SymChannel) (inp : List Nat)
    (out_size : Nat) : uncompress_block_fqz2f junk rc inp out_size ≠ .error .fuel := by
  unfold uncompress_block_fqz2f
  cases hm : uncompress_main junk rc inp out_size with
  | error e =>
    intro he
    simp only [bind, Except.bind, Except.error.injEq] at he
    subst he
    exact uncompress_main_no_fuel _ _ _ _ hm
  | ok o =>
    cases o with
    | none =>
      intro he
      cases he
    | some d =>
      simp only [bind, Except.bind]
      by_cases hg : d.gp.gflags &&& GFLAG_DO_REV ≠ 0
      · rw [if_pos hg]
        cases hu : dec_unreverse d.rev_a d.len_a d.nrec out_size (d.rev_a.length + 1) 0 0 d.uncomp with
        | error e =>
          intro he
          simp only [Except.error.injEq] at he
          subst he
          exact dec_unreverse_no_fuel _ _ _ _ _ _ _ _ (by omega) (Nat.zero_le _) hu
        | ok buf =>
          intro he
          cases he
      · rw [if_neg hg]
        intro he
        cases he

/-! ## Lemmas on the first pass of `store_array` -/

/-- The bytes the inner `do ... while` writes for the count `k`. -/
theorem store_run_eq : ∀ (fuel k : Nat), k / 255 < fuel → store_run fuel k = count_bytes k := by
  intro fuel
  induction fuel with
  | zero => intro k h; omega
  | succ n ih =>
    intro k h
    unfold store_run
    simp only
    by_cases hk : 255 ≤ k
    · have hm : min 255 k = 255 := by omega
      rw [hm, if_pos rfl, ih (k - 255) (by omega)]
      unfold count_bytes
      have h1 : k / 255 = (k - 255) / 255 + 1 := by omega
      have h2 : k % 255 = (k - 255) % 255 := by omega
      rw [h1, h2, List.replicate_succ]
      rfl
    · have hm : min 255 k = k := by omega
      rw [hm, if_neg (by omega)]
      unfold count_bytes
      have h1 : k / 255 = 0 := by omega
      have h2 : k % 255 = k := by omega
      rw [h1, h2]
      rfl

/-- The run `count_run` finds is the run of entries equal to `j` at the head
of the table. -/
theorem count_run_spec (j : Nat) (hj : j < U32) : ∀ t : List Nat,
    t = List.replicate (count_run j t).1 j ++ (count_run j t).2
      ∧ ∀ a rest, (count_run j t).2 = a :: rest → a ≠ j := by
  intro t
  induction t with
  | nil => simp [count_run]
  | cons a rest ih =>
    unfold count_run
    have hm : j % U32 = j := Nat.mod_eq_of_lt hj
    rw [hm]
    by_cases ha : a = j
    · subst ha
      simp only [if_true]
      refine ⟨?_, ih.2⟩
      rw [List.replicate_succ, List.cons_append, ← ih.1]
    · simp only [if_neg ha]
      refine ⟨by simp, ?_⟩
      intro b r h
      simp only [List.cons.injEq] at h
      rw [← h.1]
      exact ha

/-- The first pass of `store_array` on a sorted table with values in `[j, m]`,
`m` being present. -/
theorem store_flat_sorted : ∀ (fuel j : Nat) (t : List Nat) (m : Nat),
    t.Pairwise (fun a b => a ≤ b) → (∀ x ∈ t, j ≤ x ∧ x ≤ m) → m ∈ t → m < U32 →
    (m - j) + 1 < fuel →
    store_flat fuel j t
      = .ok ((List.range' j (m + 1 - j)).flatMap (fun v => count_bytes (t.count v))) := by
  intro fuel
  induction fuel with
  | zero => intro j t m _ _ _ _ h; omega
  | succ n ih =>
    intro j t m hs hb hm hu hf
    have hjm : j ≤ m := (hb m hm).1
    have hj : j < U32 := by omega
    cases t with
    | nil => simp at hm
    | cons a rest0 =>
      unfold store_flat
      obtain ⟨hsplit, hhead⟩ := count_run_spec j hj (a :: rest0)
      generalize count_run j (a :: rest0) = r at hsplit hhead
      obtain ⟨k, rest⟩ := r
      simp only at hsplit hhead ⊢
      have hrest_gt : ∀ x ∈ rest, j < x := by
        intro x hx
        cases rest with
        | nil => simp at hx
        | cons b rest1 =>
          have hbj : b ≠ j := hhead b rest1 rfl
          have hbm : b ∈ a :: rest0 := by rw [hsplit]; simp
          have hb1 := (hb b hbm).1
          have hsr : (b :: rest1).Pairwise (fun a b => a ≤ b) := by
            rw [hsplit] at hs
            exact (List.pairwise_append.mp hs).2.1
          rcases List.mem_cons.mp hx with h | h
          · omega
          · have := List.rel_of_pairwise_cons hsr h
            omega
      have hcj : (a :: rest0).count j = k := by
        rw [hsplit, List.count_append, List.count_replicate_self]
        have : rest.count j = 0 := by
          rw [List.count_eq_zero]
          intro hmem
          have := hrest_gt j hmem
          omega
        omega
      have hcv : ∀ v, v ≠ j → (a :: rest0).count v = rest.count v := by
        intro v hv
        rw [hsplit, List.count_append, List.count_replicate]
        simp [Ne.symm hv]
      rw [store_run_eq (k + 1) k (by
        have : k / 255 ≤ k := Nat.div_le_self _ _
        omega)]
      cases hr : rest with
      | nil =>
        subst hr
        have hmj : m = j := by
          rw [hsplit] at hm
          simp only [List.append_nil] at hm
          exact (List.mem_replicate.mp hm).2
        subst hmj
        obtain ⟨n1, rfl⟩ : ∃ n1, n = n1 + 1 := ⟨n - 1, by omega⟩
        simp only [store_flat]
        have : m + 1 - m = 1 := by omega
        rw [this]
        simp [hcj]
      | cons b rest1 =>
        rw [← hr]
        have hmr : m ∈ rest := by
          rw [hsplit] at hm
          rcases List.mem_append.mp hm with h | h
          · have hmj := (List.mem_replicate.mp h).2
            have hbr : b ∈ rest := by rw [hr]; simp
            have h1 := hrest_gt b hbr
            have h2 := (hb b (by rw [hsplit]; exact List.mem_append_right _ hbr)).2
            omega
          · exact h
        have hjm1 : j < m := hrest_gt m hmr
        have hsr : rest.Pairwise (fun a b => a ≤ b) := by
          rw [hsplit] at hs
          exact (List.pairwise_append.mp hs).2.1
        have hbr : ∀ x ∈ rest, j + 1 ≤ x ∧ x ≤ m := by
          intro x hx
          exact ⟨hrest_gt x hx, (hb x (by rw [hsplit]; exact List.mem_append_right _ hx)).2⟩
        rw [ih (j + 1) rest m hsr hbr hmr hu (by omega)]
        simp only
        have hlen : m + 1 - j = (m + 1 - (j + 1)) + 1 := by omega
        rw [hlen, List.range'_succ, List.flatMap_cons, hcj]
        congr 2
        apply List.flatMap_congr
        intro v hv
        have : j + 1 ≤ v := (List.mem_range'_1.mp hv).1
        rw [hcv v (by omega)]

/-- The largest value of a list bounds every entry. -/
theorem foldl_max_ge : ∀ (t : List Nat) (a : Nat),
    a ≤ t.foldl max a ∧ ∀ x ∈ t, x ≤ t.foldl max a := by
  intro t
  induction t with
  | nil => intro a; simp
  | cons b rest ih =>
    intro a
    simp only [List.foldl_cons, List.mem_cons]
    obtain ⟨h1, h2⟩ := ih (max a b)
    refine ⟨by omega, ?_⟩
    intro x hx
    rcases hx with rfl | hx
    · omega
    · exact h2 x hx

/-- The largest value of a list is the start value or an entry. -/
theorem foldl_max_mem : ∀ (t : List Nat) (a : Nat), t.foldl max a = a ∨ t.foldl max a ∈ t := by
  intro t
  induction t with
  | nil => intro a; simp
  | cons b rest ih =>
    intro a
    simp only [List.foldl_cons, List.mem_cons]
    rcases ih (max a b) with h | h
    · rw [h]
      rcases Nat.le_total a b with hab | hab
      · right; left; omega
      · left; omega
    · right; right; exact h

/-- On a sorted table whose values stay below `INT_MAX`, the first pass of
`store_array` writes what the specification says. -/
theorem store_flat_flatten_spec (t : List Nat) (hs : t.Pairwise (fun a b => a ≤ b))
    (hb : ∀ x ∈ t, x < INT_MAX) : store_flat 2147483648 0 t = .ok (flatten_spec t) := by
  unfold flatten_spec
  cases t with
  | nil => rfl
  | cons a rest =>
    rw [if_neg (by simp)]
    have hge := foldl_max_ge (a :: rest) 0
    have hmem : (a :: rest).foldl max 0 ∈ a :: rest := by
      rcases foldl_max_mem (a :: rest) 0 with h | h
      · have := hge.2 a (by simp)
        rw [h] at this
        have ha : a = 0 := by omega
        rw [h, ha]
        simp
      · exact h
    have hlt := hb _ hmem
    simp only [INT_MAX] at hlt
    rw [store_flat_sorted 2147483648 0 (a :: rest) _ hs
      (fun x hx => ⟨Nat.zero_le _, hge.2 x hx⟩) hmem (by simp only [U32]; omega) (by omega)]
    rw [List.range_eq_range']
    rfl

/-! ## Lemmas on the parameter writer -/

/-- Two values of at most 15 packed in a byte as `(a<<4)|b` and taken out of
it by `>>4` and `&15`. -/
theorem nibble_pack : ∀ a, a < 16 → ∀ b, b < 16 →
    ((a <<< 4) ||| b) % 256 = (a <<< 4) ||| b
      ∧ (((a <<< 4) ||| b) % 256) >>> 4 = a ∧ (((a <<< 4) ||| b) % 256) &&& 15 = b := by
  decide

/-- The seven header bytes of a block as `fqz_read_parameters1` takes them
apart, whatever follows them. -/
theorem read_parameters1_header (junk : fqz_param) (b0 b1 b2 b3 b4 b5 b6 : Nat)
    (rest : List Nat) :
    Reads (fun r => r.1.context = (b0 % 256 + ((b1 % 256) <<< 8)) % 65536
        ∧ r.1.pflags = b2 % 256 ∧ r.1.max_sym = b3 % 256
        ∧ r.1.qbits = (b4 % 256) >>> 4 ∧ r.1.qshift = (b4 % 256) &&& 15
        ∧ r.1.qloc = (b5 % 256) >>> 4 ∧ r.1.sloc = (b5 % 256) &&& 15
        ∧ r.1.ploc = (b6 % 256) >>> 4 ∧ r.1.dloc = (b6 % 256) &&& 15
        ∧ 7 ≤ r.2)
      (fqz_read_parameters1 junk (b0 :: b1 :: b2 :: b3 :: b4 :: b5 :: b6 :: rest)) := by
  unfold fqz_read_parameters1
  have h0 : rd (b0 :: b1 :: b2 :: b3 :: b4 :: b5 :: b6 :: rest) 0 = .ok (b0 % 256) := rfl
  have h1 : rd (b0 :: b1 :: b2 :: b3 :: b4 :: b5 :: b6 :: rest) 1 = .ok (b1 % 256) := rfl
  have h2 : rd (b0 :: b1 :: b2 :: b3 :: b4 :: b5 :: b6 :: rest) 2 = .ok (b2 % 256) := rfl
  have h3 : rd (b0 :: b1 :: b2 :: b3 :: b4 :: b5 :: b6 :: rest) 3 = .ok (b3 % 256) := rfl
  have h4 : rd (b0 :: b1 :: b2 :: b3 :: b4 :: b5 :: b6 :: rest) 4 = .ok (b4 % 256) := rfl
  have h5 : rd (b0 :: b1 :: b2 :: b3 :: b4 :: b5 :: b6 :: rest) 5 = .ok (b5 % 256) := rfl
  have h6 : rd (b0 :: b1 :: b2 :: b3 :: b4 :: b5 :: b6 :: rest) 6 = .ok (b6 % 256) := rfl
  rw [h0, h1, h2, h3, h4, h5, h6]
  simp only [bind, Except.bind]
  have h7 : 7 ≤ (b0 :: b1 :: b2 :: b3 :: b4 :: b5 :: b6 :: rest).length := by simp
  refine Reads.bind (read_qmap_reads _ _ _ 7 h7) (fun qm hqm => ?_)
  refine Reads.bind (read_qtab_reads _ _ _ _ qm.2 hqm.2) (fun qt hqt => ?_)
  refine Reads.bind (read_tab_reads _ _ 1024 _ qt.2 hqt.2) (fun pt hpt => ?_)
  refine Reads.bind (read_tab_reads _ _ 256 _ pt.2 hpt.2) (fun dt hdt => ?_)
  refine Reads.pure ?_
  simp only []
  refine ⟨trivial, trivial, trivial, trivial, trivial, trivial, trivial, trivial, trivial, ?_⟩
  omega

/-- The first pass of `store_array` fails only by the overflow of `j`. -/
theorem store_flat_error : ∀ (fuel j : Nat) (t : List Nat) (e : Fault),
    store_flat fuel j t = .error e → e = .overflow := by
  intro fuel
  induction fuel with
  | zero =>
    intro j t e h
    unfold store_flat at h
    simp only [Except.error.injEq] at h
    exact h.symm
  | succ n ih =>
    intro j t e h
    cases t with
    | nil =>
      unfold store_flat at h
      cases h
    | cons a rest =>
      unfold store_flat at h
      simp only at h
      split at h
      · rename_i e1 he
        simp only [Except.error.injEq] at h
        subst h
        exact ih _ _ _ he
      · cases h

/-- The function `store_array` fails only by the overflow of `j`. -/
theorem store_array_error (array : List Nat) (size : Nat) (e : Fault)
    (h : store_array array size = .error e) : e = .overflow := by
  unfold store_array at h
  split at h
  · rename_i e1 he
    simp only [Except.error.injEq] at h
    subst h
    exact store_flat_error _ _ _ _ he
  · cases h

/-- A table stored on a condition fails only by the overflow of `j`. -/
theorem store_opt_error (c : Prop) [Decidable c] (array : List Nat) (size : Nat) (e : Fault)
    (h : (if c then store_array array size else .ok []) = .error e) : e = .overflow := by
  split at h
  · exact store_array_error _ _ _ h
  · cases h

/-- A failure of a table writer is the overflow of `j`, in the form the
shape lemma needs. -/
theorem store_err_left {α : Type} (P : Prop) (array : List Nat) (size : Nat) (e : Fault)
    (h : store_array array size = .error e) :
    (Except.error e : Except Fault α) = .error .overflow ∨ P := by
  left
  rw [store_array_error _ _ _ h]

/-- What `fqz_store_parameters1` returns: the overflow of a table, or the seven
header bytes followed by the `qmap` bytes and the tables. -/
theorem store_parameters1_shape (pm : fqz_param) :
    fqz_store_parameters1 pm = .error .overflow
    ∨ ∃ tail : List Nat, fqz_store_parameters1 pm
        = .ok ([pm.context % 256, (pm.context >>> 8) % 256, pm.pflags % 256, pm.max_sym % 256,
                ((pm.qbits <<< 4) ||| pm.qshift) % 256, ((pm.qloc <<< 4) ||| pm.sloc) % 256,
                ((pm.ploc <<< 4) ||| pm.dloc) % 256]
               ++ (if pm.store_qmap ≠ 0 then store_qmap_bytes pm.qmap else []) ++ tail) := by
  unfold fqz_store_parameters1
  simp only [bind, Except.bind, pure, Except.pure]
  repeat' split
  all_goals first
    | exact store_err_left _ _ _ _ (by assumption)
    | (right
       simp only [List.append_assoc, Except.ok.injEq]
       exact ⟨_, rfl⟩)

/-- The loop over the blocks succeeds exactly when each block can be stored,
and writes their records in order. -/
theorem store_blocks_iff : ∀ (ps : List fqz_param) (bs : List Nat),
    store_blocks ps = .ok bs ↔
      ∃ blocks : List (List Nat),
        List.Forall₂ (fun pm b => fqz_store_parameters1 pm = .ok b) ps blocks
        ∧ bs = blocks.flatten := by
  intro ps
  induction ps with
  | nil =>
    intro bs
    unfold store_blocks
    constructor
    · intro h
      simp only [Except.ok.injEq] at h
      exact ⟨[], List.Forall₂.nil, by rw [← h]; rfl⟩
    · rintro ⟨blocks, hf, hb⟩
      cases hf
      rw [hb]
      rfl
  | cons pm rest ih =>
    intro bs
    unfold store_blocks
    simp only [bind, Except.bind, pure, Except.pure]
    constructor
    · intro h
      split at h
      · cases h
      · rename_i b hb
        split at h
        · cases h
        · rename_i bs1 hbs
          simp only [Except.ok.injEq] at h
          obtain ⟨blocks, hf, hj⟩ := (ih bs1).mp hbs
          exact ⟨b :: blocks, List.Forall₂.cons hb hf, by rw [← h, hj]; rfl⟩
    · rintro ⟨blocks, hf, hb⟩
      cases hf with
      | cons h1 h2 =>
        rename_i b blocks1
        rw [h1]
        simp only
        rw [(ih blocks1.flatten).mpr ⟨blocks1, h2, rfl⟩]
        simp only
        rw [hb]
        rfl

/-- The function `fqz_store_parameters` by cases. -/
theorem fqz_store_parameters_eq (gp : fqz_gparams) :
    fqz_store_parameters gp =
      match (if gp.gflags &&& GFLAG_HAVE_STAB ≠ 0 then store_array gp.stab 256 else .ok []),
            (if gp.nparam ≤ gp.p.length then store_blocks (gp.p.take gp.nparam)
             else .error .param) with
      | .error e, _ => .error e
      | .ok _, .error e => .error e
      | .ok sb, .ok bs =>
        .ok ([gp.vers % 256, gp.gflags % 256]
            ++ (if gp.gflags &&& GFLAG_MULTI_PARAM ≠ 0 then [gp.nparam % 256] else [])
            ++ (if gp.gflags &&& GFLAG_HAVE_STAB ≠ 0 then (gp.max_sel % 256) :: sb else [])
            ++ bs) := by
  unfold fqz_store_parameters
  simp only [bind, Except.bind, pure, Except.pure, Except.map]
  by_cases hs : gp.gflags &&& GFLAG_HAVE_STAB ≠ 0 <;>
    by_cases hm : gp.gflags &&& GFLAG_MULTI_PARAM ≠ 0 <;>
    by_cases hn : gp.nparam ≤ gp.p.length <;>
    cases store_array gp.stab 256 <;>
    cases store_blocks (gp.p.take gp.nparam) <;>
    simp [hs, hm, hn]

/-- The layout of what `fqz_store_parameters` writes. -/
theorem store_parameters_iff (gp : fqz_gparams) (out : List Nat) :
    fqz_store_parameters gp = .ok out ↔
      ∃ (stab_bytes : List Nat) (blocks : List (List Nat)),
        (if gp.gflags &&& GFLAG_HAVE_STAB ≠ 0 then store_array gp.stab 256 = .ok stab_bytes
         else stab_bytes = [])
        ∧ gp.nparam ≤ gp.p.length
        ∧ List.Forall₂ (fun pm b => fqz_store_parameters1 pm = .ok b) (gp.p.take gp.nparam) blocks
        ∧ out = [gp.vers % 256, gp.gflags % 256]
            ++ (if gp.gflags &&& GFLAG_MULTI_PARAM ≠ 0 then [gp.nparam % 256] else [])
            ++ (if gp.gflags &&& GFLAG_HAVE_STAB ≠ 0 then (gp.max_sel % 256) :: stab_bytes else [])
            ++ blocks.flatten := by
  rw [fqz_store_parameters_eq]
  constructor
  · intro h
    split at h
    · cases h
    · cases h
    · rename_i sb bs h1 h2
      simp only [Except.ok.injEq] at h
      have hn : gp.nparam ≤ gp.p.length := by
        by_contra hc
        rw [if_neg hc] at h2
        cases h2
      rw [if_pos hn] at h2
      obtain ⟨blocks, hf, hj⟩ := (store_blocks_iff _ _).mp h2
      refine ⟨sb, blocks, ?_, hn, hf, by rw [← h, hj]⟩
      split
      · rename_i hs
        rw [if_pos hs] at h1
        exact h1
      · rename_i hs
        rw [if_neg hs] at h1
        simp only [Except.ok.injEq] at h1
        exact h1.symm
  · rintro ⟨sb, blocks, h1, hn, hf, ho⟩
    have hb := (store_blocks_iff _ blocks.flatten).mpr ⟨blocks, hf, rfl⟩
    have e1 : (if gp.gflags &&& GFLAG_HAVE_STAB ≠ 0 then store_array gp.stab 256 else .ok [])
        = .ok sb := by
      split
      · rename_i hs
        rw [if_pos hs] at h1
        exact h1
      · rename_i hs
        rw [if_neg hs] at h1
        rw [h1]
    rw [e1, if_pos hn, hb, ho]

/-- The bit budget change leaves `nsym`, `max_sym` and `do_dedup` alone. -/
theorem steal_bits_keeps (pm : fqz_param) :
    (steal_bits pm).nsym = pm.nsym ∧ (steal_bits pm).max_sym = pm.max_sym
      ∧ (steal_bits pm).do_dedup = pm.do_dedup := by
  unfold steal_bits
  simp only
  repeat' split
  all_goals exact ⟨rfl, rfl, rfl⟩

/-- The two "Auto tune" steps of `qual_stats` leave `nsym`, `max_sym` and
`do_dedup` alone. -/
theorem tune_chain (pmA : fqz_param) (c1 c2 c3 : Prop) [Decidable c1] [Decidable c2]
    [Decidable c3] (pm4 : fqz_param)
    (h : pm4 = (if c3 then
        { (if c2 then steal_bits (if c1 then { pmA with do_sel := 1 } else pmA)
           else (if c1 then { pmA with do_sel := 1 } else pmA)) with do_sel := 1 }
      else (if c2 then steal_bits (if c1 then { pmA with do_sel := 1 } else pmA)
           else (if c1 then { pmA with do_sel := 1 } else pmA)))) :
    pm4.nsym = pmA.nsym ∧ pm4.max_sym = pmA.max_sym ∧ pm4.do_dedup = pmA.do_dedup := by
  subst h
  by_cases h1 : c1 <;> by_cases h2 : c2 <;> by_cases h3 : c3 <;>
    simp only [h1, h2, h3, if_true, if_false] <;>
    first
      | exact ⟨trivial, trivial, trivial⟩
      | exact ⟨rfl, rfl, rfl⟩
      | exact steal_bits_keeps _

/-- What `qual_stats` leaves of the statistics: the histogram, the number of
symbols, the highest symbol and the dedup decision. -/
theorem qual_tune_ok (fl : TuneFloats) (s s1 : cram_slice) (recs : List cram_crec)
    (pm pm1 : fqz_param) (sc : Int × Bool) (st : QStats) (qhist : List Nat)
    (h : qual_tune fl s recs pm sc st = .ok (pm1, s1, qhist)) :
    qhist = st.qhist ∧ pm1.nsym = (count_syms st.qhist).2
      ∧ pm1.max_sym = (count_syms st.qhist).1
      ∧ pm1.do_dedup = (if ((st.rec_ + 1) % U64) / (st.dups + 1) < 500 then 1 else 0) := by
  unfold qual_tune at h
  simp only at h
  split at h
  · cases h
  · simp only [Except.ok.injEq, Prod.mk.injEq] at h
    obtain ⟨h1, h2, h3⟩ := h
    have hc := tune_chain _ _ _ _ pm1 h1.symm
    exact ⟨h3.symm, hc.1, hc.2.1, hc.2.2⟩

/-- What a successful `qual_stats` has set from the statistics. -/
theorem qual_stats_ok (fl : TuneFloats) (s s1 : cram_slice) (inp q_len : List Nat)
    (pm pm1 : fqz_param) (qhist : List Nat)
    (h : qual_stats fl s inp q_len pm = .ok (pm1, s1, qhist)) :
    ∃ st, qual_scan s q_len inp = .ok st ∧ qhist = st.qhist
      ∧ pm1.nsym = (count_syms st.qhist).2 ∧ pm1.max_sym = (count_syms st.qhist).1
      ∧ pm1.do_dedup = (if ((st.rec_ + 1) % U64) / (st.dups + 1) < 500 then 1 else 0) := by
  unfold qual_stats at h
  split at h
  · cases h
  · split at h
    · cases h
    · rename_i st hst
      exact ⟨st, hst, qual_tune_ok _ _ _ _ _ _ _ _ _ h⟩

/-- The adjustments of `fqz_pick_parameters` leave `nsym`, `max_sym`,
`store_qmap` and `do_dedup` alone. -/
theorem pick_adjust_keeps (fl : TuneFloats) (strat in_size : Nat) (pm : fqz_param) :
    (pick_adjust fl strat in_size pm).nsym = pm.nsym
      ∧ (pick_adjust fl strat in_size pm).max_sym = pm.max_sym
      ∧ (pick_adjust fl strat in_size pm).store_qmap = pm.store_qmap
      ∧ (pick_adjust fl strat in_size pm).do_dedup = pm.do_dedup := by
  unfold pick_adjust
  simp only
  repeat' split
  all_goals exact ⟨rfl, rfl, rfl, rfl⟩

set_option maxRecDepth 100000 in
/-- The `qmap`, `nsym` and `max_sym` that `pick_tables` leaves. -/
theorem pick_tables_qmap (qhist : List Nat) (pm : fqz_param) :
    (pick_tables qhist pm).store_qmap = pm.store_qmap
      ∧ (pm.store_qmap ≠ 0 →
          (pick_tables qhist pm).qmap = build_qmap qhist 256 0 0
          ∧ (pick_tables qhist pm).max_sym = pm.nsym ∧ (pick_tables qhist pm).nsym = pm.nsym)
      ∧ (pm.store_qmap = 0 →
          (pick_tables qhist pm).qmap = List.range 256 ∧ (pick_tables qhist pm).nsym = 255
          ∧ (pick_tables qhist pm).max_sym = pm.max_sym) := by
  unfold pick_tables
  simp only
  by_cases h : pm.store_qmap ≠ 0
  · rw [if_pos h]
    exact ⟨rfl, fun _ => ⟨rfl, rfl, rfl⟩, fun h0 => absurd h0 h⟩
  · rw [if_neg h]
    exact ⟨rfl, fun h0 => absurd h0 h, fun _ => ⟨rfl, rfl, rfl⟩⟩

/-- What a successful `fqz_pick_parameters` has done: the statistics loop ran,
and the one block of `gp` is the block left by `qual_stats` taken through the
rest of the function; the prelude is `fqz_store_parameters` of `gp`. -/
theorem fqz_pick_parameters_ok (fl : TuneFloats) (vers strat : Nat) (s s1 : cram_slice)
    (inp q_len comp : List Nat) (gp : fqz_gparams)
    (h : fqz_pick_parameters fl vers strat s inp = .ok (gp, s1, q_len, comp)) :
    ∃ (st : QStats) (pm0 : fqz_param),
      qual_scan s q_len inp = .ok st
      ∧ pm0.nsym = (count_syms st.qhist).2 ∧ pm0.max_sym = (count_syms st.qhist).1
      ∧ pm0.store_qmap = (if pm0.nsym ≤ 8 ∧ pm0.nsym * 2 < pm0.max_sym then 1 else 0)
      ∧ pm0.do_dedup = (if ((st.rec_ + 1) % U64) / (st.dups + 1) < 500 then 1 else 0)
      ∧ gp = pick_global vers (s1.crecs.take s1.num_records)
          (pick_tables st.qhist
            (pick_adjust fl (if strat ≥ nstrats then nstrats - 1 else strat) inp.length pm0))
      ∧ fqz_store_parameters gp = .ok comp := by
  unfold fqz_pick_parameters at h
  simp only at h
  split at h
  · cases h
  · rename_i ql hql
    split at h
    · cases h
    · cases h
    · cases h
    · rename_i pm1 s2 qhist _ _ hqs _ _
      obtain ⟨st, hst, hq, hn, hm, hd⟩ := qual_stats_ok _ _ _ _ _ _ _ _ hqs
      unfold pick_finish at h
      simp only at h
      split at h
      · cases h
      · rename_i comp1 hc
        simp only [Except.ok.injEq, Prod.mk.injEq] at h
        obtain ⟨h1, h2, h3, h4⟩ := h
        subst h2 h3 h4
        subst hq
        refine ⟨st,
          { pm1 with
            store_qmap := if pm1.nsym ≤ 8 ∧ pm1.nsym * 2 < pm1.max_sym then 1 else 0
            fixed_len := if ql.all (fun l => l = ql.getD 0 0) then 1 else 0
            first_len := 1
            use_qtab := 0 }, hst, hn, hm, rfl, hd, h1.symm, ?_⟩
        rw [← h1]
        exact hc

/-- The prelude of a block `compress_block_fqz2f` returns starts with the
format number 5 and the flags byte. -/
theorem compress_prelude_head (fl : TuneFloats) (frev vers : Nat) (s : cram_slice)
    (inp : List Nat) (c : Compressed)
    (h : compress_block_fqz2f fl frev vers s inp = .ok c) :
    ∃ (g : Nat) (rest : List Nat), c.prelude = 5 :: g :: rest := by
  unfold compress_block_fqz2f at h
  split at h
  · cases h
  · rename_i gp s1 q_len comp hp
    obtain ⟨st, pm0, _, _, _, _, _, hgp, hst⟩ := fqz_pick_parameters_ok _ _ _ _ _ _ _ _ _ hp
    obtain ⟨sb, blocks, _, _, _, hout⟩ := (store_parameters_iff gp comp).mp hst
    have hv : gp.vers = 5 := by rw [hgp]; rfl
    rw [hv] at hout
    have hc : c.prelude = comp := by
      simp only at h
      repeat' split at h
      all_goals first
        | (cases h; done)
        | (simp only [Except.ok.injEq] at h
           rw [← h])
    rw [hc, hout]
    exact ⟨_, _, rfl⟩

/-- An entry of a table after `tab[k] = f(tab[k])`. -/
theorem getD_modify (q : List Nat) (f : Nat → Nat) (k v : Nat) (hf : k < q.length) :
    (q.modify f k).getD v 0 = if v = k then f (q.getD v 0) else q.getD v 0 := by
  rw [List.getD_eq_getElem?_getD, List.getD_eq_getElem?_getD, List.getElem?_modify]
  by_cases hv : v = k
  · subst hv
    simp only [if_true]
    cases h : q[v]? with
    | none =>
      rw [List.getElem?_eq_none_iff] at h
      omega
    | some a => simp
  · have hk : ¬ k = v := fun h => hv h.symm
    simp only [hk, hv, if_false]
    cases q[v]? <;> simp

/-- The inner statistics loop adds to `qhist[v]` the number of bytes `v`. -/
theorem stats_bytes_hist (v : Nat) :
    ∀ (l : List Nat) (t : Nat) (q : List Nat) (c : Nat), q.length = 256 →
      q.getD v 0 = c % U32 →
      (stats_bytes l t q).2.length = 256
      ∧ (stats_bytes l t q).2.getD v 0 = (c + l.countP (fun b => b % 256 == v)) % U32 := by
  intro l
  induction l with
  | nil =>
    intro t q c hl hq
    exact ⟨hl, by simpa [stats_bytes] using hq⟩
  | cons b rest ih =>
    intro t q c hl hq
    have hb : b % 256 < q.length := by rw [hl]; exact Nat.mod_lt _ (by decide)
    simp only [stats_bytes, List.countP_cons]
    by_cases hbv : b % 256 = v
    · have h1 := ih ((t + b % 256) % U32) (q.modify (fun c => (c + 1) % U32) (b % 256)) (c + 1)
        (by rw [List.length_modify]; exact hl)
        (by rw [getD_modify _ _ _ _ hb, if_pos hbv.symm, hq]; simp [U32, Nat.add_mod])
      refine ⟨h1.1, ?_⟩
      rw [h1.2]
      simp [hbv]
      congr 1
      omega
    · have hvb : ¬ v = b % 256 := fun h => hbv h.symm
      have h1 := ih ((t + b % 256) % U32) (q.modify (fun c => (c + 1) % U32) (b % 256)) c
        (by rw [List.length_modify]; exact hl)
        (by rw [getD_modify _ _ _ _ hb, if_neg hvb, hq])
      refine ⟨h1.1, ?_⟩
      rw [h1.2]
      simp [hbv]

/-- The bytes consumed after one more record of `j` bytes. -/
theorem take_step (inp : List Nat) (i j : Nat) :
    inp.take (i + min j (inp.length - i)) = inp.take i ++ (inp.drop i).take j := by
  rw [List.take_add]
  congr 1
  rw [List.take_eq_take]
  simp

/-- The statistics loop leaves in `qhist[v]` the number of bytes `v` of the
block, reduced to 32 bits. -/
theorem stats_loop_hist (s : cram_slice) (q_len inp : List Nat) (v : Nat) :
    ∀ (fuel i : Nat) (last_len : Int) (st st1 : QStats),
      st.qhist.length = 256 →
      st.qhist.getD v 0 = ((inp.take i).countP (fun b => b % 256 == v)) % U32 →
      stats_loop s q_len inp fuel i last_len st = .ok st1 →
      st1.qhist.length = 256
      ∧ st1.qhist.getD v 0 = (inp.countP (fun b => b % 256 == v)) % U32 := by
  intro fuel
  induction fuel with
  | zero =>
    intro i last_len st st1 _ _ h
    cases h
  | succ fuel ih =>
    intro i last_len st st1 hl hq h
    unfold stats_loop at h
    by_cases hi : i < inp.length
    · rw [if_pos hi] at h
      simp only at h
      split at h
      · cases h
      · rename_i j dup _
        have hb := stats_bytes_hist v ((inp.drop i).take j) 0 st.qhist _ hl hq
        refine ih _ _ _ st1 hb.1 ?_ h
        simp only
        rw [hb.2, take_step, List.countP_append]
    · rw [if_neg hi] at h
      simp only [Except.ok.injEq] at h
      subst h
      rw [List.take_of_length_le (by omega)] at hq
      exact ⟨hl, hq⟩

/-- After the statistics loop of `qual_stats`, `qhist[v]` is nonzero exactly
for the values `v` present in a block of fewer than 2^32 bytes. -/
theorem qual_scan_hist (s : cram_slice) (q_len inp : List Nat) (st : QStats)
    (hlen : inp.length < U32) (h : qual_scan s q_len inp = .ok st) :
    ∀ v, v < 256 → (decide (st.qhist.getD v 0 ≠ 0) = present inp v) := by
  intro v hv
  unfold qual_scan at h
  have hh := stats_loop_hist s q_len inp v _ _ _ _ st (List.length_replicate _ _)
    (by rw [List.getD_eq_getElem?_getD, List.getElem?_replicate, if_pos hv]; rfl) h
  have hc : inp.countP (fun b => b % 256 == v) ≤ inp.length := List.countP_le_length _
  rw [hh.2, Nat.mod_eq_of_lt (by omega)]
  unfold present
  by_cases hp : inp.any (fun b => b % 256 == v) = true
  · rw [hp]
    have : 0 < inp.countP (fun b => b % 256 == v) := by
      rw [List.countP_pos_iff]
      rw [List.any_eq_true] at hp
      exact hp
    simp only [decide_eq_true_eq]
    omega
  · have hp1 : inp.any (fun b => b % 256 == v) = false := by
      cases hx : inp.any (fun b => b % 256 == v)
      · rfl
      · exact absurd hx hp
    rw [hp1]
    have : ¬ 0 < inp.countP (fun b => b % 256 == v) := by
      rw [List.countP_pos_iff]
      rw [List.any_eq_true] at hp
      exact hp
    simp only [decide_eq_false_iff_not, not_not]
    omega

/-- The loop of `count_syms` over `[0,n)`: the largest index and the number of
indices with a nonzero count. -/
theorem count_syms_range (q : List Nat) (n : Nat) :
    (List.range n).foldl
        (fun acc i => if q.getD i 0 ≠ 0 then (i, acc.2 + 1) else acc) (0, 0)
      = (((List.range n).filter (fun i => decide (q.getD i 0 ≠ 0))).foldl max 0,
         ((List.range n).filter (fun i => decide (q.getD i 0 ≠ 0))).length)
    ∧ ((List.range n).filter (fun i => decide (q.getD i 0 ≠ 0))).foldl max 0 ≤ n := by
  induction n with
  | zero => exact ⟨rfl, Nat.le_refl _⟩
  | succ n ih =>
    rw [List.range_succ, List.foldl_append, List.filter_append, List.foldl_append,
      List.length_append, ih.1]
    by_cases hq : q.getD n 0 ≠ 0
    · have hd : decide (q.getD n 0 ≠ 0) = true := decide_eq_true hq
      have hf : List.filter (fun i => decide (q.getD i 0 ≠ 0)) [n] = [n] := by
        simp only [List.filter, hd]
      rw [hf]
      simp only [List.foldl_cons, List.foldl_nil, List.length_singleton]
      rw [if_pos hq, Nat.max_eq_right ih.2]
      exact ⟨rfl, Nat.le_succ _⟩
    · have hd : decide (q.getD n 0 ≠ 0) = false := decide_eq_false hq
      have hf : List.filter (fun i => decide (q.getD i 0 ≠ 0)) [n] = [] := by
        simp only [List.filter, hd]
      rw [hf]
      simp only [List.foldl_cons, List.foldl_nil, List.length_nil, Nat.add_zero]
      rw [if_neg hq]
      exact ⟨rfl, Nat.le_succ_of_le ih.2⟩

/-- On the histogram of a block, `count_syms` returns the highest value present
and the number of distinct values. -/
theorem count_syms_present (q inp : List Nat)
    (h : ∀ v, v < 256 → (decide (q.getD v 0 ≠ 0) = present inp v)) :
    count_syms q = (highest_value inp, distinct_values inp) := by
  have hf : (List.range 256).filter (fun i => decide (q.getD i 0 ≠ 0)) = present_values inp := by
    unfold present_values
    apply List.filter_congr
    intro x hx
    exact h x (List.mem_range.mp hx)
  unfold count_syms highest_value distinct_values
  rw [(count_syms_range q 256).1, hf]

/-- The table `build_qmap` makes: `n` entries, the one for the value `i + k`
being `j` plus the number of present values in `[i, i+k)`, or `INT_MAX`. -/
theorem build_qmap_spec (q : List Nat) :
    ∀ (n i j : Nat), (build_qmap q n i j).length = n
      ∧ ∀ k, k < n → (build_qmap q n i j).getD k 0
          = if q.getD (i + k) 0 ≠ 0 then
              j + ((List.range' i k).filter (fun x => decide (q.getD x 0 ≠ 0))).length
            else INT_MAX := by
  intro n
  induction n with
  | zero =>
    intro i j
    exact ⟨rfl, fun k hk => absurd hk (Nat.not_lt_zero _)⟩
  | succ n ih =>
    intro i j
    unfold build_qmap
    by_cases hq : q.getD i 0 ≠ 0
    · rw [if_pos hq]
      refine ⟨by simp [(ih (i + 1) (j + 1)).1], ?_⟩
      intro k hk
      cases k with
      | zero =>
        rw [if_pos (show q.getD (i + 0) 0 ≠ 0 from hq)]
        rfl
      | succ k =>
        have h1 := (ih (i + 1) (j + 1)).2 k (by omega)
        simp only [List.getD_cons_succ]
        rw [h1, show i + 1 + k = i + (k + 1) by omega]
        simp only [List.range'_succ, List.filter_cons, hq, ne_eq, not_false_eq_true,
          decide_True, if_true, List.length_cons]
        split <;> first | rfl | omega
    · rw [if_neg hq]
      refine ⟨by simp [(ih (i + 1) j).1], ?_⟩
      intro k hk
      cases k with
      | zero =>
        rw [if_neg (show ¬ q.getD (i + 0) 0 ≠ 0 from hq)]
        rfl
      | succ k =>
        have h1 := (ih (i + 1) j).2 k (by omega)
        simp only [List.getD_cons_succ]
        rw [h1, show i + 1 + k = i + (k + 1) by omega]
        have hq0 : q.getD i 0 = 0 := by
          by_contra hc
          exact hq hc
        simp only [List.range'_succ, List.filter_cons, hq0, ne_eq, not_true_eq_false,
          decide_False, if_false]
        rfl

/-- The number of entries of `build_qmap` other than `INT_MAX` is the number
of symbols `count_syms` finds. -/
theorem build_qmap_count (q : List Nat) :
    (store_qmap_bytes (build_qmap q 256 0 0)).length = (count_syms q).2 := by
  have hf : store_qmap_bytes (build_qmap q 256 0 0)
      = (List.range 256).filter (fun i => decide (q.getD i 0 ≠ 0)) := by
    unfold store_qmap_bytes
    apply List.filter_congr
    intro x hx
    have hx1 := List.mem_range.mp hx
    have h1 := (build_qmap_spec q 256 0 0).2 x hx1
    rw [Nat.zero_add, Nat.zero_add] at h1
    rw [h1]
    by_cases hq : q.getD x 0 ≠ 0
    · rw [if_pos hq]
      have hl : ((List.range' 0 x).filter (fun x => decide (q.getD x 0 ≠ 0))).length ≤ x := by
        refine Nat.le_trans (List.length_filter_le _ _) ?_
        rw [List.length_range']
      have : ((List.range' 0 x).filter (fun x => decide (q.getD x 0 ≠ 0))).length ≠ INT_MAX := by
        unfold INT_MAX
        omega
      rw [decide_eq_true this, decide_eq_true hq]
    · rw [if_neg hq, decide_eq_false hq]
      exact decide_eq_false (fun h => h rfl)
  rw [hf, count_syms, (count_syms_range q 256).1]

/-- The one block `fqz_pick_parameters` leaves. -/
theorem picked_block (fl : TuneFloats) (vers strat : Nat) (s s1 : cram_slice)
    (inp q_len comp : List Nat) (gp : fqz_gparams)
    (h : fqz_pick_parameters fl vers strat s inp = .ok (gp, s1, q_len, comp)) :
    ∃ (st : QStats) (pm : fqz_param),
      qual_scan s q_len inp = .ok st ∧ gp.p = [pm]
      ∧ (pm.store_qmap ≠ 0
          ↔ (count_syms st.qhist).2 ≤ 8 ∧ (count_syms st.qhist).2 * 2 < (count_syms st.qhist).1)
      ∧ (pm.store_qmap ≠ 0 →
          pm.qmap = build_qmap st.qhist 256 0 0 ∧ pm.max_sym = (count_syms st.qhist).2
          ∧ pm.nsym = (count_syms st.qhist).2)
      ∧ (pm.store_qmap = 0 → pm.qmap = List.range 256 ∧ pm.nsym = 255) := by
  obtain ⟨st, pm0, hst, hn, hm, hq, _, hgp, _⟩ := fqz_pick_parameters_ok _ _ _ _ _ _ _ _ _ h
  have ha := pick_adjust_keeps fl (if strat ≥ nstrats then nstrats - 1 else strat) inp.length pm0
  have ht := pick_tables_qmap st.qhist
    (pick_adjust fl (if strat ≥ nstrats then nstrats - 1 else strat) inp.length pm0)
  refine ⟨st, _, hst, by rw [hgp]; rfl, ?_, ?_, ?_⟩
  · rw [ht.1, ha.2.2.1, hq, hn, hm]
    split <;> simp_all
  · intro h1
    rw [ht.1] at h1
    have h2 := ht.2.1 h1
    rw [ha.1, hn] at h2
    exact h2
  · intro h1
    rw [ht.1] at h1
    have h2 := ht.2.2 h1
    exact ⟨h2.1, h2.2.1⟩

/-- A present value below 256 has a rank below the number of distinct
values. -/
theorem value_rank_lt (inp : List Nat) (v : Nat) (hv : v < 256) (hp : present inp v = true) :
    value_rank inp v < distinct_values inp := by
  unfold value_rank distinct_values present_values
  obtain ⟨k, hk⟩ : ∃ k, 256 = v + (k + 1) := ⟨255 - v, by omega⟩
  rw [hk, List.range_add, List.filter_append, List.length_append, List.range_succ_eq_map,
    List.map_cons, List.filter_cons, Nat.add_zero, if_pos hp, List.length_cons]
  omega

set_option maxRecDepth 10000000 in
/-- For the block `sparse_qual` at format 4, strategy 0, `fqz_pick_parameters`
leaves the parameters `sparse_gparams` and writes `sparse_prelude`. -/
theorem sparse_picked :
    fqz_pick_parameters sparse_floats 4 0 sparse_slice sparse_qual
      = .ok (sparse_gparams, sparse_slice, [4], sparse_prelude) := by
  rfl

/-! ## Lemmas on the dedup statistics -/

/-- A length below 2^31 is itself as an `int`. -/
theorem toInt32_small (n : Nat) (h : n < 2147483648) : toInt32 n = (n : Int) := by
  unfold toInt32
  simp only [U32]
  split <;> omega

/-- One iteration of the statistics loop on a record that is in the buffer. -/
theorem stats_loop_step (s : cram_slice) (q_len : List Nat) (pre r tail : List Nat)
    (prev : Option (List Nat)) (fuel : Nat) (last_len : Int) (st : QStats)
    (hr : r ≠ []) (hrl : r.length < 2147483648)
    (hq : q_len.get? st.rec_ = some r.length) (hn : st.rec_ < s.num_records)
    (h0 : prev = none → pre = [])
    (h1 : ∀ p, prev = some p → p ≠ [] ∧ p.length < 2147483648 ∧ last_len = (p.length : Int)
      ∧ ∃ pre0, pre = pre0 ++ p) :
    stats_loop s q_len (pre ++ r ++ tail) (fuel + 1) pre.length last_len st
      = stats_loop s q_len (pre ++ r ++ tail) fuel (pre ++ r).length (r.length : Int)
          { rec_ := st.rec_ + 1
            dups := st.dups + (if prev = some r then 1 else 0)
            qhist := (stats_bytes r 0 st.qhist).2
            avg_qual := st.avg_qual ++
              [if (r.length : Int) ≠ 0 then
                 ((20 * (stats_bytes r 0 st.qhist).1 + (r.length : Int).toNat)
                    / (2 * (r.length : Int).toNat)) % U32 else 0]
            avg := st.avg.modify (fun c => (c + 1) % U32)
              (min 2559 (if (r.length : Int) ≠ 0 then
                 ((20 * (stats_bytes r 0 st.qhist).1 + (r.length : Int).toNat)
                    / (2 * (r.length : Int).toNat)) % U32 else 0)) } := by
  have hrpos : 0 < r.length := List.length_pos.mpr hr
  have hi : pre.length < (pre ++ r ++ tail).length := by
    simp only [List.length_append]
    omega
  have hdrop : ((pre ++ r ++ tail).drop pre.length).take r.length = r := by
    rw [List.append_assoc, List.drop_left, List.take_left]
  have hmin : pre.length + min r.length ((pre ++ r ++ tail).length - pre.length)
      = (pre ++ r).length := by
    simp only [List.length_append]
    omega
  have hdup : (if pre.length > 0 ∧ ((r.length : Nat) : Int) = last_len % (U64 : Int) then
        (if pre.length < last_len.toNat ∨ pre.length + r.length > (pre ++ r ++ tail).length then
           (Except.error Fault.slice : Except Fault (Nat × Nat))
         else .ok (r.length,
           if ((pre ++ r ++ tail).drop (pre.length - r.length)).take r.length
               = ((pre ++ r ++ tail).drop pre.length).take r.length then 1 else 0))
      else .ok (r.length, 0))
      = .ok (r.length, if prev = some r then 1 else 0) := by
    cases prev with
    | none =>
      rw [h0 rfl]
      simp
    | some p =>
      obtain ⟨hp, hpl, hll, pre0, hpre⟩ := h1 p rfl
      have hppos : 0 < p.length := List.length_pos.mpr hp
      have hprel : pre.length = pre0.length + p.length := by rw [hpre, List.length_append]
      have hmod : last_len % (U64 : Int) = (p.length : Int) := by
        rw [hll]
        simp only [U64]
        omega
      rw [hmod]
      by_cases hlen : r.length = p.length
      · have hc1 : pre.length > 0 ∧ ((r.length : Nat) : Int) = (p.length : Int) :=
          ⟨by omega, by omega⟩
        rw [if_pos hc1]
        have hc2 : ¬ (pre.length < last_len.toNat
            ∨ pre.length + r.length > (pre ++ r ++ tail).length) := by
          rw [hll]
          simp only [List.length_append, Int.toNat_ofNat]
          omega
        rw [if_neg hc2, hdrop]
        have hprev : ((pre ++ r ++ tail).drop (pre.length - r.length)).take r.length = p := by
          rw [hprel, hlen, Nat.add_sub_cancel, hpre]
          rw [List.append_assoc, List.append_assoc, List.drop_left, List.take_left]
        rw [hprev]
        by_cases hpr : p = r
        · rw [if_pos hpr, if_pos (by rw [hpr])]
        · rw [if_neg hpr, if_neg (fun h => hpr (Option.some.inj h))]
      · have hc1 : ¬ (pre.length > 0 ∧ ((r.length : Nat) : Int) = (p.length : Int)) := by
          intro h
          exact hlen (by omega)
        rw [if_neg hc1]
        have hpr : ¬ (some p = some r) := fun h => hlen (by rw [Option.some.inj h])
        rw [if_neg hpr]
  rw [stats_loop]
  rw [if_pos hi]
  simp only [hn, if_true, hq]
  rw [hdup]
  simp only [hdrop, hmin, toInt32_small r.length hrl]

/-- The statistics loop on a buffer that ends with the non-empty records
`rest`: it returns, having counted each record of `rest` and each of them
equal to the record before it. -/
theorem stats_loop_records (s : cram_slice) (q_len inp : List Nat) :
    ∀ (rest : List (List Nat)) (pre : List Nat) (prev : Option (List Nat)) (ql1 : List Nat)
      (fuel : Nat) (last_len : Int) (st : QStats),
      (∀ r ∈ rest, r ≠ [] ∧ r.length < 2147483648) →
      inp = pre ++ rest.flatten →
      q_len.drop st.rec_ = rest.map List.length ++ ql1 →
      st.rec_ + rest.length ≤ s.num_records →
      (prev = none → pre = []) →
      (∀ p, prev = some p → p ≠ [] ∧ p.length < 2147483648 ∧ last_len = (p.length : Int)
        ∧ ∃ pre0, pre = pre0 ++ p) →
      rest.length < fuel →
      ∃ st1, stats_loop s q_len inp fuel pre.length last_len st = .ok st1
        ∧ st1.rec_ = st.rec_ + rest.length
        ∧ st1.dups = st.dups + dup_after prev rest
        ∧ st1.avg_qual.length = st.avg_qual.length + rest.length := by
  intro rest
  induction rest with
  | nil =>
    intro pre prev ql1 fuel last_len st _ hinp _ _ _ _ hf
    obtain ⟨f, rfl⟩ : ∃ f, fuel = f + 1 := ⟨fuel - 1, by omega⟩
    rw [stats_loop, if_neg (by rw [hinp]; simp)]
    exact ⟨st, rfl, rfl, rfl, rfl⟩
  | cons r rest ih =>
    intro pre prev ql1 fuel last_len st hne hinp hq hn h0 h1 hf
    obtain ⟨f, rfl⟩ : ∃ f, fuel = f + 1 := ⟨fuel - 1, by omega⟩
    have hr := hne r (List.mem_cons_self _ _)
    have hinp1 : inp = pre ++ r ++ rest.flatten := by
      rw [hinp, List.flatten_cons, List.append_assoc]
    have hq0 : q_len.get? st.rec_ = some r.length := by
      have h2 : (q_len.drop st.rec_)[0]? = some r.length := by
        rw [hq]
        simp
      rw [List.getElem?_drop, Nat.add_zero] at h2
      rw [List.get?_eq_getElem?]
      exact h2
    have hq1 : q_len.drop (st.rec_ + 1) = rest.map List.length ++ ql1 := by
      rw [← List.drop_drop, hq]
      rfl
    simp only [List.length_cons] at hn hf
    obtain ⟨st2, hstep, h2r, h2d, h2a⟩ : ∃ st2 : QStats,
        stats_loop s q_len (pre ++ r ++ rest.flatten) (f + 1) pre.length last_len st
          = stats_loop s q_len (pre ++ r ++ rest.flatten) f (pre ++ r).length (r.length : Int) st2
        ∧ st2.rec_ = st.rec_ + 1 ∧ st2.dups = st.dups + (if prev = some r then 1 else 0)
        ∧ st2.avg_qual.length = st.avg_qual.length + 1 :=
      ⟨_, stats_loop_step s q_len pre r rest.flatten prev f last_len st hr.1 hr.2 hq0
        (by omega) h0 h1, rfl, rfl, by rw [List.length_append]; rfl⟩
    rw [hinp1, hstep, ← hinp1]
    rw [← h2r] at hq1
    obtain ⟨st1, hs, hrec, hdups, havg⟩ := ih (pre ++ r) (some r) ql1 f (r.length : Int) st2
      (fun x hx => hne x (List.mem_cons_of_mem _ hx)) hinp1 hq1
      (by omega) (fun h => Option.noConfusion h)
      (fun p hp => by
        have hpr : r = p := Option.some.inj hp
        subst hpr
        exact ⟨hr.1, hr.2, rfl, pre, rfl⟩)
      (by omega)
    refine ⟨st1, hs, ?_, ?_, ?_⟩
    · rw [hrec, h2r]
      simp only [List.length_cons]
      omega
    · rw [hdups, h2d]
      simp only [dup_after]
      omega
    · rw [havg, h2a]
      simp only [List.length_cons]
      omega

/-- The selectors of the average-quality test can be set when `avg_qual` has an
entry for every record. -/
theorem mark_avg_ok (bins : Nat → Nat) (shr : Nat) :
    ∀ (recs : List cram_crec) (avs : List Nat), recs.length ≤ avs.length →
      ∃ out, mark_avg bins shr recs avs = .ok out := by
  intro recs
  induction recs with
  | nil =>
    intro avs _
    exact ⟨[], by unfold mark_avg; rfl⟩
  | cons r rest ih =>
    intro avs h
    cases avs with
    | nil => simp at h
    | cons a avs =>
      obtain ⟨out, ho⟩ := ih avs (by simpa using h)
      unfold mark_avg
      rw [ho]
      exact ⟨_, rfl⟩

/-- The part of `qual_stats` after the statistics loop returns when `avg_qual`
has an entry for every record, or when `do_qa` is 0. -/
theorem qual_tune_returns (fl : TuneFloats) (s : cram_slice) (recs : List cram_crec)
    (pm : fqz_param) (sc : Int × Bool) (st : QStats)
    (h : pm.do_qa = 0 ∨ recs.length ≤ st.avg_qual.length) :
    ∃ r, qual_tune fl s recs pm sc st = .ok r := by
  unfold qual_tune
  simp only
  rcases h with h | h
  · simp only [h, ne_eq, not_true_eq_false, decide_False, Bool.false_and, Bool.false_eq_true,
      if_false]
    exact ⟨_, rfl⟩
  · obtain ⟨o0, h0⟩ := mark_avg_ok (avg_bins st.avg s.num_records (count_syms st.qhist).2) 0
      recs st.avg_qual h
    obtain ⟨o1, h1⟩ := mark_avg_ok (avg_bins st.avg s.num_records (count_syms st.qhist).2) 1
      recs st.avg_qual h
    rw [h0, h1]
    split
    · rename_i e he
      split at he
      · cases he
      · split at he <;> cases he
    · exact ⟨_, rfl⟩

/-- The statistics loop of `qual_stats` on a block of non-empty records, the
lengths of further records following theirs in `q_len`: it counts the records
of the block and those equal to the record before them. -/
theorem qual_scan_records (s : cram_slice) (rs : List (List Nat)) (ql1 : List Nat)
    (hne : ∀ r ∈ rs, r ≠ [] ∧ r.length < 2147483648) (hn : rs.length ≤ s.num_records) :
    ∃ st, qual_scan s (rs.map List.length ++ ql1) rs.flatten = .ok st
      ∧ st.rec_ = rs.length ∧ st.dups = dup_count rs ∧ st.avg_qual.length = rs.length := by
  unfold qual_scan
  obtain ⟨st1, hs, hr, hd, ha⟩ := stats_loop_records s (rs.map List.length ++ ql1) rs.flatten rs
    [] none ql1 (s.num_records + 2) 0
    { rec_ := 0, dups := 0, qhist := List.replicate 256 0, avg_qual := [],
      avg := List.replicate 2560 0 }
    hne rfl rfl (by simp only; omega) (fun _ => rfl) (fun p hp => Option.noConfusion hp)
    (by omega)
  refine ⟨st1, hs, ?_, ?_, ?_⟩
  · rw [hr]
    simp
  · rw [hd]
    simp [dup_count]
  · rw [ha]
    simp

/-- The dedup decision of `qual_stats` on a block of non-empty records: the
function returns, with `do_dedup` set to `(n+1)/(d+1) < 500`, `n` the number
of records of the block and `d` the number equal to the record before them. -/
theorem qual_stats_dedup (fl : TuneFloats) (s : cram_slice) (rs : List (List Nat))
    (ql1 : List Nat) (pm : fqz_param)
    (hne : ∀ r ∈ rs, r ≠ [] ∧ r.length < 2147483648) (hn : rs.length ≤ s.num_records)
    (hc : s.num_records ≤ s.crecs.length) (hmax : rs.length < 2147483648)
    (hq : pm.do_qa = 0 ∨ s.num_records ≤ rs.length) :
    ∃ pm1 s1 qhist,
      qual_stats fl s rs.flatten (rs.map List.length ++ ql1) pm = .ok (pm1, s1, qhist)
      ∧ pm1.do_dedup = (if (rs.length + 1) / (dup_count rs + 1) < 500 then 1 else 0) := by
  obtain ⟨st, hs, hr, hd, ha⟩ := qual_scan_records s rs ql1 hne hn
  have hsl : slice_recs s = .ok (s.crecs.take s.num_records) := by
    unfold slice_recs
    rw [if_neg (by omega)]
  obtain ⟨⟨pm1, s1, qhist⟩, ht⟩ := qual_tune_returns fl s (s.crecs.take s.num_records) pm
    (scan_flags (s.crecs.take s.num_records) 0 false) st
    (by
      rcases hq with hq | hq
      · exact Or.inl hq
      · right
        rw [List.length_take, ha]
        omega)
  have hk := qual_tune_ok _ _ _ _ _ _ _ _ _ ht
  refine ⟨pm1, s1, qhist, ?_, ?_⟩
  · unfold qual_stats
    rw [hsl, hs]
    exact ht
  · rw [hk.2.2.2, hr, hd, Nat.mod_eq_of_lt (by simp only [U64]; omega)]

/-- The records of `alt_records` are non-empty. -/
theorem alt_records_nonempty : ∀ r ∈ alt_records, r ≠ [] ∧ r.length < 2147483648 := by
  intro r hr
  unfold alt_records at hr
  obtain ⟨i, _, hi⟩ := List.mem_map.mp hr
  rw [← hi]
  exact ⟨List.cons_ne_nil _ _, by simp⟩

set_option maxRecDepth 1000000 in
/-- No record of `alt_records` followed by an empty record equals the record
before it, and there are 499 of them. -/
theorem alt_records_dups :
    dup_count (alt_records ++ [[]]) = 0 ∧ (alt_records ++ [[]]).length = 499
      ∧ alt_records.length = 498 ∧ dup_count alt_records = 0 := by
  decide

/-! ## The claims on the decoder's output, the array codec and the tuner -/

set_option maxRecDepth 1000000 in
/-- C11 (the code does not check the length).  On the prelude `plain_prelude`
with one byte of output expected, the first record header declares the length
2; the decoder does not return null: it decodes one quality value, 7, and
returns the buffer. -/
theorem overlong_record_not_null :
    ∀ payload : List Nat,
      uncompress_block_fqz2f fqz_param.zero (symbols [2, 0, 0, 0, 7, 9])
        (plain_prelude ++ payload) 1 = .ok (some [7]) :=
  fun _ => rfl

set_option maxRecDepth 1000000 in
/-- C12 (the code leaves the output buffer).  A dup record of length 1 at the
start of the output makes `memcpy` read `uncomp[-1]`; a dup record of length 2
after one byte of output makes it read from `uncomp-1`; a dup record of length
2 after two bytes of an output of three makes it write `uncomp[3]`; and with
`GFLAG_DO_REV` a reversed record of declared length 5 in an output of one byte
makes the final pass swap `uncomp[0]` and `uncomp[4]`. -/
theorem decoder_leaves_output_buffer :
    (∀ payload : List Nat,
      uncompress_block_fqz2f fqz_param.zero (symbols [1, 0, 0, 0, 1])
        (dedup_prelude ++ payload) 1 = .error .outbuf)
    ∧ (∀ payload : List Nat,
      uncompress_block_fqz2f fqz_param.zero (symbols [1, 0, 0, 0, 0, 7, 2, 0, 0, 0, 1])
        (dedup_prelude ++ payload) 3 = .error .outbuf)
    ∧ (∀ payload : List Nat,
      uncompress_block_fqz2f fqz_param.zero (symbols [2, 0, 0, 0, 0, 7, 8, 2, 0, 0, 0, 1])
        (dedup_prelude ++ payload) 3 = .error .outbuf)
    ∧ (∀ payload : List Nat,
      uncompress_block_fqz2f fqz_param.zero (symbols [5, 0, 0, 0, 1, 7])
        (rev_prelude ++ payload) 1 = .error .outbuf) :=
  ⟨fun _ => rfl, fun _ => rfl, fun _ => rfl, fun _ => rfl⟩

/-- C13 (decode terminates).  Whatever the input, the expected output size and
the symbols the entropy decoder delivers, the main loop of
`uncompress_block_fqz2f` ends within `out_size + 2^31` iterations, and so does
the function: each iteration moves `i` forward or, on a dup record of length 0,
`rec`, which `nrec`, an `int`, bounds.  The loop ends by `i` reaching
`out_size`, by `return NULL`, or at a fault (the doubling of `nrec`
overflowing, an access outside a buffer). -/
theorem decode_terminates (junk : fqz_param) (rc : SymChannel) (inp : List Nat)
    (out_size : Nat) :
    uncompress_main junk rc inp out_size ≠ .error .fuel
    ∧ uncompress_block_fqz2f junk rc inp out_size ≠ .error .fuel :=
  ⟨uncompress_main_no_fuel junk rc inp out_size, uncompress_block_no_fuel junk rc inp out_size⟩

/-- C14 (the flatten pass of `store_array`).  For a table whose first `size`
entries are in non-decreasing order and below `INT_MAX` (the counter `j` is an
`int`), the first pass of `store_array` writes, for each value `j = 0, 1, 2,
...` up to the largest value present, the count `k` of the entries equal to `j`
as `k/255` bytes of 255 followed by the byte `k % 255`; `store_array` returns
the second pass run on these bytes. -/
theorem flatten_pass (array : List Nat) (size : Nat)
    (hs : (array.take size).Pairwise (fun a b => a ≤ b))
    (hb : ∀ x ∈ array.take size, x < INT_MAX) :
    store_flat 2147483648 0 (array.take size) = .ok (flatten_spec (array.take size))
    ∧ store_array array size
        = .ok ((store_rle (flatten_spec (array.take size)).length
                  (flatten_spec (array.take size)).length
                  (flatten_spec (array.take size)) 0 0 (-1)).1.take
                (store_rle (flatten_spec (array.take size)).length
                  (flatten_spec (array.take size)).length
                  (flatten_spec (array.take size)) 0 0 (-1)).2) := by
  have h := store_flat_flatten_spec (array.take size) hs hb
  refine ⟨h, ?_⟩
  unfold store_array
  rw [h]

/-- C14 on the table 0,0,0,1,1,1,1,3,5,5 of the comment above `store_array`:
it flattens to 3 4 0 1 0 2. -/
theorem flatten_pass_witness :
    ([0, 0, 0, 1, 1, 1, 1, 3, 5, 5].take 10).Pairwise (fun a b => a ≤ b)
    ∧ (∀ x ∈ [0, 0, 0, 1, 1, 1, 1, 3, 5, 5].take 10, x < INT_MAX)
    ∧ flatten_spec ([0, 0, 0, 1, 1, 1, 1, 3, 5, 5].take 10) = [3, 4, 0, 1, 0, 2]
    ∧ store_flat 2147483648 0 ([0, 0, 0, 1, 1, 1, 1, 3, 5, 5].take 10)
        = .ok (flatten_spec ([0, 0, 0, 1, 1, 1, 1, 3, 5, 5].take 10)) :=
  ⟨by decide, by decide, by decide,
    (flatten_pass [0, 0, 0, 1, 1, 1, 1, 3, 5, 5] 10 (by decide) (by decide)).1⟩

set_option maxRecDepth 1000000 in
/-- C15 (the code breaks the expansion).  For the sorted table `step_table` the
first pass writes 100 100 56; the second pass, run in place, writes the count 0
of the pair over the byte 56 before reading it, and `store_array` returns 100
100 0 0, which expands to 100 100 0.  For the sorted table `high_table` the
first pass writes 300 zeros, then 255 1; the count 298 of the pair does not fit
its byte, `store_array` returns 0 0 42 255 1, which expands to 44 zeros, then
255 1.  On the stream 1 2 3 3 3 3 3 4 4 5 of the comment in `store_array` the
second pass gives 1 2 3 3 3 4 4 0 5, which expands back to it. -/
theorem rle_pass_loses_flatten_stream :
    (step_table.Pairwise (fun a b => a ≤ b)
      ∧ store_flat 2147483648 0 step_table = .ok [100, 100, 56]
      ∧ store_array step_table 256 = .ok [100, 100, 0, 0]
      ∧ rle_expand none [100, 100, 0, 0] = [100, 100, 0])
    ∧ (high_table.Pairwise (fun a b => a ≤ b)
      ∧ store_flat 2147483648 0 high_table = .ok (List.replicate 300 0 ++ [255, 1])
      ∧ store_array high_table 256 = .ok [0, 0, 42, 255, 1]
      ∧ rle_expand none [0, 0, 42, 255, 1] = List.replicate 44 0 ++ [255, 1])
    ∧ ((store_rle 10 10 [1, 2, 3, 3, 3, 3, 3, 4, 4, 5] 0 0 (-1)).1.take
          (store_rle 10 10 [1, 2, 3, 3, 3, 3, 3, 4, 4, 5] 0 0 (-1)).2
        = [1, 2, 3, 3, 3, 4, 4, 0, 5]
      ∧ rle_expand none [1, 2, 3, 3, 3, 4, 4, 0, 5] = [1, 2, 3, 3, 3, 3, 3, 4, 4, 5]) := by
  refine ⟨⟨?_, by decide, by decide, by decide⟩, ⟨?_, by decide, by decide, by decide⟩,
    by decide, by decide⟩
  · unfold step_table
    rw [List.pairwise_append, List.pairwise_append]
    refine ⟨⟨?_, ?_, ?_⟩, ?_, ?_⟩
    · exact List.pairwise_replicate.mpr (Or.inr (Nat.le_refl _))
    · exact List.pairwise_replicate.mpr (Or.inr (Nat.le_refl _))
    · intro a ha b hb
      rw [List.eq_of_mem_replicate ha, List.eq_of_mem_replicate hb]
      exact Nat.zero_le _
    · exact List.pairwise_replicate.mpr (Or.inr (Nat.le_refl _))
    · intro a ha b hb
      rw [List.eq_of_mem_replicate hb]
      rcases List.mem_append.mp ha with h | h
      · rw [List.eq_of_mem_replicate h]
        exact Nat.zero_le _
      · rw [List.eq_of_mem_replicate h]
        exact Nat.le_succ _
  · unfold high_table
    exact List.pairwise_replicate.mpr (Or.inr (Nat.le_refl _))

/-- C16 (the per-parameter record header).  For a block whose `context` fits
its 16 bits, whose `pflags` and `max_sym` are at most 255 and whose `qbits`,
`qshift`, `qloc`, `sloc`, `ploc`, `dloc` are at most 15, what
`fqz_store_parameters1` writes starts with the seven bytes context low,
context high, `pflags`, `max_sym`, `(qbits<<4)|qshift`, `(qloc<<4)|sloc`,
`(ploc<<4)|dloc` (it writes nothing only when a table cannot be stored, `j`
overflowing in `store_array`); and from these seven bytes, whatever follows
them, `fqz_read_parameters1` recovers each of the fields, unless the tables
that `pflags` announces run past the end of the input. -/
theorem param_header_layout (pm junk : fqz_param) (rest : List Nat)
    (hc : pm.context < 65536) (hpf : pm.pflags ≤ 255) (hms : pm.max_sym ≤ 255)
    (hqb : pm.qbits ≤ 15) (hqs : pm.qshift ≤ 15) (hql : pm.qloc ≤ 15) (hsl : pm.sloc ≤ 15)
    (hpl : pm.ploc ≤ 15) (hdl : pm.dloc ≤ 15) :
    (fqz_store_parameters1 pm = .error .overflow
      ∨ ∃ tail : List Nat, fqz_store_parameters1 pm
          = .ok ([pm.context % 256, pm.context >>> 8, pm.pflags, pm.max_sym,
                  (pm.qbits <<< 4) ||| pm.qshift, (pm.qloc <<< 4) ||| pm.sloc,
                  (pm.ploc <<< 4) ||| pm.dloc] ++ tail))
    ∧ Reads (fun r => r.1.context = pm.context ∧ r.1.pflags = pm.pflags
          ∧ r.1.max_sym = pm.max_sym ∧ r.1.qbits = pm.qbits ∧ r.1.qshift = pm.qshift
          ∧ r.1.qloc = pm.qloc ∧ r.1.sloc = pm.sloc ∧ r.1.ploc = pm.ploc ∧ r.1.dloc = pm.dloc
          ∧ 7 ≤ r.2)
        (fqz_read_parameters1 junk
          ([pm.context % 256, pm.context >>> 8, pm.pflags, pm.max_sym,
            (pm.qbits <<< 4) ||| pm.qshift, (pm.qloc <<< 4) ||| pm.sloc,
            (pm.ploc <<< 4) ||| pm.dloc] ++ rest)) := by
  have e1 : (pm.context >>> 8) % 256 = pm.context >>> 8 := by
    rw [Nat.shiftRight_eq_div_pow]
    omega
  have e2 : pm.pflags % 256 = pm.pflags := by omega
  have e3 : pm.max_sym % 256 = pm.max_sym := by omega
  obtain ⟨q1, q2, q3⟩ := nibble_pack pm.qbits (by omega) pm.qshift (by omega)
  obtain ⟨s1, s2, s3⟩ := nibble_pack pm.qloc (by omega) pm.sloc (by omega)
  obtain ⟨p1, p2, p3⟩ := nibble_pack pm.ploc (by omega) pm.dloc (by omega)
  constructor
  · rcases store_parameters1_shape pm with h | ⟨tail, h⟩
    · exact Or.inl h
    · right
      rw [e1, e2, e3, q1, s1, p1] at h
      exact ⟨_, by rw [h, List.append_assoc]⟩
  · have h := read_parameters1_header junk (pm.context % 256) (pm.context >>> 8) pm.pflags
      pm.max_sym ((pm.qbits <<< 4) ||| pm.qshift) ((pm.qloc <<< 4) ||| pm.sloc)
      ((pm.ploc <<< 4) ||| pm.dloc) rest
    refine h.mono ?_
    intro r ⟨a0, a1, a2, a3, a4, a5, a6, a7, a8, a9⟩
    rw [q2] at a3
    rw [q3] at a4
    rw [s2] at a5
    rw [s3] at a6
    rw [p2] at a7
    rw [p3] at a8
    rw [e2] at a1
    rw [e3] at a2
    refine ⟨?_, a1, a2, a3, a4, a5, a6, a7, a8, a9⟩
    rw [a0, e1, Nat.shiftLeft_eq, Nat.shiftRight_eq_div_pow]
    omega

set_option maxRecDepth 1000000 in
/-- C16 (witness).  For `long_read_param` the block starts with the bytes 0, 0,
102, 15, 85, 13, 175, and from the block `fqz_read_parameters1` recovers the
nine fields. -/
theorem param_header_layout_witness :
    (∃ tail : List Nat, fqz_store_parameters1 long_read_param
        = .ok ([0, 0, 102, 15, 85, 13, 175] ++ tail))
    ∧ ∃ r, fqz_read_parameters1 fqz_param.zero
          ([0, 0, 102, 15, 85, 13, 175] ++ [255, 1, 255, 1, 255, 1, 255, 1, 2, 6, 10, 238])
          = .ok r
        ∧ r.1.context = 0 ∧ r.1.pflags = 102 ∧ r.1.max_sym = 15 ∧ r.1.qbits = 5
        ∧ r.1.qshift = 5 ∧ r.1.qloc = 0 ∧ r.1.sloc = 13 ∧ r.1.ploc = 10 ∧ r.1.dloc = 15
        ∧ 7 ≤ r.2 := by
  obtain ⟨h1, h2⟩ := param_header_layout long_read_param fqz_param.zero
    [255, 1, 255, 1, 255, 1, 255, 1, 2, 6, 10, 238] (by decide) (by decide) (by decide)
    (by decide) (by decide) (by decide) (by decide) (by decide) (by decide)
  constructor
  · rcases h1 with h | h
    · exact absurd h (by decide)
    · exact h
  · cases hr : fqz_read_parameters1 fqz_param.zero
        ([0, 0, 102, 15, 85, 13, 175] ++ [255, 1, 255, 1, 255, 1, 255, 1, 2, 6, 10, 238]) with
    | error e =>
      have h3 : Reads _ (fqz_read_parameters1 fqz_param.zero
        ([0, 0, 102, 15, 85, 13, 175] ++ [255, 1, 255, 1, 255, 1, 255, 1, 2, 6, 10, 238])) := h2
      rw [hr] at h3
      simp only [Reads] at h3
      subst h3
      exact absurd hr (by decide)
    | ok r =>
      have h3 : Reads _ (fqz_read_parameters1 fqz_param.zero
        ([0, 0, 102, 15, 85, 13, 175] ++ [255, 1, 255, 1, 255, 1, 255, 1, 2, 6, 10, 238])) := h2
      rw [hr] at h3
      exact ⟨r, rfl, h3⟩

/-- C17 (the global prelude layout).  `fqz_store_parameters` returns the bytes
`out` exactly when `stab` can be stored if `GFLAG_HAVE_STAB` asks for it, the
blocks `p[0..nparam)` exist and each can be stored, and `out` is: the byte
`vers`, the byte `gflags`, one byte `nparam` exactly when `GFLAG_MULTI_PARAM`
is set, one byte `max_sel` followed by `store_array(stab, 256)` exactly when
`GFLAG_HAVE_STAB` is set, then the records of the blocks in index order.  And
the prelude of every block `compress_block_fqz2f` returns starts with the
byte 5, as that of the long read does. -/
theorem global_prelude_layout (gp : fqz_gparams) (out : List Nat) :
    (fqz_store_parameters gp = .ok out ↔
      ∃ (stab_bytes : List Nat) (blocks : List (List Nat)),
        (if gp.gflags &&& GFLAG_HAVE_STAB ≠ 0 then store_array gp.stab 256 = .ok stab_bytes
         else stab_bytes = [])
        ∧ gp.nparam ≤ gp.p.length
        ∧ List.Forall₂ (fun pm b => fqz_store_parameters1 pm = .ok b)
            (gp.p.take gp.nparam) blocks
        ∧ out = [gp.vers % 256, gp.gflags % 256]
            ++ (if gp.gflags &&& GFLAG_MULTI_PARAM ≠ 0 then [gp.nparam % 256] else [])
            ++ (if gp.gflags &&& GFLAG_HAVE_STAB ≠ 0 then (gp.max_sel % 256) :: stab_bytes
                else [])
            ++ blocks.flatten)
    ∧ (∀ (fl : TuneFloats) (frev vers : Nat) (s : cram_slice) (inp : List Nat)
          (c : Compressed),
          compress_block_fqz2f fl frev vers s inp = .ok c →
          ∃ (g : Nat) (rest : List Nat), c.prelude = 5 :: g :: rest)
    ∧ (∃ c : Compressed,
        compress_block_fqz2f long_read_floats 16 4 long_read_slice long_read_qual = .ok c
        ∧ c.prelude = long_read_prelude) := by
  refine ⟨store_parameters_iff gp out, ?_, ?_⟩
  · intro fl frev vers s inp c h
    exact compress_prelude_head fl frev vers s inp c h
  · obtain ⟨syms, h⟩ := long_read_compressed
    exact ⟨_, h, rfl⟩

/-- C19 (alphabet mapping).  After `fqz_pick_parameters` on a block of fewer
than 2^32 bytes, the one block `pm` of the parameters has `store_qmap` set
exactly when the input has at most 8 distinct quality values and twice their
number is below the highest value present.  When it is set, `nsym` is the
number of distinct values and `qmap`, of 256 entries, sends a present value to
the number of present values below it, which is less than `nsym`, and an absent
value to `INT_MAX`; otherwise `qmap` is the identity on `[0,256)` and `nsym` is
255. -/
theorem alphabet_mapping (fl : TuneFloats) (vers strat : Nat) (s s1 : cram_slice)
    (inp q_len comp : List Nat) (gp : fqz_gparams) (hlen : inp.length < U32)
    (h : fqz_pick_parameters fl vers strat s inp = .ok (gp, s1, q_len, comp)) :
    ∃ pm : fqz_param, gp.p = [pm]
      ∧ (pm.store_qmap ≠ 0
          ↔ distinct_values inp ≤ 8 ∧ 2 * distinct_values inp < highest_value inp)
      ∧ (pm.store_qmap ≠ 0 →
          pm.nsym = distinct_values inp ∧ pm.qmap.length = 256
          ∧ ∀ v, v < 256 →
              pm.qmap.getD v 0 = (if present inp v then value_rank inp v else INT_MAX)
              ∧ (present inp v = true → pm.qmap.getD v 0 < pm.nsym))
      ∧ (pm.store_qmap = 0 → pm.qmap = List.range 256 ∧ pm.nsym = 255) := by
  obtain ⟨st, pm, hst, hgp, hiff, hset, hid⟩ := picked_block _ _ _ _ _ _ _ _ _ h
  have hh := qual_scan_hist s q_len inp st hlen hst
  have hc := count_syms_present st.qhist inp hh
  rw [hc] at hiff hset
  refine ⟨pm, hgp, ?_, ?_, hid⟩
  · rw [hiff, Nat.mul_comm]
  · intro hq
    obtain ⟨hm, _, hn⟩ := hset hq
    have hv : ∀ v, v < 256 →
        pm.qmap.getD v 0 = (if present inp v then value_rank inp v else INT_MAX) := by
      intro v hv
      rw [hm, (build_qmap_spec st.qhist 256 0 0).2 v hv, Nat.zero_add, Nat.zero_add]
      have hf : (List.range' 0 v).filter (fun x => decide (st.qhist.getD x 0 ≠ 0))
          = (List.range v).filter (present inp) := by
        rw [← List.range_eq_range']
        apply List.filter_congr
        intro x hx
        exact hh x (by have := List.mem_range.mp hx; omega)
      rw [hf]
      have hp := hh v hv
      by_cases hq0 : st.qhist.getD v 0 ≠ 0
      · rw [if_pos hq0]
        rw [decide_eq_true hq0] at hp
        rw [← hp]
        rfl
      · rw [if_neg hq0]
        rw [decide_eq_false hq0] at hp
        rw [← hp]
        rfl
    refine ⟨hn, by rw [hm]; exact (build_qmap_spec st.qhist 256 0 0).1, ?_⟩
    intro v hv256
    refine ⟨hv v hv256, ?_⟩
    intro hp
    rw [hv v hv256, if_pos hp, hn]
    exact value_rank_lt inp v hv256 hp

/-- C19 on the block `sparse_qual`, whose values are 0 and 40: `store_qmap` is
set, `nsym` is 2, and `qmap` sends 0 to 0, 40 to 1 and the other values to
`INT_MAX`. -/
theorem alphabet_mapping_witness :
    sparse_qual.length < U32
    ∧ fqz_pick_parameters sparse_floats 4 0 sparse_slice sparse_qual
        = .ok (sparse_gparams, sparse_slice, [4], sparse_prelude)
    ∧ distinct_values sparse_qual = 2 ∧ highest_value sparse_qual = 40
    ∧ sparse_param.store_qmap = 1
    ∧ ∃ pm : fqz_param, sparse_gparams.p = [pm]
      ∧ (pm.store_qmap ≠ 0
          ↔ distinct_values sparse_qual ≤ 8
            ∧ 2 * distinct_values sparse_qual < highest_value sparse_qual)
      ∧ (pm.store_qmap ≠ 0 →
          pm.nsym = distinct_values sparse_qual ∧ pm.qmap.length = 256
          ∧ ∀ v, v < 256 →
              pm.qmap.getD v 0
                = (if present sparse_qual v then value_rank sparse_qual v else INT_MAX)
              ∧ (present sparse_qual v = true → pm.qmap.getD v 0 < pm.nsym))
      ∧ (pm.store_qmap = 0 → pm.qmap = List.range 256 ∧ pm.nsym = 255) :=
  ⟨by decide, sparse_picked, by decide, by decide, rfl,
    alphabet_mapping sparse_floats 4 0 sparse_slice sparse_slice sparse_qual [4] sparse_prelude
      sparse_gparams (by decide) sparse_picked⟩

/-- C20 (the dedup decision).  For a block whose records are all non-empty,
fewer than 2^31 of them and each shorter than 2^31, `qual_stats` returns with
`do_dedup` set if and only if `(nrec+1)/(dupcount+1) < 500`, `nrec` being the
number of records and `dupcount` the number of records equal to the record
before them.  (The statistics loop walks the bytes of the block, so a record
of no quality value at the end of the block is not counted.) -/
theorem dedup_decision (fl : TuneFloats) (s : cram_slice) (rs : List (List Nat))
    (pm : fqz_param) (hne : ∀ r ∈ rs, r ≠ [] ∧ r.length < 2147483648)
    (hn : s.num_records = rs.length) (hc : rs.length ≤ s.crecs.length)
    (hmax : rs.length < 2147483648) :
    ∃ pm1 s1 qhist,
      qual_stats fl s rs.flatten (rs.map List.length) pm = .ok (pm1, s1, qhist)
      ∧ (pm1.do_dedup ≠ 0 ↔ (rs.length + 1) / (dup_count rs + 1) < 500) := by
  obtain ⟨pm1, s1, qhist, h, hd⟩ := qual_stats_dedup fl s rs [] pm hne (by omega) (by omega)
    hmax (Or.inr (by omega))
  rw [List.append_nil] at h
  refine ⟨pm1, s1, qhist, h, ?_⟩
  rw [hd]
  split <;> simp_all

/-- C20 on `twin_records`: three records, one of them equal to the record
before it, so `do_dedup` is set, 4/2 being below 500. -/
theorem dedup_decision_witness :
    (∀ r ∈ twin_records, r ≠ [] ∧ r.length < 2147483648)
    ∧ twin_slice.num_records = twin_records.length
    ∧ twin_records.length ≤ twin_slice.crecs.length
    ∧ dup_count twin_records = 1
    ∧ ∃ pm1 s1 qhist,
        qual_stats long_read_floats twin_slice twin_records.flatten
          (twin_records.map List.length) (pick_preset 0) = .ok (pm1, s1, qhist)
        ∧ (pm1.do_dedup ≠ 0 ↔ (twin_records.length + 1) / (dup_count twin_records + 1) < 500) :=
  ⟨by decide, rfl, by decide, by decide,
    dedup_decision long_read_floats twin_slice twin_records (pick_preset 0) (by decide) rfl
      (by decide) (by decide)⟩

set_option maxRecDepth 1000000 in
/-- C20 fails on a block that ends with a record of no quality value: for
498 records of one value each, no two neighbours equal, and a 499th empty
record, `(nrec+1)/(dupcount+1)` is 500/1, not below 500, but the statistics loop
stops at the end of the bytes with `rec = 498` and `qual_stats` sets
`do_dedup`, 499/1 being below 500. -/
theorem dedup_trailing_empty_record :
    alt_slice.num_records = (alt_records ++ [[]]).length
    ∧ ∃ pm1 s1 qhist,
        qual_stats long_read_floats alt_slice (alt_records ++ [[]]).flatten
          ((alt_records ++ [[]]).map List.length) (pick_preset 2) = .ok (pm1, s1, qhist)
        ∧ pm1.do_dedup = 1
        ∧ ¬ (((alt_records ++ [[]]).length + 1) / (dup_count (alt_records ++ [[]]) + 1) < 500) := by
  obtain ⟨h0, h1, h2, h3⟩ := alt_records_dups
  obtain ⟨pm1, s1, qhist, h, hd⟩ := qual_stats_dedup long_read_floats alt_slice alt_records [0]
    (pick_preset 2) alt_records_nonempty (by rw [h2]; decide) (by decide) (by rw [h2]; decide)
    (Or.inl rfl)
  refine ⟨by rw [h1]; rfl, pm1, s1, qhist, ?_, ?_, ?_⟩
  · rw [List.flatten_append, List.map_append]
    simp only [List.flatten_cons, List.flatten_nil, List.append_nil, List.map_cons, List.map_nil,
      List.length_nil]
    exact h
  · rw [hd, h2, h3]
    rfl
  · rw [h0, h1]
    decide

/-! ## The record length symbols -/

/-- A 32-bit word is the OR of its four bytes, each shifted to its place. -/
theorem bytes_reassemble (x : Nat) (hx : x < 4294967296) :
    (x &&& 255) % 256 ||| ((((x >>> 8) &&& 255) % 256) <<< 8)
      ||| ((((x >>> 16) &&& 255) % 256) <<< 16) ||| ((((x >>> 24) &&& 255) % 256) <<< 24) = x := by
  have h255 : (255 : Nat) = 2 ^ 8 - 1 := by decide
  have h256 : (256 : Nat) = 2 ^ 8 := by decide
  apply Nat.eq_of_testBit_eq
  intro i
  simp only [Nat.testBit_or, Nat.testBit_shiftLeft, Nat.testBit_and, Nat.testBit_shiftRight,
    h255, h256, Nat.testBit_two_pow_sub_one, Nat.testBit_mod_two_pow]
  by_cases h1 : i < 8
  · simp [h1, Nat.not_le.mpr h1, show ¬ 16 ≤ i by omega, show ¬ 24 ≤ i by omega]
  · by_cases h2 : i < 16
    · have e : 8 + (i - 8) = i := by omega
      simp [h1, show 8 ≤ i by omega, show i - 8 < 8 by omega, e, show ¬ 16 ≤ i by omega,
        show ¬ 24 ≤ i by omega]
    · by_cases h3 : i < 24
      · have e : 16 + (i - 16) = i := by omega
        simp [h1, show 8 ≤ i by omega, show ¬ i - 8 < 8 by omega, e, show 16 ≤ i by omega,
          show i - 16 < 8 by omega, show ¬ 24 ≤ i by omega]
      · by_cases h4 : i < 32
        · have e : 24 + (i - 24) = i := by omega
          simp [h1, show 8 ≤ i by omega, show ¬ i - 8 < 8 by omega, e, show 16 ≤ i by omega,
            show ¬ i - 16 < 8 by omega, show 24 ≤ i by omega, show i - 24 < 8 by omega]
        · have hb : x.testBit i = false := by
            apply Nat.testBit_lt_two_pow
            calc x < 2 ^ 32 := hx
              _ ≤ 2 ^ i := Nat.pow_le_pow_right (by decide) (by omega)
          simp [h1, hb, show 8 ≤ i by omega, show ¬ i - 8 < 8 by omega, show 16 ≤ i by omega,
            show ¬ i - 16 < 8 by omega, show 24 ≤ i by omega, show ¬ i - 24 < 8 by omega]

/-- An `int` stored as `unsigned int` and read back. -/
theorem toInt32_ofInt32 (z : Int) (h0 : -2147483648 ≤ z) (h1 : z < 2147483648) :
    toInt32 (ofInt32 z) = z := by
  unfold toInt32 ofInt32
  simp only [U32]
  split <;> omega

/-- The value of an `int` as `unsigned int` is below 2^32. -/
theorem ofInt32_lt (z : Int) : ofInt32 z < 4294967296 := by
  unfold ofInt32
  simp only [U32]
  omega

/-- C30 (record length bytes round trip).  For a record length `len` with
`0 <= len < 2^31`, the four symbols the encoder emits for it, `(len>>0)&0xff`,
`(len>>8)&0xff`, `(len>>16)&0xff`, `(len>>24)&0xff`, are put together by the
decoder, `b0 | b1<<8 | b2<<16 | b3<<24`, into `len`. -/
theorem record_length_round_trip (len : Int) (h0 : 0 ≤ len) (h1 : len < 2147483648) :
    dec_len (sym_channel (enc_len len).reverse) 0 = len := by
  unfold dec_len sym_channel enc_len
  simp only [List.reverse_cons, List.reverse_nil, List.nil_append, List.cons_append,
    List.map_cons, List.map_nil, EncSym.value, List.getD_cons_zero, List.getD_cons_succ,
    Nat.zero_add]
  have hb := bytes_reassemble (ofInt32 len) (ofInt32_lt len)
  rw [hb]
  exact toInt32_ofInt32 len (by omega) h1

/-- C30 on the length 70000: the symbols are 112, 17, 1, 0. -/
theorem record_length_round_trip_witness :
    (0 : Int) ≤ 70000 ∧ (70000 : Int) < 2147483648
    ∧ (enc_len 70000).reverse.map EncSym.value = [112, 17, 1, 0]
    ∧ dec_len (sym_channel (enc_len 70000).reverse) 0 = 70000 :=
  ⟨by decide, by decide, by decide, record_length_round_trip 70000 (by decide) (by decide)⟩

/-! ## Lemmas on what the tuner leaves alone -/

/-- The bit budget change leaves the tables and the shifts alone and does not
add to `dbits`. -/
theorem steal_bits_frame (pm : fqz_param) :
    (steal_bits pm).ptab = pm.ptab ∧ (steal_bits pm).dtab = pm.dtab
      ∧ (steal_bits pm).pshift = pm.pshift ∧ (steal_bits pm).dshift = pm.dshift
      ∧ (steal_bits pm).dbits ≤ pm.dbits := by
  unfold steal_bits
  simp only
  repeat' split
  all_goals first
    | exact ⟨rfl, rfl, rfl, rfl, Nat.le_refl _⟩
    | exact ⟨rfl, rfl, rfl, rfl, Nat.sub_le _ _⟩

/-- The two "Auto tune" steps of `qual_stats` leave the tables and the shifts
alone and do not add to `dbits`. -/
theorem tune_chain_frame (pmA : fqz_param) (c1 c2 c3 : Prop) [Decidable c1] [Decidable c2]
    [Decidable c3] (pm4 : fqz_param)
    (h : pm4 = (if c3 then
        { (if c2 then steal_bits (if c1 then { pmA with do_sel := 1 } else pmA)
           else (if c1 then { pmA with do_sel := 1 } else pmA)) with do_sel := 1 }
      else (if c2 then steal_bits (if c1 then { pmA with do_sel := 1 } else pmA)
           else (if c1 then { pmA with do_sel := 1 } else pmA)))) :
    pm4.ptab = pmA.ptab ∧ pm4.dtab = pmA.dtab ∧ pm4.pshift = pmA.pshift
      ∧ pm4.dshift = pmA.dshift ∧ pm4.dbits ≤ pmA.dbits := by
  subst h
  by_cases h1 : c1 <;> by_cases h2 : c2 <;> by_cases h3 : c3 <;>
    simp only [h1, h2, h3, if_true, if_false] <;>
    first
      | exact ⟨trivial, trivial, trivial, trivial, Nat.le_refl _⟩
      | exact ⟨rfl, rfl, rfl, rfl, Nat.le_refl _⟩
      | exact steal_bits_frame _

/-- What `qual_stats` leaves alone in the block: the tables, the shifts; and
`dbits` does not grow. -/
theorem qual_tune_frame (fl : TuneFloats) (s s1 : cram_slice) (recs : List cram_crec)
    (pm pm1 : fqz_param) (sc : Int × Bool) (st : QStats) (qhist : List Nat)
    (h : qual_tune fl s recs pm sc st = .ok (pm1, s1, qhist)) :
    pm1.ptab = pm.ptab ∧ pm1.dtab = pm.dtab ∧ pm1.pshift = pm.pshift
      ∧ pm1.dshift = pm.dshift ∧ pm1.dbits ≤ pm.dbits := by
  unfold qual_tune at h
  simp only at h
  split at h
  · cases h
  · simp only [Except.ok.injEq, Prod.mk.injEq] at h
    obtain ⟨h1, _, _⟩ := h
    have hc := tune_chain_frame _ _ _ _ pm1 h1.symm
    exact hc

/-- What `qual_stats` leaves alone in the block. -/
theorem qual_stats_frame (fl : TuneFloats) (s s1 : cram_slice) (inp q_len : List Nat)
    (pm pm1 : fqz_param) (qhist : List Nat)
    (h : qual_stats fl s inp q_len pm = .ok (pm1, s1, qhist)) :
    pm1.ptab = pm.ptab ∧ pm1.dtab = pm.dtab ∧ pm1.pshift = pm.pshift
      ∧ pm1.dshift = pm.dshift ∧ pm1.dbits ≤ pm.dbits := by
  unfold qual_stats at h
  split at h
  · cases h
  · split at h
    · cases h
    · exact qual_tune_frame _ _ _ _ _ _ _ _ _ h

/-- The steps of a successful `fqz_pick_parameters`: the lengths `q_len`, the
block `pm1` and the slice `s1` that `qual_stats` leaves, the parameters built
from them, and the prelude. -/
theorem fqz_pick_parameters_steps (fl : TuneFloats) (vers strat : Nat) (s s1 : cram_slice)
    (inp q_len comp : List Nat) (gp : fqz_gparams)
    (h : fqz_pick_parameters fl vers strat s inp = .ok (gp, s1, q_len, comp)) :
    ∃ (pm1 : fqz_param) (qhist : List Nat),
      compute_q_len s inp.length s.num_records 0 = .ok q_len
      ∧ qual_stats fl s inp q_len (pick_preset (if strat ≥ nstrats then nstrats - 1 else strat))
          = .ok (pm1, s1, qhist)
      ∧ q_len ≠ []
      ∧ gp = pick_global vers (s1.crecs.take s1.num_records)
          (pick_tables qhist
            (pick_adjust fl (if strat ≥ nstrats then nstrats - 1 else strat) inp.length
              { pm1 with
                store_qmap := if pm1.nsym ≤ 8 ∧ pm1.nsym * 2 < pm1.max_sym then 1 else 0
                fixed_len := if q_len.all (fun l => l = q_len.getD 0 0) then 1 else 0
                first_len := 1
                use_qtab := 0 }))
      ∧ fqz_store_parameters gp = .ok comp := by
  unfold fqz_pick_parameters at h
  simp only at h
  split at h
  · cases h
  · rename_i ql hql
    split at h
    · cases h
    · cases h
    · cases h
    · rename_i pm1 s2 qhist v _ hqs hget _
      unfold pick_finish at h
      simp only at h
      split at h
      · cases h
      · rename_i comp1 hc
        simp only [Except.ok.injEq, Prod.mk.injEq] at h
        obtain ⟨h1, h2, h3, h4⟩ := h
        subst h2 h3 h4
        refine ⟨pm1, qhist, hql, hqs, ?_, h1.symm, ?_⟩
        · intro hnil
          rw [hnil] at hget
          cases hget
        · rw [← h1]
          exact hc

/-- The strategy `fqz_pick_parameters` works with is a row of `strat_opts`. -/
theorem strat_clamped (strat : Nat) : (if strat ≥ nstrats then nstrats - 1 else strat) ≤ 4 := by
  unfold nstrats
  split <;> omega

set_option maxRecDepth 100000 in
/-- The presets have zeroed tables, `dbits` at most 2 and `pshift` 0 or -1. -/
theorem pick_preset_facts (st : Nat) (h : st ≤ 4) :
    (pick_preset st).ptab = List.replicate 1024 0 ∧ (pick_preset st).dtab = List.replicate 256 0
      ∧ (pick_preset st).dbits ≤ 2 ∧ -1 ≤ (pick_preset st).pshift
      ∧ (st = 4 → (pick_preset st).pshift = 0 ∧ (pick_preset st).dbits = 0) := by
  interval_cases st
  all_goals refine ⟨rfl, rfl, by decide, by decide, ?_⟩
  all_goals first
    | (intro h4; exact absurd h4 (by decide))
    | (intro _; exact ⟨rfl, rfl⟩)

/-- What the adjustments of `fqz_pick_parameters` leave alone, and what they
set: `pshift` is not negative after them, and on a block of fewer than 300000
bytes `qbits` is `qshift` and `dbits` is 2; the last strategy skips them. -/
theorem pick_adjust_frame (fl : TuneFloats) (st n : Nat) (pm : fqz_param) :
    (pick_adjust fl st n pm).ptab = pm.ptab ∧ (pick_adjust fl st n pm).dtab = pm.dtab
      ∧ (pick_adjust fl st n pm).fixed_len = pm.fixed_len
      ∧ (pick_adjust fl st n pm).dshift = pm.dshift
      ∧ (pick_adjust fl st n pm).do_sel = pm.do_sel
      ∧ (pick_adjust fl st n pm).use_qtab = pm.use_qtab
      ∧ ((pick_adjust fl st n pm).dbits = pm.dbits ∨ (pick_adjust fl st n pm).dbits = 2)
      ∧ (st ≥ nstrats - 1 → pick_adjust fl st n pm = pm)
      ∧ (st < nstrats - 1 → -1 ≤ pm.pshift → 0 ≤ (pick_adjust fl st n pm).pshift)
      ∧ (st < nstrats - 1 → n < 300000 →
          (pick_adjust fl st n pm).qbits = (pick_adjust fl st n pm).qshift
          ∧ (pick_adjust fl st n pm).dbits = 2) := by
  unfold pick_adjust
  simp only
  repeat' split
  all_goals refine ⟨rfl, rfl, rfl, rfl, rfl, rfl, ?_, ?_, ?_, ?_⟩
  all_goals first
    | exact Or.inl rfl
    | exact Or.inr rfl
    | (intro _; rfl)
    | (intro h; exact absurd h (by assumption))
    | (intro h; exact absurd (by assumption) (Nat.not_le.mpr h))
    | (intro _ _; exact ⟨rfl, rfl⟩)
    | (intro _ h; exact absurd h (by assumption))
    | (intro _ _; exact Int.ofNat_nonneg _)
    | (intro _ hm; show (0 : Int) ≤ pm.pshift; omega)

/-- The bits of `pflags` as `fqz_pick_parameters` puts them together: each
flag is set exactly when its condition holds. -/
theorem pflags_bits (q d p s l u m : Prop) [Decidable q] [Decidable d] [Decidable p]
    [Decidable s] [Decidable l] [Decidable u] [Decidable m] (v : Nat)
    (hv : v = ((if q then PFLAG_HAVE_QTAB else 0) ||| (if d then PFLAG_HAVE_DTAB else 0)
      ||| (if p then PFLAG_HAVE_PTAB else 0) ||| (if s then PFLAG_DO_SEL else 0)
      ||| (if l then PFLAG_DO_LEN else 0) ||| (if u then PFLAG_DO_DEDUP else 0)
      ||| (if m then PFLAG_HAVE_QMAP else 0))) :
    (v &&& PFLAG_HAVE_QTAB ≠ 0 ↔ q) ∧ (v &&& PFLAG_HAVE_DTAB ≠ 0 ↔ d)
      ∧ (v &&& PFLAG_HAVE_PTAB ≠ 0 ↔ p) ∧ (v &&& PFLAG_DO_SEL ≠ 0 ↔ s)
      ∧ (v &&& PFLAG_DO_LEN ≠ 0 ↔ l) ∧ (v &&& PFLAG_DO_DEDUP ≠ 0 ↔ u)
      ∧ (v &&& PFLAG_HAVE_QMAP ≠ 0 ↔ m) := by
  subst hv
  by_cases hq : q <;> by_cases hd : d <;> by_cases hp : p <;> by_cases hs : s <;>
    by_cases hl : l <;> by_cases hu : u <;> by_cases hm : m <;>
    simp only [hq, hd, hp, hs, hl, hu, hm, if_true, if_false, iff_true, iff_false, not_not] <;>
    decide

set_option maxRecDepth 100000 in
/-- What `pick_tables` leaves alone and what it sets. -/
theorem pick_tables_fields (qh : List Nat) (pm : fqz_param) :
    (pick_tables qh pm).pbits = pm.pbits ∧ (pick_tables qh pm).pshift = pm.pshift
      ∧ (pick_tables qh pm).dbits = pm.dbits ∧ (pick_tables qh pm).dshift = pm.dshift
      ∧ (pick_tables qh pm).qbits = pm.qbits ∧ (pick_tables qh pm).qshift = pm.qshift
      ∧ (pick_tables qh pm).fixed_len = pm.fixed_len ∧ (pick_tables qh pm).do_sel = pm.do_sel
      ∧ (pick_tables qh pm).ptab
          = (if pm.pbits ≠ 0 then
               (List.range 1024).map (fun i => min ((1 <<< pm.pbits) - 1) (i >>> pm.pshift.toNat))
             else pm.ptab)
      ∧ (pick_tables qh pm).dtab
          = (if pm.dbits ≠ 0 then
               (List.range 256).map (fun i =>
                 (dsqr.map (fun v => if v > (1 <<< pm.dbits) - 1 then (1 <<< pm.dbits) - 1 else v)).getD
                   (min 63 (i >>> pm.dshift)) 0)
             else pm.dtab)
      ∧ (pick_tables qh pm).pflags
          = ((if (pm.use_qtab ≠ 0) then PFLAG_HAVE_QTAB else 0)
            ||| (if (if pm.dbits > 0 then 1 else 0) ≠ 0 then PFLAG_HAVE_DTAB else 0)
            ||| (if (if pm.pbits > 0 then 1 else 0) ≠ 0 then PFLAG_HAVE_PTAB else 0)
            ||| (if pm.do_sel ≠ 0 then PFLAG_DO_SEL else 0)
            ||| (if pm.fixed_len ≠ 0 then PFLAG_DO_LEN else 0)
            ||| (if pm.do_dedup ≠ 0 then PFLAG_DO_DEDUP else 0)
            ||| (if pm.store_qmap ≠ 0 then PFLAG_HAVE_QMAP else 0)) := by
  unfold pick_tables
  simp only
  by_cases h : pm.store_qmap ≠ 0
  · rw [if_pos h]
    exact ⟨rfl, rfl, rfl, rfl, rfl, rfl, rfl, rfl, rfl, rfl, rfl⟩
  · rw [if_neg h]
    exact ⟨rfl, rfl, rfl, rfl, rfl, rfl, rfl, rfl, rfl, rfl, rfl⟩

/-- The bits of `gflags` as `fqz_pick_parameters` puts them together. -/
theorem gflags_bits (r s : Prop) [Decidable r] [Decidable s] (v : Nat)
    (hv : v = ((if r then GFLAG_DO_REV else 0) ||| (if s then GFLAG_HAVE_STAB else 0))) :
    v &&& GFLAG_MULTI_PARAM = 0 ∧ (v &&& GFLAG_HAVE_STAB ≠ 0 ↔ s)
      ∧ (v &&& GFLAG_DO_REV ≠ 0 ↔ r) := by
  subst hv
  by_cases hr : r <;> by_cases hs : s <;>
    simp only [hr, hs, if_true, if_false, iff_true, iff_false, not_not] <;>
    decide

/-- The global parameters `pick_global` makes: one block, no
`GFLAG_MULTI_PARAM`, `stab` all zero, `GFLAG_HAVE_STAB` exactly when the block
has `do_sel`, `GFLAG_DO_REV` exactly for format 3. -/
theorem pick_global_fields (vers : Nat) (recs : List cram_crec) (pm : fqz_param) :
    (pick_global vers recs pm).p = [pm] ∧ (pick_global vers recs pm).nparam = 1
      ∧ (pick_global vers recs pm).vers = 5
      ∧ (pick_global vers recs pm).stab = List.replicate 256 0
      ∧ (pick_global vers recs pm).gflags &&& GFLAG_MULTI_PARAM = 0
      ∧ ((pick_global vers recs pm).gflags &&& GFLAG_HAVE_STAB ≠ 0 ↔ pm.do_sel ≠ 0)
      ∧ ((pick_global vers recs pm).gflags &&& GFLAG_DO_REV ≠ 0 ↔ vers = 3) :=
  ⟨rfl, rfl, rfl, rfl, gflags_bits (vers = 3) (pm.do_sel ≠ 0) _ rfl⟩

/-! ## Lemmas on the flags of the records -/

/-- A successful `crec_at` is the record at that index. -/
theorem crec_at_ok (s : cram_slice) (i : Nat) (r : cram_crec) (h : crec_at s i = .ok r) :
    s.crecs.get? i = some r := by
  unfold crec_at at h
  split at h
  · cases h
  · simp only [Int.toNat_ofNat] at h
    split at h
    · cases h
    · rename_i r1 hr
      simp only [Except.ok.injEq] at h
      subst h
      exact hr

/-- The lengths `compute_q_len` returns are those the specification words. -/
theorem compute_q_len_spec (s : cram_slice) (in_size : Nat) :
    ∀ (n i : Nat) (ql : List Nat), compute_q_len s in_size n i = .ok ql →
      ql.length = n ∧ ∀ k, k < n → ql.getD k 0 = ofInt32 (qual_length s in_size (i + k)) := by
  intro n
  induction n with
  | zero =>
    intro i ql h
    unfold compute_q_len at h
    simp only [Except.ok.injEq] at h
    subst h
    exact ⟨rfl, fun k hk => absurd hk (Nat.not_lt_zero _)⟩
  | succ n ih =>
    intro i ql h
    unfold compute_q_len at h
    split at h
    · cases h
    · rename_i r hr
      have hr0 := crec_at_ok s i r hr
      simp only at h
      split at h
      · cases h
      · cases h
      · rename_i z rest hz hrest
        simp only [Except.ok.injEq] at h
        subst h
        obtain ⟨hl, hk⟩ := ih (i + 1) rest hrest
        have hz0 : z = qual_length s in_size i := by
          unfold qual_length qual_offset
          rw [hr0]
          simp only
          by_cases hc : (i : Int) < (s.num_records : Int) - 1
          · rw [if_pos hc] at hz
            rw [if_pos (by omega)]
            split at hz
            · cases hz
            · rename_i r1 hr1
              rw [crec_at_ok s (i + 1) r1 (by exact_mod_cast hr1)]
              simp only [Except.ok.injEq] at hz
              exact hz.symm
          · rw [if_neg hc] at hz
            rw [if_neg (by omega)]
            simp only [Except.ok.injEq] at hz
            exact hz.symm
        refine ⟨by rw [List.length_cons, hl], ?_⟩
        intro k hk1
        cases k with
        | zero =>
          rw [List.getD_cons_zero, hz0]
          rfl
        | succ k =>
          rw [List.getD_cons_succ, hk k (by omega), show i + 1 + k = i + (k + 1) by omega]

/-- Every entry of a list equals its first one, said with `all` and with
indices. -/
theorem all_eq_first (l : List Nat) :
    l.all (fun x => decide (x = l.getD 0 0)) = true ↔ ∀ i, i < l.length → l.getD i 0 = l.getD 0 0 := by
  rw [List.all_eq_true]
  constructor
  · intro h i hi
    have hm : l.getD i 0 ∈ l := by
      rw [List.getD_eq_getElem?_getD, List.getElem?_eq_getElem hi]
      exact List.getElem_mem hi
    have := h _ hm
    simpa using this
  · intro h x hx
    obtain ⟨i, hi, rfl⟩ := List.getElem_of_mem hx
    have := h i hi
    rw [List.getD_eq_getElem?_getD, List.getElem?_eq_getElem hi] at this
    simp only [Option.getD_some] at this
    simp [this]

set_option maxRecDepth 1000000 in
/-- For `dbits` at most 2 the table `dsqr` capped at `(1<<dbits)-1` is the
sequence of the specification capped there, and `dsqr` itself capped there. -/
theorem dsqr_capped : ∀ d, d < 3 → ∀ k, k < 64 →
    (dsqr.map (fun v => if v > (1 <<< d) - 1 then (1 <<< d) - 1 else v)).getD k 0
        = min ((1 <<< d) - 1) (dsqr_spec.getD k 0)
    ∧ (dsqr.map (fun v => if v > (1 <<< d) - 1 then (1 <<< d) - 1 else v)).getD k 0
        = min ((1 <<< d) - 1) (dsqr.getD k 0) := by
  decide

/-- An entry of a table built by a loop over `[0,n)`. -/
theorem getD_map_range (f : Nat → Nat) (n i : Nat) (h : i < n) :
    ((List.range n).map f).getD i 0 = f i := by
  rw [List.getD_eq_getElem?_getD, List.getElem?_map, List.getElem?_range h]
  rfl

/-- An entry of a zeroed table. -/
theorem getD_replicate_zero (n i : Nat) : (List.replicate n 0).getD i 0 = 0 := by
  rw [List.getD_eq_getElem?_getD, List.getElem?_replicate]
  split <;> rfl

/-- The flag `use_ptab = (pbits > 0)` as a condition. -/
theorem pos_flag_ne_zero (n : Nat) : ((if n > 0 then (1 : Nat) else 0) ≠ 0) ↔ n > 0 := by
  split <;> simp_all

/-- The block of a successful `fqz_pick_parameters`, with what the steps of
the function make of the preset: the global parameters are `pick_global` of
it; `fixed_len` is the test on `q_len`; `pflags` is put together from the
members; `ptab` and `dtab` are built from `pbits`, `pshift`, `dbits`, `dshift`
or left zero; `pshift` is not negative; `dbits` is at most 2; and but for the
last strategy a block of fewer than 300000 bytes has `qbits = qshift` and
`dbits = 2`, the last strategy leaving `dbits` 0. -/
theorem picked_final (fl : TuneFloats) (vers strat : Nat) (s s1 : cram_slice)
    (inp q_len comp : List Nat) (gp : fqz_gparams)
    (h : fqz_pick_parameters fl vers strat s inp = .ok (gp, s1, q_len, comp)) :
    ∃ pm : fqz_param,
      gp = pick_global vers (s1.crecs.take s1.num_records) pm
      ∧ pm.fixed_len = (if q_len.all (fun l => l = q_len.getD 0 0) then 1 else 0)
      ∧ ((pm.pflags &&& PFLAG_HAVE_PTAB ≠ 0 ↔ pm.pbits > 0)
          ∧ (pm.pflags &&& PFLAG_DO_LEN ≠ 0 ↔ pm.fixed_len ≠ 0))
      ∧ pm.ptab = (if pm.pbits ≠ 0 then
            (List.range 1024).map (fun i => min ((1 <<< pm.pbits) - 1) (i >>> pm.pshift.toNat))
          else List.replicate 1024 0)
      ∧ pm.dtab = (if pm.dbits ≠ 0 then
            (List.range 256).map (fun i =>
              (dsqr.map (fun v => if v > (1 <<< pm.dbits) - 1 then (1 <<< pm.dbits) - 1 else v)).getD
                (min 63 (i >>> pm.dshift)) 0)
          else List.replicate 256 0)
      ∧ 0 ≤ pm.pshift ∧ pm.dbits ≤ 2
      ∧ (strat < nstrats - 1 → inp.length < 300000 → pm.qbits = pm.qshift ∧ pm.dbits = 2)
      ∧ (strat ≥ nstrats - 1 → pm.dbits = 0) := by
  obtain ⟨pm1, qhist, _, hq, _, hgp, _⟩ := fqz_pick_parameters_steps _ _ _ _ _ _ _ _ _ h
  have hst := strat_clamped strat
  obtain ⟨p1, p2, p3, p4, p5⟩ := pick_preset_facts _ hst
  obtain ⟨f1, f2, f3, _, f5⟩ := qual_stats_frame _ _ _ _ _ _ _ _ hq
  generalize hpm2 : ({ pm1 with
      store_qmap := if pm1.nsym ≤ 8 ∧ pm1.nsym * 2 < pm1.max_sym then 1 else 0
      fixed_len := if q_len.all (fun l => l = q_len.getD 0 0) then 1 else 0
      first_len := 1
      use_qtab := 0 } : fqz_param) = pm2 at hgp
  have g1 : pm2.ptab = pm1.ptab := by rw [← hpm2]
  have g2 : pm2.dtab = pm1.dtab := by rw [← hpm2]
  have g3 : pm2.pshift = pm1.pshift := by rw [← hpm2]
  have g4 : pm2.dbits = pm1.dbits := by rw [← hpm2]
  have g5 : pm2.fixed_len = (if q_len.all (fun l => l = q_len.getD 0 0) then 1 else 0) := by
    rw [← hpm2]
  have g6 : pm2.use_qtab = 0 := by rw [← hpm2]
  generalize hst2 : (if strat ≥ nstrats then nstrats - 1 else strat) = st at *
  obtain ⟨a1, a2, a3, _, _, a6, a7, a8, a9, a10⟩ := pick_adjust_frame fl st inp.length pm2
  obtain ⟨t1, t2, t3, t4, t5, t6, t7, t8, t9, t10, t11⟩ :=
    pick_tables_fields qhist (pick_adjust fl st inp.length pm2)
  obtain ⟨_, _, b3, _, b5, _, _⟩ := pflags_bits _ _ _ _ _ _ _ _ t11
  have hd2 : (pick_adjust fl st inp.length pm2).dbits ≤ 2 := by
    rcases a7 with e | e
    · rw [e, g4]
      omega
    · rw [e]
  refine ⟨pick_tables qhist (pick_adjust fl st inp.length pm2), hgp, ?_, ⟨?_, ?_⟩, ?_, ?_, ?_, ?_,
    ?_, ?_⟩
  · rw [t7, a3, g5]
  · rw [b3, t1]
    exact pos_flag_ne_zero _
  · rw [b5, t7]
  · rw [t9, t1, t2, a1, g1, f1, p1]
  · rw [t10, t3, t4, a2, g2, f2, p2]
  · rw [t2]
    by_cases hlast : st < nstrats - 1
    · exact a9 hlast (by rw [g3, f3]; exact p4)
    · have h4 : st = 4 := by
        unfold nstrats at hlast
        omega
      rw [a8 (by omega), g3, f3, (p5 h4).1]
  · rw [t3]
    exact hd2
  · intro hs hn
    have hs2 : st < nstrats - 1 := by
      rw [← hst2]
      unfold nstrats at hs ⊢
      split <;> omega
    rw [t5, t6, t3]
    exact a10 hs2 hn
  · intro hs
    have h4 : st = 4 := by
      rw [← hst2]
      unfold nstrats at hs ⊢
      split <;> omega
    rw [t3, a8 (by rw [h4]; decide), g4]
    have := (p5 h4).2
    omega

/-! ## Lemmas on storing the picked parameters -/

/-- A table built by a monotone function over `[0,n)` is sorted. -/
theorem pairwise_map_range (f : Nat → Nat) (n : Nat) (hf : ∀ a b, a ≤ b → f a ≤ f b) :
    ((List.range n).map f).Pairwise (fun a b => a ≤ b) := by
  rw [List.pairwise_map]
  exact (List.pairwise_lt_range n).imp (fun h => hf _ _ (Nat.le_of_lt h))

/-- A sorted table of `size` entries below `INT_MAX` can be stored. -/
theorem store_array_sorted (t : List Nat) (size : Nat) (hl : t.length ≤ size)
    (hs : t.Pairwise (fun a b => a ≤ b)) (hb : ∀ x ∈ t, x < INT_MAX) :
    ∃ out, store_array t size = .ok out := by
  unfold store_array
  rw [List.take_of_length_le hl, store_flat_flatten_spec t hs hb]
  exact ⟨_, rfl⟩

/-- The table `ptab` of `fqz_pick_parameters` can be stored. -/
theorem store_ptab_ok (c k : Nat) :
    ∃ out, store_array ((List.range 1024).map (fun i => min c (i >>> k))) 1024 = .ok out := by
  apply store_array_sorted
  · rw [List.length_map, List.length_range]
  · apply pairwise_map_range
    intro a b hab
    simp only [Nat.shiftRight_eq_div_pow]
    have : a / 2 ^ k ≤ b / 2 ^ k := Nat.div_le_div_right hab
    omega
  · intro x hx
    obtain ⟨i, hi, rfl⟩ := List.mem_map.mp hx
    have hi1 := List.mem_range.mp hi
    have : i >>> k ≤ i := by
      rw [Nat.shiftRight_eq_div_pow]
      exact Nat.div_le_self _ _
    unfold INT_MAX
    omega

set_option maxRecDepth 1000000 in
/-- The table `dsqr` is sorted and its values are at most 7. -/
theorem dsqr_sorted : ∀ a, a < 64 → ∀ b, b < 64 → a ≤ b →
    dsqr.getD a 0 ≤ dsqr.getD b 0 ∧ dsqr.getD b 0 ≤ 7 := by
  decide

/-- An entry of `dsqr` capped at `m`. -/
theorem dsqr_map_getD (m k : Nat) (hk : k < 64) :
    (dsqr.map (fun v => if v > m then m else v)).getD k 0 = min m (dsqr.getD k 0) := by
  have hl : k < dsqr.length := hk
  rw [List.getD_eq_getElem?_getD, List.getD_eq_getElem?_getD, List.getElem?_map,
    List.getElem?_eq_getElem hl]
  simp only [Option.map_some', Option.getD_some]
  split <;> omega

/-- The table `dtab` of `fqz_pick_parameters` can be stored. -/
theorem store_dtab_ok (m d : Nat) :
    ∃ out, store_array ((List.range 256).map (fun i =>
      (dsqr.map (fun v => if v > m then m else v)).getD (min 63 (i >>> d)) 0)) 256 = .ok out := by
  apply store_array_sorted
  · rw [List.length_map, List.length_range]
  · apply pairwise_map_range
    intro a b hab
    rw [dsqr_map_getD _ _ (by omega), dsqr_map_getD _ _ (by omega)]
    have h1 : a >>> d ≤ b >>> d := by
      simp only [Nat.shiftRight_eq_div_pow]
      exact Nat.div_le_div_right hab
    have := (dsqr_sorted (min 63 (a >>> d)) (by omega) (min 63 (b >>> d)) (by omega) (by omega)).1
    omega
  · intro x hx
    obtain ⟨i, hi, rfl⟩ := List.mem_map.mp hx
    rw [dsqr_map_getD _ _ (by omega)]
    have := (dsqr_sorted 0 (by decide) (min 63 (i >>> d)) (by omega) (Nat.zero_le _)).2
    unfold INT_MAX
    omega

set_option maxRecDepth 1000000 in
/-- The zeroed table `stab` is stored as two bytes. -/
theorem store_stab_zero : store_array (List.replicate 256 0) 256 = .ok [255, 1] := by
  decide

set_option maxRecDepth 100000 in
/-- The table flags `pick_tables` leaves. -/
theorem pick_tables_flags (qh : List Nat) (pm : fqz_param) :
    (pick_tables qh pm).use_qtab = pm.use_qtab := by
  unfold pick_tables
  simp only
  by_cases h : pm.store_qmap ≠ 0
  · rw [if_pos h]
  · rw [if_neg h]

/-- A block whose tables can be stored can be stored. -/
theorem store_parameters1_ok (pm : fqz_param)
    (hq : pm.qbits ≠ 0 ∧ pm.use_qtab ≠ 0 → ∃ b, store_array pm.qtab 256 = .ok b)
    (hp : pm.pbits ≠ 0 ∧ pm.use_ptab ≠ 0 → ∃ b, store_array pm.ptab 1024 = .ok b)
    (hd : pm.dbits ≠ 0 ∧ pm.use_dtab ≠ 0 → ∃ b, store_array pm.dtab 256 = .ok b) :
    ∃ out, fqz_store_parameters1 pm = .ok out := by
  rcases store_parameters1_shape pm with h | ⟨tail, h⟩
  · exfalso
    unfold fqz_store_parameters1 at h
    simp only [bind, Except.bind, pure, Except.pure] at h
    by_cases cq : pm.qbits ≠ 0 ∧ pm.use_qtab ≠ 0
    · obtain ⟨bq, hbq⟩ := hq cq
      rw [if_pos cq, hbq] at h
      try simp only at h
      by_cases cp : pm.pbits ≠ 0 ∧ pm.use_ptab ≠ 0
      · obtain ⟨bp, hbp⟩ := hp cp
        rw [if_pos cp, hbp] at h
        try simp only at h
        by_cases cd : pm.dbits ≠ 0 ∧ pm.use_dtab ≠ 0
        · obtain ⟨bd, hbd⟩ := hd cd
          rw [if_pos cd, hbd] at h
          cases h
        · rw [if_neg cd] at h
          cases h
      · rw [if_neg cp] at h
        try simp only at h
        by_cases cd : pm.dbits ≠ 0 ∧ pm.use_dtab ≠ 0
        · obtain ⟨bd, hbd⟩ := hd cd
          rw [if_pos cd, hbd] at h
          cases h
        · rw [if_neg cd] at h
          cases h
    · rw [if_neg cq] at h
      try simp only at h
      by_cases cp : pm.pbits ≠ 0 ∧ pm.use_ptab ≠ 0
      · obtain ⟨bp, hbp⟩ := hp cp
        rw [if_pos cp, hbp] at h
        try simp only at h
        by_cases cd : pm.dbits ≠ 0 ∧ pm.use_dtab ≠ 0
        · obtain ⟨bd, hbd⟩ := hd cd
          rw [if_pos cd, hbd] at h
          cases h
        · rw [if_neg cd] at h
          cases h
      · rw [if_neg cp] at h
        try simp only at h
        by_cases cd : pm.dbits ≠ 0 ∧ pm.use_dtab ≠ 0
        · obtain ⟨bd, hbd⟩ := hd cd
          rw [if_pos cd, hbd] at h
          cases h
        · rw [if_neg cd] at h
          cases h
  · exact ⟨_, h⟩

/-- The parameters `fqz_pick_parameters` builds can be stored. -/
theorem store_picked_ok (vers : Nat) (recs : List cram_crec) (qh : List Nat) (pm : fqz_param)
    (hu : pm.use_qtab = 0) :
    ∃ comp, fqz_store_parameters (pick_global vers recs (pick_tables qh pm)) = .ok comp := by
  obtain ⟨t1, t2, t3, t4, _, _, _, _, t9, t10, _⟩ := pick_tables_fields qh pm
  have tu := pick_tables_flags qh pm
  obtain ⟨b, hb⟩ := store_parameters1_ok (pick_tables qh pm)
    (fun h => absurd (by rw [tu, hu]) h.2)
    (fun h => by
      rw [t9, if_pos (by rw [← t1]; exact h.1)]
      exact store_ptab_ok _ _)
    (fun h => by
      rw [t10, if_pos (by rw [← t3]; exact h.1)]
      exact store_dtab_ok _ _)
  obtain ⟨g1, g2, _, g4, _, _, _⟩ := pick_global_fields vers recs (pick_tables qh pm)
  by_cases hs : (pick_global vers recs (pick_tables qh pm)).gflags &&& GFLAG_HAVE_STAB ≠ 0
  · refine ⟨_, (store_parameters_iff _ _).mpr ⟨[255, 1], [b], ?_, ?_, ?_, rfl⟩⟩
    · rw [if_pos hs, g4]
      exact store_stab_zero
    · rw [g1, g2]
      exact Nat.le_refl _
    · rw [g1, g2]
      exact List.Forall₂.cons hb List.Forall₂.nil
  · refine ⟨_, (store_parameters_iff _ _).mpr ⟨[], [b], ?_, ?_, ?_, rfl⟩⟩
    · rw [if_neg hs]
    · rw [g1, g2]
      exact Nat.le_refl _
    · rw [g1, g2]
      exact List.Forall₂.cons hb List.Forall₂.nil

/-- A record of the slice that exists. -/
theorem crec_at_lt (s : cram_slice) (i : Nat) (h : i < s.crecs.length) :
    crec_at s (i : Int) = .ok (s.crecs.get ⟨i, h⟩) := by
  unfold crec_at
  rw [if_neg (by omega)]
  simp only [Int.toNat_ofNat, List.get?_eq_getElem?, List.getElem?_eq_getElem h]
  rfl

/-- The loop that computes `q_len` returns when the slice has its records. -/
theorem compute_q_len_total (s : cram_slice) (in_size : Nat) (hc : s.num_records ≤ s.crecs.length) :
    ∀ (n i : Nat), i + n ≤ s.num_records → ∃ ql, compute_q_len s in_size n i = .ok ql := by
  intro n
  induction n with
  | zero =>
    intro i _
    exact ⟨[], rfl⟩
  | succ n ih =>
    intro i hi
    obtain ⟨rest, hrest⟩ := ih (i + 1) (by omega)
    unfold compute_q_len
    rw [crec_at_lt s i (by omega)]
    simp only
    by_cases hlt : (i : Int) < (s.num_records : Int) - 1
    · rw [if_pos hlt]
      have h1 := crec_at_lt s (i + 1) (by omega)
      rw [show ((i : Int) + 1) = ((i + 1 : Nat) : Int) by omega, h1, hrest]
      exact ⟨_, rfl⟩
    · rw [if_neg hlt, hrest]
      exact ⟨_, rfl⟩

/-- The lengths `q_len` that `fqz_pick_parameters` computes for a slice with
its records. -/
theorem compute_q_len_eq (s : cram_slice) (in_size : Nat) (ql : List Nat)
    (hc : s.num_records ≤ s.crecs.length) (hl : ql.length = s.num_records)
    (hk : ∀ k, k < s.num_records → ql.getD k 0 = ofInt32 (qual_length s in_size k)) :
    compute_q_len s in_size s.num_records 0 = .ok ql := by
  obtain ⟨ql1, h1⟩ := compute_q_len_total s in_size hc s.num_records 0 (by omega)
  obtain ⟨hl1, hk1⟩ := compute_q_len_spec s in_size s.num_records 0 ql1 h1
  rw [h1]
  congr 1
  apply List.ext_getElem (by rw [hl, hl1])
  intro i hi1 hi
  have e1 := hk1 i (by omega)
  have e2 := hk i (by omega)
  rw [Nat.zero_add] at e1
  rw [List.getD_eq_getElem?_getD, List.getElem?_eq_getElem hi1] at e1
  rw [List.getD_eq_getElem?_getD, List.getElem?_eq_getElem hi] at e2
  simp only [Option.getD_some] at e1 e2
  rw [e1, e2]

/-- The tuner returns on a block of non-empty records that the slice
describes: `fqz_pick_parameters` succeeds, with the lengths of the records in
`q_len`. -/
theorem fqz_pick_parameters_returns (fl : TuneFloats) (vers strat : Nat) (s : cram_slice)
    (rs : List (List Nat)) (hne : ∀ r ∈ rs, r ≠ [] ∧ r.length < 2147483648) (hrs : rs ≠ [])
    (hn : s.num_records = rs.length) (hc : rs.length ≤ s.crecs.length)
    (hmax : rs.length < 2147483648)
    (hq : compute_q_len s rs.flatten.length s.num_records 0 = .ok (rs.map List.length)) :
    ∃ gp s1 comp,
      fqz_pick_parameters fl vers strat s rs.flatten = .ok (gp, s1, rs.map List.length, comp) := by
  obtain ⟨pm1, s1, qhist, hqs, _⟩ := qual_stats_dedup fl s rs []
    (pick_preset (if strat ≥ nstrats then nstrats - 1 else strat)) hne (by omega) (by omega) hmax
    (Or.inr (by omega))
  rw [List.append_nil] at hqs
  have hpos : 0 < rs.length := List.length_pos.mpr hrs
  obtain ⟨v, hg⟩ : ∃ v, (rs.map List.length).get? 0 = some v := by
    rw [List.get?_eq_getElem?, List.getElem?_eq_getElem (by simpa using hpos)]
    exact ⟨_, rfl⟩
  obtain ⟨r0, hcr⟩ : ∃ r0, crec_at s 0 = .ok r0 := ⟨_, crec_at_lt s 0 (by omega)⟩
  unfold fqz_pick_parameters
  simp only
  rw [hq]
  simp only
  rw [hqs, hg, hcr]
  simp only
  unfold pick_finish
  simp only
  have a6 := (pick_adjust_frame fl (if strat ≥ nstrats then nstrats - 1 else strat)
    rs.flatten.length
    { pm1 with
      store_qmap := if pm1.nsym ≤ 8 ∧ pm1.nsym * 2 < pm1.max_sym then 1 else 0
      fixed_len := if (rs.map List.length).all (fun l => l = (rs.map List.length).getD 0 0)
        then 1 else 0
      first_len := 1
      use_qtab := 0 }).2.2.2.2.2.1
  obtain ⟨comp, hcomp⟩ := store_picked_ok vers (s1.crecs.take s1.num_records) qhist _ a6
  rw [hcomp]
  exact ⟨_, _, _, rfl⟩

/-! ## The claims on the parameters the tuner picks -/

/-- A flag set to `(c)` as a condition. -/
theorem flag_ne_zero (c : Prop) [Decidable c] : ((if c then (1 : Nat) else 0) ≠ 0) ↔ c := by
  split <;> simp_all

/-- C21 (fixed-length detection).  After a successful `fqz_pick_parameters`
the slice has at least one record, `q_len` has one entry per record, the
entry of record `i` being the difference of the `qual` offsets of records
`i+1` and `i`, or `in_size` minus the offset for the last record, as an
`unsigned int`; and the one block has `fixed_len` set, and `PFLAG_DO_LEN` in
`pflags`, if and only if every `q_len[i]` equals `q_len[0]`. -/
theorem fixed_length_detection (fl : TuneFloats) (vers strat : Nat) (s s1 : cram_slice)
    (inp q_len comp : List Nat) (gp : fqz_gparams)
    (h : fqz_pick_parameters fl vers strat s inp = .ok (gp, s1, q_len, comp)) :
    0 < s.num_records ∧ q_len.length = s.num_records
      ∧ (∀ i, i < s.num_records → q_len.getD i 0 = ofInt32 (qual_length s inp.length i))
      ∧ ∃ pm : fqz_param, gp.p = [pm]
          ∧ (pm.fixed_len ≠ 0 ↔ ∀ i, i < s.num_records → q_len.getD i 0 = q_len.getD 0 0)
          ∧ (pm.pflags &&& PFLAG_DO_LEN ≠ 0 ↔ pm.fixed_len ≠ 0) := by
  obtain ⟨pm1, qhist, hql, _, hne, _, _⟩ := fqz_pick_parameters_steps _ _ _ _ _ _ _ _ _ h
  obtain ⟨hlen, hk⟩ := compute_q_len_spec s inp.length s.num_records 0 q_len hql
  obtain ⟨pm, hgp, hfix, ⟨_, hfl⟩, _⟩ := picked_final _ _ _ _ _ _ _ _ _ h
  have hpos : 0 < s.num_records := by
    rw [← hlen]
    exact List.length_pos.mpr hne
  refine ⟨hpos, hlen, ?_, pm, by rw [hgp]; rfl, ?_, hfl⟩
  · intro i hi
    have := hk i hi
    rw [Nat.zero_add] at this
    exact this
  · rw [hfix, ← hlen, ← all_eq_first]
    exact flag_ne_zero _

/-- C21 on the block `sparse_qual`, one record of length 4: `fixed_len` is
set. -/
theorem fixed_length_detection_witness :
    fqz_pick_parameters sparse_floats 4 0 sparse_slice sparse_qual
        = .ok (sparse_gparams, sparse_slice, [4], sparse_prelude)
    ∧ sparse_param.fixed_len = 1
    ∧ 0 < sparse_slice.num_records ∧ [4].length = sparse_slice.num_records
    ∧ (∀ i, i < sparse_slice.num_records →
        [4].getD i 0 = ofInt32 (qual_length sparse_slice sparse_qual.length i))
    ∧ ∃ pm : fqz_param, sparse_gparams.p = [pm]
        ∧ (pm.fixed_len ≠ 0 ↔ ∀ i, i < sparse_slice.num_records → [4].getD i 0 = [4].getD 0 0)
        ∧ (pm.pflags &&& PFLAG_DO_LEN ≠ 0 ↔ pm.fixed_len ≠ 0) :=
  ⟨sparse_picked, rfl,
    fixed_length_detection sparse_floats 4 0 sparse_slice sparse_slice sparse_qual [4]
      sparse_prelude sparse_gparams sparse_picked⟩

/-- C22 (the position table).  After a successful `fqz_pick_parameters` the
one block has `ptab[i] = min((1<<pbits)-1, i >> pshift)` for every `i` in
`[0,1024)`, `pshift` being non-negative, and `PFLAG_HAVE_PTAB` is set in
`pflags` exactly when `pbits > 0`. -/
theorem position_table (fl : TuneFloats) (vers strat : Nat) (s s1 : cram_slice)
    (inp q_len comp : List Nat) (gp : fqz_gparams)
    (h : fqz_pick_parameters fl vers strat s inp = .ok (gp, s1, q_len, comp)) :
    ∃ pm : fqz_param, gp.p = [pm] ∧ 0 ≤ pm.pshift ∧ pm.ptab.length = 1024
      ∧ (∀ i, i < 1024 →
          pm.ptab.getD i 0 = min ((1 <<< pm.pbits) - 1) (i >>> pm.pshift.toNat))
      ∧ (pm.pflags &&& PFLAG_HAVE_PTAB ≠ 0 ↔ pm.pbits > 0) := by
  obtain ⟨pm, hgp, _, ⟨hfl, _⟩, hpt, _, hps, _⟩ := picked_final _ _ _ _ _ _ _ _ _ h
  refine ⟨pm, by rw [hgp]; rfl, hps, ?_, ?_, hfl⟩
  · rw [hpt]
    split
    · rw [List.length_map, List.length_range]
    · exact List.length_replicate _ _
  · intro i hi
    rw [hpt]
    by_cases hp : pm.pbits ≠ 0
    · rw [if_pos hp, getD_map_range _ _ _ hi]
    · have h0 : pm.pbits = 0 := by
        by_contra hc
        exact hp hc
      rw [if_neg hp, getD_replicate_zero, h0, show ((1 : Nat) <<< 0 - 1) = 0 from rfl,
        Nat.zero_min]

/-- C22 on the block `sparse_qual`: `pbits = 2`, `pshift = 5`. -/
theorem position_table_witness :
    fqz_pick_parameters sparse_floats 4 0 sparse_slice sparse_qual
        = .ok (sparse_gparams, sparse_slice, [4], sparse_prelude)
    ∧ sparse_param.pbits = 2 ∧ sparse_param.pshift = 5
    ∧ ∃ pm : fqz_param, sparse_gparams.p = [pm] ∧ 0 ≤ pm.pshift ∧ pm.ptab.length = 1024
      ∧ (∀ i, i < 1024 →
          pm.ptab.getD i 0 = min ((1 <<< pm.pbits) - 1) (i >>> pm.pshift.toNat))
      ∧ (pm.pflags &&& PFLAG_HAVE_PTAB ≠ 0 ↔ pm.pbits > 0) :=
  ⟨sparse_picked, rfl, rfl,
    position_table sparse_floats 4 0 sparse_slice sparse_slice sparse_qual [4] sparse_prelude
      sparse_gparams sparse_picked⟩

/-- C23 (the delta table).  After a successful `fqz_pick_parameters` the one
block has `dbits` at most 2 and `dtab[i] = min((1<<dbits)-1, dsqr[min(63,
i>>dshift)])` for every `i` in `[0,256)`, both with the sequence `dsqr` of the
specification and with the table `dsqr` of the code.  The two differ (the
code has 4 nine times, 5 eleven times, 6 thirteen times, 7 fifteen times, so
at index 24 it has 4 where the specification has 5), but only in values that
`(1<<dbits)-1`, at most 3, caps. -/
theorem delta_table (fl : TuneFloats) (vers strat : Nat) (s s1 : cram_slice)
    (inp q_len comp : List Nat) (gp : fqz_gparams)
    (h : fqz_pick_parameters fl vers strat s inp = .ok (gp, s1, q_len, comp)) :
    ∃ pm : fqz_param, gp.p = [pm] ∧ pm.dbits ≤ 2 ∧ pm.dtab.length = 256
      ∧ (∀ i, i < 256 →
          pm.dtab.getD i 0
              = min ((1 <<< pm.dbits) - 1) (dsqr_spec.getD (min 63 (i >>> pm.dshift)) 0)
          ∧ pm.dtab.getD i 0
              = min ((1 <<< pm.dbits) - 1) (dsqr.getD (min 63 (i >>> pm.dshift)) 0))
      ∧ dsqr_spec.length = 64 ∧ dsqr.getD 24 0 = 4 ∧ dsqr_spec.getD 24 0 = 5 := by
  obtain ⟨pm, hgp, _, _, _, hdt, _, hd2, _⟩ := picked_final _ _ _ _ _ _ _ _ _ h
  refine ⟨pm, by rw [hgp]; rfl, hd2, ?_, ?_, by decide, by decide, by decide⟩
  · rw [hdt]
    split
    · rw [List.length_map, List.length_range]
    · exact List.length_replicate _ _
  · intro i hi
    rw [hdt]
    by_cases hp : pm.dbits ≠ 0
    · rw [if_pos hp, getD_map_range _ _ _ hi]
      exact dsqr_capped pm.dbits (by omega) _ (by omega)
    · have h0 : pm.dbits = 0 := by
        by_contra hc
        exact hp hc
      rw [if_neg hp, getD_replicate_zero, h0, show ((1 : Nat) <<< 0 - 1) = 0 from rfl,
        Nat.zero_min, Nat.zero_min]
      exact ⟨rfl, rfl⟩

/-- C23 on the block `sparse_qual`: `dbits = 2`, `dshift = 1`. -/
theorem delta_table_witness :
    fqz_pick_parameters sparse_floats 4 0 sparse_slice sparse_qual
        = .ok (sparse_gparams, sparse_slice, [4], sparse_prelude)
    ∧ sparse_param.dbits = 2 ∧ sparse_param.dshift = 1
    ∧ ∃ pm : fqz_param, sparse_gparams.p = [pm] ∧ pm.dbits ≤ 2 ∧ pm.dtab.length = 256
      ∧ (∀ i, i < 256 →
          pm.dtab.getD i 0
              = min ((1 <<< pm.dbits) - 1) (dsqr_spec.getD (min 63 (i >>> pm.dshift)) 0)
          ∧ pm.dtab.getD i 0
              = min ((1 <<< pm.dbits) - 1) (dsqr.getD (min 63 (i >>> pm.dshift)) 0))
      ∧ dsqr_spec.length = 64 ∧ dsqr.getD 24 0 = 4 ∧ dsqr_spec.getD 24 0 = 5 :=
  ⟨sparse_picked, rfl, rfl,
    delta_table sparse_floats 4 0 sparse_slice sparse_slice sparse_qual [4] sparse_prelude
      sparse_gparams sparse_picked⟩

/-- C24 (the small-input override), for the strategies 0 to 3.  After a
successful `fqz_pick_parameters` with a strategy below `nstrats-1` on a block
of fewer than 300000 bytes, the one block has `qbits` equal to `qshift` and
`dbits` equal to 2.  (The last strategy jumps to `manually_set` past the
override.) -/
theorem small_input_override (fl : TuneFloats) (vers strat : Nat) (s s1 : cram_slice)
    (inp q_len comp : List Nat) (gp : fqz_gparams) (hs : strat < nstrats - 1)
    (hn : inp.length < 300000)
    (h : fqz_pick_parameters fl vers strat s inp = .ok (gp, s1, q_len, comp)) :
    ∃ pm : fqz_param, gp.p = [pm] ∧ pm.qbits = pm.qshift ∧ pm.dbits = 2 := by
  obtain ⟨pm, hgp, _, _, _, _, _, _, hsm, _⟩ := picked_final _ _ _ _ _ _ _ _ _ h
  exact ⟨pm, by rw [hgp]; rfl, hsm hs hn⟩

/-- C24 on the block `sparse_qual` with strategy 0: `qbits = qshift = 2`,
`dbits = 2`. -/
theorem small_input_override_witness :
    0 < nstrats - 1 ∧ sparse_qual.length < 300000
    ∧ fqz_pick_parameters sparse_floats 4 0 sparse_slice sparse_qual
        = .ok (sparse_gparams, sparse_slice, [4], sparse_prelude)
    ∧ sparse_param.qbits = 2 ∧ sparse_param.qshift = 2
    ∧ ∃ pm : fqz_param, sparse_gparams.p = [pm] ∧ pm.qbits = pm.qshift ∧ pm.dbits = 2 :=
  ⟨by decide, by decide, sparse_picked, rfl, rfl,
    small_input_override sparse_floats 4 0 sparse_slice sparse_slice sparse_qual [4]
      sparse_prelude sparse_gparams (by decide) (by decide) sparse_picked⟩

set_option maxRecDepth 10000000 in
/-- C24 fails for the last strategy: on the block `sparse_qual`, 4 bytes, with
strategy 4 `fqz_pick_parameters` succeeds and leaves `dbits = 0`. -/
theorem small_input_custom_strategy :
    sparse_qual.length < 300000
    ∧ ∃ (gp : fqz_gparams) (s1 : cram_slice) (q_len comp : List Nat) (pm : fqz_param),
        fqz_pick_parameters sparse_floats 4 4 sparse_slice sparse_qual
          = .ok (gp, s1, q_len, comp)
        ∧ gp.p = [pm] ∧ pm.qbits = 0 ∧ pm.qshift = 0 ∧ pm.dbits = 0 ∧ pm.dbits ≠ 2 :=
  ⟨by decide, _, _, _, _, _, rfl, rfl, rfl, rfl, rfl, by decide⟩

/-- C28 (a single parameter block).  After a successful `fqz_pick_parameters`
there is one block, `nparam = 1`, `GFLAG_MULTI_PARAM` is clear, `stab` has 256
entries, all 0, and `GFLAG_HAVE_STAB` is set exactly when the block has
`do_sel`.  So the index `x = (gflags & GFLAG_HAVE_STAB) ? stab[s] : s` the
encoder computes from a selector `s` below 256, `s` being 0 without `do_sel`,
is 0, and `gp.p[x]` is the block. -/
theorem single_parameter_block (fl : TuneFloats) (vers strat : Nat) (s s1 : cram_slice)
    (inp q_len comp : List Nat) (gp : fqz_gparams)
    (h : fqz_pick_parameters fl vers strat s inp = .ok (gp, s1, q_len, comp)) :
    ∃ pm : fqz_param, gp.p = [pm] ∧ gp.nparam = 1 ∧ gp.gflags &&& GFLAG_MULTI_PARAM = 0
      ∧ gp.stab.length = 256 ∧ (∀ sel, sel < 256 → gp.stab.get? sel = some 0)
      ∧ (gp.gflags &&& GFLAG_HAVE_STAB ≠ 0 ↔ pm.do_sel ≠ 0)
      ∧ (∀ sel, sel < 256 → (pm.do_sel = 0 → sel = 0) →
          (if gp.gflags &&& GFLAG_HAVE_STAB ≠ 0 then toInt32 (gp.stab.getD sel 0)
           else toInt32 sel) = 0)
      ∧ deref gp 0 = .ok pm := by
  obtain ⟨pm, hgp, _⟩ := picked_final _ _ _ _ _ _ _ _ _ h
  obtain ⟨g1, g2, _, g4, g5, g6, _⟩ := pick_global_fields vers (s1.crecs.take s1.num_records) pm
  rw [← hgp] at g1 g2 g4 g5 g6
  have hst : ∀ sel, sel < 256 → gp.stab.get? sel = some 0 := by
    intro sel hsel
    rw [g4, List.get?_eq_getElem?, List.getElem?_replicate, if_pos hsel]
  refine ⟨pm, g1, g2, g5, by rw [g4]; exact List.length_replicate _ _, hst, g6, ?_, ?_⟩
  · intro sel hsel h0
    by_cases hs : gp.gflags &&& GFLAG_HAVE_STAB ≠ 0
    · rw [if_pos hs, g4, getD_replicate_zero]
      rfl
    · rw [if_neg hs]
      have hd : pm.do_sel = 0 := by
        by_contra hc
        exact hs (g6.mpr hc)
      rw [h0 hd]
      rfl
  · unfold deref
    rw [g1]
    rfl

/-- C28 on the block `sparse_qual`. -/
theorem single_parameter_block_witness :
    fqz_pick_parameters sparse_floats 4 0 sparse_slice sparse_qual
        = .ok (sparse_gparams, sparse_slice, [4], sparse_prelude)
    ∧ ∃ pm : fqz_param, sparse_gparams.p = [pm] ∧ sparse_gparams.nparam = 1
      ∧ sparse_gparams.gflags &&& GFLAG_MULTI_PARAM = 0
      ∧ sparse_gparams.stab.length = 256
      ∧ (∀ sel, sel < 256 → sparse_gparams.stab.get? sel = some 0)
      ∧ (sparse_gparams.gflags &&& GFLAG_HAVE_STAB ≠ 0 ↔ pm.do_sel ≠ 0)
      ∧ (∀ sel, sel < 256 → (pm.do_sel = 0 → sel = 0) →
          (if sparse_gparams.gflags &&& GFLAG_HAVE_STAB ≠ 0 then
             toInt32 (sparse_gparams.stab.getD sel 0)
           else toInt32 sel) = 0)
      ∧ deref sparse_gparams 0 = .ok pm :=
  ⟨sparse_picked,
    single_parameter_block sparse_floats 4 0 sparse_slice sparse_slice sparse_qual [4]
      sparse_prelude sparse_gparams sparse_picked⟩

/-! ## The reversal passes -/

set_option maxRecDepth 10000000 in
/-- C26 fails on a record whose `len` differs from its span in the quality
buffer. For format version 3 the pass before encoding reverses a
flagged record over `q_len[rec]` values and the pass after encoding over
`s->crecs[rec].len` values: on `swap_slice` the first record spans three
values and has `len = 2`, so the buffer `[1, 2, 3, 4, 5]` is `[2, 3, 1, 4, 5]`
on return. -/
theorem reversal_not_undone :
    ∃ c : Compressed,
      compress_block_fqz2f long_read_floats 16 515 swap_slice swap_qual = .ok c
      ∧ c.in_after = [2, 3, 1, 4, 5] ∧ c.in_after ≠ swap_qual :=
  ⟨_, rfl, rfl, by decide⟩

/-! ## Scenario S2 -/

/-- A record of scenario S2 is 50 values 20 or 50 values 40. -/
theorem s2_records_mem (r : List Nat) (h : r ∈ s2_records) :
    r = List.replicate 50 20 ∨ r = List.replicate 50 40 := by
  unfold s2_records at h
  rcases List.mem_append.mp h with h | h
  · exact Or.inl (List.eq_of_mem_replicate h)
  · exact Or.inr (List.eq_of_mem_replicate h)

/-- The records of scenario S2 are non-empty and short. -/
theorem s2_records_nonempty : ∀ r ∈ s2_records, r ≠ [] ∧ r.length < 2147483648 := by
  intro r hr
  rcases s2_records_mem r hr with h | h <;> subst h
  · exact ⟨by decide, by decide⟩
  · exact ⟨by decide, by decide⟩

/-- Scenario S2 has 1000 records. -/
theorem s2_records_length : s2_records.length = 1000 := by
  unfold s2_records
  rw [List.length_append, List.length_replicate, List.length_replicate]

/-- Every record of scenario S2 has 50 values. -/
theorem s2_lengths : ∀ x ∈ s2_records.map List.length, x = 50 := by
  intro x hx
  obtain ⟨r, hr, rfl⟩ := List.mem_map.mp hx
  rcases s2_records_mem r hr with h | h <;> subst h <;> rfl

/-- The block of scenario S2 has 50000 values. -/
theorem s2_qual_length : s2_qual.length = 50000 := by
  unfold s2_qual
  rw [List.length_flatten]
  have : s2_records.map List.length = List.replicate 1000 50 := by
    rw [List.eq_replicate_iff]
    exact ⟨by rw [List.length_map, s2_records_length], s2_lengths⟩
  rw [this, List.sum_replicate]
  rfl

/-- The quality values present in scenario S2 are 20 and 40. -/
theorem s2_present (v : Nat) : present s2_qual v = (decide (v = 20) || decide (v = 40)) := by
  unfold present s2_qual
  rw [Bool.eq_iff_iff, List.any_eq_true]
  simp only [List.mem_flatten, Bool.or_eq_true, decide_eq_true_eq, beq_iff_eq]
  constructor
  · rintro ⟨b, ⟨r, hr, hb⟩, hv⟩
    rcases s2_records_mem r hr with h | h <;> subst h
    · rw [List.eq_of_mem_replicate hb] at hv
      exact Or.inl hv.symm
    · rw [List.eq_of_mem_replicate hb] at hv
      exact Or.inr hv.symm
  · rintro (h | h)
    · subst h
      refine ⟨20, ⟨List.replicate 50 20, ?_, ?_⟩, rfl⟩
      · unfold s2_records
        exact List.mem_append_left _ (List.mem_replicate.mpr ⟨by decide, rfl⟩)
      · exact List.mem_replicate.mpr ⟨by decide, rfl⟩
    · subst h
      refine ⟨40, ⟨List.replicate 50 40, ?_, ?_⟩, rfl⟩
      · unfold s2_records
        exact List.mem_append_right _ (List.mem_replicate.mpr ⟨by decide, rfl⟩)
      · exact List.mem_replicate.mpr ⟨by decide, rfl⟩

set_option maxRecDepth 1000000 in
/-- Scenario S2 has two distinct quality values, the highest being 40; none
is below 20 and one is below 40. -/
theorem s2_values :
    distinct_values s2_qual = 2 ∧ highest_value s2_qual = 40
      ∧ value_rank s2_qual 20 = 0 ∧ value_rank s2_qual 40 = 1 := by
  have hf : ∀ n, (List.range n).filter (present s2_qual)
      = (List.range n).filter (fun v => decide (v = 20) || decide (v = 40)) := by
    intro n
    apply List.filter_congr
    intro x _
    exact s2_present x
  unfold distinct_values highest_value present_values value_rank
  rw [hf, hf, hf]
  decide

/-- The offsets of the records of scenario S2. -/
theorem s2_offset (k : Nat) (hk : k < 1000) : qual_offset s2_slice k = ((50 * k : Nat) : Int) := by
  unfold qual_offset s2_slice
  simp only [List.get?_eq_getElem?, List.getElem?_map, List.getElem?_range hk, Option.map_some']

/-- The lengths `fqz_pick_parameters` computes for scenario S2. -/
theorem s2_q_len :
    compute_q_len s2_slice s2_qual.length s2_slice.num_records 0
      = .ok (s2_records.map List.length) := by
  have hn : s2_slice.num_records = 1000 := rfl
  apply compute_q_len_eq
  · rw [hn]
    unfold s2_slice
    simp only [List.length_map, List.length_range]
    exact Nat.le_refl _
  · rw [List.length_map, s2_records_length]
    rfl
  · intro k hk
    rw [hn] at hk
    have h50 : (s2_records.map List.length).getD k 0 = 50 := by
      have hl : k < (s2_records.map List.length).length := by
        rw [List.length_map, s2_records_length]
        exact hk
      rw [List.getD_eq_getElem?_getD, List.getElem?_eq_getElem hl]
      exact s2_lengths _ (List.getElem_mem hl)
    rw [h50, s2_qual_length]
    unfold qual_length
    rw [hn, s2_offset k hk]
    by_cases hlast : k + 1 < 1000
    · rw [if_pos hlast, s2_offset (k + 1) hlast]
      unfold ofInt32
      simp only [U32]
      omega
    · rw [if_neg hlast]
      unfold ofInt32
      simp only [U32]
      omega

/-- The tuner returns on scenario S2, whatever the strategy. -/
theorem s2_returns (fl : TuneFloats) (vers strat : Nat) :
    ∃ gp s1 comp,
      fqz_pick_parameters fl vers strat s2_slice s2_qual
        = .ok (gp, s1, s2_records.map List.length, comp) := by
  have hl := s2_records_length
  exact fqz_pick_parameters_returns fl vers strat s2_slice s2_records s2_records_nonempty
    (by
      intro h
      rw [h] at hl
      cases hl)
    (by rw [hl]; rfl)
    (by
      rw [hl]
      unfold s2_slice
      simp only [List.length_map, List.length_range]
      exact Nat.le_refl _)
    (by rw [hl]; decide) s2_q_len

/-- The block the tuner leaves for scenario S2: `nsym` and `max_sym` are 2 and
`qmap` sends 20 to 0 and 40 to 1; the statistics loop of `qual_stats` had
found the highest value 40. -/
theorem s2_block (fl : TuneFloats) (vers strat : Nat) (s1 : cram_slice)
    (q_len comp : List Nat) (gp : fqz_gparams)
    (h : fqz_pick_parameters fl vers strat s2_slice s2_qual = .ok (gp, s1, q_len, comp)) :
    ∃ (st : QStats) (pm : fqz_param),
      qual_scan s2_slice q_len s2_qual = .ok st ∧ count_syms st.qhist = (40, 2)
      ∧ gp.p = [pm] ∧ pm.store_qmap ≠ 0 ∧ pm.nsym = 2 ∧ pm.max_sym = 2
      ∧ pm.qmap.getD 20 0 = 0 ∧ pm.qmap.getD 40 0 = 1 := by
  obtain ⟨st, pm, hst, hgp, hiff, hset, _⟩ := picked_block _ _ _ _ _ _ _ _ _ h
  have hh := qual_scan_hist s2_slice q_len s2_qual st (by rw [s2_qual_length]; decide) hst
  have hc := count_syms_present st.qhist s2_qual hh
  obtain ⟨v1, v2, v3, v4⟩ := s2_values
  rw [v1, v2] at hc
  rw [hc] at hiff hset
  have hq : pm.store_qmap ≠ 0 := hiff.mpr (by decide)
  obtain ⟨hm, hmax, hn⟩ := hset hq
  have hrank : ∀ v, v < 256 → present s2_qual v = true →
      pm.qmap.getD v 0 = value_rank s2_qual v := by
    intro v hv hp
    rw [hm, (build_qmap_spec st.qhist 256 0 0).2 v hv, Nat.zero_add, Nat.zero_add]
    have hf : (List.range' 0 v).filter (fun x => decide (st.qhist.getD x 0 ≠ 0))
        = (List.range v).filter (present s2_qual) := by
      rw [← List.range_eq_range']
      apply List.filter_congr
      intro x hx
      exact hh x (by have := List.mem_range.mp hx; omega)
    have hne : st.qhist.getD v 0 ≠ 0 := by
      have := hh v hv
      rw [hp] at this
      exact of_decide_eq_true this
    rw [if_pos hne, hf]
    rfl
  refine ⟨st, pm, hst, hc, hgp, hq, hn, hmax, ?_, ?_⟩
  · rw [hrank 20 (by decide) (by rw [s2_present]; rfl), v3]
  · rw [hrank 40 (by decide) (by rw [s2_present]; rfl), v4]

/-- C27 (scenario S2), as the code has it: on 1000 records of 50 quality
values, each 20 or 40, the tuner returns for every strategy, format version
and tuning outcome; its statistics pass counts 2 distinct values with highest
value 40; the block it leaves has `store_qmap` set, `nsym = 2`, `qmap[20] = 0`
and `qmap[40] = 1`; and `max_sym` of that block is 2, the number of symbols,
because the tuner overwrites it with `nsym` when it keeps the map. -/
theorem scenario_s2_tuning (fl : TuneFloats) (vers strat : Nat) :
    ∃ (gp : fqz_gparams) (s1 : cram_slice) (comp : List Nat) (st : QStats) (pm : fqz_param),
      fqz_pick_parameters fl vers strat s2_slice s2_qual
        = .ok (gp, s1, s2_records.map List.length, comp)
      ∧ s2_records.length = 1000 ∧ (∀ r ∈ s2_records, r.length = 50)
      ∧ qual_scan s2_slice (s2_records.map List.length) s2_qual = .ok st
      ∧ count_syms st.qhist = (40, 2)
      ∧ gp.p = [pm] ∧ pm.store_qmap ≠ 0 ∧ pm.nsym = 2 ∧ pm.max_sym = 2
      ∧ pm.qmap.getD 20 0 = 0 ∧ pm.qmap.getD 40 0 = 1 := by
  obtain ⟨gp, s1, comp, h⟩ := s2_returns fl vers strat
  obtain ⟨st, pm, h1, h2, h3, h4, h5, h6, h7, h8⟩ := s2_block fl vers strat s1 _ comp gp h
  exact ⟨gp, s1, comp, st, pm, h, s2_records_length, fun r hr => by
      rcases s2_records_mem r hr with h | h <;> rw [h] <;> rfl,
    h1, h2, h3, h4, h5, h6, h7, h8⟩

/-- C27 fails on `max_sym`: for scenario S2 under strategy 0 and format
version 4 the block the tuner returns has `nsym = 2`, `qmap[20] = 0` and `qmap[40] = 1`, and its `max_sym`
is not 40. -/
theorem scenario_s2_max_sym :
    ∃ (gp : fqz_gparams) (s1 : cram_slice) (q_len comp : List Nat) (pm : fqz_param),
      fqz_pick_parameters s2_floats 4 0 s2_slice s2_qual = .ok (gp, s1, q_len, comp)
      ∧ gp.p = [pm] ∧ pm.nsym = 2 ∧ pm.qmap.getD 20 0 = 0 ∧ pm.qmap.getD 40 0 = 1
      ∧ pm.max_sym ≠ 40 := by
  obtain ⟨gp, s1, comp, h⟩ := s2_returns s2_floats 4 0
  obtain ⟨st, pm, _, _, h3, _, h5, h6, h7, h8⟩ := s2_block s2_floats 4 0 s1 _ comp gp h
  refine ⟨gp, s1, _, comp, pm, h, h3, h5, h7, h8, ?_⟩
  rw [h6]
  decide

/-! ## The main loops in lockstep -/

/-- The main loop of `uncompress_block_fqz2f` starts from `dec_start`. -/
theorem uncompress_main_start (junk : fqz_param) (rc : SymChannel) (inp : List Nat)
    (out_size : Nat) (gp : fqz_gparams) (idx : Int)
    (h : fqz_read_parameters junk fqz_gparams.zero inp = .ok (gp, idx)) (df : DecSt)
    (hl : dec_loop (rc (toSizeT idx)) out_size (out_size + 2147483648 + 1) (dec_start gp)
      = .ok (some df)) (hr : df.rec_ < df.nrec) :
    ∃ d, uncompress_main junk rc inp out_size = .ok (some d) ∧ d.uncomp = df.uncomp := by
  unfold uncompress_main
  rw [h]
  simp only [bind, Except.bind, Nat.not_lt_zero, if_false]
  unfold dec_start at hl
  rw [hl]
  simp only
  rw [if_neg (by omega)]
  exact ⟨_, rfl, rfl⟩

/-- The state a record header of the encoder leaves when the record is not
coded as a dup: `p = len`, the selector kept, every other member 0. -/
theorem enc_record_reset (frev : Nat) (s : cram_slice) (q_len inp : List Nat) (x : Int)
    (pm : fqz_param) (e e1 : EncSt)
    (h : enc_record frev s q_len inp x pm e = .ok (e1, false)) :
    ∃ len, record_len s q_len inp.length e.rec_ = .ok len
      ∧ e1.state = { qctx := 0, p := ofInt32 len, add_d := 0, delta := 0, prevq := 0,
                     s := e.state.s, qtot := 0, qlen := 0 }
      ∧ e1.pm = x ∧ e1.i = e.i
      ∧ (deref e.gp x = .ok pm → ∃ pm1, deref e1.gp x = .ok pm1 ∧ pm1.qmap = pm.qmap
          ∧ pm1.qtab = pm.qtab ∧ pm1.qshift = pm.qshift) := by
  have hgp : ∀ c : Prop, [Decidable c] → deref e.gp x = .ok pm →
      ∃ pm1, deref (if c then clear_first_len e.gp x else e.gp) x = .ok pm1
        ∧ pm1.qmap = pm.qmap ∧ pm1.qtab = pm.qtab ∧ pm1.qshift = pm.qshift := by
    intro c _ hd
    by_cases hc : c
    · rw [if_pos hc]
      unfold deref at hd ⊢
      unfold clear_first_len
      split at hd
      · cases hd
      · rename_i hx
        rw [if_neg hx]
        simp only
        split at hd
        · cases hd
        · rename_i pm0 hg
          simp only [Except.ok.injEq] at hd
          subst hd
          rw [List.get?_eq_getElem?, List.getElem?_modify_eq, ← List.get?_eq_getElem?, hg]
          exact ⟨_, rfl, rfl, rfl, rfl⟩
    · rw [if_neg hc]
      exact ⟨pm, hd, rfl, rfl, rfl⟩
  unfold enc_record at h
  simp only at h
  split at h
  · cases h
  · rename_i len heq
    have hl : record_len s q_len inp.length e.rec_ = .ok len := heq
    refine ⟨len, hl, ?_⟩
    clear heq
    split at h
    · cases h
    · split at h
      · split at h
        · cases h
        · simp only [Except.ok.injEq, Prod.mk.injEq] at h
          exact absurd h.2 (by decide)
        · simp only [Except.ok.injEq, Prod.mk.injEq] at h
          obtain ⟨he, _⟩ := h
          subst he
          exact ⟨rfl, rfl, rfl, fun hd => hgp _ hd⟩
      · simp only [Except.ok.injEq, Prod.mk.injEq] at h
        obtain ⟨he, _⟩ := h
        subst he
        exact ⟨rfl, rfl, rfl, fun hd => hgp _ hd⟩

/-- The state a record header of the encoder leaves when the record is not
coded as a dup, selector included. -/
theorem enc_header_reset (frev : Nat) (s : cram_slice) (q_len inp : List Nat) (e e1 : EncSt)
    (h : enc_header frev s q_len inp e = .ok (e1, false)) :
    ∃ (len : Int) (sv : Nat) (pm : fqz_param), record_len s q_len inp.length e.rec_ = .ok len
      ∧ e1.state = { qctx := 0, p := ofInt32 len, add_d := 0, delta := 0, prevq := 0,
                     s := sv, qtot := 0, qlen := 0 }
      ∧ e1.i = e.i ∧ deref e1.gp e1.pm = .ok pm := by
  unfold enc_header at h
  simp only at h
  split at h
  · cases h
  · split at h
    · cases h
    · rename_i sv _
      split at h
      · cases h
      · rename_i x _
        split at h
        · cases h
        · rename_i pm hd
          obtain ⟨len, hl, hs, hpm, hi, hg⟩ := enc_record_reset frev s q_len inp x pm _ e1 h
          obtain ⟨pm1, hd1, _⟩ := hg hd
          rw [← hpm] at hd1
          exact ⟨len, sv, pm1, hl, hs, hi, hd1⟩

/-- C32 (the per-symbol state update).  `fqz_update_ctx` leaves `qctx = (qctx
<< qshift) + qtab[q]` and `delta = delta + (prevq != q)`, both as `unsigned
int`, `prevq = q` and `p = p - 1` modulo 2^32, and keeps the selector `s`.
The encoder applies it to the first value of a record as to any other: after a
record header that is not a dup, `state` is `qctx = delta = prevq = 0`,
`p = len`, and the iteration goes on to code the value `in[i]` as `qm =
qmap[in[i]]` and to update the state with it, so that `delta` is 1 after the
first value unless `qm` is 0. -/
theorem state_update_rule (frev : Nat) (s : cram_slice) (q_len inp : List Nat)
    (e e1 e2 : EncSt) (hp : e.state.p = 0)
    (hh : enc_header frev s q_len inp e = .ok (e1, false))
    (hq : enc_quality inp e1 = .ok e2) :
    (∀ (pm : fqz_param) (st : fqz_state) (q : Nat),
        (fqz_update_ctx pm st q).2.qctx = ((st.qctx <<< pm.qshift) + pm.qtab.getD q 0) % U32
        ∧ (fqz_update_ctx pm st q).2.delta = (st.delta + (if st.prevq ≠ q then 1 else 0)) % U32
        ∧ (fqz_update_ctx pm st q).2.prevq = q
        ∧ (st.p < U32 →
            (((fqz_update_ctx pm st q).2.p : Nat) : Int) = ((st.p : Int) - 1) % (U32 : Int))
        ∧ (fqz_update_ctx pm st q).2.s = st.s)
    ∧ enc_iter frev s q_len inp e = .ok e2
    ∧ ∃ (len : Int) (b : Nat) (pm : fqz_param),
        record_len s q_len inp.length e.rec_ = .ok len ∧ inp.get? e.i = some b
        ∧ e1.state.qctx = 0 ∧ e1.state.delta = 0 ∧ e1.state.prevq = 0
        ∧ e1.state.p = ofInt32 len
        ∧ deref e1.gp e1.pm = .ok pm
        ∧ e2.state = (fqz_update_ctx pm e1.state (pm.qmap.getD (b % 256) 0 % 256)).2
        ∧ e2.state.delta = (if pm.qmap.getD (b % 256) 0 % 256 ≠ 0 then 1 else 0)
        ∧ e2.state.prevq = pm.qmap.getD (b % 256) 0 % 256
        ∧ e2.state.qctx = pm.qtab.getD (pm.qmap.getD (b % 256) 0 % 256) 0 % U32
        ∧ e2.state.p = (ofInt32 len + U32 - 1) % U32
        ∧ e2.state.s = e1.state.s := by
  refine ⟨?_, ?_, ?_⟩
  · intro pm st q
    refine ⟨rfl, rfl, rfl, ?_, rfl⟩
    intro hlt
    show (((st.p + U32 - 1) % U32 : Nat) : Int) = ((st.p : Int) - 1) % (U32 : Int)
    simp only [U32] at hlt ⊢
    omega
  · unfold enc_iter
    rw [if_pos hp, hh]
    exact hq
  · obtain ⟨len, sv, pm, hl, hs, hi, hd⟩ := enc_header_reset frev s q_len inp e e1 hh
    unfold enc_quality at hq
    rw [hd] at hq
    cases hb : inp.get? e1.i with
    | none =>
      rw [hb] at hq
      cases hq
    | some b =>
      rw [hb] at hq
      simp only [Except.ok.injEq] at hq
      subst hq
      rw [hi] at hb
      refine ⟨len, b, pm, hl, hb, ?_, ?_, ?_, ?_, hd, rfl, ?_, rfl, ?_, ?_, rfl⟩
      · rw [hs]
      · rw [hs]
      · rw [hs]
      · rw [hs]
      · show (e1.state.delta + (if e1.state.prevq ≠ _ then 1 else 0)) % U32 = _
        rw [hs]
        simp only [Nat.zero_add]
        by_cases hz : pm.qmap.getD (b % 256) 0 % 256 = 0
        · rw [hz]
          rfl
        · rw [if_pos (fun h => hz h.symm), if_pos hz]
          rfl
      · show ((e1.state.qctx <<< pm.qshift) + _) % U32 = _
        rw [hs]
        simp only [Nat.zero_shiftLeft, Nat.zero_add]
      · show (e1.state.p + U32 - 1) % U32 = _
        rw [hs]

set_option maxRecDepth 1000000 in
/-- C32 on the first record of `twin_records`: its first value is 7, and after
it `delta` is 1, `prevq` 7, `qctx` 7 and `p` 1, the record having two values. -/
theorem state_update_rule_witness :
    ∃ e1 e2 : EncSt,
      (enc_start (twin_gparams 1)).state.p = 0
      ∧ enc_header 16 twin_slice [2, 2, 1] twin_records.flatten (enc_start (twin_gparams 1))
          = .ok (e1, false)
      ∧ enc_quality twin_records.flatten e1 = .ok e2
      ∧ e2.state.delta = 1 ∧ e2.state.prevq = 7 ∧ e2.state.qctx = 7 ∧ e2.state.p = 1
      ∧ enc_iter 16 twin_slice [2, 2, 1] twin_records.flatten (enc_start (twin_gparams 1))
          = .ok e2 :=
  ⟨_, _, rfl, rfl, rfl, rfl, rfl, rfl, rfl,
    (state_update_rule 16 twin_slice [2, 2, 1] twin_records.flatten
      (enc_start (twin_gparams 1)) _ _ rfl rfl rfl).2.1⟩

/-! ## Dedup on small blocks -/

/-- The bytes `fqz_store_parameters` writes for one block: some global bytes,
then the block as `fqz_store_parameters1` writes it. -/
theorem store_single_block (gp : fqz_gparams) (pm : fqz_param) (comp : List Nat)
    (hp : gp.p = [pm]) (hn : gp.nparam = 1) (h : fqz_store_parameters gp = .ok comp) :
    ∃ pre block, fqz_store_parameters1 pm = .ok block ∧ comp = pre ++ block
      ∧ 2 ≤ pre.length := by
  obtain ⟨sb, blocks, _, _, hf, hc⟩ := (store_parameters_iff gp comp).mp h
  rw [hp, hn] at hf
  simp only [List.take_succ_cons, List.take_zero] at hf
  cases hf with
  | cons h1 h2 =>
    cases h2
    refine ⟨([gp.vers % 256, gp.gflags % 256]
        ++ (if gp.gflags &&& GFLAG_MULTI_PARAM ≠ 0 then [gp.nparam % 256] else []))
        ++ (if gp.gflags &&& GFLAG_HAVE_STAB ≠ 0 then gp.max_sel % 256 :: sb else []),
      _, h1, ?_, ?_⟩
    · rw [hc]
      simp only [List.flatten_cons, List.flatten_nil, List.append_nil]
    · simp only [List.length_append, List.length_cons, List.length_nil]
      omega

/-- The flag bits survive the store of `pflags` in a byte. -/
theorem and_byte (x m : Nat) (hm : m < 256) : (x % 256) &&& m = x &&& m := by
  have h : x % 256 = x &&& 255 := (Nat.and_pow_two_sub_one_eq_mod x 8).symm
  rw [h, Nat.and_assoc]
  congr 1
  have h2 : m % 256 = m := Nat.mod_eq_of_lt hm
  rw [Nat.and_comm]
  exact (Nat.and_pow_two_sub_one_eq_mod m 8).trans h2

/-- C35 (dedup is always enabled on small blocks).  When the statistics loop
of `qual_stats` has visited fewer than 499 records, whatever the number of
them equal to the record before, `qual_stats` leaves `do_dedup = 1`; the block
`fqz_pick_parameters` returns has `do_dedup = 1` and `PFLAG_DO_DEDUP` in
`pflags`, and so has the `pflags` byte of the prelude. -/
theorem dedup_on_small_blocks (fl : TuneFloats) (vers strat : Nat) (s s1 : cram_slice)
    (inp q_len comp : List Nat) (gp : fqz_gparams) (st : QStats)
    (h : fqz_pick_parameters fl vers strat s inp = .ok (gp, s1, q_len, comp))
    (hst : qual_scan s q_len inp = .ok st) (hrec : st.rec_ < 499) :
    ∃ (pm1 pm : fqz_param) (qhist pre rest : List Nat),
      qual_stats fl s inp q_len (pick_preset (if strat ≥ nstrats then nstrats - 1 else strat))
        = .ok (pm1, s1, qhist)
      ∧ pm1.do_dedup = 1
      ∧ gp.p = [pm] ∧ pm.do_dedup = 1 ∧ pm.pflags &&& PFLAG_DO_DEDUP ≠ 0
      ∧ comp = pre ++ (pm.context % 256 :: (pm.context >>> 8) % 256 :: pm.pflags % 256 :: rest)
      ∧ (pm.pflags % 256) &&& PFLAG_DO_DEDUP ≠ 0 := by
  obtain ⟨pm1, qhist, _, hq, _, hgp, hsto⟩ := fqz_pick_parameters_steps _ _ _ _ _ _ _ _ _ h
  obtain ⟨st1, hst1, _, _, _, hdd⟩ := qual_stats_ok _ _ _ _ _ _ _ _ hq
  rw [hst] at hst1
  simp only [Except.ok.injEq] at hst1
  subst hst1
  have hone : pm1.do_dedup = 1 := by
    rw [hdd, if_pos]
    have h1 : (st.rec_ + 1) % U64 ≤ 499 := by
      simp only [U64]
      omega
    exact Nat.lt_of_le_of_lt (Nat.le_trans (Nat.div_le_self _ _) h1) (by decide)
  generalize hpa : pick_adjust fl (if strat ≥ nstrats then nstrats - 1 else strat) inp.length
      { pm1 with
        store_qmap := if pm1.nsym ≤ 8 ∧ pm1.nsym * 2 < pm1.max_sym then 1 else 0
        fixed_len := if q_len.all (fun l => l = q_len.getD 0 0) then 1 else 0
        first_len := 1
        use_qtab := 0 } = pa at hgp
  have hpad : pa.do_dedup = 1 := by
    rw [← hpa, (pick_adjust_keeps _ _ _ _).2.2.2]
    exact hone
  have hfl := (pick_tables_fields qhist pa).2.2.2.2.2.2.2.2.2.2
  have hbits := (pflags_bits _ _ _ _ _ _ _ _ hfl).2.2.2.2.2.1
  have hd2 : (pick_tables qhist pa).do_dedup = 1 := by
    unfold pick_tables
    simp only
    split <;> exact hpad
  have hfb : (pick_tables qhist pa).pflags &&& PFLAG_DO_DEDUP ≠ 0 :=
    hbits.mpr (by rw [hpad]; decide)
  have hp : gp.p = [pick_tables qhist pa] := by
    rw [hgp]
    rfl
  have hn : gp.nparam = 1 := by
    rw [hgp]
    rfl
  obtain ⟨pre, block, hb, hc, _⟩ := store_single_block gp _ comp hp hn hsto
  rcases store_parameters1_shape (pick_tables qhist pa) with he | ⟨tail, hs⟩
  · rw [he] at hb
    cases hb
  · rw [hs] at hb
    simp only [Except.ok.injEq] at hb
    obtain ⟨rest, hrest⟩ : ∃ rest, block = (pick_tables qhist pa).context % 256
        :: ((pick_tables qhist pa).context >>> 8) % 256
        :: (pick_tables qhist pa).pflags % 256 :: rest := by
      rw [← hb]
      exact ⟨_, rfl⟩
    refine ⟨pm1, pick_tables qhist pa, qhist, pre, rest, hq, hone, hp, hd2, hfb, ?_, ?_⟩
    · rw [hc, hrest]
    · rw [and_byte _ _ (by decide)]
      exact hfb

set_option maxRecDepth 1000000 in
/-- C35 on the block `sparse_qual`, a single record: the scan visits one
record and finds no dup, and `PFLAG_DO_DEDUP` is set in the `pflags` byte 118
of the prelude. -/
theorem dedup_on_small_blocks_witness :
    ∃ st : QStats,
      fqz_pick_parameters sparse_floats 4 0 sparse_slice sparse_qual
        = .ok (sparse_gparams, sparse_slice, [4], sparse_prelude)
      ∧ qual_scan sparse_slice [4] sparse_qual = .ok st ∧ st.rec_ = 1 ∧ st.dups = 0
      ∧ st.rec_ < 499
      ∧ ∃ (pm1 pm : fqz_param) (qhist pre rest : List Nat),
          qual_stats sparse_floats sparse_slice sparse_qual [4]
              (pick_preset (if 0 ≥ nstrats then nstrats - 1 else 0))
            = .ok (pm1, sparse_slice, qhist)
          ∧ pm1.do_dedup = 1
          ∧ sparse_gparams.p = [pm] ∧ pm.do_dedup = 1 ∧ pm.pflags &&& PFLAG_DO_DEDUP ≠ 0
          ∧ sparse_prelude
              = pre ++ (pm.context % 256 :: (pm.context >>> 8) % 256 :: pm.pflags % 256 :: rest)
          ∧ (pm.pflags % 256) &&& PFLAG_DO_DEDUP ≠ 0 :=
  ⟨_, sparse_picked, rfl, rfl, rfl, by decide,
    dedup_on_small_blocks sparse_floats 4 0 sparse_slice sparse_slice sparse_qual [4]
      sparse_prelude sparse_gparams _ sparse_picked rfl (by decide)⟩

/-! ## The packed fields of the stored parameters -/

/-- The packed members after the bit budget change depend on the members it
reads only. -/
theorem steal_bits_packed (a b : fqz_param) (h1 : a.pbits = b.pbits) (h2 : a.dbits = b.dbits)
    (h3 : a.qbits = b.qbits) (h4 : a.qshift = b.qshift) (h5 : a.qloc = b.qloc)
    (h6 : a.sloc = b.sloc) (h7 : a.ploc = b.ploc) (h8 : a.dloc = b.dloc)
    (h9 : a.do_r2 = b.do_r2) :
    packed_fields (steal_bits a) = packed_fields (steal_bits b) := by
  unfold steal_bits packed_fields
  simp only [h1, h2, h3, h4, h5, h6, h7, h8, h9]
  by_cases c1 : b.pbits > 0 ∧ b.dbits > 0
  · simp only [c1, and_self, if_true]
  · by_cases c2 : b.dbits ≥ 2
    · simp only [c1, c2, if_true, if_false, h3, h4, h5, h7]
    · by_cases c3 : b.qbits ≥ 2
      · simp only [c1, c2, c3, if_true, if_false, h4, h5, h8]
      · simp only [c1, c2, c3, if_false, h3, h4, h5, h6, h7, h8]

/-- The packed members after the two "Auto tune" steps of `qual_stats` are
those of the block handed in, after the bit budget change if it is made. -/
theorem tune_chain_packed (pm pmA : fqz_param) (c1 c2 c3 : Prop) [Decidable c1] [Decidable c2]
    [Decidable c3] (pm4 : fqz_param)
    (hA : pmA.pbits = pm.pbits ∧ pmA.dbits = pm.dbits ∧ pmA.qbits = pm.qbits
      ∧ pmA.qshift = pm.qshift ∧ pmA.qloc = pm.qloc ∧ pmA.sloc = pm.sloc ∧ pmA.ploc = pm.ploc
      ∧ pmA.dloc = pm.dloc ∧ pmA.do_r2 = pm.do_r2)
    (h : pm4 = (if c3 then
        { (if c2 then steal_bits (if c1 then { pmA with do_sel := 1 } else pmA)
           else (if c1 then { pmA with do_sel := 1 } else pmA)) with do_sel := 1 }
      else (if c2 then steal_bits (if c1 then { pmA with do_sel := 1 } else pmA)
           else (if c1 then { pmA with do_sel := 1 } else pmA)))) :
    packed_fields pm4 = packed_fields (if c2 then steal_bits pm else pm) := by
  obtain ⟨a1, a2, a3, a4, a5, a6, a7, a8, a9⟩ := hA
  have hs1 : packed_fields (steal_bits { pmA with do_sel := 1 }) = packed_fields (steal_bits pm) :=
    steal_bits_packed _ _ a1 a2 a3 a4 a5 a6 a7 a8 a9
  have hs2 : packed_fields (steal_bits pmA) = packed_fields (steal_bits pm) :=
    steal_bits_packed _ _ a1 a2 a3 a4 a5 a6 a7 a8 a9
  have hp : packed_fields pmA = packed_fields pm := by
    unfold packed_fields
    rw [a3, a4, a5, a6, a7, a8]
  have hsel : ∀ x : fqz_param, packed_fields { x with do_sel := 1 } = packed_fields x :=
    fun _ => rfl
  subst h
  by_cases h1 : c1 <;> by_cases h2 : c2 <;> by_cases h3 : c3 <;>
    simp only [h1, h2, h3, if_true, if_false, hsel, hs1, hs2, hp]

/-- The packed members `qual_stats` leaves. -/
theorem qual_stats_packed (fl : TuneFloats) (s s1 : cram_slice) (inp q_len : List Nat)
    (pm pm1 : fqz_param) (qhist : List Nat)
    (h : qual_stats fl s inp q_len pm = .ok (pm1, s1, qhist)) :
    packed_fields pm1 = packed_fields (if pm.do_qa = -1 then steal_bits pm else pm) := by
  unfold qual_stats at h
  split at h
  · cases h
  · split at h
    · cases h
    · unfold qual_tune at h
      simp only at h
      split at h
      · cases h
      · simp only [Except.ok.injEq, Prod.mk.injEq] at h
        obtain ⟨h1, _, _⟩ := h
        have hc := fun hA => tune_chain_packed pm _ _ _ _ pm1 hA h1.symm
        exact hc ⟨rfl, rfl, rfl, rfl, rfl, rfl, rfl, rfl, rfl⟩

/-- The packed members of the presets 0 to 3 after `qual_stats`. -/
theorem preset_packed (st : Nat) (h : st ≤ 3) :
    packed_fields (if (pick_preset st).do_qa = -1 then steal_bits (pick_preset st)
        else pick_preset st)
      = [[10, 5, 0, 13, 10, 15], [5, 5, 0, 13, 6, 14], [12, 6, 0, 9, 12, 14],
         [12, 6, 0, 12, 0, 0]].getD st [] := by
  interval_cases st <;> decide

/-- The adjustments of `fqz_pick_parameters` keep `qbits` and `qshift` within
15 and leave the four locations alone. -/
theorem pick_adjust_packed (fl : TuneFloats) (st n : Nat) (pm : fqz_param)
    (h1 : pm.qbits ≤ 15) (h2 : pm.qshift ≤ 15) :
    (pick_adjust fl st n pm).qbits ≤ 15 ∧ (pick_adjust fl st n pm).qshift ≤ 15
      ∧ (pick_adjust fl st n pm).qloc = pm.qloc ∧ (pick_adjust fl st n pm).sloc = pm.sloc
      ∧ (pick_adjust fl st n pm).ploc = pm.ploc ∧ (pick_adjust fl st n pm).dloc = pm.dloc := by
  unfold pick_adjust
  simp only
  repeat' split
  all_goals refine ⟨?_, ?_, rfl, rfl, rfl, rfl⟩
  all_goals try simp only
  all_goals omega

/-- The packed members are as `pick_tables` finds them. -/
theorem pick_tables_packed (qh : List Nat) (pm : fqz_param) :
    packed_fields (pick_tables qh pm) = packed_fields pm := by
  unfold pick_tables packed_fields
  simp only
  split <;> rfl

/-- C36 (packed fields fit their nibbles).  For the preset strategies 0 to 3
the block `fqz_pick_parameters` returns has `qbits`, `qshift`, `qloc`, `sloc`,
`ploc` and `dloc` at most 15; the prelude ends with the block as
`fqz_store_parameters1` writes it, and `fqz_read_parameters1` takes the same
six values out of the three packed bytes, whatever follows the block. -/
theorem packed_fields_fit (fl : TuneFloats) (vers strat : Nat) (s s1 : cram_slice)
    (inp q_len comp : List Nat) (gp : fqz_gparams) (hs : strat ≤ 3)
    (h : fqz_pick_parameters fl vers strat s inp = .ok (gp, s1, q_len, comp)) :
    ∃ (pm : fqz_param) (pre block : List Nat), gp.p = [pm]
      ∧ pm.qbits ≤ 15 ∧ pm.qshift ≤ 15 ∧ pm.qloc ≤ 15 ∧ pm.sloc ≤ 15 ∧ pm.ploc ≤ 15
      ∧ pm.dloc ≤ 15
      ∧ fqz_store_parameters1 pm = .ok block ∧ comp = pre ++ block
      ∧ ∀ (junk : fqz_param) (tail : List Nat),
          Reads (fun r => r.1.qbits = pm.qbits ∧ r.1.qshift = pm.qshift ∧ r.1.qloc = pm.qloc
              ∧ r.1.sloc = pm.sloc ∧ r.1.ploc = pm.ploc ∧ r.1.dloc = pm.dloc)
            (fqz_read_parameters1 junk (block ++ tail)) := by
  obtain ⟨pm1, qhist, _, hq, _, hgp, hsto⟩ := fqz_pick_parameters_steps _ _ _ _ _ _ _ _ _ h
  have hst : (if strat ≥ nstrats then nstrats - 1 else strat) = strat := by
    rw [if_neg]
    simp only [nstrats]
    omega
  rw [hst] at hq hgp
  have hp1 := qual_stats_packed _ _ _ _ _ _ _ _ hq
  rw [preset_packed strat hs] at hp1
  have hb1 : pm1.qbits ≤ 15 ∧ pm1.qshift ≤ 15 ∧ pm1.qloc ≤ 15 ∧ pm1.sloc ≤ 15
      ∧ pm1.ploc ≤ 15 ∧ pm1.dloc ≤ 15 := by
    unfold packed_fields at hp1
    interval_cases strat <;>
      simp only [List.getD_cons_zero, List.getD_cons_succ, List.cons.injEq, and_true] at hp1 <;>
      omega
  generalize hpa : pick_adjust fl strat inp.length
      { pm1 with
        store_qmap := if pm1.nsym ≤ 8 ∧ pm1.nsym * 2 < pm1.max_sym then 1 else 0
        fixed_len := if q_len.all (fun l => l = q_len.getD 0 0) then 1 else 0
        first_len := 1
        use_qtab := 0 } = pa at hgp
  have hpb : pa.qbits ≤ 15 ∧ pa.qshift ≤ 15 ∧ pa.qloc ≤ 15 ∧ pa.sloc ≤ 15
      ∧ pa.ploc ≤ 15 ∧ pa.dloc ≤ 15 := by
    obtain ⟨b1, b2, b3, b4, b5, b6⟩ := hb1
    have hk := pick_adjust_packed fl strat inp.length
      { pm1 with
        store_qmap := if pm1.nsym ≤ 8 ∧ pm1.nsym * 2 < pm1.max_sym then 1 else 0
        fixed_len := if q_len.all (fun l => l = q_len.getD 0 0) then 1 else 0
        first_len := 1
        use_qtab := 0 } b1 b2
    rw [hpa] at hk
    obtain ⟨k1, k2, k3, k4, k5, k6⟩ := hk
    refine ⟨k1, k2, ?_, ?_, ?_, ?_⟩
    · rw [k3]; exact b3
    · rw [k4]; exact b4
    · rw [k5]; exact b5
    · rw [k6]; exact b6
  have hpt := pick_tables_packed qhist pa
  unfold packed_fields at hpt
  simp only [List.cons.injEq, and_true] at hpt
  obtain ⟨t1, t2, t3, t4, t5, t6⟩ := hpt
  obtain ⟨p1, p2, p3, p4, p5, p6⟩ := hpb
  have hp : gp.p = [pick_tables qhist pa] := by
    rw [hgp]
    rfl
  have hn : gp.nparam = 1 := by
    rw [hgp]
    rfl
  obtain ⟨pre, block, hb, hc, _⟩ := store_single_block gp _ comp hp hn hsto
  refine ⟨pick_tables qhist pa, pre, block, hp, by omega, by omega, by omega, by omega,
    by omega, by omega, hb, hc, ?_⟩
  intro junk tail
  rcases store_parameters1_shape (pick_tables qhist pa) with he | ⟨tl, hsh⟩
  · rw [he] at hb
    cases hb
  · rw [hsh] at hb
    simp only [Except.ok.injEq] at hb
    rw [← hb]
    simp only [List.cons_append, List.nil_append, List.append_assoc]
    refine Reads.mono (read_parameters1_header junk _ _ _ _ _ _ _ _) ?_
    intro r hr
    obtain ⟨_, _, _, r4, r5, r6, r7, r8, r9, _⟩ := hr
    have n1 := nibble_pack (pick_tables qhist pa).qbits (by omega) (pick_tables qhist pa).qshift
      (by omega)
    have n2 := nibble_pack (pick_tables qhist pa).qloc (by omega) (pick_tables qhist pa).sloc
      (by omega)
    have n3 := nibble_pack (pick_tables qhist pa).ploc (by omega) (pick_tables qhist pa).dloc
      (by omega)
    rw [Nat.mod_mod] at r4 r5 r6 r7 r8 r9
    exact ⟨r4.trans n1.2.1, r5.trans n1.2.2, r6.trans n2.2.1, r7.trans n2.2.2,
      r8.trans n3.2.1, r9.trans n3.2.2⟩

set_option maxRecDepth 1000000 in
/-- C36 on the block `sparse_qual` with strategy 0: the six members are 2, 2,
0, 13, 10, 15 and the packed bytes 34, 13, 175. -/
theorem packed_fields_fit_witness :
    (0 : Nat) ≤ 3
    ∧ fqz_pick_parameters sparse_floats 4 0 sparse_slice sparse_qual
        = .ok (sparse_gparams, sparse_slice, [4], sparse_prelude)
    ∧ packed_fields sparse_param = [2, 2, 0, 13, 10, 15]
    ∧ ∃ (pm : fqz_param) (pre block : List Nat), sparse_gparams.p = [pm]
      ∧ pm.qbits ≤ 15 ∧ pm.qshift ≤ 15 ∧ pm.qloc ≤ 15 ∧ pm.sloc ≤ 15 ∧ pm.ploc ≤ 15
      ∧ pm.dloc ≤ 15
      ∧ fqz_store_parameters1 pm = .ok block ∧ sparse_prelude = pre ++ block
      ∧ ∀ (junk : fqz_param) (tail : List Nat),
          Reads (fun r => r.1.qbits = pm.qbits ∧ r.1.qshift = pm.qshift ∧ r.1.qloc = pm.qloc
              ∧ r.1.sloc = pm.sloc ∧ r.1.ploc = pm.ploc ∧ r.1.dloc = pm.dloc)
            (fqz_read_parameters1 junk (block ++ tail)) :=
  ⟨by decide, sparse_picked, by decide,
    packed_fields_fit sparse_floats 4 0 sparse_slice sparse_slice sparse_qual [4]
      sparse_prelude sparse_gparams (by decide) sparse_picked⟩

/-! ## The quality map read back -/

/-- The `qmap` that `read_qmap` builds when `store_qmap` is set. -/
theorem read_qmap_value (inp : List Nat) (sq max_sym n : Nat) (hn : n ≤ inp.length) :
    Reads (fun r : List Nat × Nat => n ≤ r.2 ∧ r.2 ≤ inp.length
        ∧ (sq ≠ 0 → r.1 = ((inp.drop n).take max_sym).map (fun b => b % 256)
            ++ List.replicate (256 - max_sym) INT_MAX))
      (read_qmap inp sq max_sym n) := by
  unfold read_qmap
  split
  · split
    · simp only [Reads]
      exact ⟨by omega, by omega, fun _ => trivial⟩
    · simp only [Reads]
  · rename_i h
    simp only [Reads]
    exact ⟨by omega, by omega, fun h1 => absurd h1 h⟩

/-- The `qmap` of a block as `fqz_read_parameters1` builds it from the bytes
that follow the seven header bytes, when `PFLAG_HAVE_QMAP` is set. -/
theorem read_parameters1_qmap (junk : fqz_param) (b0 b1 b2 b3 b4 b5 b6 : Nat)
    (rest : List Nat) :
    Reads (fun r => (b2 % 256) &&& PFLAG_HAVE_QMAP ≠ 0 →
        r.1.qmap = (rest.take (b3 % 256)).map (fun b => b % 256)
          ++ List.replicate (256 - b3 % 256) INT_MAX)
      (fqz_read_parameters1 junk (b0 :: b1 :: b2 :: b3 :: b4 :: b5 :: b6 :: rest)) := by
  unfold fqz_read_parameters1
  have h0 : rd (b0 :: b1 :: b2 :: b3 :: b4 :: b5 :: b6 :: rest) 0 = .ok (b0 % 256) := rfl
  have h1 : rd (b0 :: b1 :: b2 :: b3 :: b4 :: b5 :: b6 :: rest) 1 = .ok (b1 % 256) := rfl
  have h2 : rd (b0 :: b1 :: b2 :: b3 :: b4 :: b5 :: b6 :: rest) 2 = .ok (b2 % 256) := rfl
  have h3 : rd (b0 :: b1 :: b2 :: b3 :: b4 :: b5 :: b6 :: rest) 3 = .ok (b3 % 256) := rfl
  have h4 : rd (b0 :: b1 :: b2 :: b3 :: b4 :: b5 :: b6 :: rest) 4 = .ok (b4 % 256) := rfl
  have h5 : rd (b0 :: b1 :: b2 :: b3 :: b4 :: b5 :: b6 :: rest) 5 = .ok (b5 % 256) := rfl
  have h6 : rd (b0 :: b1 :: b2 :: b3 :: b4 :: b5 :: b6 :: rest) 6 = .ok (b6 % 256) := rfl
  rw [h0, h1, h2, h3, h4, h5, h6]
  simp only [bind, Except.bind]
  have h7 : 7 ≤ (b0 :: b1 :: b2 :: b3 :: b4 :: b5 :: b6 :: rest).length := by simp
  refine Reads.bind (read_qmap_value _ _ _ 7 h7) (fun qm hqm => ?_)
  refine Reads.bind (read_qtab_reads _ _ _ _ qm.2 hqm.2.1) (fun qt hqt => ?_)
  refine Reads.bind (read_tab_reads _ _ 1024 _ qt.2 hqt.2) (fun pt hpt => ?_)
  refine Reads.bind (read_tab_reads _ _ 256 _ pt.2 hpt.2) (fun dt hdt => ?_)
  refine Reads.pure ?_
  simp only []
  intro hf
  exact hqm.2.2 hf

/-- In the list of the values below `N` that satisfy `p`, in increasing order,
a value `q` stands at the position given by the number of such values below
`q`. -/
theorem filter_range_rank (p : Nat → Bool) (N q d : Nat) (hq : q < N) (hp : p q = true) :
    ((List.range N).filter p).getD ((List.range q).filter p).length d = q
      ∧ ((List.range q).filter p).length < ((List.range N).filter p).length := by
  obtain ⟨m, rfl⟩ : ∃ m, N = q + (m + 1) := ⟨N - q - 1, by omega⟩
  rw [List.range_add, List.filter_append, List.getD_append_right _ _ _ _ (Nat.le_refl _),
    Nat.sub_self, List.range_succ_eq_map, List.map_cons, List.filter_cons]
  simp only [Nat.add_zero, hp, if_true, List.getD_cons_zero, List.length_append,
    List.length_cons, true_and]
  omega

/-- The entries of `build_qmap` other than `INT_MAX` are those of the values
with a nonzero count. -/
theorem build_qmap_bytes (qh : List Nat) :
    store_qmap_bytes (build_qmap qh 256 0 0)
      = (List.range 256).filter (fun x => decide (qh.getD x 0 ≠ 0)) := by
  unfold store_qmap_bytes
  apply List.filter_congr
  intro i hi
  have hi1 : i < 256 := List.mem_range.mp hi
  have hs := (build_qmap_spec qh 256 0 0).2 i hi1
  rw [Nat.zero_add, Nat.zero_add] at hs
  rw [hs]
  by_cases hz : qh.getD i 0 ≠ 0
  · rw [if_pos hz]
    have hle : ((List.range' 0 i).filter (fun x => decide (qh.getD x 0 ≠ 0))).length ≤ i := by
      have := List.length_filter_le (fun x => decide (qh.getD x 0 ≠ 0)) (List.range' 0 i)
      rw [List.length_range'] at this
      exact this
    have hne : ((List.range' 0 i).filter (fun x => decide (qh.getD x 0 ≠ 0))).length ≠ INT_MAX := by
      simp only [INT_MAX]
      omega
    simp only [hne, hz, ne_eq, not_false_eq_true, decide_True]
  · rw [if_neg hz]
    simp only [hz, ne_eq, not_true_eq_false, decide_False]

/-- C34 (the decoder's `qmap` inverts the encoder's).  When `fqz_pick_parameters`
returns a block with `store_qmap` set, for a buffer of fewer than 2^32 bytes,
the prelude ends with the block as `fqz_store_parameters1` writes it; and the
`qmap` that `fqz_read_parameters1` builds from the block, whatever bytes follow
it, takes `qmap[q]` of the encoder back to `q` for every value `q` of the
buffer. -/
theorem decoder_qmap_inverts (fl : TuneFloats) (vers strat : Nat) (s s1 : cram_slice)
    (inp q_len comp : List Nat) (gp : fqz_gparams) (pm : fqz_param)
    (hlen : inp.length < U32)
    (h : fqz_pick_parameters fl vers strat s inp = .ok (gp, s1, q_len, comp))
    (hgp : gp.p = [pm]) (hsq : pm.store_qmap ≠ 0) :
    ∃ (pre block : List Nat),
      fqz_store_parameters1 pm = .ok block ∧ comp = pre ++ block
      ∧ ∀ (junk : fqz_param) (tail : List Nat),
          Reads (fun r => ∀ b ∈ inp, r.1.qmap.getD (pm.qmap.getD (b % 256) 0) 0 = b % 256)
            (fqz_read_parameters1 junk (block ++ tail)) := by
  obtain ⟨pm1, qhist, _, hq, _, hg, hsto⟩ := fqz_pick_parameters_steps _ _ _ _ _ _ _ _ _ h
  obtain ⟨st, hst, hqh, hns, _, _⟩ := qual_stats_ok _ _ _ _ _ _ _ _ hq
  have hhist := qual_scan_hist s q_len inp st hlen hst
  generalize hpa : pick_adjust fl (if strat ≥ nstrats then nstrats - 1 else strat) inp.length
      { pm1 with
        store_qmap := if pm1.nsym ≤ 8 ∧ pm1.nsym * 2 < pm1.max_sym then 1 else 0
        fixed_len := if q_len.all (fun l => l = q_len.getD 0 0) then 1 else 0
        first_len := 1
        use_qtab := 0 } = pa at hg
  have hkeep := pick_adjust_keeps fl (if strat ≥ nstrats then nstrats - 1 else strat) inp.length
      { pm1 with
        store_qmap := if pm1.nsym ≤ 8 ∧ pm1.nsym * 2 < pm1.max_sym then 1 else 0
        fixed_len := if q_len.all (fun l => l = q_len.getD 0 0) then 1 else 0
        first_len := 1
        use_qtab := 0 }
  rw [hpa] at hkeep
  obtain ⟨k1, _, k3, _⟩ := hkeep
  have hpm : pm = pick_tables qhist pa := by
    rw [hg] at hgp
    have := List.cons.inj hgp
    exact this.1.symm
  subst hpm
  obtain ⟨t1, t2, _⟩ := pick_tables_qmap qhist pa
  have hsa : pa.store_qmap ≠ 0 := by
    rw [← t1]
    exact hsq
  obtain ⟨hqm, hmax, _⟩ := t2 hsa
  have hn8 : pa.nsym ≤ 8 := by
    rw [k1]
    rw [k3] at hsa
    by_cases hc : pm1.nsym ≤ 8 ∧ pm1.nsym * 2 < pm1.max_sym
    · exact hc.1
    · exact absurd (if_neg hc) hsa
  have hcount : (store_qmap_bytes (build_qmap qhist 256 0 0)).length = pa.nsym := by
    rw [build_qmap_count, k1, hns, hqh]
  have hfl := (pick_tables_fields qhist pa).2.2.2.2.2.2.2.2.2.2
  have hbit := (pflags_bits _ _ _ _ _ _ _ _ hfl).2.2.2.2.2.2
  have hfb : (pick_tables qhist pa).pflags &&& PFLAG_HAVE_QMAP ≠ 0 := hbit.mpr hsa
  have hp : gp.p = [pick_tables qhist pa] := hgp
  have hn : gp.nparam = 1 := by
    rw [hg]
    rfl
  obtain ⟨pre, block, hb, hc, _⟩ := store_single_block gp _ comp hp hn hsto
  refine ⟨pre, block, hb, hc, ?_⟩
  intro junk tail
  rcases store_parameters1_shape (pick_tables qhist pa) with he | ⟨tl, hsh⟩
  · rw [he] at hb
    cases hb
  · rw [hsh] at hb
    simp only [Except.ok.injEq] at hb
    rw [← hb, if_pos hsq, hqm]
    simp only [List.cons_append, List.nil_append, List.append_assoc]
    refine Reads.mono (read_parameters1_qmap junk _ _ _ _ _ _ _ _) ?_
    intro r hr
    rw [Nat.mod_mod, and_byte _ _ (by decide), Nat.mod_mod, hmax,
      Nat.mod_eq_of_lt (by omega : pa.nsym < 256), ← hcount, List.take_left] at hr
    have hr1 := hr hfb
    intro b hbm
    have hv : b % 256 < 256 := Nat.mod_lt _ (by decide)
    have hpres : present inp (b % 256) = true := by
      unfold present
      rw [List.any_eq_true]
      exact ⟨b, hbm, by simp only [beq_self_eq_true]⟩
    have hnz : qhist.getD (b % 256) 0 ≠ 0 := by
      have := hhist (b % 256) hv
      rw [hpres, ← hqh] at this
      exact of_decide_eq_true this
    have hs := (build_qmap_spec qhist 256 0 0).2 (b % 256) hv
    rw [Nat.zero_add, Nat.zero_add, if_pos hnz, ← List.range_eq_range'] at hs
    obtain ⟨f1, f2⟩ := filter_range_rank (fun x => decide (qhist.getD x 0 ≠ 0)) 256 (b % 256) 0 hv
      (decide_eq_true hnz)
    rw [hr1, hs, build_qmap_bytes]
    rw [List.getD_append _ _ _ _ (by rw [List.length_map]; exact f2)]
    rw [List.getD_eq_getElem?_getD, List.getElem?_map]
    rw [List.getD_eq_getElem?_getD] at f1
    rw [List.getElem?_eq_getElem f2] at f1 ⊢
    simp only [Option.map_some', Option.getD_some] at f1 ⊢
    rw [f1]
    exact Nat.mod_mod _ _

set_option maxRecDepth 1000000 in
/-- C34 on the block `sparse_qual`, whose values are 0 and 40: the encoder maps
them to 0 and 1, and the block read back has `qmap[0] = 0` and
`qmap[1] = 40`. -/
theorem decoder_qmap_inverts_witness :
    sparse_qual.length < U32
    ∧ fqz_pick_parameters sparse_floats 4 0 sparse_slice sparse_qual
        = .ok (sparse_gparams, sparse_slice, [4], sparse_prelude)
    ∧ sparse_gparams.p = [sparse_param] ∧ sparse_param.store_qmap ≠ 0
    ∧ sparse_param.qmap.getD 0 0 = 0 ∧ sparse_param.qmap.getD 40 0 = 1
    ∧ (fqz_read_parameters1 fqz_param.zero (sparse_prelude.drop 2)).map
        (fun r => (r.1.qmap.take 3, r.2)) = .ok ([0, 40, INT_MAX], 20)
    ∧ ∃ (pre block : List Nat),
        fqz_store_parameters1 sparse_param = .ok block ∧ sparse_prelude = pre ++ block
        ∧ ∀ (junk : fqz_param) (tail : List Nat),
            Reads (fun r => ∀ b ∈ sparse_qual,
                r.1.qmap.getD (sparse_param.qmap.getD (b % 256) 0) 0 = b % 256)
              (fqz_read_parameters1 junk (block ++ tail)) :=
  ⟨by decide, sparse_picked, rfl, by decide, by decide, by decide, by rfl,
    decoder_qmap_inverts sparse_floats 4 0 sparse_slice sparse_slice sparse_qual [4]
      sparse_prelude sparse_gparams sparse_param (by decide) sparse_picked rfl (by decide)⟩

/-! ## The position table of the tuner through the array codec -/

set_option maxRecDepth 1000000 in
/-- C33 fails for `pbits = 4` with `pshift = 8` and with `pshift = 9` (what
strategy 0 computes from a first record of 4096 or 8192 values).  The table of
`pshift = 8` (four runs of 256) is stored by `store_array` in the 8 bytes
255, 1, 255, 1, 255, 1, 255, 1; `read_array` gives the table back but returns
5, not 8, so the table after it is read from the wrong offset.  The table of
`pshift = 9` (two runs of 512) is stored in the 7 bytes 255, 255, 0, 0, 0, 1,
1; `read_array` reads past them (a fault when nothing follows), and when the
bytes 0, 255, 255, 4, 9 follow it returns 12 and the table of 510 zeros, a
two, a three and 512 fours. -/
theorem ptab_array_codec_fails :
    (store_array (tuner_ptab 4 8) 1024 = .ok [255, 1, 255, 1, 255, 1, 255, 1]
      ∧ ∀ tail : List Nat,
          read_array ([255, 1, 255, 1, 255, 1, 255, 1] ++ tail) 1024 = .ok (tuner_ptab 4 8, 5))
    ∧ (store_array (tuner_ptab 4 9) 1024 = .ok [255, 255, 0, 0, 0, 1, 1]
      ∧ read_array [255, 255, 0, 0, 0, 1, 1] 1024 = .error .input
      ∧ read_array ([255, 255, 0, 0, 0, 1, 1] ++ [0, 255, 255, 4, 9]) 1024
          = .ok (List.replicate 510 0 ++ [2, 3] ++ List.replicate 512 4, 12)
      ∧ (tuner_ptab 4 9).getD 510 0 = 0) := by
  refine ⟨⟨by decide, fun tail => by rfl⟩, ⟨by decide, by rfl, by rfl, by decide⟩⟩

/-! ## The per-record store of the decoder -/

set_option maxRecDepth 10000000 in
/-- C37 fails for the write after the main loop when the block has exactly
1000 records.  The prelude `fixed_prelude` is read as one parameter block with
`gflags = 0` (no write at a record header), records of one fixed length and no
dups.  With the symbols 1, 0, 0, 0, ... (length 1, then quality values 0) and
`*out_size = 1000` the decoder reads 1000 records of one value: at the top of
the last iteration `rec = 999 < nrec = 1000`, so the arrays are not grown, the
header makes `rec = 1000`, the loop ends, and `rev_a[rec] = rev; len_a[rec] =
len` write at index 1000 of arrays of 1000 entries. -/
theorem record_store_past_capacity :
    (fqz_read_parameters fqz_param.zero fqz_gparams.zero fixed_prelude).map
        (fun r => (r.1.gflags, r.1.nparam, r.1.p.map (fun pm => (pm.fixed_len, pm.do_dedup)), r.2))
      = .ok (0, 1, [(4, 0)], 9)
    ∧ uncompress_main fqz_param.zero (symbols [1]) fixed_prelude 1000 = .error .recstore
    ∧ uncompress_block_fqz2f fqz_param.zero (symbols [1]) fixed_prelude 1000
        = .error .recstore :=
  ⟨rfl, rfl, rfl⟩

/-! ## Lemmas on bit masks -/

/-- The OR of a multiple of `2^k` and a value below `2^k` is their sum. -/
theorem or_eq_add (x y k : Nat) (hx : x % 2 ^ k = 0) (hy : y < 2 ^ k) : x ||| y = x + y := by
  have h := Nat.mul_add_lt_is_or hy (x / 2 ^ k)
  have hx2 : 2 ^ k * (x / 2 ^ k) = x := by
    have := Nat.div_add_mod x (2 ^ k)
    omega
  rw [hx2] at h
  exact h.symm

/-- The bits of `2^n - 2^k`. -/
theorem testBit_high_mask (n k i : Nat) (hk : k ≤ n) :
    (2 ^ n - 2 ^ k).testBit i = (decide (i < n) && !decide (i < k)) := by
  have hlt : 2 ^ k - 1 < 2 ^ n :=
    Nat.lt_of_lt_of_le (Nat.sub_lt (Nat.two_pow_pos k) (by decide))
      (Nat.pow_le_pow_right (by decide) hk)
  have h := Nat.testBit_two_pow_sub_succ hlt i
  have he : 2 ^ n - (2 ^ k - 1 + 1) = 2 ^ n - 2 ^ k := by
    have := Nat.two_pow_pos k
    omega
  rw [he, Nat.testBit_two_pow_sub_one] at h
  exact h

/-- A value below `2^n` has no bit in common with `2^n - 2^k` exactly when it
is below `2^k`. -/
theorem and_high_mask (u n k : Nat) (hk : k ≤ n) (hu : u < 2 ^ n) :
    u &&& (2 ^ n - 2 ^ k) = 0 ↔ u < 2 ^ k := by
  constructor
  · intro h
    by_contra hge
    obtain ⟨i, hi, hb⟩ := Nat.ge_two_pow_implies_high_bit_true (Nat.le_of_not_lt hge)
    have hin : i < n := by
      by_contra hn
      have := Nat.testBit_lt_two_pow (Nat.lt_of_lt_of_le hu
        (Nat.pow_le_pow_right (by decide) (Nat.le_of_not_lt hn)))
      rw [this] at hb
      cases hb
    have h2 : (u &&& (2 ^ n - 2 ^ k)).testBit i = true := by
      rw [Nat.testBit_and, hb, testBit_high_mask n k i hk]
      simp only [Bool.true_and, Bool.and_eq_true, decide_eq_true_eq, Bool.not_eq_true',
        decide_eq_false_iff_not]
      exact ⟨hin, by omega⟩
    rw [h, Nat.zero_testBit] at h2
    cases h2
  · intro h
    apply Nat.eq_of_testBit_eq
    intro i
    rw [Nat.testBit_and, testBit_high_mask n k i hk, Nat.zero_testBit]
    by_cases hik : i < k
    · simp only [hik, decide_True, Bool.not_true, Bool.and_false]
    · have := Nat.testBit_lt_two_pow (Nat.lt_of_lt_of_le h
        (Nat.pow_le_pow_right (by decide) (Nat.le_of_not_lt hik)))
      rw [this]
      rfl

/-- The test `!(val & ~mask)` of `itf8_put` for a mask `2^k - 1`. -/
theorem and_not32 (u k : Nat) (hk : k ≤ 32) (hu : u < 4294967296) :
    u &&& not32 (2 ^ k - 1) = 0 ↔ u < 2 ^ k := by
  have hm : not32 (2 ^ k - 1) = 2 ^ 32 - 2 ^ k := by
    unfold not32
    have h1 : 2 ^ k ≤ 2 ^ 32 := Nat.pow_le_pow_right (by decide) hk
    have h2 := Nat.two_pow_pos k
    simp only [U32] at *
    rw [Nat.mod_eq_of_lt (by omega)]
    omega
  rw [hm]
  exact and_high_mask u 32 k hk hu

/-! ## ITF-8 -/

/-- Reading the first byte of a buffer. -/
theorem rd_cons_zero (a : Nat) (l : List Nat) : rd (a :: l) 0 = .ok (a % 256) := rfl

/-- Reading past the first byte of a buffer. -/
theorem rd_cons_succ (a : Nat) (l : List Nat) (k : Nat) : rd (a :: l) (k + 1) = rd l k := rfl

/-- The mask `0xff` keeps the low eight bits. -/
theorem and_255 (x : Nat) : x &&& 255 = x % 256 := Nat.and_pow_two_sub_one_eq_mod x 8

/-- The mask `0x0f` keeps the low four bits. -/
theorem and_15 (x : Nat) : x &&& 15 = x % 16 := Nat.and_pow_two_sub_one_eq_mod x 4

/-- The four size tests of `itf8_put` and `itf8_size` as comparisons. -/
theorem itf8_tests (v : Int) :
    (ofInt32 v &&& not32 0x7f = 0 ↔ ofInt32 v < 128) ∧
    (ofInt32 v &&& not32 0x3fff = 0 ↔ ofInt32 v < 16384) ∧
    (ofInt32 v &&& not32 0x1fffff = 0 ↔ ofInt32 v < 2097152) ∧
    (ofInt32 v &&& not32 0x0fffffff = 0 ↔ ofInt32 v < 268435456) := by
  have hu : ofInt32 v < 4294967296 := by unfold ofInt32; simp only [U32]; omega
  exact ⟨and_not32 (ofInt32 v) 7 (by decide) hu, and_not32 (ofInt32 v) 14 (by decide) hu,
    and_not32 (ofInt32 v) 21 (by decide) hu, and_not32 (ofInt32 v) 28 (by decide) hu⟩

/-- `itf8_get` on a first byte below 0x80. -/
theorem itf8_get_one (a : Nat) (tail : List Nat) (ha : a < 128) :
    itf8_get (a :: tail) = .ok (toInt32 a, 1) := by
  unfold itf8_get
  simp only [rd_cons_zero, rd_cons_succ, Nat.mod_eq_of_lt (show a < 256 by omega)]
  simp only [bind, Except.bind]
  rw [if_pos ha]
  rfl

/-- `itf8_get` on a first byte in 0x80..0xbf. -/
theorem itf8_get_two (a b : Nat) (tail : List Nat) (ha : 128 ≤ a) (ha2 : a < 192)
    (hb : b < 256) :
    itf8_get (a :: b :: tail) = .ok (toInt32 ((a * 256 + b) % 16384), 2) := by
  unfold itf8_get
  simp only [rd_cons_zero, rd_cons_succ, Nat.mod_eq_of_lt (show a < 256 by omega),
    Nat.mod_eq_of_lt hb]
  simp only [bind, Except.bind]
  rw [if_neg (by omega), if_pos ha2]
  simp only [Nat.shiftLeft_eq, Nat.reducePow]
  rw [or_eq_add (a * 256) b 8 (by omega) (by omega)]
  rw [show (16383 : Nat) = 2 ^ 14 - 1 from rfl, Nat.and_pow_two_sub_one_eq_mod]
  rfl

/-- `itf8_get` on a first byte in 0xc0..0xdf. -/
theorem itf8_get_three (a b c : Nat) (tail : List Nat) (ha : 192 ≤ a) (ha2 : a < 224)
    (hb : b < 256) (hc : c < 256) :
    itf8_get (a :: b :: c :: tail) = .ok (toInt32 ((a * 65536 + b * 256 + c) % 2097152), 3) := by
  unfold itf8_get
  simp only [rd_cons_zero, rd_cons_succ, Nat.mod_eq_of_lt (show a < 256 by omega),
    Nat.mod_eq_of_lt hb, Nat.mod_eq_of_lt hc]
  simp only [bind, Except.bind]
  rw [if_neg (by omega), if_neg (by omega), if_pos ha2]
  simp only [Nat.shiftLeft_eq, Nat.reducePow]
  rw [or_eq_add (a * 65536) (b * 256) 16 (by omega) (by omega)]
  rw [or_eq_add (a * 65536 + b * 256) c 8 (by omega) (by omega)]
  rw [show (2097151 : Nat) = 2 ^ 21 - 1 from rfl, Nat.and_pow_two_sub_one_eq_mod]
  rfl

/-- `itf8_get` on a first byte in 0xe0..0xef. -/
theorem itf8_get_four (a b c d : Nat) (tail : List Nat) (ha : 224 ≤ a) (ha2 : a < 240)
    (hb : b < 256) (hc : c < 256) (hd : d < 256) :
    itf8_get (a :: b :: c :: d :: tail) =
      .ok (toInt32 ((a * 16777216 + b * 65536 + c * 256 + d) % 268435456), 4) := by
  unfold itf8_get
  simp only [rd_cons_zero, rd_cons_succ, Nat.mod_eq_of_lt (show a < 256 by omega),
    Nat.mod_eq_of_lt hb, Nat.mod_eq_of_lt hc, Nat.mod_eq_of_lt hd]
  simp only [bind, Except.bind]
  rw [if_neg (by omega), if_neg (by omega), if_neg (by omega), if_pos ha2]
  simp only [Nat.shiftLeft_eq, Nat.reducePow]
  rw [or_eq_add (a * 16777216) (b * 65536) 24 (by omega) (by omega)]
  rw [or_eq_add (a * 16777216 + b * 65536) (c * 256) 16 (by omega) (by omega)]
  rw [or_eq_add (a * 16777216 + b * 65536 + c * 256) d 8 (by omega) (by omega)]
  rw [show (268435455 : Nat) = 2 ^ 28 - 1 from rfl, Nat.and_pow_two_sub_one_eq_mod]
  rfl

/-- `itf8_get` on a first byte from 0xf0 on. -/
theorem itf8_get_five (a b c d e : Nat) (tail : List Nat) (ha : 240 ≤ a) (ha2 : a < 256)
    (hb : b < 256) (hc : c < 256) (hd : d < 256) (he : e < 256) :
    itf8_get (a :: b :: c :: d :: e :: tail) =
      .ok (toInt32 (a % 16 * 268435456 + b * 1048576 + c * 4096 + d * 16 + e % 16), 5) := by
  unfold itf8_get
  simp only [rd_cons_zero, rd_cons_succ, Nat.mod_eq_of_lt ha2,
    Nat.mod_eq_of_lt hb, Nat.mod_eq_of_lt hc, Nat.mod_eq_of_lt hd, Nat.mod_eq_of_lt he]
  simp only [bind, Except.bind]
  rw [if_neg (by omega), if_neg (by omega), if_neg (by omega), if_neg (by omega)]
  simp only [Nat.shiftLeft_eq, Nat.reducePow, and_15]
  rw [or_eq_add (a % 16 * 268435456) (b * 1048576) 28 (by omega) (by omega)]
  rw [or_eq_add (a % 16 * 268435456 + b * 1048576) (c * 4096) 20 (by omega) (by omega)]
  rw [or_eq_add (a % 16 * 268435456 + b * 1048576 + c * 4096) (d * 16) 12 (by omega) (by omega)]
  rw [or_eq_add (a % 16 * 268435456 + b * 1048576 + c * 4096 + d * 16) (e % 16) 4 (by omega)
    (by omega)]
  rfl

set_option maxRecDepth 1000000 in
/-- The first byte of the five-byte form: `0xf0 | b` keeps the low four bits
of `b` and is at least 0xf0. -/
theorem or_f0 : ∀ x < 256, 240 ≤ (240 ||| x) % 256 ∧ (240 ||| x) % 256 % 16 = x % 16 := by
  decide

/-- C31 (the ITF-8 round trip): for every `int32_t` value `v`, `itf8_put`
writes between one and five bytes and returns their number, the macro
`itf8_size` gives the same number, and `itf8_get` on those bytes (whatever
follows them) stores `v` and returns the same number. -/
theorem itf8_round_trip (v : Int) (h0 : -2147483648 ≤ v) (h1 : v < 2147483648)
    (tail : List Nat) :
    (itf8_put v).1.length = (itf8_put v).2 ∧ 1 ≤ (itf8_put v).2 ∧ (itf8_put v).2 ≤ 5 ∧
    (itf8_put v).2 = itf8_size v ∧
    itf8_get ((itf8_put v).1 ++ tail) = .ok (v, (itf8_put v).2) := by
  obtain ⟨t1, t2, t3, t4⟩ := itf8_tests v
  have s4 : ofInt32 (v >>> (4 : Nat)) &&& 0xff = ofInt32 v / 16 % 256 := by
    rw [Int.shiftRight_eq_div_pow, and_255]; unfold ofInt32; simp only [U32]; omega
  have s8 : ofInt32 (v >>> (8 : Nat)) &&& 0xff = ofInt32 v / 256 % 256 := by
    rw [Int.shiftRight_eq_div_pow, and_255]; unfold ofInt32; simp only [U32]; omega
  have s12 : ofInt32 (v >>> (12 : Nat)) &&& 0xff = ofInt32 v / 4096 % 256 := by
    rw [Int.shiftRight_eq_div_pow, and_255]; unfold ofInt32; simp only [U32]; omega
  have s16 : ofInt32 (v >>> (16 : Nat)) &&& 0xff = ofInt32 v / 65536 % 256 := by
    rw [Int.shiftRight_eq_div_pow, and_255]; unfold ofInt32; simp only [U32]; omega
  have s20 : ofInt32 (v >>> (20 : Nat)) &&& 0xff = ofInt32 v / 1048576 % 256 := by
    rw [Int.shiftRight_eq_div_pow, and_255]; unfold ofInt32; simp only [U32]; omega
  have s28 : (ofInt32 (v >>> (28 : Nat)) &&& 0xff) % 16 = ofInt32 v / 268435456 := by
    rw [Int.shiftRight_eq_div_pow, and_255]; unfold ofInt32; simp only [U32]; omega
  have p8 : ofInt32 v < 16384 → ofInt32 (v >>> (8 : Nat)) = ofInt32 v / 256 := by
    rw [Int.shiftRight_eq_div_pow]; unfold ofInt32; simp only [U32]; omega
  have p16 : ofInt32 v < 2097152 → ofInt32 (v >>> (16 : Nat)) = ofInt32 v / 65536 := by
    rw [Int.shiftRight_eq_div_pow]; unfold ofInt32; simp only [U32]; omega
  have p24 : ofInt32 v < 268435456 → ofInt32 (v >>> (24 : Nat)) = ofInt32 v / 16777216 := by
    rw [Int.shiftRight_eq_div_pow]; unfold ofInt32; simp only [U32]; omega
  have hto : toInt32 (ofInt32 v) = v := by
    unfold toInt32 ofInt32; simp only [U32]; split <;> omega
  generalize hu : ofInt32 v = u at *
  have hlt : u < 4294967296 := by rw [← hu]; unfold ofInt32; simp only [U32]; omega
  by_cases c1 : u < 128
  · have hp : itf8_put v = ([u % 256], 1) := by
      unfold itf8_put; rw [hu, if_pos (t1.2 c1)]
    have hs : itf8_size v = 1 := by
      unfold itf8_size; rw [hu, if_pos (t1.2 c1)]
    rw [hp, hs]
    refine ⟨rfl, by dsimp only; omega, by dsimp only; omega, rfl, ?_⟩
    rw [Nat.mod_eq_of_lt (by omega)]
    exact (itf8_get_one u tail c1).trans (by rw [hto])
  by_cases c2 : u < 16384
  · have hp : itf8_put v = ([(u / 256 ||| 0x80) % 256, u % 256], 2) := by
      unfold itf8_put; rw [hu, if_neg (fun h => c1 (t1.1 h)), if_pos (t2.2 c2), p8 c2, and_255]
    have hs : itf8_size v = 2 := by
      unfold itf8_size; rw [hu, if_neg (fun h => c1 (t1.1 h)), if_pos (t2.2 c2)]
    rw [hp, hs]
    refine ⟨rfl, by dsimp only; omega, by dsimp only; omega, rfl, ?_⟩
    have ho : u / 256 ||| 0x80 = 128 + u / 256 := by
      rw [Nat.or_comm]
      exact or_eq_add 128 (u / 256) 7 (by decide) (by omega)
    rw [ho]
    refine (itf8_get_two _ _ tail (by omega) (by omega) (by omega)).trans ?_
    rw [← hto]
    congr 3
    omega
  by_cases c3 : u < 2097152
  · have hp : itf8_put v = ([(u / 65536 ||| 0xc0) % 256, u / 256 % 256, u % 256], 3) := by
      unfold itf8_put
      rw [hu, if_neg (fun h => c1 (t1.1 h)), if_neg (fun h => c2 (t2.1 h)), if_pos (t3.2 c3),
        p16 c3, s8, and_255]
    have hs : itf8_size v = 3 := by
      unfold itf8_size
      rw [hu, if_neg (fun h => c1 (t1.1 h)), if_neg (fun h => c2 (t2.1 h)), if_pos (t3.2 c3)]
    rw [hp, hs]
    refine ⟨rfl, by dsimp only; omega, by dsimp only; omega, rfl, ?_⟩
    have ho : u / 65536 ||| 0xc0 = 192 + u / 65536 := by
      rw [Nat.or_comm]
      exact or_eq_add 192 (u / 65536) 6 (by decide) (by omega)
    rw [ho]
    refine (itf8_get_three _ _ _ tail (by omega) (by omega) (by omega) (by omega)).trans ?_
    rw [← hto]
    congr 3
    omega
  by_cases c4 : u < 268435456
  · have hp : itf8_put v =
        ([(u / 16777216 ||| 0xe0) % 256, u / 65536 % 256, u / 256 % 256, u % 256], 4) := by
      unfold itf8_put
      rw [hu, if_neg (fun h => c1 (t1.1 h)), if_neg (fun h => c2 (t2.1 h)),
        if_neg (fun h => c3 (t3.1 h)), if_pos (t4.2 c4), p24 c4, s16, s8, and_255]
    have hs : itf8_size v = 4 := by
      unfold itf8_size
      rw [hu, if_neg (fun h => c1 (t1.1 h)), if_neg (fun h => c2 (t2.1 h)),
        if_neg (fun h => c3 (t3.1 h)), if_pos (t4.2 c4)]
    rw [hp, hs]
    refine ⟨rfl, by dsimp only; omega, by dsimp only; omega, rfl, ?_⟩
    have ho : u / 16777216 ||| 0xe0 = 224 + u / 16777216 := by
      rw [Nat.or_comm]
      exact or_eq_add 224 (u / 16777216) 5 (by decide) (by omega)
    rw [ho]
    refine (itf8_get_four _ _ _ _ tail (by omega) (by omega) (by omega) (by omega)
      (by omega)).trans ?_
    rw [← hto]
    congr 3
    omega
  · have hp : itf8_put v =
        ([(0xf0 ||| (ofInt32 (v >>> (28 : Nat)) &&& 0xff)) % 256, u / 1048576 % 256,
          u / 4096 % 256, u / 16 % 256, u % 16], 5) := by
      unfold itf8_put
      rw [hu, if_neg (fun h => c1 (t1.1 h)), if_neg (fun h => c2 (t2.1 h)),
        if_neg (fun h => c3 (t3.1 h)), if_neg (fun h => c4 (t4.1 h)), s20, s12, s4, and_15]
    have hs : itf8_size v = 5 := by
      unfold itf8_size
      rw [hu, if_neg (fun h => c1 (t1.1 h)), if_neg (fun h => c2 (t2.1 h)),
        if_neg (fun h => c3 (t3.1 h)), if_neg (fun h => c4 (t4.1 h))]
    rw [hp, hs]
    refine ⟨rfl, by dsimp only; omega, by dsimp only; omega, rfl, ?_⟩
    have hx : ofInt32 (v >>> (28 : Nat)) &&& 0xff < 256 := by
      rw [and_255]; omega
    obtain ⟨f1, f2⟩ := or_f0 _ hx
    refine (itf8_get_five _ _ _ _ _ tail f1 (by omega) (by omega) (by omega) (by omega)
      (by omega)).trans ?_
    rw [f2, s28, ← hto]
    congr 3
    omega

/-- C31 at `v = -1`, stored as 0xff 0xff 0xff 0xff 0x0f, and at `v = 300`,
stored as 0x81 0x2c. -/
theorem itf8_round_trip_witness :
    ((-2147483648 : Int) ≤ -1 ∧ (-1 : Int) < 2147483648) ∧
    ((itf8_put (-1)).1.length = (itf8_put (-1)).2 ∧ 1 ≤ (itf8_put (-1)).2 ∧
      (itf8_put (-1)).2 ≤ 5 ∧ (itf8_put (-1)).2 = itf8_size (-1) ∧
      itf8_get ((itf8_put (-1)).1 ++ [7, 7]) = .ok (-1, (itf8_put (-1)).2)) ∧
    itf8_put (-1) = ([255, 255, 255, 255, 15], 5) ∧
    itf8_put 300 = ([129, 44], 2) ∧ itf8_get [129, 44, 7, 7] = .ok (300, 2) :=
  ⟨by decide, itf8_round_trip (-1) (by decide) (by decide) [7, 7], by decide, by decide,
    by decide⟩

/-! ## LTF-8 -/

/-- The test `!(val & ~mask)` of `ltf8_put` for a mask `2^k - 1`. -/
theorem and_not64 (u k : Nat) (hk : k ≤ 64) (hu : u < 18446744073709551616) :
    u &&& not64 (2 ^ k - 1) = 0 ↔ u < 2 ^ k := by
  have hm : not64 (2 ^ k - 1) = 2 ^ 64 - 2 ^ k := by
    unfold not64
    have h1 : 2 ^ k ≤ 2 ^ 64 := Nat.pow_le_pow_right (by decide) hk
    have h2 := Nat.two_pow_pos k
    simp only [U64] at *
    rw [Nat.mod_eq_of_lt (by omega)]
    omega
  rw [hm]
  exact and_high_mask u 64 k hk hu

/-- The eight size tests of `ltf8_put` as comparisons. -/
theorem ltf8_tests (v : Int) :
    (ofInt64 v &&& not64 ((1 <<< 7) - 1) = 0 ↔ ofInt64 v < 128) ∧
    (ofInt64 v &&& not64 ((1 <<< (6 + 8)) - 1) = 0 ↔ ofInt64 v < 16384) ∧
    (ofInt64 v &&& not64 ((1 <<< (5 + 2 * 8)) - 1) = 0 ↔ ofInt64 v < 2097152) ∧
    (ofInt64 v &&& not64 ((1 <<< (4 + 3 * 8)) - 1) = 0 ↔ ofInt64 v < 268435456) ∧
    (ofInt64 v &&& not64 ((1 <<< (3 + 4 * 8)) - 1) = 0 ↔ ofInt64 v < 34359738368) ∧
    (ofInt64 v &&& not64 ((1 <<< (2 + 5 * 8)) - 1) = 0 ↔ ofInt64 v < 4398046511104) ∧
    (ofInt64 v &&& not64 ((1 <<< (1 + 6 * 8)) - 1) = 0 ↔ ofInt64 v < 562949953421312) ∧
    (ofInt64 v &&& not64 ((1 <<< (7 * 8)) - 1) = 0 ↔ ofInt64 v < 72057594037927936) := by
  have hu : ofInt64 v < 18446744073709551616 := by unfold ofInt64; simp only [U64]; omega
  exact ⟨and_not64 (ofInt64 v) 7 (by decide) hu,
    and_not64 (ofInt64 v) 14 (by decide) hu,
    and_not64 (ofInt64 v) 21 (by decide) hu,
    and_not64 (ofInt64 v) 28 (by decide) hu,
    and_not64 (ofInt64 v) 35 (by decide) hu,
    and_not64 (ofInt64 v) 42 (by decide) hu,
    and_not64 (ofInt64 v) 49 (by decide) hu,
    and_not64 (ofInt64 v) 56 (by decide) hu⟩

/-- The function `ltf8_get` on the one-byte form. -/
theorem ltf8_get_one (a : Nat) (tail : List Nat) (ha2 : a < 128)
    :
    ltf8_get (a :: tail) =
      .ok (toInt64 (a), 1) := by
  unfold ltf8_get
  simp only [rd_cons_zero, rd_cons_succ, Nat.mod_eq_of_lt (show a < 256 by omega)]
  simp only [bind, Except.bind]
  rw [if_pos ha2]
  rfl

/-- The function `ltf8_get` on the two-byte form. -/
theorem ltf8_get_two (a b : Nat) (tail : List Nat) (ha : 128 ≤ a) (ha2 : a < 192)
    (hb : b < 256) :
    ltf8_get (a :: b :: tail) =
      .ok (toInt64 ((a * 256 + b) % 16384), 2) := by
  unfold ltf8_get
  simp only [rd_cons_zero, rd_cons_succ, Nat.mod_eq_of_lt (show a < 256 by omega),
    Nat.mod_eq_of_lt hb]
  simp only [bind, Except.bind]
  rw [if_neg (by omega), if_pos ha2]
  simp only [Nat.shiftLeft_eq, Nat.reducePow, Nat.reduceMul, Nat.reduceAdd, Nat.reduceSub]
  rw [or_eq_add (a * 256) (b) 8 (by omega) (by omega)]
  rw [show (16383 : Nat) = 2 ^ 14 - 1 from rfl, Nat.and_pow_two_sub_one_eq_mod]
  rfl

/-- The function `ltf8_get` on the three-byte form. -/
theorem ltf8_get_three (a b c : Nat) (tail : List Nat) (ha : 192 ≤ a) (ha2 : a < 224)
    (hb : b < 256) (hc : c < 256) :
    ltf8_get (a :: b :: c :: tail) =
      .ok (toInt64 ((a * 65536 + b * 256 + c) % 2097152), 3) := by
  unfold ltf8_get
  simp only [rd_cons_zero, rd_cons_succ, Nat.mod_eq_of_lt (show a < 256 by omega),
    Nat.mod_eq_of_lt hb,
    Nat.mod_eq_of_lt hc]
  simp only [bind, Except.bind]
  rw [if_neg (by omega), if_neg (by omega), if_pos ha2]
  simp only [Nat.shiftLeft_eq, Nat.reducePow, Nat.reduceMul, Nat.reduceAdd, Nat.reduceSub]
  rw [or_eq_add (a * 65536) (b * 256) 16 (by omega) (by omega)]
  rw [or_eq_add (a * 65536 + b * 256) (c) 8 (by omega) (by omega)]
  rw [show (2097151 : Nat) = 2 ^ 21 - 1 from rfl, Nat.and_pow_two_sub_one_eq_mod]
  rfl

/-- The function `ltf8_get` on the four-byte form. -/
theorem ltf8_get_four (a b c d : Nat) (tail : List Nat) (ha : 224 ≤ a) (ha2 : a < 240)
    (hb : b < 256) (hc : c < 256) (hd : d < 256) :
    ltf8_get (a :: b :: c :: d :: tail) =
      .ok (toInt64 ((a * 16777216 + b * 65536 + c * 256 + d) % 268435456), 4) := by
  unfold ltf8_get
  simp only [rd_cons_zero, rd_cons_succ, Nat.mod_eq_of_lt (show a < 256 by omega),
    Nat.mod_eq_of_lt hb,
    Nat.mod_eq_of_lt hc,
    Nat.mod_eq_of_lt hd]
  simp only [bind, Except.bind]
  rw [if_neg (by omega), if_neg (by omega), if_neg (by omega), if_pos ha2]
  simp only [Nat.shiftLeft_eq, Nat.reducePow, Nat.reduceMul, Nat.reduceAdd, Nat.reduceSub]
  rw [or_eq_add (a * 16777216) (b * 65536) 24 (by omega) (by omega)]
  rw [or_eq_add (a * 16777216 + b * 65536) (c * 256) 16 (by omega) (by omega)]
  rw [or_eq_add (a * 16777216 + b * 65536 + c * 256) (d) 8 (by omega) (by omega)]
  rw [show (268435455 : Nat) = 2 ^ 28 - 1 from rfl, Nat.and_pow_two_sub_one_eq_mod]
  rfl

/-- The function `ltf8_get` on the five-byte form. -/
theorem ltf8_get_five (a b c d e : Nat) (tail : List Nat) (ha : 240 ≤ a) (ha2 : a < 248)
    (hb : b < 256) (hc : c < 256) (hd : d < 256) (he : e < 256) :
    ltf8_get (a :: b :: c :: d :: e :: tail) =
      .ok (toInt64 ((a * 4294967296 + b * 16777216 + c * 65536 + d * 256 + e) % 34359738368), 5) := by
  unfold ltf8_get
  simp only [rd_cons_zero, rd_cons_succ, Nat.mod_eq_of_lt (show a < 256 by omega),
    Nat.mod_eq_of_lt hb,
    Nat.mod_eq_of_lt hc,
    Nat.mod_eq_of_lt hd,
    Nat.mod_eq_of_lt he]
  simp only [bind, Except.bind]
  rw [if_neg (by omega), if_neg (by omega), if_neg (by omega), if_neg (by omega), if_pos ha2]
  simp only [Nat.shiftLeft_eq, Nat.reducePow, Nat.reduceMul, Nat.reduceAdd, Nat.reduceSub]
  rw [or_eq_add (a * 4294967296) (b * 16777216) 32 (by omega) (by omega)]
  rw [or_eq_add (a * 4294967296 + b * 16777216) (c * 65536) 24 (by omega) (by omega)]
  rw [or_eq_add (a * 4294967296 + b * 16777216 + c * 65536) (d * 256) 16 (by omega) (by omega)]
  rw [or_eq_add (a * 4294967296 + b * 16777216 + c * 65536 + d * 256) (e) 8 (by omega) (by omega)]
  rw [show (34359738367 : Nat) = 2 ^ 35 - 1 from rfl, Nat.and_pow_two_sub_one_eq_mod]
  rfl

/-- The function `ltf8_get` on the six-byte form. -/
theorem ltf8_get_six (a b c d e f : Nat) (tail : List Nat) (ha : 248 ≤ a) (ha2 : a < 252)
    (hb : b < 256) (hc : c < 256) (hd : d < 256) (he : e < 256) (hf : f < 256) :
    ltf8_get (a :: b :: c :: d :: e :: f :: tail) =
      .ok (toInt64 ((a * 1099511627776 + b * 4294967296 + c * 16777216 + d * 65536 + e * 256 + f) % 4398046511104), 6) := by
  unfold ltf8_get
  simp only [rd_cons_zero, rd_cons_succ, Nat.mod_eq_of_lt (show a < 256 by omega),
    Nat.mod_eq_of_lt hb,
    Nat.mod_eq_of_lt hc,
    Nat.mod_eq_of_lt hd,
    Nat.mod_eq_of_lt he,
    Nat.mod_eq_of_lt hf]
  simp only [bind, Except.bind]
  rw [if_neg (by omega), if_neg (by omega), if_neg (by omega)]
  rw [if_neg (by omega), if_neg (by omega), if_pos ha2]
  simp only [Nat.shiftLeft_eq, Nat.reducePow, Nat.reduceMul, Nat.reduceAdd, Nat.reduceSub]
  rw [or_eq_add (a * 1099511627776) (b * 4294967296) 40 (by omega) (by omega)]
  rw [or_eq_add (a * 1099511627776 + b * 4294967296) (c * 16777216) 32 (by omega) (by omega)]
  rw [or_eq_add (a * 1099511627776 + b * 4294967296 + c * 16777216) (d * 65536) 24 (by omega) (by omega)]
  rw [or_eq_add (a * 1099511627776 + b * 4294967296 + c * 16777216 + d * 65536) (e * 256) 16 (by omega) (by omega)]
  rw [or_eq_add (a * 1099511627776 + b * 4294967296 + c * 16777216 + d * 65536 + e * 256) (f) 8 (by omega) (by omega)]
  rw [show (4398046511103 : Nat) = 2 ^ 42 - 1 from rfl, Nat.and_pow_two_sub_one_eq_mod]
  rfl

/-- The function `ltf8_get` on the seven-byte form. -/
theorem ltf8_get_seven (a b c d e f g : Nat) (tail : List Nat) (ha : 252 ≤ a) (ha2 : a < 254)
    (hb : b < 256) (hc : c < 256) (hd : d < 256) (he : e < 256) (hf : f < 256) (hg : g < 256) :
    ltf8_get (a :: b :: c :: d :: e :: f :: g :: tail) =
      .ok (toInt64 ((a * 281474976710656 + b * 1099511627776 + c * 4294967296 + d * 16777216 + e * 65536 + f * 256 + g) % 562949953421312), 7) := by
  unfold ltf8_get
  simp only [rd_cons_zero, rd_cons_succ, Nat.mod_eq_of_lt (show a < 256 by omega),
    Nat.mod_eq_of_lt hb,
    Nat.mod_eq_of_lt hc,
    Nat.mod_eq_of_lt hd,
    Nat.mod_eq_of_lt he,
    Nat.mod_eq_of_lt hf,
    Nat.mod_eq_of_lt hg]
  simp only [bind, Except.bind]
  rw [if_neg (by omega), if_neg (by omega), if_neg (by omega)]
  rw [if_neg (by omega), if_neg (by omega), if_neg (by omega)]
  rw [if_pos ha2]
  simp only [Nat.shiftLeft_eq, Nat.reducePow, Nat.reduceMul, Nat.reduceAdd, Nat.reduceSub]
  rw [or_eq_add (a * 281474976710656) (b * 1099511627776) 48 (by omega) (by omega)]
  rw [or_eq_add (a * 281474976710656 + b * 1099511627776) (c * 4294967296) 40 (by omega) (by omega)]
  rw [or_eq_add (a * 281474976710656 + b * 1099511627776 + c * 4294967296) (d * 16777216) 32 (by omega) (by omega)]
  rw [or_eq_add (a * 281474976710656 + b * 1099511627776 + c * 4294967296 + d * 16777216) (e * 65536) 24 (by omega) (by omega)]
  rw [or_eq_add (a * 281474976710656 + b * 1099511627776 + c * 4294967296 + d * 16777216 + e * 65536) (f * 256) 16 (by omega) (by omega)]
  rw [or_eq_add (a * 281474976710656 + b * 1099511627776 + c * 4294967296 + d * 16777216 + e * 65536 + f * 256) (g) 8 (by omega) (by omega)]
  rw [show (562949953421311 : Nat) = 2 ^ 49 - 1 from rfl, Nat.and_pow_two_sub_one_eq_mod]
  rfl

/-- The function `ltf8_get` on the eight-byte form. -/
theorem ltf8_get_eight (a b c d e f g h : Nat) (tail : List Nat) (ha : 254 ≤ a) (ha2 : a < 255)
    (hb : b < 256) (hc : c < 256) (hd : d < 256) (he : e < 256) (hf : f < 256) (hg : g < 256) (hh : h < 256) :
    ltf8_get (a :: b :: c :: d :: e :: f :: g :: h :: tail) =
      .ok (toInt64 ((b * 281474976710656 + c * 1099511627776 + d * 4294967296 + e * 16777216 + f * 65536 + g * 256 + h) % 72057594037927936), 8) := by
  unfold ltf8_get
  simp only [rd_cons_zero, rd_cons_succ, Nat.mod_eq_of_lt (show a < 256 by omega),
    Nat.mod_eq_of_lt hb,
    Nat.mod_eq_of_lt hc,
    Nat.mod_eq_of_lt hd,
    Nat.mod_eq_of_lt he,
    Nat.mod_eq_of_lt hf,
    Nat.mod_eq_of_lt hg,
    Nat.mod_eq_of_lt hh]
  simp only [bind, Except.bind]
  rw [if_neg (by omega), if_neg (by omega), if_neg (by omega)]
  rw [if_neg (by omega), if_neg (by omega), if_neg (by omega)]
  rw [if_neg (by omega), if_pos ha2]
  simp only [Nat.shiftLeft_eq, Nat.reducePow, Nat.reduceMul, Nat.reduceAdd, Nat.reduceSub]
  rw [or_eq_add (b * 281474976710656) (c * 1099511627776) 48 (by omega) (by omega)]
  rw [or_eq_add (b * 281474976710656 + c * 1099511627776) (d * 4294967296) 40 (by omega) (by omega)]
  rw [or_eq_add (b * 281474976710656 + c * 1099511627776 + d * 4294967296) (e * 16777216) 32 (by omega) (by omega)]
  rw [or_eq_add (b * 281474976710656 + c * 1099511627776 + d * 4294967296 + e * 16777216) (f * 65536) 24 (by omega) (by omega)]
  rw [or_eq_add (b * 281474976710656 + c * 1099511627776 + d * 4294967296 + e * 16777216 + f * 65536) (g * 256) 16 (by omega) (by omega)]
  rw [or_eq_add (b * 281474976710656 + c * 1099511627776 + d * 4294967296 + e * 16777216 + f * 65536 + g * 256) (h) 8 (by omega) (by omega)]
  rw [show (72057594037927935 : Nat) = 2 ^ 56 - 1 from rfl, Nat.and_pow_two_sub_one_eq_mod]
  rfl

/-- The function `ltf8_get` on the nine-byte form. -/
theorem ltf8_get_nine (a b c d e f g h i : Nat) (tail : List Nat) (ha : 255 ≤ a) (ha2 : a < 256)
    (hb : b < 256) (hc : c < 256) (hd : d < 256) (he : e < 256) (hf : f < 256) (hg : g < 256) (hh : h < 256) (hi : i < 256) :
    ltf8_get (a :: b :: c :: d :: e :: f :: g :: h :: i :: tail) =
      .ok (toInt64 (b * 72057594037927936 + c * 281474976710656 + d * 1099511627776 + e * 4294967296 + f * 16777216 + g * 65536 + h * 256 + i), 9) := by
  unfold ltf8_get
  simp only [rd_cons_zero, rd_cons_succ, Nat.mod_eq_of_lt (show a < 256 by omega),
    Nat.mod_eq_of_lt hb,
    Nat.mod_eq_of_lt hc,
    Nat.mod_eq_of_lt hd,
    Nat.mod_eq_of_lt he,
    Nat.mod_eq_of_lt hf,
    Nat.mod_eq_of_lt hg,
    Nat.mod_eq_of_lt hh,
    Nat.mod_eq_of_lt hi]
  simp only [bind, Except.bind]
  rw [if_neg (by omega), if_neg (by omega), if_neg (by omega)]
  rw [if_neg (by omega), if_neg (by omega), if_neg (by omega)]
  rw [if_neg (by omega), if_neg (by omega)]
  simp only [Nat.shiftLeft_eq, Nat.reducePow, Nat.reduceMul, Nat.reduceAdd, Nat.reduceSub]
  rw [or_eq_add (b * 72057594037927936) (c * 281474976710656) 56 (by omega) (by omega)]
  rw [or_eq_add (b * 72057594037927936 + c * 281474976710656) (d * 1099511627776) 48 (by omega) (by omega)]
  rw [or_eq_add (b * 72057594037927936 + c * 281474976710656 + d * 1099511627776) (e * 4294967296) 40 (by omega) (by omega)]
  rw [or_eq_add (b * 72057594037927936 + c * 281474976710656 + d * 1099511627776 + e * 4294967296) (f * 16777216) 32 (by omega) (by omega)]
  rw [or_eq_add (b * 72057594037927936 + c * 281474976710656 + d * 1099511627776 + e * 4294967296 + f * 16777216) (g * 65536) 24 (by omega) (by omega)]
  rw [or_eq_add (b * 72057594037927936 + c * 281474976710656 + d * 1099511627776 + e * 4294967296 + f * 16777216 + g * 65536) (h * 256) 16 (by omega) (by omega)]
  rw [or_eq_add (b * 72057594037927936 + c * 281474976710656 + d * 1099511627776 + e * 4294967296 + f * 16777216 + g * 65536 + h * 256) (i) 8 (by omega) (by omega)]
  rfl

/-- C38 (the LTF-8 round trip): for every `int64_t` value `v`, `ltf8_put`
writes between one and nine bytes and returns their number, and `ltf8_get` on
those bytes (whatever follows them) stores `v` and returns the same number. -/
theorem ltf8_round_trip (v : Int) (h0 : -9223372036854775808 ≤ v)
    (h1 : v < 9223372036854775808) (tail : List Nat) :
    (ltf8_put v).1.length = (ltf8_put v).2 ∧ 1 ≤ (ltf8_put v).2 ∧ (ltf8_put v).2 ≤ 9 ∧
    ltf8_get ((ltf8_put v).1 ++ tail) = .ok (v, (ltf8_put v).2) := by
  obtain ⟨t1, t2, t3, t4, t5, t6, t7, t8⟩ := ltf8_tests v
  have s8 : ofInt64 (v >>> (8 : Nat)) &&& 0xff = ofInt64 v / 256 % 256 := by
    rw [Int.shiftRight_eq_div_pow, and_255]; unfold ofInt64; simp only [U64]; omega
  have s16 : ofInt64 (v >>> (16 : Nat)) &&& 0xff = ofInt64 v / 65536 % 256 := by
    rw [Int.shiftRight_eq_div_pow, and_255]; unfold ofInt64; simp only [U64]; omega
  have s24 : ofInt64 (v >>> (24 : Nat)) &&& 0xff = ofInt64 v / 16777216 % 256 := by
    rw [Int.shiftRight_eq_div_pow, and_255]; unfold ofInt64; simp only [U64]; omega
  have s32 : ofInt64 (v >>> (32 : Nat)) &&& 0xff = ofInt64 v / 4294967296 % 256 := by
    rw [Int.shiftRight_eq_div_pow, and_255]; unfold ofInt64; simp only [U64]; omega
  have s40 : ofInt64 (v >>> (40 : Nat)) &&& 0xff = ofInt64 v / 1099511627776 % 256 := by
    rw [Int.shiftRight_eq_div_pow, and_255]; unfold ofInt64; simp only [U64]; omega
  have s48 : ofInt64 (v >>> (48 : Nat)) &&& 0xff = ofInt64 v / 281474976710656 % 256 := by
    rw [Int.shiftRight_eq_div_pow, and_255]; unfold ofInt64; simp only [U64]; omega
  have s56 : ofInt64 (v >>> (56 : Nat)) &&& 0xff = ofInt64 v / 72057594037927936 % 256 := by
    rw [Int.shiftRight_eq_div_pow, and_255]; unfold ofInt64; simp only [U64]; omega
  have p8 : ofInt64 v < 16384 → ofInt64 (v >>> (8 : Nat)) = ofInt64 v / 256 := by
    rw [Int.shiftRight_eq_div_pow]; unfold ofInt64; simp only [U64]; omega
  have p16 : ofInt64 v < 2097152 → ofInt64 (v >>> (16 : Nat)) = ofInt64 v / 65536 := by
    rw [Int.shiftRight_eq_div_pow]; unfold ofInt64; simp only [U64]; omega
  have p24 : ofInt64 v < 268435456 → ofInt64 (v >>> (24 : Nat)) = ofInt64 v / 16777216 := by
    rw [Int.shiftRight_eq_div_pow]; unfold ofInt64; simp only [U64]; omega
  have p32 : ofInt64 v < 34359738368 → ofInt64 (v >>> (32 : Nat)) = ofInt64 v / 4294967296 := by
    rw [Int.shiftRight_eq_div_pow]; unfold ofInt64; simp only [U64]; omega
  have p40 : ofInt64 v < 4398046511104 → ofInt64 (v >>> (40 : Nat)) = ofInt64 v / 1099511627776 := by
    rw [Int.shiftRight_eq_div_pow]; unfold ofInt64; simp only [U64]; omega
  have p48 : ofInt64 v < 562949953421312 → ofInt64 (v >>> (48 : Nat)) = ofInt64 v / 281474976710656 := by
    rw [Int.shiftRight_eq_div_pow]; unfold ofInt64; simp only [U64]; omega
  have p56 : ofInt64 v < 72057594037927936 → ofInt64 (v >>> (56 : Nat)) = ofInt64 v / 72057594037927936 := by
    rw [Int.shiftRight_eq_div_pow]; unfold ofInt64; simp only [U64]; omega
  have hto : toInt64 (ofInt64 v) = v := by
    unfold toInt64 ofInt64; simp only [U64]; split <;> omega
  generalize hu : ofInt64 v = u at *
  have hlt : u < 18446744073709551616 := by rw [← hu]; unfold ofInt64; simp only [U64]; omega
  by_cases c1 : u < 128
  · have hp : ltf8_put v =
        ([u % 256], 1) := by
      unfold ltf8_put
      rw [hu, if_pos (t1.2 c1)]
    rw [hp]
    refine ⟨rfl, by dsimp only; omega, by dsimp only; omega, ?_⟩
    rw [Nat.mod_eq_of_lt (by omega)]
    exact (ltf8_get_one u tail c1).trans (by rw [hto])
  by_cases c2 : u < 16384
  · have hp : ltf8_put v =
        ([(u / 256 ||| 0x80) % 256, u % 256], 2) := by
      unfold ltf8_put
      rw [hu, if_neg (fun h => c1 (t1.1 h)), if_pos (t2.2 c2), p8 c2, and_255]
    rw [hp]
    refine ⟨rfl, by dsimp only; omega, by dsimp only; omega, ?_⟩
    have ho : u / 256 ||| 0x80 = 128 + u / 256 := by
      rw [Nat.or_comm]
      exact or_eq_add 128 (u / 256) 6 (by decide) (by omega)
    rw [ho]
    refine (ltf8_get_two _ _ tail (by omega) (by omega) (by omega)).trans ?_
    rw [← hto]
    congr 3
    omega
  by_cases c3 : u < 2097152
  · have hp : ltf8_put v =
        ([(u / 65536 ||| 0xc0) % 256, u / 256 % 256, u % 256], 3) := by
      unfold ltf8_put
      rw [hu, if_neg (fun h => c1 (t1.1 h)), if_neg (fun h => c2 (t2.1 h)), if_pos (t3.2 c3),
        p16 c3, s8, and_255]
    rw [hp]
    refine ⟨rfl, by dsimp only; omega, by dsimp only; omega, ?_⟩
    have ho : u / 65536 ||| 0xc0 = 192 + u / 65536 := by
      rw [Nat.or_comm]
      exact or_eq_add 192 (u / 65536) 5 (by decide) (by omega)
    rw [ho]
    refine (ltf8_get_three _ _ _ tail (by omega) (by omega) (by omega) (by omega)).trans ?_
    rw [← hto]
    congr 3
    omega
  by_cases c4 : u < 268435456
  · have hp : ltf8_put v =
        ([(u / 16777216 ||| 0xe0) % 256, u / 65536 % 256, u / 256 % 256, u % 256], 4) := by
      unfold ltf8_put
      rw [hu, if_neg (fun h => c1 (t1.1 h)), if_neg (fun h => c2 (t2.1 h)),
        if_neg (fun h => c3 (t3.1 h)), if_pos (t4.2 c4), p24 c4, s16, s8, and_255]
    rw [hp]
    refine ⟨rfl, by dsimp only; omega, by dsimp only; omega, ?_⟩
    have ho : u / 16777216 ||| 0xe0 = 224 + u / 16777216 := by
      rw [Nat.or_comm]
      exact or_eq_add 224 (u / 16777216) 4 (by decide) (by omega)
    rw [ho]
    refine (ltf8_get_four _ _ _ _ tail (by omega) (by omega) (by omega) (by omega) (by omega)).trans ?_
    rw [← hto]
    congr 3
    omega
  by_cases c5 : u < 34359738368
  · have hp : ltf8_put v =
        ([(u / 4294967296 ||| 0xf0) % 256, u / 16777216 % 256, u / 65536 % 256,
          u / 256 % 256, u % 256], 5) := by
      unfold ltf8_put
      rw [hu, if_neg (fun h => c1 (t1.1 h)), if_neg (fun h => c2 (t2.1 h)),
        if_neg (fun h => c3 (t3.1 h)), if_neg (fun h => c4 (t4.1 h)), if_pos (t5.2 c5), p32 c5,
        s24, s16, s8, and_255]
    rw [hp]
    refine ⟨rfl, by dsimp only; omega, by dsimp only; omega, ?_⟩
    have ho : u / 4294967296 ||| 0xf0 = 240 + u / 4294967296 := by
      rw [Nat.or_comm]
      exact or_eq_add 240 (u / 4294967296) 3 (by decide) (by omega)
    rw [ho]
    refine (ltf8_get_five _ _ _ _ _ tail (by omega) (by omega) (by omega) (by omega) (by omega) (by omega)).trans ?_
    rw [← hto]
    congr 3
    omega
  by_cases c6 : u < 4398046511104
  · have hp : ltf8_put v =
        ([(u / 1099511627776 ||| 0xf8) % 256, u / 4294967296 % 256, u / 16777216 % 256,
          u / 65536 % 256, u / 256 % 256, u % 256], 6) := by
      unfold ltf8_put
      rw [hu, if_neg (fun h => c1 (t1.1 h)), if_neg (fun h => c2 (t2.1 h)),
        if_neg (fun h => c3 (t3.1 h)), if_neg (fun h => c4 (t4.1 h)),
        if_neg (fun h => c5 (t5.1 h)), if_pos (t6.2 c6), p40 c6, s32, s24, s16, s8, and_255]
    rw [hp]
    refine ⟨rfl, by dsimp only; omega, by dsimp only; omega, ?_⟩
    have ho : u / 1099511627776 ||| 0xf8 = 248 + u / 1099511627776 := by
      rw [Nat.or_comm]
      exact or_eq_add 248 (u / 1099511627776) 2 (by decide) (by omega)
    rw [ho]
    refine (ltf8_get_six _ _ _ _ _ _ tail (by omega) (by omega) (by omega) (by omega) (by omega) (by omega) (by omega)).trans ?_
    rw [← hto]
    congr 3
    omega
  by_cases c7 : u < 562949953421312
  · have hp : ltf8_put v =
        ([(u / 281474976710656 ||| 0xfc) % 256, u / 1099511627776 % 256,
          u / 4294967296 % 256, u / 16777216 % 256, u / 65536 % 256, u / 256 % 256, u % 256], 7) := by
      unfold ltf8_put
      rw [hu, if_neg (fun h => c1 (t1.1 h)), if_neg (fun h => c2 (t2.1 h)),
        if_neg (fun h => c3 (t3.1 h)), if_neg (fun h => c4 (t4.1 h)),
        if_neg (fun h => c5 (t5.1 h)), if_neg (fun h => c6 (t6.1 h)), if_pos (t7.2 c7), p48 c7,
        s40, s32, s24, s16, s8, and_255]
    rw [hp]
    refine ⟨rfl, by dsimp only; omega, by dsimp only; omega, ?_⟩
    have ho : u / 281474976710656 ||| 0xfc = 252 + u / 281474976710656 := by
      rw [Nat.or_comm]
      exact or_eq_add 252 (u / 281474976710656) 1 (by decide) (by omega)
    rw [ho]
    refine (ltf8_get_seven _ _ _ _ _ _ _ tail (by omega) (by omega) (by omega) (by omega) (by omega) (by omega) (by omega) (by omega)).trans ?_
    rw [← hto]
    congr 3
    omega
  by_cases c8 : u < 72057594037927936
  · have hp : ltf8_put v =
        ([(u / 72057594037927936 ||| 0xfe) % 256, u / 281474976710656 % 256,
          u / 1099511627776 % 256, u / 4294967296 % 256, u / 16777216 % 256,
          u / 65536 % 256, u / 256 % 256, u % 256], 8) := by
      unfold ltf8_put
      rw [hu, if_neg (fun h => c1 (t1.1 h)), if_neg (fun h => c2 (t2.1 h)),
        if_neg (fun h => c3 (t3.1 h)), if_neg (fun h => c4 (t4.1 h)),
        if_neg (fun h => c5 (t5.1 h)), if_neg (fun h => c6 (t6.1 h)),
        if_neg (fun h => c7 (t7.1 h)), if_pos (t8.2 c8), p56 c8, s48, s40, s32, s24, s16, s8,
        and_255]
    rw [hp]
    refine ⟨rfl, by dsimp only; omega, by dsimp only; omega, ?_⟩
    have ho : u / 72057594037927936 ||| 0xfe = 254 + u / 72057594037927936 := by
      rw [Nat.or_comm]
      exact or_eq_add 254 (u / 72057594037927936) 0 (by decide) (by omega)
    rw [ho]
    refine (ltf8_get_eight _ _ _ _ _ _ _ _ tail (by omega) (by omega) (by omega) (by omega) (by omega) (by omega) (by omega) (by omega) (by omega)).trans ?_
    rw [← hto]
    congr 3
    omega
  · have hp : ltf8_put v =
        ([0xff, u / 72057594037927936 % 256, u / 281474976710656 % 256,
          u / 1099511627776 % 256, u / 4294967296 % 256, u / 16777216 % 256,
          u / 65536 % 256, u / 256 % 256, u % 256], 9) := by
      unfold ltf8_put
      rw [hu, if_neg (fun h => c1 (t1.1 h)), if_neg (fun h => c2 (t2.1 h)),
        if_neg (fun h => c3 (t3.1 h)), if_neg (fun h => c4 (t4.1 h)),
        if_neg (fun h => c5 (t5.1 h)), if_neg (fun h => c6 (t6.1 h)),
        if_neg (fun h => c7 (t7.1 h)), if_neg (fun h => c8 (t8.1 h)), s56, s48, s40, s32, s24,
        s16, s8, and_255]
    rw [hp]
    refine ⟨rfl, by dsimp only; omega, by dsimp only; omega, ?_⟩
    refine (ltf8_get_nine _ _ _ _ _ _ _ _ _ tail (by omega) (by omega) (by omega) (by omega) (by omega) (by omega) (by omega) (by omega) (by omega) (by omega)).trans ?_
    rw [← hto]
    congr 3
    omega

/-- C38 at `v = -1`, stored as nine bytes 0xff, and at `v = 2^35`, stored as
0xf8 0x08 0x00 0x00 0x00 0x00. -/
theorem ltf8_round_trip_witness :
    ((-9223372036854775808 : Int) ≤ -1 ∧ (-1 : Int) < 9223372036854775808) ∧
    ((ltf8_put (-1)).1.length = (ltf8_put (-1)).2 ∧ 1 ≤ (ltf8_put (-1)).2 ∧
      (ltf8_put (-1)).2 ≤ 9 ∧
      ltf8_get ((ltf8_put (-1)).1 ++ [7, 7]) = .ok (-1, (ltf8_put (-1)).2)) ∧
    ltf8_put (-1) = ([255, 255, 255, 255, 255, 255, 255, 255, 255], 9) ∧
    ltf8_put 34359738368 = ([248, 8, 0, 0, 0, 0], 6) ∧
    ltf8_get [248, 8, 0, 0, 0, 0, 7, 7] = .ok (34359738368, 6) :=
  ⟨by decide, ltf8_round_trip (-1) (by decide) (by decide) [7, 7], by decide, by decide,
    by decide⟩

/-! ## Seven-bit variable-length integers -/

/-- The two counting loops agree: on a value below `2^(7k)` with fuel for `k`
passes, both make the same number `n ≤ k` of passes, and the value is below
`2^(7n)`. -/
theorem uint7_count_ok (fuel : Nat) : ∀ (k i s v : Nat), 1 ≤ k → k ≤ fuel → v < 2 ^ (7 * k) →
    ∃ n, 1 ≤ n ∧ n ≤ k ∧ uint7_size_loop fuel i v = .ok (i + n) ∧
      uint7_put_count fuel s v = .ok (s + 7 * n) ∧ v < 2 ^ (7 * n) := by
  induction fuel with
  | zero => intro k i s v h1 h2; omega
  | succ f ih =>
    intro k i s v h1 h2 hv
    unfold uint7_size_loop uint7_put_count
    simp only [Nat.shiftRight_eq_div_pow, Nat.reducePow]
    by_cases h0 : v / 128 = 0
    · refine ⟨1, Nat.le_refl 1, h1, ?_, ?_, ?_⟩
      · rw [if_neg (by simp only [h0, ne_eq, not_true_eq_false, not_false_eq_true])]
      · rw [if_neg (by simp only [h0, ne_eq, not_true_eq_false, not_false_eq_true])]
      · have : v < 128 := by omega
        exact this
    · have hk2 : 2 ≤ k := by
        by_contra hk
        have hk1 : k = 1 := by omega
        rw [hk1] at hv
        have : v < 128 := hv
        omega
      have hv2 : v / 128 < 2 ^ (7 * (k - 1)) := by
        apply Nat.div_lt_of_lt_mul
        have : 128 * 2 ^ (7 * (k - 1)) = 2 ^ (7 * k) := by
          rw [show 7 * k = 7 + 7 * (k - 1) by omega, Nat.pow_add]
        rw [this]
        exact hv
      obtain ⟨n, hn1, hn2, hs, hc, hb⟩ := ih (k - 1) (i + 1) (s + 7) (v / 128) (by omega)
        (by omega) hv2
      refine ⟨n + 1, by omega, by omega, ?_, ?_, ?_⟩
      · rw [if_pos h0, hs]
        congr 1
        omega
      · rw [if_pos h0, hc]
        congr 1
        omega
      · have : 2 ^ (7 * (n + 1)) = 128 * 2 ^ (7 * n) := by
          rw [show 7 * (n + 1) = 7 + 7 * n by omega, Nat.pow_add]
        rw [this]
        have := Nat.div_add_mod v 128
        have := Nat.mod_lt v (show 128 > 0 by decide)
        omega

set_option maxRecDepth 1000000 in
/-- The continuation bit of a byte. -/
theorem and_128 : ∀ c < 256, (c &&& 128 ≠ 0 ↔ 128 ≤ c) := by
  decide

/-- One step of the accumulator of `uint7_get`. -/
theorem uint7_acc (acc g : Nat) (hg : g < 128) :
    (acc <<< 7) % U64 ||| g = (acc * 128 + g) % U64 := by
  rw [Nat.shiftLeft_eq]
  simp only [U64, Nat.reducePow]
  rw [or_eq_add (acc * 128 % 18446744073709551616) g 7 (by omega) (by omega)]
  omega

/-- The bytes of `uint7_put` for `m + 1` groups and what `uint7_get` makes of
them from any accumulator. -/
theorem uint7_bytes_ok (v : Nat) : ∀ (m fuel : Nat), m + 1 ≤ fuel →
    ∃ bs, uint7_put_bytes fuel (7 * (m + 1)) v = .ok bs ∧ bs.length = m + 1 ∧
      (∀ j, j < m → 128 ≤ bs.getD j 0) ∧ (∀ j, bs.getD j 0 < 256) ∧ bs.getD m 0 < 128 ∧
      ∀ (acc k : Nat) (tail : List Nat) (room : Option Int),
        (∀ r, room = some r → ((k + m + 1 : Nat) : Int) ≤ r) →
        uint7_get_loop (bs ++ tail) acc k room =
          .ok ((acc * 2 ^ (7 * (m + 1)) + v % 2 ^ (7 * (m + 1))) % U64, k + m + 1) := by
  intro m
  induction m with
  | zero =>
    intro fuel hf
    obtain ⟨f, rfl⟩ : ∃ f, fuel = f + 1 := ⟨fuel - 1, by omega⟩
    refine ⟨[v % 128], ?_, rfl, fun j hj => by omega, ?_, ?_, ?_⟩
    · unfold uint7_put_bytes
      simp only [Nat.zero_add, Nat.mul_one, Nat.sub_self, ne_eq, not_true_eq_false, if_false,
        Nat.shiftRight_zero, Nat.add_zero]
      rw [show (127 : Nat) = 2 ^ 7 - 1 from rfl, Nat.and_pow_two_sub_one_eq_mod]
      simp only [Nat.reducePow]
      rw [Nat.mod_eq_of_lt (show v % 128 < 256 by omega)]
    · intro j
      cases j with
      | zero => show v % 128 < 256; omega
      | succ j => show 0 < 256; decide
    · show v % 128 < 128
      omega
    · intro acc k tail room hroom
      show uint7_get_loop (v % 128 :: tail) acc k room = _
      unfold uint7_get_loop
      simp only []
      have hc : v % 128 % 256 = v % 128 := Nat.mod_eq_of_lt (by omega)
      have hn : ¬ (v % 128 &&& 128 ≠ 0) := fun h =>
        absurd ((and_128 (v % 128) (by omega)).1 h) (by omega)
      rw [hc, if_neg (fun h => hn h.1)]
      rw [show (127 : Nat) = 2 ^ 7 - 1 from rfl, Nat.and_pow_two_sub_one_eq_mod]
      simp only [Nat.reducePow, Nat.zero_add, Nat.mul_one]
      rw [Nat.mod_eq_of_lt (show v % 128 < 128 by omega), uint7_acc acc (v % 128) (by omega)]
  | succ m ih =>
    intro fuel hf
    obtain ⟨f, rfl⟩ : ∃ f, fuel = f + 1 := ⟨fuel - 1, by omega⟩
    obtain ⟨bs, hbs, hlen, htop, hbyte, hlast, hget⟩ := ih f (by omega)
    have hs : 7 * (m + 1 + 1) - 7 = 7 * (m + 1) := by omega
    have hs0 : 7 * (m + 1) ≠ 0 := by omega
    have hb : (((v >>> (7 * (m + 1))) &&& 0x7f) + 128) % 256
        = v / 2 ^ (7 * (m + 1)) % 128 + 128 := by
      rw [show (127 : Nat) = 2 ^ 7 - 1 from rfl, Nat.and_pow_two_sub_one_eq_mod,
        Nat.shiftRight_eq_div_pow]
      simp only [Nat.reducePow]
      omega
    refine ⟨(v / 2 ^ (7 * (m + 1)) % 128 + 128) :: bs, ?_, ?_, ?_, ?_, ?_, ?_⟩
    · unfold uint7_put_bytes
      simp only [hs, if_pos hs0, hbs, hb]
    · simp only [List.length_cons, hlen]
    · intro j hj
      cases j with
      | zero => show 128 ≤ v / 2 ^ (7 * (m + 1)) % 128 + 128; omega
      | succ j => exact htop j (by omega)
    · intro j
      cases j with
      | zero => show v / 2 ^ (7 * (m + 1)) % 128 + 128 < 256; omega
      | succ j => exact hbyte j
    · exact hlast
    · intro acc k tail room hroom
      show uint7_get_loop ((v / 2 ^ (7 * (m + 1)) % 128 + 128) :: (bs ++ tail)) acc k room = _
      unfold uint7_get_loop
      simp only []
      have hc : (v / 2 ^ (7 * (m + 1)) % 128 + 128) % 256 = v / 2 ^ (7 * (m + 1)) % 128 + 128 :=
        Nat.mod_eq_of_lt (by omega)
      have hy : v / 2 ^ (7 * (m + 1)) % 128 + 128 &&& 128 ≠ 0 :=
        (and_128 _ (by omega)).2 (by omega)
      have hmore : uint7_more room (k + 1) = true := by
        unfold uint7_more
        cases room with
        | none => rfl
        | some r =>
          have := hroom r rfl
          simp only [decide_eq_true_eq]
          omega
      rw [hc, if_pos ⟨hy, hmore⟩]
      rw [show (127 : Nat) = 2 ^ 7 - 1 from rfl, Nat.and_pow_two_sub_one_eq_mod]
      simp only [Nat.reducePow]
      rw [show (v / 2 ^ (7 * (m + 1)) % 128 + 128) % 128 = v / 2 ^ (7 * (m + 1)) % 128 by omega,
        uint7_acc acc _ (by omega)]
      rw [hget _ (k + 1) tail room (fun r hr => by have := hroom r hr; omega)]
      congr 2
      · have hsplit : v % 2 ^ (7 * (m + 1 + 1)) =
            v % 2 ^ (7 * (m + 1)) + 2 ^ (7 * (m + 1)) * (v / 2 ^ (7 * (m + 1)) % 128) := by
          rw [show 7 * (m + 1 + 1) = 7 * (m + 1) + 7 by omega, Nat.pow_add]
          exact Nat.mod_mul
        have hpow : 2 ^ (7 * (m + 1 + 1)) = 128 * 2 ^ (7 * (m + 1)) := by
          rw [show 7 * (m + 1 + 1) = 7 + 7 * (m + 1) by omega, Nat.pow_add]
        rw [hsplit, hpow]
        generalize 2 ^ (7 * (m + 1)) = P
        generalize v / P % 128 = g
        generalize v % P = w
        have h1 : ((acc * 128 + g) % U64 * P + w) % U64 = ((acc * 128 + g) * P + w) % U64 :=
          ((Nat.mod_modEq _ _).mul_right P).add_right w
        have h2 : (acc * 128 + g) * P + w = acc * (128 * P) + (w + P * g) := by ring
        rw [h1, h2]
      · omega

/-- The round trip of `uint7_put` and `uint7_get` on a 64-bit pattern. -/
theorem uint7_codec (v : Nat) (hv : v < U64) :
    ∃ (n : Nat) (bs : List Nat), uint7_size v = .ok n ∧ 1 ≤ n ∧ n ≤ 10 ∧
      uint7_put none v = .ok (bs, n) ∧
      (∀ r : Int, (n : Int) ≤ r → uint7_put (some r) v = .ok (bs, n)) ∧
      bs.length = n ∧ (∀ j, j + 1 < n → 128 ≤ bs.getD j 0) ∧ (∀ j, bs.getD j 0 < 256) ∧
      bs.getD (n - 1) 0 < 128 ∧
      (∀ tail, uint7_get (bs ++ tail) none = .ok (v, n)) ∧
      (∀ (tail : List Nat) (r : Int), (n : Int) ≤ r →
        uint7_get (bs ++ tail) (some r) = .ok (v, n)) := by
  have hv70 : v < 2 ^ (7 * 10) := Nat.lt_of_lt_of_le hv (by simp only [U64]; decide)
  obtain ⟨n, hn1, hn2, hsz, hcnt, hb⟩ := uint7_count_ok 10 10 0 0 v (by decide)
    (Nat.le_refl 10) hv70
  obtain ⟨m, rfl⟩ : ∃ m, n = m + 1 := ⟨n - 1, by omega⟩
  obtain ⟨bs, hbs, hlen, htop, hbyte, hlast, hget⟩ := uint7_bytes_ok v m (0 + 7 * (m + 1))
    (by omega)
  have hval : (0 * 2 ^ (7 * (m + 1)) + v % 2 ^ (7 * (m + 1))) % U64 = v := by
    rw [Nat.zero_mul, Nat.zero_add, Nat.mod_eq_of_lt hb, Nat.mod_eq_of_lt hv]
  have hbs2 : uint7_put_bytes (0 + 7 * (m + 1)) (0 + 7 * (m + 1)) v = .ok bs := by
    rw [Nat.zero_add]
    rw [Nat.zero_add] at hbs
    exact hbs
  refine ⟨m + 1, bs, ?_, hn1, hn2, ?_, ?_, hlen, fun j hj => htop j (by omega), hbyte, hlast,
    ?_, ?_⟩
  · unfold uint7_size
    rw [hsz, Nat.zero_add]
  · unfold uint7_put
    simp only [hcnt, bind, Except.bind, hbs2, pure, Except.pure, hlen]
    rfl
  · intro r hr
    unfold uint7_put
    simp only [hcnt, bind, Except.bind, hbs2, pure, Except.pure, hlen]
    rw [if_neg]
    simp only [decide_eq_true_eq]
    omega
  · intro tail
    unfold uint7_get
    simp only []
    rw [hget 0 0 tail none (fun r hr => by cases hr), hval, Nat.zero_add]
  · intro tail r hr
    unfold uint7_get
    simp only []
    rw [if_neg (by omega)]
    rw [hget 0 0 tail (some r) (fun r2 hr2 => by cases hr2; omega), hval, Nat.zero_add]

/-- The pattern `2^n - 1` XOR a value below `2^n` is the difference. -/
theorem xor_ones (n x : Nat) (hx : x < 2 ^ n) : (2 ^ n - 1) ^^^ x = 2 ^ n - 1 - x := by
  apply Nat.eq_of_testBit_eq
  intro i
  have h := Nat.testBit_two_pow_sub_succ hx i
  rw [show 2 ^ n - 1 - x = 2 ^ n - (x + 1) by omega, h, Nat.testBit_xor,
    Nat.testBit_two_pow_sub_one]
  by_cases hi : i < n
  · simp only [hi, decide_True, Bool.true_and, Bool.true_bne]
  · have : x.testBit i = false := Nat.testBit_lt_two_pow (Nat.lt_of_lt_of_le hx
      (Nat.pow_le_pow_right (by decide) (Nat.le_of_not_lt hi)))
    simp only [hi, decide_False, Bool.false_and, this, bne_self_eq_false]

/-- The zig-zag mapping of `sint7_put` is a 64-bit pattern that the mapping
of `sint7_get` takes back to the value. -/
theorem zigzag_inverse (z : Int) (h0 : -9223372036854775808 ≤ z)
    (h1 : z < 9223372036854775808) :
    ofInt64 (z >>> (63 : Nat)) ^^^ ((ofInt64 z <<< 1) % U64) < U64 ∧
    toInt64 (((ofInt64 (z >>> (63 : Nat)) ^^^ ((ofInt64 z <<< 1) % U64)) >>> 1) ^^^
      ((U64 - ((ofInt64 (z >>> (63 : Nat)) ^^^ ((ofInt64 z <<< 1) % U64)) &&& 1)) % U64)) = z := by
  have hs : ofInt64 (z >>> (63 : Nat)) = if 0 ≤ z then 0 else 18446744073709551615 := by
    rw [Int.shiftRight_eq_div_pow]; unfold ofInt64; simp only [U64]
    split <;> omega
  have hl : (ofInt64 z <<< 1) % U64 = if 0 ≤ z then (2 * z).toNat
      else (2 * z + 18446744073709551616).toNat := by
    rw [Nat.shiftLeft_eq]; unfold ofInt64; simp only [U64]
    split <;> omega
  rw [hs, hl]
  by_cases hz : 0 ≤ z
  · rw [if_pos hz, if_pos hz, Nat.zero_xor]
    have e1 : (2 * z).toNat &&& 1 = 0 := by rw [Nat.and_one_is_mod]; omega
    have e2 : (2 * z).toNat >>> 1 = z.toNat := by
      rw [Nat.shiftRight_eq_div_pow]; omega
    rw [e1, e2]
    simp only [U64, Nat.sub_zero, Nat.mod_self, Nat.xor_zero]
    refine ⟨by omega, ?_⟩
    unfold toInt64; simp only [U64]; split <;> omega
  · rw [if_neg hz, if_neg hz]
    have hx := xor_ones 64 (2 * z + 18446744073709551616).toNat (by
      simp only [Nat.reducePow]; omega)
    simp only [Nat.reducePow, Nat.reduceSub] at hx
    rw [hx]
    have e0 : 18446744073709551615 - (2 * z + 18446744073709551616).toNat =
        (-2 * z - 1).toNat := by omega
    rw [e0]
    have e1 : (-2 * z - 1).toNat &&& 1 = 1 := by rw [Nat.and_one_is_mod]; omega
    have e2 : (-2 * z - 1).toNat >>> 1 = (-z - 1).toNat := by
      rw [Nat.shiftRight_eq_div_pow]; omega
    rw [e1, e2]
    simp only [U64, Nat.reduceSub, Nat.reduceMod]
    rw [Nat.xor_comm]
    have hy := xor_ones 64 (-z - 1).toNat (by simp only [Nat.reducePow]; omega)
    simp only [Nat.reducePow, Nat.reduceSub] at hy
    rw [hy]
    refine ⟨by omega, ?_⟩
    unfold toInt64; simp only [U64]; split <;> omega

/-- C39 (the 7-bit varint round trip): for every `uint64_t` value `v`,
`uint7_size` returns a number `n` of 1 to 10, `uint7_put` without an end
pointer, or with room for at least `n` bytes, writes `n` bytes `bs` and
returns `n`, every byte but the last has its top bit set and the last has it
clear, and `uint7_get` on those bytes (whatever follows them; without an end
pointer or with one at least `n` bytes on) stores `v` and returns `n`.
Likewise, for every `int64_t` value `z`, `sint7_get` on the bytes written by
`sint7_put` stores `z` and returns the number of bytes written. -/
theorem varint_round_trip (v : Nat) (z : Int) (hv : v < U64)
    (h0 : -9223372036854775808 ≤ z) (h1 : z < 9223372036854775808) :
    (∃ (n : Nat) (bs : List Nat), uint7_size v = .ok n ∧ 1 ≤ n ∧ n ≤ 10 ∧
      uint7_put none v = .ok (bs, n) ∧
      (∀ r : Int, (n : Int) ≤ r → uint7_put (some r) v = .ok (bs, n)) ∧
      bs.length = n ∧ (∀ j, j + 1 < n → 128 ≤ bs.getD j 0) ∧ (∀ j, bs.getD j 0 < 256) ∧
      bs.getD (n - 1) 0 < 128 ∧
      (∀ tail, uint7_get (bs ++ tail) none = .ok (v, n)) ∧
      (∀ (tail : List Nat) (r : Int), (n : Int) ≤ r →
        uint7_get (bs ++ tail) (some r) = .ok (v, n))) ∧
    (∃ (n : Nat) (bs : List Nat), 1 ≤ n ∧ n ≤ 10 ∧ bs.length = n ∧
      sint7_put none z = .ok (bs, n) ∧
      (∀ r : Int, (n : Int) ≤ r → sint7_put (some r) z = .ok (bs, n)) ∧
      (∀ tail, sint7_get (bs ++ tail) none = .ok (z, n)) ∧
      (∀ (tail : List Nat) (r : Int), (n : Int) ≤ r →
        sint7_get (bs ++ tail) (some r) = .ok (z, n))) := by
  refine ⟨uint7_codec v hv, ?_⟩
  obtain ⟨hu, hback⟩ := zigzag_inverse z h0 h1
  obtain ⟨n, bs, -, hn1, hn2, hput, hputr, hlen, -, -, -, hget, hgetr⟩ := uint7_codec _ hu
  refine ⟨n, bs, hn1, hn2, hlen, hput, hputr, ?_, ?_⟩
  · intro tail
    unfold sint7_get
    rw [hget tail]
    simp only [bind, Except.bind, pure, Except.pure]
    rw [hback]
  · intro tail r hr
    unfold sint7_get
    rw [hgetr tail r hr]
    simp only [bind, Except.bind, pure, Except.pure]
    rw [hback]

/-- C39 at `v = 300`, written as 0x82 0x2c, and `z = -1`, written as 0x01. -/
theorem varint_round_trip_witness :
    (300 < U64 ∧ (-9223372036854775808 : Int) ≤ -1 ∧ (-1 : Int) < 9223372036854775808) ∧
    ((∃ (n : Nat) (bs : List Nat), uint7_size 300 = .ok n ∧ 1 ≤ n ∧ n ≤ 10 ∧
      uint7_put none 300 = .ok (bs, n) ∧
      (∀ r : Int, (n : Int) ≤ r → uint7_put (some r) 300 = .ok (bs, n)) ∧
      bs.length = n ∧ (∀ j, j + 1 < n → 128 ≤ bs.getD j 0) ∧ (∀ j, bs.getD j 0 < 256) ∧
      bs.getD (n - 1) 0 < 128 ∧
      (∀ tail, uint7_get (bs ++ tail) none = .ok (300, n)) ∧
      (∀ (tail : List Nat) (r : Int), (n : Int) ≤ r →
        uint7_get (bs ++ tail) (some r) = .ok (300, n))) ∧
    (∃ (n : Nat) (bs : List Nat), 1 ≤ n ∧ n ≤ 10 ∧ bs.length = n ∧
      sint7_put none (-1) = .ok (bs, n) ∧
      (∀ r : Int, (n : Int) ≤ r → sint7_put (some r) (-1) = .ok (bs, n)) ∧
      (∀ tail, sint7_get (bs ++ tail) none = .ok (-1, n)) ∧
      (∀ (tail : List Nat) (r : Int), (n : Int) ≤ r →
        sint7_get (bs ++ tail) (some r) = .ok (-1, n)))) ∧
    uint7_put none 300 = .ok ([130, 44], 2) ∧ uint7_get [130, 44, 9] (some 3) = .ok (300, 2) ∧
    sint7_put none (-1) = .ok ([1], 1) ∧ sint7_get [1, 9] none = .ok (-1, 1) ∧
    uint7_put (some 1) 300 = .ok ([], 0) :=
  ⟨⟨by decide, by decide, by decide⟩,
    varint_round_trip 300 (-1) (by decide) (by decide) (by decide),
    by decide, by decide, by decide, by decide, by decide⟩

/-! ## Decimal formatting -/

/-- The digits of a number are the list of digits that sums to it. -/
theorem digits_of_list (i : Nat) (L : List Nat) (h1 : Nat.ofDigits 10 L = i)
    (h2 : ∀ l ∈ L, l < 10) (h3 : ∀ h : L ≠ [], L.getLast h ≠ 0) : Nat.digits 10 i = L := by
  rw [← h1]
  exact Nat.digits_ofDigits 10 (by decide) L h2 h3

/-- The decimal representation of a number of one digit. -/
theorem decimal_one (i : Nat) (h0 : 1 ≤ i) (h1 : i < 10) :
    decimal i = [i + 48] := by
  unfold decimal
  rw [if_neg (by omega)]
  rw [digits_of_list i [i]
    (by simp only [Nat.ofDigits_cons, Nat.ofDigits_nil, Nat.cast_id]; omega)
    (by simp only [List.mem_cons, List.mem_singleton, List.not_mem_nil, or_false,
      forall_eq_or_imp, forall_eq]; omega)
    (by intro _; simp only [List.getLast_cons_cons, List.getLast_singleton]; omega)]
  rfl

/-- The decimal representation of a number of two digits. -/
theorem decimal_two (i : Nat) (h0 : 10 ≤ i) (h1 : i < 100) :
    decimal i = [i / 10 + 48, i % 10 + 48] := by
  unfold decimal
  rw [if_neg (by omega)]
  rw [digits_of_list i [i % 10, i / 10]
    (by simp only [Nat.ofDigits_cons, Nat.ofDigits_nil, Nat.cast_id]; omega)
    (by simp only [List.mem_cons, List.mem_singleton, List.not_mem_nil, or_false,
      forall_eq_or_imp, forall_eq]; omega)
    (by intro _; simp only [List.getLast_cons_cons, List.getLast_singleton]; omega)]
  rfl

/-- The decimal representation of a number of three digits. -/
theorem decimal_three (i : Nat) (h0 : 100 ≤ i) (h1 : i < 1000) :
    decimal i = [i / 100 + 48, i / 10 % 10 + 48, i % 10 + 48] := by
  unfold decimal
  rw [if_neg (by omega)]
  rw [digits_of_list i [i % 10, i / 10 % 10, i / 100]
    (by simp only [Nat.ofDigits_cons, Nat.ofDigits_nil, Nat.cast_id]; omega)
    (by simp only [List.mem_cons, List.mem_singleton, List.not_mem_nil, or_false,
      forall_eq_or_imp, forall_eq]; omega)
    (by intro _; simp only [List.getLast_cons_cons, List.getLast_singleton]; omega)]
  rfl

/-- The decimal representation of a number of four digits. -/
theorem decimal_four (i : Nat) (h0 : 1000 ≤ i) (h1 : i < 10000) :
    decimal i = [i / 1000 + 48, i / 100 % 10 + 48, i / 10 % 10 + 48, i % 10 + 48] := by
  unfold decimal
  rw [if_neg (by omega)]
  rw [digits_of_list i [i % 10, i / 10 % 10, i / 100 % 10, i / 1000]
    (by simp only [Nat.ofDigits_cons, Nat.ofDigits_nil, Nat.cast_id]; omega)
    (by simp only [List.mem_cons, List.mem_singleton, List.not_mem_nil, or_false,
      forall_eq_or_imp, forall_eq]; omega)
    (by intro _; simp only [List.getLast_cons_cons, List.getLast_singleton]; omega)]
  rfl

/-- The decimal representation of a number of five digits. -/
theorem decimal_five (i : Nat) (h0 : 10000 ≤ i) (h1 : i < 100000) :
    decimal i = [i / 10000 + 48, i / 1000 % 10 + 48, i / 100 % 10 + 48, i / 10 % 10 + 48,
      i % 10 + 48] := by
  unfold decimal
  rw [if_neg (by omega)]
  rw [digits_of_list i [i % 10, i / 10 % 10, i / 100 % 10, i / 1000 % 10, i / 10000]
    (by simp only [Nat.ofDigits_cons, Nat.ofDigits_nil, Nat.cast_id]; omega)
    (by simp only [List.mem_cons, List.mem_singleton, List.not_mem_nil, or_false,
      forall_eq_or_imp, forall_eq]; omega)
    (by intro _; simp only [List.getLast_cons_cons, List.getLast_singleton]; omega)]
  rfl

/-- The decimal representation of a number of six digits. -/
theorem decimal_six (i : Nat) (h0 : 100000 ≤ i) (h1 : i < 1000000) :
    decimal i = [i / 100000 + 48, i / 10000 % 10 + 48, i / 1000 % 10 + 48, i / 100 % 10 + 48,
      i / 10 % 10 + 48, i % 10 + 48] := by
  unfold decimal
  rw [if_neg (by omega)]
  rw [digits_of_list i [i % 10, i / 10 % 10, i / 100 % 10, i / 1000 % 10, i / 10000 % 10,
    i / 100000]
    (by simp only [Nat.ofDigits_cons, Nat.ofDigits_nil, Nat.cast_id]; omega)
    (by simp only [List.mem_cons, List.mem_singleton, List.not_mem_nil, or_false,
      forall_eq_or_imp, forall_eq]; omega)
    (by intro _; simp only [List.getLast_cons_cons, List.getLast_singleton]; omega)]
  rfl

/-- The decimal representation of a number of seven digits. -/
theorem decimal_seven (i : Nat) (h0 : 1000000 ≤ i) (h1 : i < 10000000) :
    decimal i = [i / 1000000 + 48, i / 100000 % 10 + 48, i / 10000 % 10 + 48,
      i / 1000 % 10 + 48, i / 100 % 10 + 48, i / 10 % 10 + 48, i % 10 + 48] := by
  unfold decimal
  rw [if_neg (by omega)]
  rw [digits_of_list i [i % 10, i / 10 % 10, i / 100 % 10, i / 1000 % 10, i / 10000 % 10,
    i / 100000 % 10, i / 1000000]
    (by simp only [Nat.ofDigits_cons, Nat.ofDigits_nil, Nat.cast_id]; omega)
    (by simp only [List.mem_cons, List.mem_singleton, List.not_mem_nil, or_false,
      forall_eq_or_imp, forall_eq]; omega)
    (by intro _; simp only [List.getLast_cons_cons, List.getLast_singleton]; omega)]
  rfl

/-- The decimal representation of a number of eight digits. -/
theorem decimal_eight (i : Nat) (h0 : 10000000 ≤ i) (h1 : i < 100000000) :
    decimal i = [i / 10000000 + 48, i / 1000000 % 10 + 48, i / 100000 % 10 + 48,
      i / 10000 % 10 + 48, i / 1000 % 10 + 48, i / 100 % 10 + 48, i / 10 % 10 + 48,
      i % 10 + 48] := by
  unfold decimal
  rw [if_neg (by omega)]
  rw [digits_of_list i [i % 10, i / 10 % 10, i / 100 % 10, i / 1000 % 10, i / 10000 % 10,
    i / 100000 % 10, i / 1000000 % 10, i / 10000000]
    (by simp only [Nat.ofDigits_cons, Nat.ofDigits_nil, Nat.cast_id]; omega)
    (by simp only [List.mem_cons, List.mem_singleton, List.not_mem_nil, or_false,
      forall_eq_or_imp, forall_eq]; omega)
    (by intro _; simp only [List.getLast_cons_cons, List.getLast_singleton]; omega)]
  rfl

/-- The decimal representation of a number of nine digits. -/
theorem decimal_nine (i : Nat) (h0 : 100000000 ≤ i) (h1 : i < 1000000000) :
    decimal i = [i / 100000000 + 48, i / 10000000 % 10 + 48, i / 1000000 % 10 + 48,
      i / 100000 % 10 + 48, i / 10000 % 10 + 48, i / 1000 % 10 + 48, i / 100 % 10 + 48,
      i / 10 % 10 + 48, i % 10 + 48] := by
  unfold decimal
  rw [if_neg (by omega)]
  rw [digits_of_list i [i % 10, i / 10 % 10, i / 100 % 10, i / 1000 % 10, i / 10000 % 10,
    i / 100000 % 10, i / 1000000 % 10, i / 10000000 % 10, i / 100000000]
    (by simp only [Nat.ofDigits_cons, Nat.ofDigits_nil, Nat.cast_id]; omega)
    (by simp only [List.mem_cons, List.mem_singleton, List.not_mem_nil, or_false,
      forall_eq_or_imp, forall_eq]; omega)
    (by intro _; simp only [List.getLast_cons_cons, List.getLast_singleton]; omega)]
  rfl

/-- The decimal representation of a number of ten digits. -/
theorem decimal_ten (i : Nat) (h0 : 1000000000 ≤ i) (h1 : i < 10000000000) :
    decimal i = [i / 1000000000 + 48, i / 100000000 % 10 + 48, i / 10000000 % 10 + 48,
      i / 1000000 % 10 + 48, i / 100000 % 10 + 48, i / 10000 % 10 + 48, i / 1000 % 10 + 48,
      i / 100 % 10 + 48, i / 10 % 10 + 48, i % 10 + 48] := by
  unfold decimal
  rw [if_neg (by omega)]
  rw [digits_of_list i [i % 10, i / 10 % 10, i / 100 % 10, i / 1000 % 10, i / 10000 % 10,
    i / 100000 % 10, i / 1000000 % 10, i / 10000000 % 10, i / 100000000 % 10, i / 1000000000]
    (by simp only [Nat.ofDigits_cons, Nat.ofDigits_nil, Nat.cast_id]; omega)
    (by simp only [List.mem_cons, List.mem_singleton, List.not_mem_nil, or_false,
      forall_eq_or_imp, forall_eq]; omega)
    (by intro _; simp only [List.getLast_cons_cons, List.getLast_singleton]; omega)]
  rfl

/-- The bytes of `append_uint32` for a number of one digit. -/
theorem append_uint32_one (i : Nat) (h0 : 1 ≤ i) (h1 : i < 10) :
    append_uint32 i = [i + 48] := by
  unfold append_uint32
  rw [if_neg (by omega), if_pos (by omega)]
  unfold append_uint32_b1
  rw [if_neg (by omega), if_pos (by omega)]
  simp only [List.cons.injEq, and_true]
  omega

/-- The bytes of `append_uint32` for a number of two digits. -/
theorem append_uint32_two (i : Nat) (h0 : 10 ≤ i) (h1 : i < 100) :
    append_uint32 i = [i / 10 + 48, i % 10 + 48] := by
  unfold append_uint32
  rw [if_neg (by omega), if_pos (by omega)]
  unfold append_uint32_b1
  rw [if_pos (by omega)]
  unfold append_uint32_x0
  simp only [List.cons.injEq, and_true]
  omega

/-- The bytes of `append_uint32` for a number of three digits. -/
theorem append_uint32_three (i : Nat) (h0 : 100 ≤ i) (h1 : i < 1000) :
    append_uint32 i = [i / 100 + 48, i / 10 % 10 + 48, i % 10 + 48] := by
  unfold append_uint32
  rw [if_neg (by omega), if_neg (by omega), if_pos (by omega)]
  unfold append_uint32_b3
  rw [if_neg (by omega), if_pos (by omega)]
  unfold append_uint32_x1 append_uint32_x0
  simp only [List.cons.injEq, and_true]
  omega

/-- The bytes of `append_uint32` for a number of four digits. -/
theorem append_uint32_four (i : Nat) (h0 : 1000 ≤ i) (h1 : i < 10000) :
    append_uint32 i = [i / 1000 + 48, i / 100 % 10 + 48, i / 10 % 10 + 48, i % 10 + 48] := by
  unfold append_uint32
  rw [if_neg (by omega), if_neg (by omega), if_pos (by omega)]
  unfold append_uint32_b3
  rw [if_pos (by omega)]
  unfold append_uint32_x2 append_uint32_x1 append_uint32_x0
  simp only [List.cons.injEq, and_true]
  omega

/-- The bytes of `append_uint32` for a number of five digits. -/
theorem append_uint32_five (i : Nat) (h0 : 10000 ≤ i) (h1 : i < 100000) :
    append_uint32 i = [i / 10000 + 48, i / 1000 % 10 + 48, i / 100 % 10 + 48, i / 10 % 10 + 48,
      i % 10 + 48] := by
  unfold append_uint32
  rw [if_neg (by omega), if_neg (by omega), if_neg (by omega), if_pos (by omega)]
  unfold append_uint32_b5
  rw [if_neg (by omega), if_pos (by omega)]
  unfold append_uint32_x3 append_uint32_x2 append_uint32_x1 append_uint32_x0
  simp only [List.cons.injEq, and_true]
  omega

/-- The bytes of `append_uint32` for a number of six digits. -/
theorem append_uint32_six (i : Nat) (h0 : 100000 ≤ i) (h1 : i < 1000000) :
    append_uint32 i = [i / 100000 + 48, i / 10000 % 10 + 48, i / 1000 % 10 + 48,
      i / 100 % 10 + 48, i / 10 % 10 + 48, i % 10 + 48] := by
  unfold append_uint32
  rw [if_neg (by omega), if_neg (by omega), if_neg (by omega), if_pos (by omega)]
  unfold append_uint32_b5
  rw [if_pos (by omega)]
  unfold append_uint32_x4 append_uint32_x3 append_uint32_x2 append_uint32_x1 append_uint32_x0
  simp only [List.cons.injEq, and_true]
  omega

/-- The bytes of `append_uint32` for a number of seven digits. -/
theorem append_uint32_seven (i : Nat) (h0 : 1000000 ≤ i) (h1 : i < 10000000) :
    append_uint32 i = [i / 1000000 + 48, i / 100000 % 10 + 48, i / 10000 % 10 + 48,
      i / 1000 % 10 + 48, i / 100 % 10 + 48, i / 10 % 10 + 48, i % 10 + 48] := by
  unfold append_uint32
  rw [if_neg (by omega), if_neg (by omega), if_neg (by omega), if_neg (by omega), if_pos (by omega)]
  unfold append_uint32_b7
  rw [if_neg (by omega), if_pos (by omega)]
  unfold append_uint32_x5 append_uint32_x4 append_uint32_x3 append_uint32_x2 append_uint32_x1 append_uint32_x0
  simp only [List.cons.injEq, and_true]
  omega

/-- The bytes of `append_uint32` for a number of eight digits. -/
theorem append_uint32_eight (i : Nat) (h0 : 10000000 ≤ i) (h1 : i < 100000000) :
    append_uint32 i = [i / 10000000 + 48, i / 1000000 % 10 + 48, i / 100000 % 10 + 48,
      i / 10000 % 10 + 48, i / 1000 % 10 + 48, i / 100 % 10 + 48, i / 10 % 10 + 48,
      i % 10 + 48] := by
  unfold append_uint32
  rw [if_neg (by omega), if_neg (by omega), if_neg (by omega), if_neg (by omega), if_pos (by omega)]
  unfold append_uint32_b7
  rw [if_pos (by omega)]
  unfold append_uint32_x6 append_uint32_x5 append_uint32_x4 append_uint32_x3 append_uint32_x2 append_uint32_x1 append_uint32_x0
  simp only [List.cons.injEq, and_true]
  omega

/-- The bytes of `append_uint32` for a number of nine digits. -/
theorem append_uint32_nine (i : Nat) (h0 : 100000000 ≤ i) (h1 : i < 1000000000) :
    append_uint32 i = [i / 100000000 + 48, i / 10000000 % 10 + 48, i / 1000000 % 10 + 48,
      i / 100000 % 10 + 48, i / 10000 % 10 + 48, i / 1000 % 10 + 48, i / 100 % 10 + 48,
      i / 10 % 10 + 48, i % 10 + 48] := by
  unfold append_uint32
  rw [if_neg (by omega), if_neg (by omega), if_neg (by omega)]
  rw [if_neg (by omega), if_neg (by omega)]
  rw [if_neg (by omega), if_pos (by omega)]
  unfold append_uint32_x7 append_uint32_x6 append_uint32_x5 append_uint32_x4 append_uint32_x3 append_uint32_x2 append_uint32_x1 append_uint32_x0
  simp only [List.cons.injEq, and_true]
  omega

/-- The bytes of `append_uint32` for a number of ten digits. -/
theorem append_uint32_ten (i : Nat) (h0 : 1000000000 ≤ i) (h1 : i < 10000000000) :
    append_uint32 i = [i / 1000000000 + 48, i / 100000000 % 10 + 48, i / 10000000 % 10 + 48,
      i / 1000000 % 10 + 48, i / 100000 % 10 + 48, i / 10000 % 10 + 48, i / 1000 % 10 + 48,
      i / 100 % 10 + 48, i / 10 % 10 + 48, i % 10 + 48] := by
  unfold append_uint32
  rw [if_neg (by omega), if_neg (by omega), if_neg (by omega)]
  rw [if_neg (by omega), if_neg (by omega)]
  rw [if_pos (by omega)]
  unfold append_uint32_x8 append_uint32_x7 append_uint32_x6 append_uint32_x5 append_uint32_x4 append_uint32_x3 append_uint32_x2 append_uint32_x1 append_uint32_x0
  simp only [List.cons.injEq, and_true]
  omega

/-- `append_uint32` writes the decimal representation of every 32-bit value. -/
theorem append_uint32_decimal (i : Nat) (hi : i < U32) : append_uint32 i = decimal i := by
  simp only [U32] at hi
  by_cases c0 : i = 0
  · rw [c0]; rfl
  by_cases c1 : i < 10
  · rw [append_uint32_one i (by omega) c1, decimal_one i (by omega) c1]
  by_cases c2 : i < 100
  · rw [append_uint32_two i (by omega) c2, decimal_two i (by omega) c2]
  by_cases c3 : i < 1000
  · rw [append_uint32_three i (by omega) c3, decimal_three i (by omega) c3]
  by_cases c4 : i < 10000
  · rw [append_uint32_four i (by omega) c4, decimal_four i (by omega) c4]
  by_cases c5 : i < 100000
  · rw [append_uint32_five i (by omega) c5, decimal_five i (by omega) c5]
  by_cases c6 : i < 1000000
  · rw [append_uint32_six i (by omega) c6, decimal_six i (by omega) c6]
  by_cases c7 : i < 10000000
  · rw [append_uint32_seven i (by omega) c7, decimal_seven i (by omega) c7]
  by_cases c8 : i < 100000000
  · rw [append_uint32_eight i (by omega) c8, decimal_eight i (by omega) c8]
  by_cases c9 : i < 1000000000
  · rw [append_uint32_nine i (by omega) c9, decimal_nine i (by omega) c9]
  · rw [append_uint32_ten i (by omega) (by omega), decimal_ten i (by omega) (by omega)]

/-- The nine low digits of a number below `10^9` sum to it. -/
theorem nine_digits (r : Nat) (hr : r < 1000000000) :
    Nat.ofDigits 10 [r % 10, r / 10 % 10, r / 100 % 10, r / 1000 % 10, r / 10000 % 10,
      r / 100000 % 10, r / 1000000 % 10, r / 10000000 % 10, r / 100000000 % 10] = r := by
  simp only [Nat.ofDigits_cons, Nat.ofDigits_nil, Nat.cast_id]
  omega

/-- Nine digits for `r` followed by the digits of `a` sum to `a * 10^9 + r`. -/
theorem nine_digits_append (a r : Nat) (L : List Nat) (hL : L.length = 9)
    (h : Nat.ofDigits 10 L = r) :
    Nat.ofDigits 10 (L ++ Nat.digits 10 a) = a * 1000000000 + r := by
  rw [Nat.ofDigits_append, Nat.ofDigits_digits, hL, h]
  have : (10 : Nat) ^ 9 = 1000000000 := by norm_num
  rw [this]
  omega

/-- The digits of `a * 10^9 + r`: the nine digits of `r`, then those of `a`. -/
theorem digits_split (a r : Nat) (ha : 0 < a) (hr : r < 1000000000) :
    Nat.digits 10 (a * 1000000000 + r) =
      [r % 10, r / 10 % 10, r / 100 % 10, r / 1000 % 10, r / 10000 % 10, r / 100000 % 10,
        r / 1000000 % 10, r / 10000000 % 10, r / 100000000 % 10] ++ Nat.digits 10 a := by
  have hne : Nat.digits 10 a ≠ [] := Nat.digits_ne_nil_iff_ne_zero.2 (by omega)
  apply digits_of_list
  · exact nine_digits_append a r _ rfl (nine_digits r hr)
  · intro l hl
    rcases List.mem_append.1 hl with h | h
    · simp only [List.mem_cons, List.mem_singleton, List.not_mem_nil, or_false] at h
      omega
    · exact Nat.digits_lt_base (by decide) h
  · intro h
    rw [List.getLast_append_of_ne_nil hne]
    exact Nat.getLast_digit_ne_zero 10 (by omega)

/-- The bytes of `append_sub32` are the nine digits of a number below `10^9`. -/
theorem append_sub32_digits (r : Nat) (hr : r < 1000000000) :
    append_sub32 r =
      ([r % 10, r / 10 % 10, r / 100 % 10, r / 1000 % 10, r / 10000 % 10, r / 100000 % 10,
        r / 1000000 % 10, r / 10000000 % 10, r / 100000000 % 10].reverse).map
        (fun d => d + 48) := by
  unfold append_sub32
  simp only [List.reverse_cons, List.reverse_nil, List.nil_append, List.cons_append,
    List.map_cons, List.map_nil, List.cons.injEq, and_true]
  omega

/-- The decimal representation of `a * 10^9 + r` is that of `a` followed by
the nine digits `append_sub32` writes for `r`. -/
theorem decimal_split (a r : Nat) (ha : 0 < a) (hr : r < 1000000000) :
    decimal (a * 1000000000 + r) = decimal a ++ append_sub32 r := by
  unfold decimal
  rw [if_neg (by omega), if_neg (by omega), digits_split a r ha hr, List.reverse_append,
    List.map_append, append_sub32_digits r hr]

/-- `append_uint64` writes the decimal representation of every 64-bit value. -/
theorem append_uint64_decimal (i : Nat) (hi : i < U64) : append_uint64 i = decimal i := by
  simp only [U64] at hi
  unfold append_uint64
  simp only [U32]
  by_cases c : i ≤ 0xffffffff
  · rw [if_pos c, Nat.mod_eq_of_lt (by omega)]
    exact append_uint32_decimal i (by simp only [U32]; omega)
  · rw [if_neg c]
    have e1 : i / 1000000000 * 1000000000 + i % 1000000000 = i := by omega
    have hr : i % 1000000000 < 1000000000 := by omega
    by_cases c2 : i / 1000000000 > 1000000000
    · rw [if_pos c2]
      have e2 : i / 1000000000 / 1000000000 * 1000000000 + i / 1000000000 % 1000000000
          = i / 1000000000 := by omega
      have hr2 : i / 1000000000 % 1000000000 < 1000000000 := by omega
      rw [Nat.mod_eq_of_lt (show i / 1000000000 / 1000000000 < 4294967296 by omega),
        Nat.mod_eq_of_lt (show i / 1000000000 % 1000000000 < 4294967296 by omega),
        Nat.mod_eq_of_lt (show i % 1000000000 < 4294967296 by omega),
        append_uint32_decimal _ (by simp only [U32]; omega)]
      rw [← decimal_split _ _ (by omega) hr2, e2, ← decimal_split _ _ (by omega) hr, e1]
    · rw [if_neg c2]
      rw [Nat.mod_eq_of_lt (show i / 1000000000 < 4294967296 by omega),
        Nat.mod_eq_of_lt (show i % 1000000000 < 4294967296 by omega),
        append_uint32_decimal _ (by simp only [U32]; omega)]
      rw [← decimal_split _ _ (by omega) hr, e1]

/-- C40 (decimal formatting): for every `uint64_t` value `i`, `append_uint64`
writes the decimal representation of `i`, without leading zeros and the
single digit 0 for `i = 0`; for every `uint32_t` value it is also what
`append_uint32` writes; the bytes are written by `*cp++`, so the pointer
returned is one past the last digit, the number of digits on from `cp`. -/
theorem decimal_formatting (i : Nat) (hi : i < U64) :
    append_uint64 i = decimal i ∧ (i < U32 → append_uint32 i = decimal i) ∧
    (∀ b ∈ decimal i, 48 ≤ b ∧ b ≤ 57) ∧ 1 ≤ (decimal i).length ∧
    (i ≠ 0 → (decimal i).head? ≠ some 48) ∧ (i = 0 → decimal i = [48]) ∧
    Nat.ofDigits 10 ((decimal i).reverse.map (fun b => b - 48)) = i := by
  refine ⟨append_uint64_decimal i hi, append_uint32_decimal i, ?_, ?_, ?_, ?_, ?_⟩
  · intro b hb
    unfold decimal at hb
    split at hb
    · simp only [List.mem_singleton] at hb
      omega
    · obtain ⟨d, hd, rfl⟩ := List.mem_map.1 hb
      have := Nat.digits_lt_base (show 1 < 10 by decide) (List.mem_reverse.1 hd)
      omega
  · unfold decimal
    split
    · exact Nat.le_refl 1
    · rename_i h
      have hne : Nat.digits 10 i ≠ [] := Nat.digits_ne_nil_iff_ne_zero.2 h
      rw [List.length_map, List.length_reverse]
      exact List.length_pos.2 hne
  · intro h
    unfold decimal
    rw [if_neg h]
    have hne : Nat.digits 10 i ≠ [] := Nat.digits_ne_nil_iff_ne_zero.2 h
    have hl := Nat.getLast_digit_ne_zero 10 h
    rw [List.head?_map, List.head?_reverse, List.getLast?_eq_getLast _ hne]
    simp only [Option.map_some', ne_eq, Option.some.injEq]
    omega
  · intro h
    rw [h]
    rfl
  · unfold decimal
    split
    · rename_i h
      rw [h]
      rfl
    · rw [← List.map_reverse, List.reverse_reverse, List.map_map]
      have : ((fun b => b - 48) ∘ fun d => d + 48) = (id : Nat → Nat) := by
        funext d
        simp only [Function.comp_apply, Nat.add_sub_cancel, id_eq]
      rw [this, List.map_id, Nat.ofDigits_digits]

set_option maxRecDepth 100000 in
/-- C40 at `i = 2^64 - 1`, written as 18446744073709551615, with the ten
digits that `append_uint32` writes for `2^32 - 1`. -/
theorem decimal_formatting_witness :
    18446744073709551615 < U64 ∧
    (append_uint64 18446744073709551615 = decimal 18446744073709551615 ∧
      (18446744073709551615 < U32 →
        append_uint32 18446744073709551615 = decimal 18446744073709551615) ∧
      (∀ b ∈ decimal 18446744073709551615, 48 ≤ b ∧ b ≤ 57) ∧
      1 ≤ (decimal 18446744073709551615).length ∧
      (18446744073709551615 ≠ 0 → (decimal 18446744073709551615).head? ≠ some 48) ∧
      (18446744073709551615 = 0 → decimal 18446744073709551615 = [48]) ∧
      Nat.ofDigits 10 ((decimal 18446744073709551615).reverse.map (fun b => b - 48)) =
        18446744073709551615) ∧
    append_uint64 18446744073709551615 =
      [49, 56, 52, 52, 54, 55, 52, 52, 48, 55, 51, 55, 48, 57, 53, 53, 49, 54, 49, 53] ∧
    append_uint32 4294967295 = [52, 50, 57, 52, 57, 54, 55, 50, 57, 53] ∧
    append_uint64 0 = [48] ∧ append_uint64 1000000000000000000 =
      [49, 48, 48, 48, 48, 48, 48, 48, 48, 48, 48, 48, 48, 48, 48, 48, 48, 48, 48] :=
  ⟨by decide, decimal_formatting 18446744073709551615 (by decide), by decide, by decide,
    by decide, by decide⟩

end Fqz
